import Mathlib

/-!
# S-parameter storage engine: embedding of `sparams.cpp` and verified properties

The development follows the C++ source file by file.

## Modelling conventions

* `DOUBLE` is a type parameter `D`.  The binary codec only copies doubles, so it
  needs nothing but their 8-byte object representation (`DoubleRep`).  The
  numeric code (conversions, searches, interpolation) is read over a linearly
  ordered field, i.e. with `DOUBLE` read as an exact number; the C math library
  calls it makes are the fields of `MathLib`.
* `S32` values are integers; every place where the C++ narrows a result to
  `S32` is an explicit `toS32`.
* `U8` is `Fin 256`.  A `U8 *` block is a map from offsets to bytes.
* The heap tables `valid`, `MA`, `DB`, `RI`, `CZ` (`[b][a][pt]`) and `freq_Hz`
  are total maps from indices; the extents in use are `n_ports` and `n_points`.
  Storage that has been released, is `NULL`, or comes fresh from `calloc` is
  the all-zero map.  Allocation requests of a positive size succeed.
* `assert` is a failure result (`none`, or an error value).
-/

/-! ## typedefs.h -/

/-- The unsigned byte type of typedefs.h. -/
abbrev U8 := Fin 256

/-- Narrowing conversion of an integer to the signed 32-bit type `S32`
(two's complement wrap-around). -/
def toS32 (x : Int) : Int := (x + 2147483648) % 4294967296 - 2147483648

/-- The complex value type of typedefs.h: a real and an imaginary part. -/
structure COMPLEX_DOUBLE (D : Type) where
  real : D
  imag : D

/-- The 8-byte object representation of a `DOUBLE`, with the three double
constants that `SPARAMS::init` stores (`DBL_MAX`, `-DBL_MAX`, `50.0`). -/
structure DoubleRep (D : Type) where
  bits : D → Nat
  ofBits : Nat → D
  bits_lt : ∀ d, bits d < 2 ^ 64
  ofBits_bits : ∀ d, ofBits (bits d) = d
  DBL_MAX : D
  neg_DBL_MAX : D
  fifty : D

/-- The double whose bytes are all zero (`0.0`, and what `calloc` yields). -/
def DoubleRep.zero {D : Type} (R : DoubleRep D) : D := R.ofBits 0

/-- The double constants that `SPARAMS::init`, `clear` and `alloc` store: `0.0`
(also what `calloc` yields), `DBL_MAX`, `-DBL_MAX` and `50.0`. -/
structure DoubleConsts (D : Type) where
  zero : D
  DBL_MAX : D
  neg_DBL_MAX : D
  fifty : D

/-- The constants of an 8-byte representation. -/
def DoubleRep.consts {D : Type} (R : DoubleRep D) : DoubleConsts D :=
  ⟨R.zero, R.DBL_MAX, R.neg_DBL_MAX, R.fifty⟩

/-- Raw IEEE-754 binary64 bit patterns as a `DOUBLE` representation. -/
def rawDouble : DoubleRep (Fin (2 ^ 64)) where
  bits d := d.val
  ofBits n := ⟨n % 2 ^ 64, Nat.mod_lt n (by decide)⟩
  bits_lt d := d.isLt
  ofBits_bits d := Fin.ext (Nat.mod_eq_of_lt d.isLt)
  DBL_MAX := ⟨0x7FEFFFFFFFFFFFFF, by decide⟩
  neg_DBL_MAX := ⟨0xFFEFFFFFFFFFFFFF, by decide⟩
  fifty := ⟨0x4049000000000000, by decide⟩

/-! ## sparams.cpp: constants and value types -/

namespace SNPTYPE

/-- Magnitude-angle form is valid. -/
def MA : U8 := 0x01
/-- Decibel-angle form is valid. -/
def DB : U8 := 0x02
/-- Real-imaginary form is valid. -/
def RI : U8 := 0x04
/-- Complex impedance form is valid. -/
def CZ : U8 := 0x08

end SNPTYPE

namespace SPARAM

/-- Magnitude (linear) and angle (degrees). -/
structure MA (D : Type) where
  mag : D
  deg : D

/-- Magnitude in decibels and angle (degrees). -/
structure DB (D : Type) where
  dB : D
  deg : D

/-- Real-imaginary form: `struct RI : public COMPLEX_DOUBLE` adds no member. -/
abbrev RI (D : Type) := COMPLEX_DOUBLE D

/-- Resistance and reactance. -/
structure CZ (D : Type) where
  R : D
  jX : D

/-- Binary stream identifier: the multi-character constant with the bytes
S, N, P, B in little-endian memory order. -/
def BIN_ID : Nat := 0x42504E53

/-- Binary stream version written by this implementation. -/
def BIN_VERSION : Nat := 0x00000001

end SPARAM

/-- The C math library functions called by sparams.cpp. -/
structure MathLib (D : Type) where
  pow : D → D → D
  sqrt : D → D
  atan2 : D → D → D
  cos : D → D
  sin : D → D
  log10 : D → D

/-- The math library over the real numbers; `atan2 y x` is the argument of
`x + iy`, which lies in `(-π, π]` and is `0` at the origin. -/
noncomputable def realMath : MathLib ℝ where
  pow x y := x ^ y
  sqrt := Real.sqrt
  atan2 y x := Complex.arg ⟨x, y⟩
  cos := Real.cos
  sin := Real.sin
  log10 := Real.logb 10

namespace SPARAM

section conversions

variable {D : Type} [LinearOrderedField D]

/-- The constant `PI` of typedefs.h, a decimal literal. -/
def PI : D := 314159265358979323846 / 100000000000000000000

/-- Radians to degrees: `180.0 / PI`. -/
def RAD2DEG : D := 180 / PI

/-- Degrees to radians: `PI / 180.0`. -/
def DEG2RAD : D := PI / 180

/-- Converting constructor `MA::MA(DB)`. -/
def MA.ofDB (K : MathLib D) (dB : DB D) : MA D :=
  ⟨K.pow 10 (dB.dB / 20), dB.deg⟩

/-- Converting constructor `MA::MA(RI)`. -/
def MA.ofRI (K : MathLib D) (RI : RI D) : MA D :=
  let i := RI.real
  let q := RI.imag
  let mag := K.sqrt (i * i + q * q)
  if mag > 1 / 10 ^ 20 then ⟨mag, K.atan2 q i * RAD2DEG⟩ else ⟨mag, 0⟩

/-- Converting constructor `RI::RI(MA)`. -/
def RI.ofMA (K : MathLib D) (MA : MA D) : RI D :=
  let ang := MA.deg * DEG2RAD
  let mag := MA.mag
  ⟨K.cos ang * mag, K.sin ang * mag⟩

/-- Converting constructor `RI::RI(DB)`. -/
def RI.ofDB (K : MathLib D) (DB : DB D) : RI D :=
  let ang := DB.deg * DEG2RAD
  let mag := K.pow 10 (DB.dB / 20)
  ⟨K.cos ang * mag, K.sin ang * mag⟩

/-- Converting constructor `DB::DB(MA)`. -/
def DB.ofMA (K : MathLib D) (MA : MA D) : DB D :=
  ⟨20 * K.log10 (max (1 / 10 ^ 15) MA.mag), MA.deg⟩

/-- Converting constructor `DB::DB(RI)`. -/
def DB.ofRI (K : MathLib D) (RI : RI D) : DB D :=
  let i := RI.real
  let q := RI.imag
  let dB := 20 * K.log10 (max (1 / 10 ^ 15) (K.sqrt (i * i + q * q)))
  if dB > -200 then ⟨dB, K.atan2 q i * RAD2DEG⟩ else ⟨dB, 0⟩

/-- Converting constructor `CZ::CZ(MA, Ro)`. -/
def CZ.ofMA (K : MathLib D) (MA : MA D) (Ro : D) : CZ D :=
  let mm := MA.mag * MA.mag
  let r := MA.deg * DEG2RAD
  ⟨((1 - mm) * Ro) / (1 + mm - (2 * MA.mag * K.cos r)),
   (2 * MA.mag * K.sin r * Ro) / (1 + mm - (2 * MA.mag * K.cos r))⟩

end conversions

end SPARAM

/-- The data members of `struct SPARAMS` (the message text buffer apart). -/
structure SPARAMS (D : Type) where
  n_ports : Int
  n_points : Int
  min_Hz : D
  max_Hz : D
  Zo : COMPLEX_DOUBLE D
  freq_Hz : Nat → D
  valid : Nat → Nat → Nat → U8
  MA : Nat → Nat → Nat → SPARAM.MA D
  DB : Nat → Nat → Nat → SPARAM.DB D
  RI : Nat → Nat → Nat → SPARAM.RI D
  CZ : Nat → Nat → Nat → SPARAM.CZ D

namespace SPARAMS

variable {D : Type}

/-- Assignment `T[b][a] = row` in a three-level table. -/
def setRow {α : Type} (T : Nat → Nat → Nat → α) (b a : Nat) (row : Nat → α) :
    Nat → Nat → Nat → α :=
  fun b1 a1 pt => if b1 = b ∧ a1 = a then row pt else T b1 a1 pt

/-- Assignment `T[b][a][pt] = v` in a three-level table. -/
def setAt {α : Type} (T : Nat → Nat → Nat → α) (b a pt : Nat) (v : α) :
    Nat → Nat → Nat → α :=
  fun b1 a1 p1 => if b1 = b ∧ a1 = a ∧ p1 = pt then v else T b1 a1 p1

/-- Construction defaults: `SPARAMS::init`. -/
def init (R : DoubleConsts D) (_M : SPARAMS D) : SPARAMS D where
  n_ports := 0
  n_points := 0
  min_Hz := R.DBL_MAX
  max_Hz := R.neg_DBL_MAX
  Zo := ⟨R.fifty, R.zero⟩
  freq_Hz := fun _ => R.zero
  valid := fun _ _ _ => 0
  MA := fun _ _ _ => ⟨R.zero, R.zero⟩
  DB := fun _ _ _ => ⟨R.zero, R.zero⟩
  RI := fun _ _ _ => ⟨R.zero, R.zero⟩
  CZ := fun _ _ _ => ⟨R.zero, R.zero⟩

/-- The constructor `SPARAMS()`: `init` run on fresh storage. -/
def construct (R : DoubleConsts D) : SPARAMS D :=
  init R ⟨0, 0, R.zero, R.zero, ⟨R.zero, R.zero⟩, fun _ => R.zero, fun _ _ _ => 0,
    fun _ _ _ => ⟨R.zero, R.zero⟩, fun _ _ _ => ⟨R.zero, R.zero⟩,
    fun _ _ _ => ⟨R.zero, R.zero⟩, fun _ _ _ => ⟨R.zero, R.zero⟩⟩

/-- Discard the existing database: `SPARAMS::clear` frees every array and
zeroes both dimensions; the bounds and the impedance are left alone. -/
def clear (R : DoubleConsts D) (M : SPARAMS D) : SPARAMS D :=
  { M with
    freq_Hz := fun _ => R.zero
    valid := fun _ _ _ => 0
    MA := fun _ _ _ => ⟨R.zero, R.zero⟩
    DB := fun _ _ _ => ⟨R.zero, R.zero⟩
    RI := fun _ _ _ => ⟨R.zero, R.zero⟩
    CZ := fun _ _ _ => ⟨R.zero, R.zero⟩
    n_ports := 0
    n_points := 0 }

/-- Reserve the tables: `SPARAMS::alloc`.  A `calloc` whose element count is
negative (a huge `size_t`) returns `NULL`; the dimensions have been stored by
then. -/
def alloc (R : DoubleConsts D) (ports points : Int) (M : SPARAMS D) : Bool × SPARAMS D :=
  if points = 0 ∨ ports = 0 then (false, M)
  else
    let M1 := if M.n_ports ≠ 0 ∨ M.n_points ≠ 0 then clear R M else M
    let M2 := { M1 with n_ports := ports, n_points := points, freq_Hz := fun _ => R.zero }
    if points < 0 then (false, M2)
    else
      let M3 := { M2 with
                  valid := fun _ _ _ => 0
                  MA := fun _ _ _ => ⟨R.zero, R.zero⟩
                  DB := fun _ _ _ => ⟨R.zero, R.zero⟩
                  RI := fun _ _ _ => ⟨R.zero, R.zero⟩
                  CZ := fun _ _ _ => ⟨R.zero, R.zero⟩ }
      if ports < 0 then (false, M3) else (true, M3)

/-! ### Binary snapshot codec -/

/-- The `k` little-endian bytes of `v`. -/
def le_bytes : Nat → Nat → List U8
  | 0, _ => []
  | k + 1, v => ⟨v % 256, Nat.mod_lt v (by decide)⟩ :: le_bytes k (v / 256)

/-- The unsigned value of the `k` little-endian bytes at `block + off`. -/
def rd_le (block : Nat → U8) (off : Nat) : Nat → Nat
  | 0 => 0
  | k + 1 => (block off).val + 256 * rd_le block (off + 1) k

/-- The four bytes of an `S32` object. -/
def s32_bytes (x : Int) : List U8 := le_bytes 4 (x % 4294967296).toNat

/-- The `S32` stored at `block + off`. -/
def rd_s32 (block : Nat → U8) (off : Nat) : Int := toS32 (rd_le block off 4)

/-- The eight bytes of a `DOUBLE` object. -/
def dbl_bytes (R : DoubleRep D) (d : D) : List U8 := le_bytes 8 (R.bits d)

/-- The `DOUBLE` stored at `block + off`. -/
def rd_dbl (R : DoubleRep D) (block : Nat → U8) (off : Nat) : D := R.ofBits (rd_le block off 8)

/-- The payload size computed at the top of `SPARAMS::serialize`, every
`+=` narrowing its result to `S32`. -/
def serialize_n_data_bytes (M : SPARAMS D) : Int :=
  let n_data_bytes : Int := 0
  let n_data_bytes := toS32 (n_data_bytes + 4)
  let n_data_bytes := toS32 (n_data_bytes + 4)
  let n_data_bytes := toS32 (n_data_bytes + 8)
  let n_data_bytes := toS32 (n_data_bytes + 8)
  let n_data_bytes := toS32 (n_data_bytes + 16)
  let n_data_bytes := toS32 (n_data_bytes + M.n_points * 8)
  let mat_size := toS32 (toS32 (M.n_ports * M.n_ports) * M.n_points)
  let n_data_bytes := toS32 (n_data_bytes + mat_size * 1)
  let n_data_bytes := toS32 (n_data_bytes + mat_size * 16)
  let n_data_bytes := toS32 (n_data_bytes + mat_size * 16)
  let n_data_bytes := toS32 (n_data_bytes + mat_size * 16)
  let n_data_bytes := toS32 (n_data_bytes + mat_size * 16)
  n_data_bytes

/-- The block size computed by `SPARAMS::serialize`. -/
def serialize_n_block_bytes (M : SPARAMS D) : Int :=
  toS32 (4 + 4 + 4 + serialize_n_data_bytes M)

/-- The bytes of the frequency array, `n_points * sizeof(DOUBLE)` of them. -/
def put_freq (R : DoubleRep D) (M : SPARAMS D) : List U8 :=
  (List.range M.n_points.toNat).flatMap (fun i => dbl_bytes R (M.freq_Hz i))

/-- The five `memcpy` calls of one `(b, a)` iteration of `SPARAMS::serialize`. -/
def put_cell (R : DoubleRep D) (M : SPARAMS D) (b a : Nat) : List U8 :=
  (List.range M.n_points.toNat).map (fun pt => M.valid b a pt)
  ++ (List.range M.n_points.toNat).flatMap
      (fun pt => dbl_bytes R (M.MA b a pt).mag ++ dbl_bytes R (M.MA b a pt).deg)
  ++ (List.range M.n_points.toNat).flatMap
      (fun pt => dbl_bytes R (M.DB b a pt).dB ++ dbl_bytes R (M.DB b a pt).deg)
  ++ (List.range M.n_points.toNat).flatMap
      (fun pt => dbl_bytes R (M.RI b a pt).real ++ dbl_bytes R (M.RI b a pt).imag)
  ++ (List.range M.n_points.toNat).flatMap
      (fun pt => dbl_bytes R (M.CZ b a pt).R ++ dbl_bytes R (M.CZ b a pt).jX)

/-- Everything `SPARAMS::serialize` writes, in order. -/
def serialize_bytes (R : DoubleRep D) (M : SPARAMS D) : List U8 :=
  le_bytes 4 SPARAM.BIN_ID ++ le_bytes 4 SPARAM.BIN_VERSION
  ++ s32_bytes (serialize_n_data_bytes M)
  ++ s32_bytes M.n_ports ++ s32_bytes M.n_points
  ++ dbl_bytes R M.min_Hz ++ dbl_bytes R M.max_Hz
  ++ (dbl_bytes R M.Zo.real ++ dbl_bytes R M.Zo.imag)
  ++ put_freq R M
  ++ (List.range M.n_ports.toNat).flatMap
      (fun b => (List.range M.n_ports.toNat).flatMap (fun a => put_cell R M b a))

/-- The two ways `SPARAMS::serialize` ends without a block. -/
inductive SerErr where
  | out_of_memory
  | assert_failed
  deriving DecidableEq, Repr

/-- Serialize to a binary block: `SPARAMS::serialize`.  `malloc` of a negative
`S32` size (a huge `size_t`) returns `NULL`; the closing `assert` compares the
bytes written with the computed block size. -/
def serialize (R : DoubleRep D) (M : SPARAMS D) : Except SerErr (List U8) :=
  if serialize_n_block_bytes M < 0 then Except.error SerErr.out_of_memory
  else if ((serialize_bytes R M).length : Int) = serialize_n_block_bytes M then
    Except.ok (serialize_bytes R M)
  else Except.error SerErr.assert_failed

/-- The five `memcpy` calls of one `(b, a)` iteration of
`SPARAMS::deserialize`; the state is the read offset and the matrix. -/
def deserialize_cell (R : DoubleRep D) (block : Nat → U8) (b a : Nat)
    (st : Nat × SPARAMS D) : Nat × SPARAMS D :=
  let off := st.1
  let M := st.2
  let n := M.n_points.toNat
  let M := { M with valid := setRow M.valid b a (fun pt =>
    if pt < n then block (off + pt) else M.valid b a pt) }
  let off := off + n * 1
  let M := { M with MA := setRow M.MA b a (fun pt =>
    if pt < n then ⟨rd_dbl R block (off + 16 * pt), rd_dbl R block (off + 16 * pt + 8)⟩
    else M.MA b a pt) }
  let off := off + n * 16
  let M := { M with DB := setRow M.DB b a (fun pt =>
    if pt < n then ⟨rd_dbl R block (off + 16 * pt), rd_dbl R block (off + 16 * pt + 8)⟩
    else M.DB b a pt) }
  let off := off + n * 16
  let M := { M with RI := setRow M.RI b a (fun pt =>
    if pt < n then ⟨rd_dbl R block (off + 16 * pt), rd_dbl R block (off + 16 * pt + 8)⟩
    else M.RI b a pt) }
  let off := off + n * 16
  let M := { M with CZ := setRow M.CZ b a (fun pt =>
    if pt < n then ⟨rd_dbl R block (off + 16 * pt), rd_dbl R block (off + 16 * pt + 8)⟩
    else M.CZ b a pt) }
  let off := off + n * 16
  (off, M)

/-- The nested `b`, `a` loops of `SPARAMS::deserialize`. -/
def deserialize_cells (R : DoubleRep D) (block : Nat → U8) (st : Nat × SPARAMS D) :
    Nat × SPARAMS D :=
  (List.range st.2.n_ports.toNat).foldl
    (fun st b => (List.range st.2.n_ports.toNat).foldl
      (fun st a => deserialize_cell R block b a st) st) st

/-- The three scalar reads of `SPARAMS::deserialize` that follow the two
dimensions: `min_Hz`, `max_Hz` and `Zo`, at offsets 20, 28 and 36. -/
def deserialize_scalars (R : DoubleRep D) (block : Nat → U8) (M : SPARAMS D) : SPARAMS D :=
  { M with
    min_Hz := rd_dbl R block 20
    max_Hz := rd_dbl R block 28
    Zo := ⟨rd_dbl R block 36, rd_dbl R block 44⟩ }

/-- The `memcpy` into `freq_Hz` of `SPARAMS::deserialize`, from offset 52. -/
def deserialize_freq (R : DoubleRep D) (block : Nat → U8) (M : SPARAMS D) : SPARAMS D :=
  { M with freq_Hz := (fun i =>
      if i < M.n_points.toNat then rd_dbl R block (52 + 8 * i) else M.freq_Hz i) }

/-- The length check that ends `SPARAMS::deserialize`: `st.1` is the offset
reached, `block - block_start`. -/
def deserialize_check (expect_n_data_bytes : Int) (st : Nat × SPARAMS D) : Int × SPARAMS D :=
  let bytes_read := toS32 ((st.1 : Int) - 12)
  if bytes_read ≠ expect_n_data_bytes then (-1, st.2)
  else (toS32 (st.1 : Int), st.2)

/-- Deserialize from a memory block: `SPARAMS::deserialize(U8 *)`.  Returns
the number of bytes processed, `-1` on error, or `0` when the block is not
recognised, together with the matrix afterwards. -/
def deserialize (R : DoubleRep D) (block : Nat → U8) (M : SPARAMS D) : Int × SPARAMS D :=
  let read_ID := rd_le block 0 4
  if read_ID ≠ SPARAM.BIN_ID then (0, M)
  else
    let M := init R.consts (clear R.consts M)
    let read_version := rd_le block 4 4
    if read_version ≠ SPARAM.BIN_VERSION then (-1, M)
    else
      let expect_n_data_bytes := rd_s32 block 8
      let read_n_ports := rd_s32 block 12
      let read_n_points := rd_s32 block 16
      let r := alloc R.consts read_n_ports read_n_points (deserialize_scalars R block M)
      if r.1 then
        deserialize_check expect_n_data_bytes
          (deserialize_cells R block (52 + r.2.n_points.toNat * 8, deserialize_freq R block r.2))
      else (52, r.2)

/-! ### Searching the frequency array -/

/-- Comparator handed to `bsearch`: `datum` points at `freq_Hz[i]`, so
`datum[0]` and `datum[1]` are two consecutive frequencies. -/
def search_double_array [LinearOrder D] (key datum0 datum1 : D) : Int :=
  if key < datum0 then -1
  else if key ≥ datum1 then 1
  else 0

/-- The C library `bsearch` over the elements `l, ..., u - 1`: probe the middle
element and continue in the half the comparator points to; `none` is the
`NULL` result. -/
def bsearch_range (compar : Nat → Int) (l u : Nat) : Option Nat :=
  if l < u then
    let idx := (l + u) / 2
    if compar idx < 0 then bsearch_range compar l idx
    else if compar idx > 0 then bsearch_range compar (idx + 1) u
    else some idx
  else none
termination_by u - l
decreasing_by all_goals omega

/-- Find the data point at or left of the frequency: `SPARAMS::nearest_freq_Hz`.
The result is the index and the fraction `alpha`; `none` is the failed
`assert(ptr != NULL)`. -/
def nearest_freq_Hz [LinearOrderedField D] (M : SPARAMS D) (Hz : D) : Option (Int × D) :=
  if Hz ≤ M.freq_Hz 0 then some (0, 0)
  else if Hz ≥ M.freq_Hz (M.n_points - 1).toNat then some (M.n_points - 1, 0)
  else
    match bsearch_range
        (fun i => search_double_array Hz (M.freq_Hz i) (M.freq_Hz (i + 1)))
        0 (M.n_points - 1).toNat with
    | none => none
    | some result =>
      some ((result : Int),
        (Hz - M.freq_Hz result) / (M.freq_Hz (result + 1) - M.freq_Hz result))

/-! ### Write and read accessors -/

/-- Row index minus one of Touchstone position `param`: the table `B`. -/
def param_b (param : Nat) : Nat := [1, 2, 1, 2].getD param 0 - 1

/-- Column index minus one of Touchstone position `param`: the table `A`. -/
def param_a (param : Nat) : Nat := [1, 1, 2, 2].getD param 0 - 1

/-- Write accessor `SPARAMS::set_RI(pt, b, a, val)`. -/
def set_RI (M : SPARAMS D) (pt b a : Nat) (val : COMPLEX_DOUBLE D) : SPARAMS D :=
  let M := { M with RI := setAt M.RI b a pt val }
  { M with valid := setAt M.valid b a pt SNPTYPE.RI }

/-- Write accessor `SPARAMS::set_RI(pt, param, val)`. -/
def set_RI_param (M : SPARAMS D) (pt param : Nat) (val : COMPLEX_DOUBLE D) : SPARAMS D :=
  let a := param_a param
  let b := param_b param
  let M := { M with RI := setAt M.RI b a pt val }
  { M with valid := setAt M.valid b a pt SNPTYPE.RI }

section getters

variable [LinearOrderedField D]

/-- Read accessor `SPARAMS::get_RI(pt, b, a)`; `none` is `assert(0)`. -/
def get_RI (K : MathLib D) (M : SPARAMS D) (pt b a : Nat) : Option (SPARAM.RI D × SPARAMS D) :=
  if M.valid b a pt &&& SNPTYPE.RI ≠ 0 then some (M.RI b a pt, M)
  else if M.valid b a pt &&& SNPTYPE.MA ≠ 0 then
    let M := { M with RI := setAt M.RI b a pt (SPARAM.RI.ofMA K (M.MA b a pt)) }
    let M := { M with valid := setAt M.valid b a pt (M.valid b a pt ||| SNPTYPE.RI) }
    some (M.RI b a pt, M)
  else if M.valid b a pt &&& SNPTYPE.DB ≠ 0 then
    let M := { M with RI := setAt M.RI b a pt (SPARAM.RI.ofDB K (M.DB b a pt)) }
    let M := { M with valid := setAt M.valid b a pt (M.valid b a pt ||| SNPTYPE.RI) }
    some (M.RI b a pt, M)
  else none

/-- Read accessor `SPARAMS::get_MA(pt, b, a)`; `none` is `assert(0)`. -/
def get_MA (K : MathLib D) (M : SPARAMS D) (pt b a : Nat) : Option (SPARAM.MA D × SPARAMS D) :=
  if M.valid b a pt &&& SNPTYPE.MA ≠ 0 then some (M.MA b a pt, M)
  else if M.valid b a pt &&& SNPTYPE.DB ≠ 0 then
    let M := { M with MA := setAt M.MA b a pt (SPARAM.MA.ofDB K (M.DB b a pt)) }
    let M := { M with valid := setAt M.valid b a pt (M.valid b a pt ||| SNPTYPE.MA) }
    some (M.MA b a pt, M)
  else if M.valid b a pt &&& SNPTYPE.RI ≠ 0 then
    let M := { M with MA := setAt M.MA b a pt (SPARAM.MA.ofRI K (M.RI b a pt)) }
    let M := { M with valid := setAt M.valid b a pt (M.valid b a pt ||| SNPTYPE.MA) }
    some (M.MA b a pt, M)
  else none

/-- Read accessor `SPARAMS::get_DB(pt, b, a)`; `none` is `assert(0)`. -/
def get_DB (K : MathLib D) (M : SPARAMS D) (pt b a : Nat) : Option (SPARAM.DB D × SPARAMS D) :=
  if M.valid b a pt &&& SNPTYPE.DB ≠ 0 then some (M.DB b a pt, M)
  else if M.valid b a pt &&& SNPTYPE.MA ≠ 0 then
    let M := { M with DB := setAt M.DB b a pt (SPARAM.DB.ofMA K (M.MA b a pt)) }
    let M := { M with valid := setAt M.valid b a pt (M.valid b a pt ||| SNPTYPE.DB) }
    some (M.DB b a pt, M)
  else if M.valid b a pt &&& SNPTYPE.RI ≠ 0 then
    let M := { M with DB := setAt M.DB b a pt (SPARAM.DB.ofRI K (M.RI b a pt)) }
    let M := { M with valid := setAt M.valid b a pt (M.valid b a pt ||| SNPTYPE.DB) }
    some (M.DB b a pt, M)
  else none

/-- Read accessor `SPARAMS::get_CZ(pt, b, a)`; it fails where the nested
`get_MA` call does. -/
def get_CZ (K : MathLib D) (M : SPARAMS D) (pt b a : Nat) : Option (SPARAM.CZ D × SPARAMS D) :=
  if M.valid b a pt &&& SNPTYPE.CZ ≠ 0 then some (M.CZ b a pt, M)
  else
    match get_MA K M pt b a with
    | none => none
    | some (ma, M) =>
      let M := { M with CZ := setAt M.CZ b a pt (SPARAM.CZ.ofMA K ma M.Zo.real) }
      let M := { M with valid := setAt M.valid b a pt (M.valid b a pt ||| SNPTYPE.CZ) }
      some (M.CZ b a pt, M)

end getters

end SPARAMS

/-! ## Vocabulary of the statements -/

namespace SPARAMS

variable {D : Type}

/-- The block in memory whose first bytes are `L`, followed by zero bytes. -/
def blockOf (L : List U8) : Nat → U8 := fun i => L.getD i 0

/-- A one-port matrix of 3 points over raw bit patterns: frequencies with the
bit patterns 1000, 1001, 1002 and every cell marked valid in RI form. -/
def sampleOnePort : SPARAMS (Fin (2 ^ 64)) :=
  { construct rawDouble.consts with
    n_ports := 1
    n_points := 3
    freq_Hz := fun i => rawDouble.ofBits (1000 + i)
    valid := fun _ _ _ => SNPTYPE.RI
    RI := fun _ _ pt => ⟨rawDouble.ofBits (7 + pt), rawDouble.ofBits 9⟩ }

/-- A one-port matrix of 29,500,000 points (all entries zero): its block
would take 2,153,500,052 bytes. -/
def bigOnePort : SPARAMS (Fin (2 ^ 64)) :=
  { construct rawDouble.consts with n_ports := 1, n_points := 29500000 }

/-- A two-port matrix of 8,100,000 points (all entries zero): its block
would take 2,170,800,052 bytes. -/
def bigTwoPort : SPARAMS (Fin (2 ^ 64)) :=
  { construct rawDouble.consts with n_ports := 2, n_points := 8100000 }

/-- A block with the right magic and version that declares 1 port and
29,500,000 points, with the payload length field holding 2,153,500,040
narrowed to `S32`, that is -2,141,467,256; zero bytes follow. -/
def wrappedBlock : Nat → U8 :=
  blockOf (le_bytes 4 SPARAM.BIN_ID ++ le_bytes 4 SPARAM.BIN_VERSION
    ++ s32_bytes (-2141467256) ++ s32_bytes 1 ++ s32_bytes 29500000)

/-- A block with the right magic and version that declares 1 port, 1 point
and a payload length of 0 (the data takes 113 bytes); the validity byte of
its only cell, at offset 60, is `SNPTYPE::RI`. -/
def shortBlock : Nat → U8 :=
  blockOf (le_bytes 4 SPARAM.BIN_ID ++ le_bytes 4 SPARAM.BIN_VERSION
    ++ s32_bytes 0 ++ s32_bytes 1 ++ s32_bytes 1 ++ List.replicate 40 0 ++ [SNPTYPE.RI])

/-- A block with the right magic and the version field 2. -/
def futureBlock : Nat → U8 :=
  blockOf (le_bytes 4 SPARAM.BIN_ID ++ le_bytes 4 2)

/-- The block holds the bytes of `L` from offset `off` on. -/
def agrees (block : Nat → U8) : Nat → List U8 → Prop
  | _, [] => True
  | off, x :: xs => block off = x ∧ agrees block (off + 1) xs

/-- The five table entries of cell `(b, a)` at point `pt`. -/
def cell (M : SPARAMS D) (b a pt : Nat) :
    U8 × SPARAM.MA D × SPARAM.DB D × SPARAM.RI D × SPARAM.CZ D :=
  (M.valid b a pt, M.MA b a pt, M.DB b a pt, M.RI b a pt, M.CZ b a pt)

/-- Both matrices have the same dimensions, bounds, impedance and frequencies. -/
def sameHeader (S T : SPARAMS D) : Prop :=
  T.n_ports = S.n_ports ∧ T.n_points = S.n_points ∧ T.min_Hz = S.min_Hz ∧
  T.max_Hz = S.max_Hz ∧ T.Zo = S.Zo ∧ T.freq_Hz = S.freq_Hz

end SPARAMS

namespace SPARAMS
variable {D : Type}

/-- The four index-based read accessors. -/
inductive Getter where
  | RI
  | MA
  | DB
  | CZ
  deriving DecidableEq, Repr

/-- One read accessor call on cell `(b, a)` at point `pt`, keeping the matrix it
leaves; `none` when the accessor fails. -/
def call_getter [LinearOrderedField D] (K : MathLib D) (pt b a : Nat) (g : Getter)
    (M : SPARAMS D) : Option (SPARAMS D) :=
  match g with
  | Getter.RI => (get_RI K M pt b a).map Prod.snd
  | Getter.MA => (get_MA K M pt b a).map Prod.snd
  | Getter.DB => (get_DB K M pt b a).map Prod.snd
  | Getter.CZ => (get_CZ K M pt b a).map Prod.snd

/-- A sequence of read accessor calls on cell `(b, a)` at point `pt`, in order. -/
def call_getters [LinearOrderedField D] (K : MathLib D) (pt b a : Nat) :
    List Getter → SPARAMS D → Option (SPARAMS D)
  | [], M => some M
  | g :: gs, M => (call_getter K pt b a g M).bind (call_getters K pt b a gs)

/-- A one-port, one-point matrix over raw bit patterns whose only cell is marked
valid in MA form. -/
def maOnlyMatrix : SPARAMS (Fin (2 ^ 64)) :=
  { construct rawDouble.consts with
    n_ports := 1
    n_points := 1
    valid := fun _ _ _ => SNPTYPE.MA }

end SPARAMS

namespace SPARAMS

/-- A one-port, one-point matrix over the reals whose only cell holds the polar
value (2, 90 degrees) and is marked valid in MA form. -/
noncomputable def maRealMatrix : SPARAMS ℝ where
  n_ports := 1
  n_points := 1
  min_Hz := 1
  max_Hz := 1
  Zo := ⟨50, 0⟩
  freq_Hz := fun _ => 1
  valid := fun _ _ _ => SNPTYPE.MA
  MA := fun _ _ _ => ⟨2, 90⟩
  DB := fun _ _ _ => ⟨0, 0⟩
  RI := fun _ _ _ => ⟨0, 0⟩
  CZ := fun _ _ _ => ⟨0, 0⟩

end SPARAMS

namespace SPARAMS

/-- A one-port, one-point matrix over the reals, as `alloc` leaves it: nothing
written, every mask zero. -/
noncomputable def blankRealMatrix : SPARAMS ℝ where
  n_ports := 1
  n_points := 1
  min_Hz := 0
  max_Hz := 0
  Zo := ⟨50, 0⟩
  freq_Hz := fun _ => 0
  valid := fun _ _ _ => 0
  MA := fun _ _ _ => ⟨0, 0⟩
  DB := fun _ _ _ => ⟨0, 0⟩
  RI := fun _ _ _ => ⟨0, 0⟩
  CZ := fun _ _ _ => ⟨0, 0⟩

end SPARAMS

namespace SPARAMS

/-- Every encoding of cell `(b, a)` at point `pt` whose validity bit is set holds
the value that belongs to the rectangular value `v`: the RI slot holds `v`
itself, the MA and DB slots the polar forms of `v`, the CZ slot the impedance of
the polar form; the RI bit is set. -/
def upToDate {D : Type} [LinearOrderedField D] (K : MathLib D) (M : SPARAMS D) (pt b a : Nat)
    (v : SPARAM.RI D) : Prop :=
  M.valid b a pt &&& SNPTYPE.RI ≠ 0 ∧ M.RI b a pt = v ∧
  (M.valid b a pt &&& SNPTYPE.MA ≠ 0 → M.MA b a pt = SPARAM.MA.ofRI K v) ∧
  (M.valid b a pt &&& SNPTYPE.DB ≠ 0 → M.DB b a pt = SPARAM.DB.ofRI K v) ∧
  (M.valid b a pt &&& SNPTYPE.CZ ≠ 0 →
    M.CZ b a pt = SPARAM.CZ.ofMA K (SPARAM.MA.ofRI K v) M.Zo.real)

end SPARAMS

namespace SPARAMS

/-- The three-point example: one port, frequencies 1e9, 2e9, 3e9 Hz, the cell
holding 0.1, 0.2, 0.3 (imaginary part 0) in RI form. -/
noncomputable def threePoint : SPARAMS ℝ where
  n_ports := 1
  n_points := 3
  min_Hz := 1000000000
  max_Hz := 3000000000
  Zo := ⟨50, 0⟩
  freq_Hz := fun i => ((i : ℝ) + 1) * 1000000000
  valid := fun _ _ _ => SNPTYPE.RI
  MA := fun _ _ _ => ⟨0, 0⟩
  DB := fun _ _ _ => ⟨0, 0⟩
  RI := fun _ _ pt => ⟨((pt : ℝ) + 1) / 10, 0⟩
  CZ := fun _ _ _ => ⟨0, 0⟩

/-- A two-point matrix with the same frequency, 5 Hz, at both points. -/
noncomputable def flatPair : SPARAMS ℝ where
  n_ports := 1
  n_points := 2
  min_Hz := 5
  max_Hz := 5
  Zo := ⟨50, 0⟩
  freq_Hz := fun _ => 5
  valid := fun _ _ _ => SNPTYPE.RI
  MA := fun _ _ _ => ⟨0, 0⟩
  DB := fun _ _ _ => ⟨0, 0⟩
  RI := fun _ _ _ => ⟨0, 0⟩
  CZ := fun _ _ _ => ⟨0, 0⟩

end SPARAMS

/-! ## sparams.cpp: frequency-based queries -/

namespace SPARAM

/-- Queries outside the min/max range return a valid zero value. -/
def EXT_ZERO : U8 := 0x01

/-- Queries below min return the min endpoint. -/
def EXT_LEND : U8 := 0x02

/-- Queries above max return the max endpoint. -/
def EXT_REND : U8 := 0x04

end SPARAM

/-- Why a run stopped without a value: a failed `assert`, or a loop that was
still running when the iteration budget ran out. -/
inductive Halt where
  | assertion
  | fuel
  deriving DecidableEq, Repr

namespace SPARAMS

variable {D : Type}

section queries

variable [LinearOrderedField D]

/-- The loop `while (d < -180.0) d += 360.0;`, with at most `fuel` tests of the
condition; `none` when the budget runs out. -/
def wrap_up : Nat → D → Option D
  | 0, _ => none
  | fuel + 1, d => if d < -180 then wrap_up fuel (d + 360) else some d

/-- The loop `while (d > 180.0) d -= 360.0;`, with at most `fuel` tests of the
condition; `none` when the budget runs out. -/
def wrap_down : Nat → D → Option D
  | 0, _ => none
  | fuel + 1, d => if d > 180 then wrap_down fuel (d - 360) else some d

/-- The two loops in sequence, as they stand in `get_MA(Hz, ...)`. -/
def wrap_deg (fuel : Nat) (d : D) : Option D :=
  (wrap_up fuel d).bind (wrap_down fuel)

/-- Frequency-based query `SPARAMS::get_RI(Hz, b, a, flags, in_range)`.  The
result is the value returned, the flag left in `*in_range`, and the matrix
afterwards; `none` is a failed assertion. -/
def get_RI_Hz (K : MathLib D) (M : SPARAMS D) (Hz : D) (b a : Nat) (flags : U8) :
    Option (SPARAM.RI D × Bool × SPARAMS D) :=
  if Hz < M.min_Hz then
    if flags &&& SPARAM.EXT_ZERO ≠ 0 then some (⟨0, 0⟩, true, M)
    else if flags &&& SPARAM.EXT_LEND ≠ 0 then
      match get_RI K M 0 b a with
      | none => none
      | some (v, M) => some (v, true, M)
    else some (⟨0, 0⟩, false, M)
  else if Hz > M.max_Hz then
    if flags &&& SPARAM.EXT_ZERO ≠ 0 then some (⟨0, 0⟩, true, M)
    else if flags &&& SPARAM.EXT_REND ≠ 0 then
      match get_RI K M (M.n_points - 1).toNat b a with
      | none => none
      | some (v, M) => some (v, true, M)
    else some (⟨0, 0⟩, false, M)
  else
    match nearest_freq_Hz M Hz with
    | none => none
    | some (p0, A) =>
      if p0 ≥ M.n_points - 1 then
        match get_RI K M (M.n_points - 1).toNat b a with
        | none => none
        | some (v, M) => some (v, true, M)
      else
        match get_RI K M p0.toNat b a with
        | none => none
        | some (v0, M) =>
          match get_RI K M (p0 + 1).toNat b a with
          | none => none
          | some (v1, M) =>
            some (⟨v0.real + ((v1.real - v0.real) * A), v0.imag + ((v1.imag - v0.imag) * A)⟩,
              true, M)

/-- Frequency-based query `SPARAMS::get_MA(Hz, b, a, flags, in_range)`, each
normalisation loop running under the budget `fuel`.  The result is the value
returned, the flag left in `*in_range`, and the matrix afterwards. -/
def get_MA_Hz (K : MathLib D) (fuel : Nat) (M : SPARAMS D) (Hz : D) (b a : Nat) (flags : U8) :
    Except Halt (SPARAM.MA D × Bool × SPARAMS D) :=
  if Hz < M.min_Hz then
    if flags &&& SPARAM.EXT_ZERO ≠ 0 then Except.ok (⟨0, 0⟩, true, M)
    else if flags &&& SPARAM.EXT_LEND ≠ 0 then
      match get_MA K M 0 b a with
      | none => Except.error Halt.assertion
      | some (v, M) => Except.ok (v, true, M)
    else Except.ok (⟨0, 0⟩, false, M)
  else if Hz > M.max_Hz then
    if flags &&& SPARAM.EXT_ZERO ≠ 0 then Except.ok (⟨0, 0⟩, true, M)
    else if flags &&& SPARAM.EXT_REND ≠ 0 then
      match get_MA K M (M.n_points - 1).toNat b a with
      | none => Except.error Halt.assertion
      | some (v, M) => Except.ok (v, true, M)
    else Except.ok (⟨0, 0⟩, false, M)
  else
    match nearest_freq_Hz M Hz with
    | none => Except.error Halt.assertion
    | some (p0, A) =>
      if p0 ≥ M.n_points - 1 then
        match get_MA K M (M.n_points - 1).toNat b a with
        | none => Except.error Halt.assertion
        | some (v, M) => Except.ok (v, true, M)
      else
        match get_MA K M p0.toNat b a with
        | none => Except.error Halt.assertion
        | some (v0, M) =>
          match get_MA K M (p0 + 1).toNat b a with
          | none => Except.error Halt.assertion
          | some (v1, M) =>
            match wrap_deg fuel (v1.deg - v0.deg) with
            | none => Except.error Halt.fuel
            | some d =>
              let interp_mag := v0.mag + ((v1.mag - v0.mag) * A)
              match wrap_deg fuel (v0.deg + (d * A)) with
              | none => Except.error Halt.fuel
              | some interp_deg => Except.ok (⟨interp_mag, interp_deg⟩, true, M)

end queries

end SPARAMS

namespace SPARAMS

/-- Cell `(b, a)` holds a value at point `pt` that the read accessors can
return: one of the MA, DB, RI bits of its mask is set. -/
def readable {D : Type} (M : SPARAMS D) (b a pt : Nat) : Prop :=
  M.valid b a pt &&& SNPTYPE.MA ≠ 0 ∨ M.valid b a pt &&& SNPTYPE.DB ≠ 0 ∨
    M.valid b a pt &&& SNPTYPE.RI ≠ 0

end SPARAMS

namespace SPARAMS

/-- A one-port matrix of two points at 1 Hz and 3 Hz, in MA form, both of
magnitude 1, with the angles `t0` and `t1` degrees. -/
noncomputable def polarPair (t0 t1 : ℝ) : SPARAMS ℝ where
  n_ports := 1
  n_points := 2
  min_Hz := 1
  max_Hz := 3
  Zo := ⟨50, 0⟩
  freq_Hz := fun i => 2 * (i : ℝ) + 1
  valid := fun _ _ _ => SNPTYPE.MA
  MA := fun _ _ pt => ⟨1, if pt = 0 then t0 else t1⟩
  DB := fun _ _ _ => ⟨0, 0⟩
  RI := fun _ _ _ => ⟨0, 0⟩
  CZ := fun _ _ _ => ⟨0, 0⟩

end SPARAMS

/-! ## sparams.cpp: the Touchstone reader -/

/-- The C library's text-to-double conversions called by `read_SNP_file`. -/
structure Scanf (D : Type) where
  /-- The numbers that `sscanf(txt, "%lf %lf ...")` converts from the start of
  `txt`, in order. -/
  numbers : List Char → List D
  /-- The call `sscanf(src, "R %lf%n", &file_R, &len)`: the number stored and the
  count `len`; `none` when no number is converted, which leaves `len` at 0. -/
  R_number : List Char → Option (D × Nat)

/-- The option-line variables of `read_SNP_file`. -/
structure SNPHeader (D : Type) where
  file_scale : D
  file_param : Char
  file_format : U8
  file_R : D

/-- The loop variables of `read_SNP_file`. -/
structure ReadState (D : Type) where
  hdr : SNPHeader D
  file_points : Int
  pt : Nat
  M : SPARAMS D

namespace SPARAMS

variable {D : Type}

/-- The C library `isspace` in the "C" locale: space, and `\t \n \v \f \r`. -/
def isspace (c : Char) : Bool :=
  decide (c.toNat = 32 ∨ (9 ≤ c.toNat ∧ c.toNat ≤ 13))

/-- The loop over `linbuf[i]` that finds the first and the last non-blank
character before a `!`: the state is `(leading, txt, end)` with `txt` and
`end` as indices. -/
def strip_loop : List Char → Nat → Bool × Nat × Nat → Bool × Nat × Nat
  | [], _, st => st
  | c :: cs, i, (leading, txt, end_) =>
    if c = '!' then (leading, txt, end_)
    else if !isspace c then strip_loop cs (i + 1) (false, if leading then i else txt, i)
    else strip_loop cs (i + 1) (leading, txt, end_)

/-- The text of a line without leading and trailing blanks and without the
comment; `none` for a line that is skipped (`continue`). -/
def strip (linbuf : List Char) : Option (List Char) :=
  match strip_loop linbuf 0 (true, 0, 0) with
  | (leading, txt, end_) =>
    if leading then none else some ((linbuf.take (end_ + 1)).drop txt)

/-- The test `!_strnicmp(src, key, n)` for an upper-case `key` of `n`
characters. -/
def strnicmp_eq (src key : List Char) : Bool :=
  (src.take key.length).map Char.toUpper == key

section reader

variable [LinearOrder D] [Mul D] [NatCast D]

/-- The loop `while (*src)` over the option line.  Every pass consumes at least
one character, except the `"R "` case when `len` is 0: there `src` does not
move and the loop runs forever, which is the result `none` (as is an exhausted
`fuel`, which the caller sets above the length of the text). -/
def option_loop (S : Scanf D) : Nat → List Char → SNPHeader D → Option (SNPHeader D)
  | 0, _, _ => none
  | _ + 1, [], h => some h
  | fuel + 1, c :: cs, h =>
    if strnicmp_eq (c :: cs) ['G', 'H', 'Z'] then
      option_loop S fuel ((c :: cs).drop 3) { h with file_scale := ((1000000000 : Nat) : D) }
    else if strnicmp_eq (c :: cs) ['M', 'H', 'Z'] then
      option_loop S fuel ((c :: cs).drop 3) { h with file_scale := ((1000000 : Nat) : D) }
    else if strnicmp_eq (c :: cs) ['K', 'H', 'Z'] then
      option_loop S fuel ((c :: cs).drop 3) { h with file_scale := ((1000 : Nat) : D) }
    else if strnicmp_eq (c :: cs) ['H', 'Z'] then
      option_loop S fuel ((c :: cs).drop 2) { h with file_scale := ((1 : Nat) : D) }
    else if strnicmp_eq (c :: cs) ['D', 'B'] then
      option_loop S fuel ((c :: cs).drop 2) { h with file_format := SNPTYPE.DB }
    else if strnicmp_eq (c :: cs) ['M', 'A'] then
      option_loop S fuel ((c :: cs).drop 2) { h with file_format := SNPTYPE.MA }
    else if strnicmp_eq (c :: cs) ['R', 'I'] then
      option_loop S fuel ((c :: cs).drop 2) { h with file_format := SNPTYPE.RI }
    else if strnicmp_eq (c :: cs) ['S'] then
      option_loop S fuel cs { h with file_param := 'S' }
    else if strnicmp_eq (c :: cs) ['Y'] then
      option_loop S fuel cs { h with file_param := 'Y' }
    else if strnicmp_eq (c :: cs) ['Z'] then
      option_loop S fuel cs { h with file_param := 'Z' }
    else if strnicmp_eq (c :: cs) ['H'] then
      option_loop S fuel cs { h with file_param := 'H' }
    else if strnicmp_eq (c :: cs) ['G'] then
      option_loop S fuel cs { h with file_param := 'G' }
    else if strnicmp_eq (c :: cs) ['R', ' '] then
      match S.R_number (c :: cs) with
      | none => none
      | some (v, len) =>
        if len = 0 then none
        else option_loop S fuel ((c :: cs).drop len) { h with file_R := v }
    else option_loop S fuel cs h

/-- The values `R[b][a]`, `I[b][a]` that the data line's `sscanf` fills from the
numbers after the frequency, in the order S11, S21, S12, S22; what is not
converted stays at the initial `0`. -/
def R_I (zero : D) (nums : List D) (b a : Nat) : D × D :=
  match b, a with
  | 0, 0 => (nums.getD 1 zero, nums.getD 2 zero)
  | 1, 0 => (nums.getD 3 zero, nums.getD 4 zero)
  | 0, 1 => (nums.getD 5 zero, nums.getD 6 zero)
  | 1, 1 => (nums.getD 7 zero, nums.getD 8 zero)
  | _, _ => (zero, zero)

/-- The body of the two storing loops for one cell: the mask is assigned the
file format and the pair goes to that format's table. -/
def store_cell (fmt : U8) (pt : Nat) (RI : Nat → Nat → D × D) (M : SPARAMS D) (b a : Nat) :
    SPARAMS D :=
  let M := { M with valid := setAt M.valid b a pt fmt }
  if fmt = SNPTYPE.DB then { M with DB := setAt M.DB b a pt ⟨(RI b a).1, (RI b a).2⟩ }
  else if fmt = SNPTYPE.MA then { M with MA := setAt M.MA b a pt ⟨(RI b a).1, (RI b a).2⟩ }
  else if fmt = SNPTYPE.RI then { M with RI := setAt M.RI b a pt ⟨(RI b a).1, (RI b a).2⟩ }
  else M

/-- The inner loop `for a < n_ports` of the storing loops, for row `b`. -/
def store_row (fmt : U8) (pt : Nat) (RI : Nat → Nat → D × D) (n_ports : Nat) (M : SPARAMS D)
    (b : Nat) : SPARAMS D :=
  (List.range n_ports).foldl (fun M a => store_cell fmt pt RI M b a) M

/-- The loops `for b < n_ports`, `for a < n_ports` that store one point. -/
def store_point (fmt : U8) (pt : Nat) (RI : Nat → Nat → D × D) (M : SPARAMS D) : SPARAMS D :=
  (List.range M.n_ports.toNat).foldl (store_row fmt pt RI M.n_ports.toNat) M

/-- The pass-2 handling of a data line.  The result is `false` with the state
after `file_points = n_points = pt` when the scaled frequency is below
`max_Hz` (the `break`), and `true` with the state after `pt++` otherwise. -/
def data_line (S : Scanf D) (C : DoubleConsts D) (txt : List Char) (st : ReadState D) :
    Bool × ReadState D :=
  let nums : List D := (S.numbers txt).take (if st.M.n_ports = 1 then 3 else 9)
  let f : D := nums.getD 0 (st.M.freq_Hz st.pt) * st.hdr.file_scale
  let M : SPARAMS D :=
    { st.M with freq_Hz := fun i => if i = st.pt then f else st.M.freq_Hz i }
  if f < M.max_Hz then
    (false, { st with file_points := (st.pt : Int), M := { M with n_points := (st.pt : Int) } })
  else
    let M : SPARAMS D := if f < M.min_Hz then { M with min_Hz := f } else M
    let M : SPARAMS D := if f > M.max_Hz then { M with max_Hz := f } else M
    (true, { st with pt := st.pt + 1,
                     M := store_point st.hdr.file_format st.pt (R_I C.zero nums) M })

/-- The loop `for (;;)` over the lines of the file in pass `pass`.  The result
is `true` with the final state when the loop is left at the end of the file or
by `break`, `false` with the state at that moment when the function returns
FALSE, and the error `Halt.fuel` when the option-line loop does not end. -/
def read_lines (S : Scanf D) (C : DoubleConsts D) (pass : Nat) :
    List (List Char) → ReadState D → Except Halt (Bool × ReadState D)
  | [], st => Except.ok (true, st)
  | linbuf :: rest, st =>
    match strip linbuf with
    | none => read_lines S C pass rest st
    | some txt =>
      if txt.head? = some '[' then Except.ok (false, st)
      else if txt.head? = some '#' then
        if st.file_points = 0 then
          match option_loop S (txt.length + 1) ((txt.map Char.toUpper).drop 1) st.hdr with
          | none => Except.error Halt.fuel
          | some h =>
            if h.file_param ≠ 'S' then Except.ok (false, { st with hdr := h })
            else read_lines S C pass rest { st with hdr := h }
        else read_lines S C pass rest st
      else if pass = 1 then
        read_lines S C pass rest { st with file_points := st.file_points + 1 }
      else
        match data_line S C txt st with
        | (false, st) => Except.ok (true, st)
        | (true, st) => read_lines S C pass rest st

/-- Load a Touchstone 1.1 file: `SPARAMS::read_SNP_file`.  The file is the list
of the strings that `fgets` returns, `none` when it cannot be opened; the
result is the value returned and the matrix afterwards. -/
def read_SNP_file (S : Scanf D) (C : DoubleConsts D) (file : Option (List (List Char)))
    (file_ports : Int) (M : SPARAMS D) : Except Halt (Bool × SPARAMS D) :=
  let M := init C (clear C M)
  let st : ReadState D :=
    ⟨⟨((1000000000 : Nat) : D), 'S', SNPTYPE.MA, C.fifty⟩, 0, 0, M⟩
  match file with
  | none => Except.ok (false, M)
  | some lines =>
    match read_lines S C 1 lines st with
    | Except.error e => Except.error e
    | Except.ok (false, st) => Except.ok (false, st.M)
    | Except.ok (true, st) =>
      match alloc C file_ports st.file_points st.M with
      | (false, M) => Except.ok (false, M)
      | (true, M) =>
        match read_lines S C 2 lines { st with M := M } with
        | Except.error e => Except.error e
        | Except.ok (false, st) => Except.ok (false, st.M)
        | Except.ok (true, st) => Except.ok (true, { st.M with Zo := ⟨st.hdr.file_R, C.zero⟩ })

/-- The stripped texts of the data lines of a file: the lines that are not
skipped and start with neither `[` nor `#`. -/
def data_txts (lines : List (List Char)) : List (List Char) :=
  (lines.filterMap strip).filter
    (fun txt => decide (txt.head? ≠ some '[' ∧ txt.head? ≠ some '#'))

/-- The frequency a data line stores: its first number (`0` when there is none)
times the scale of the option line. -/
def line_freq (S : Scanf D) (C : DoubleConsts D) (h : SNPHeader D) (txt : List Char) : D :=
  (S.numbers txt).getD 0 C.zero * h.file_scale

/-- The pair `(R[b][a], I[b][a])` that a data line yields on a matrix of
`ports` ports. -/
def line_pair (S : Scanf D) (C : DoubleConsts D) (ports : Int) (txt : List Char) (b a : Nat) :
    D × D :=
  R_I C.zero ((S.numbers txt).take (if ports = 1 then 3 else 9)) b a

/-- The pass-2 loop on the data lines alone: the state when the loop is left. -/
def run_data (S : Scanf D) (C : DoubleConsts D) : List (List Char) → ReadState D → ReadState D
  | [], st => st
  | txt :: rest, st =>
    match data_line S C txt st with
    | (false, st) => st
    | (true, st) => run_data S C rest st

/-- The state of pass 2 after the data lines `txts` have been stored, on a
matrix allocated for `ports` ports and `N` points under the header `h`: point
`i` holds line `i`, the bounds are the first and the last frequency stored, and
the frequencies from `pt` on are still zero. -/
def loaded (S : Scanf D) (C : DoubleConsts D) (h : SNPHeader D) (ports N : Int)
    (txts : List (List Char)) (st : ReadState D) : Prop :=
  st.hdr = h ∧ st.file_points = N ∧ st.pt = txts.length ∧
  st.M.n_ports = ports ∧ st.M.n_points = N ∧
  (∀ i, st.M.freq_Hz i = (txts.map (line_freq S C h)).getD i C.zero) ∧
  st.M.min_Hz = (txts.map (line_freq S C h)).head?.getD C.DBL_MAX ∧
  st.M.max_Hz = (txts.map (line_freq S C h)).getLast?.getD C.neg_DBL_MAX ∧
  (∀ i, i < txts.length → ∀ b a, b < ports.toNat → a < ports.toNat →
    st.M.valid b a i = h.file_format ∧
    (h.file_format = SNPTYPE.MA → st.M.MA b a i =
      ⟨(line_pair S C ports (txts.getD i []) b a).1, (line_pair S C ports (txts.getD i []) b a).2⟩) ∧
    (h.file_format = SNPTYPE.DB → st.M.DB b a i =
      ⟨(line_pair S C ports (txts.getD i []) b a).1, (line_pair S C ports (txts.getD i []) b a).2⟩) ∧
    (h.file_format = SNPTYPE.RI → st.M.RI b a i =
      ⟨(line_pair S C ports (txts.getD i []) b a).1, (line_pair S C ports (txts.getD i []) b a).2⟩))

/-- The state in which `read_SNP_file` enters pass 1. -/
def read_start (C : DoubleConsts D) (M : SPARAMS D) : ReadState D :=
  ⟨⟨((1000000000 : Nat) : D), 'S', SNPTYPE.MA, C.fifty⟩, 0, 0, init C (clear C M)⟩

end reader

end SPARAMS

namespace SPARAMS

/-- The double constants as rational numbers; `DBL_MAX` is `2^1024 - 2^971`. -/
def ratConsts : DoubleConsts ℚ where
  zero := 0
  DBL_MAX := 2 ^ 1024 - 2 ^ 971
  neg_DBL_MAX := -(2 ^ 1024 - 2 ^ 971)
  fifty := 50

/-- Text conversions for lines made of one-digit numbers separated by blanks,
on which they give what `sscanf` gives: every digit is one number. -/
def digitScanf : Scanf ℚ where
  numbers txt :=
    txt.filterMap (fun c => if c.isDigit then some (((c.toNat - 48 : Nat) : ℚ)) else none)
  R_number src :=
    match src with
    | _ :: _ :: d :: _ => if d.isDigit then some (((d.toNat - 48 : Nat) : ℚ), 3) else none
    | _ => none

/-- A one-port file without option line whose three data lines have the
frequencies 1, 2, 1 (in GHz, the default unit). -/
def decreasingFile : List (List Char) :=
  [['1', ' ', '2', ' ', '3'], ['2', ' ', '4', ' ', '5'], ['1', ' ', '6', ' ', '7']]

end SPARAMS

namespace SPARAMS

/-- A file whose option line is `# R X` (an `R` and a blank that no number
follows), with a Touchstone 2.0 keyword line after it. -/
def hangingFile : List (List Char) :=
  [['#', ' ', 'R', ' ', 'X'], ['[', 'V', 'E', 'R', 'S', 'I', 'O', 'N', ']', ' ', '2']]

/-- A one-port file with the option line `# S HELLO` and one data line. -/
def wordyFile : List (List Char) :=
  [['#', ' ', 'S', ' ', 'H', 'E', 'L', 'L', 'O'], ['1', ' ', '2', ' ', '3']]

end SPARAMS

namespace SPARAMS

/-- A block with the right magic and version that declares 0 ports and 3
points (payload length field 0); zero bytes follow. -/
def emptyBlock : Nat → U8 :=
  blockOf (le_bytes 4 SPARAM.BIN_ID ++ le_bytes 4 SPARAM.BIN_VERSION
    ++ s32_bytes 0 ++ s32_bytes 0 ++ s32_bytes 3)

/-- The element counts of the three levels of one table `T[b][a][pt]`. -/
structure Extent where
  first : Int
  second : Int
  third : Int

/-- The counts that `SPARAMS::alloc` hands to `calloc` for the `valid` table:
`calloc(n_points, sizeof(valid[0]))`, then `calloc(n_ports, ...)` for every
`valid[b]` and `calloc(n_points, ...)` for every `valid[b][a]`. -/
def alloc_extent_valid (ports points : Int) : Extent := ⟨points, ports, points⟩

/-- The counts that `SPARAMS::alloc` hands to `calloc` for each of the tables
`MA`, `DB`, `RI` and `CZ`: `calloc(n_ports, ...)`, `calloc(n_ports, ...)` and
`calloc(n_points, ...)`. -/
def alloc_extent_value (ports points : Int) : Extent := ⟨ports, ports, points⟩

/-- The access `T[b][a][pt]` stays inside a table of the extent `e`. -/
def Extent.covers (e : Extent) (b a pt : Int) : Prop :=
  0 ≤ b ∧ b < e.first ∧ 0 ≤ a ∧ a < e.second ∧ 0 ≤ pt ∧ pt < e.third

variable {D : Type}

/-- The loop `for (i = 0; i < n_points; i++)` of `spline_dB` and `spline_deg`
with the body `src_Y[i] = f(get_MA(i, b, a))`, over the indices left: the values
collected and the matrix afterwards, `none` when `get_MA` asserts. -/
def collect_MA [LinearOrderedField D] (K : MathLib D) (f : SPARAM.MA D → D) (b a : Nat) :
    List Nat → SPARAMS D → Option (List D × SPARAMS D)
  | [], M => some ([], M)
  | i :: rest, M =>
    match get_MA K M i b a with
    | none => none
    | some (v, M1) =>
      match collect_MA K f b a rest M1 with
      | none => none
      | some (ys, M2) => some (f v :: ys, M2)

/-- The source values `src_Y` that `SPARAMS::spline_dB(b, a, ...)` hands to
`spline_gen`: `src_Y[i] = get_MA(i, 1, 0).mag`; the arguments `b` and `a` are
marked `Q_UNUSED`. -/
def spline_dB_src [LinearOrderedField D] (K : MathLib D) (M : SPARAMS D) (_b _a : Nat) : Option (List D × SPARAMS D) :=
  collect_MA K SPARAM.MA.mag 1 0 (List.range M.n_points.toNat) M

/-- The source values `src_Y` that `SPARAMS::spline_deg(b, a, ...)` hands to
`spline_gen`: `src_Y[i] = get_MA(i, b, a).deg`. -/
def spline_deg_src [LinearOrderedField D] (K : MathLib D) (M : SPARAMS D) (b a : Nat) : Option (List D × SPARAMS D) :=
  collect_MA K SPARAM.MA.deg b a (List.range M.n_points.toNat) M

/-- A two-port matrix of one point in MA form: cell `(b, a)` holds the
magnitude `1 + b + 2a` and the angle `10 * (1 + b + 2a)` degrees. -/
def fourCells : SPARAMS ℚ :=
  { construct ratConsts with
    n_ports := 2
    n_points := 1
    valid := fun _ _ _ => SNPTYPE.MA
    MA := fun b a _ => ⟨1 + (b : ℚ) + 2 * (a : ℚ), 10 * (1 + (b : ℚ) + 2 * (a : ℚ))⟩ }

/-- A one-port matrix of one point in MA form, magnitude 1 and angle 10. -/
def oneCell : SPARAMS ℚ :=
  { construct ratConsts with
    n_ports := 1
    n_points := 1
    valid := fun b a pt => if b = 0 ∧ a = 0 ∧ pt = 0 then SNPTYPE.MA else 0
    MA := fun _ _ _ => ⟨1, 10⟩ }

end SPARAMS

namespace SPARAMS

/-- The constant `MAX_PATH` of `sparams.cpp`, the size of the static output
buffer of `sanitize`. -/
def MAX_PATH : Nat := 260

/-- The body of the loop of `SPARAMS::sanitize` for one byte `s`. -/
def sanitize_byte (s : U8) : U8 :=
  if s < 0x20 ∨ s > 0x7E then
    if s ≠ 9 ∧ s ≠ 10 ∧ s ≠ 13 then 32 else s
  else s

/-- Remove non-Touchstone compatible characters: `SPARAMS::sanitize`.  The
strings are the bytes before the terminating zero; `len` is cut to
`sizeof(output) - 1`. -/
def sanitize (input : List U8) : List U8 :=
  let len := if input.length ≥ MAX_PATH then MAX_PATH - 1 else input.length
  (input.take len).map sanitize_byte

end SPARAMS

/-! ## spline.cpp: the resamplers -/

namespace Spline

/-- The ways in which a resampler stops without a result: a failed `assert`, or
a read outside an array. -/
inductive Stop where
  | assertion
  | bounds
  deriving DecidableEq, Repr

variable {D : Type}

/-- The read `xs[i]` of an array of `xs.length` elements. -/
def rd (xs : List D) (i : Nat) : Except Stop D :=
  match xs[i]? with
  | some v => Except.ok v
  | none => Except.error Stop.bounds

section resamplers
variable [LinearOrderedField D]

/-- The loop `for (s = 0; s < src_len-1; s++)` of `lerp_gen`, with `k` passes
left from `s` on: it breaks at the first `s` with `src_X[s] <= x` and
`src_X[s+1] >= x`, and ends with `s = src_len-1` when there is none.  The reads
are below `src_len`. -/
def lerp_find (src_X : List D) (x : D) : Nat → Nat → Nat
  | 0, s => s
  | k + 1, s =>
    if src_X.getD s 0 ≤ x ∧ src_X.getD (s + 1) 0 ≥ x then s
    else lerp_find src_X x k (s + 1)

/-- The body of the loop over the destinations of `lerp_gen`. -/
def lerp_point (src_X src_Y : List D) (x : D) : Except Stop D :=
  let s := lerp_find src_X x (src_X.length - 1) 0
  if ¬ (s + 1 < src_X.length) then Except.error Stop.assertion
  else
    match rd src_X (s + 1), rd src_X s, rd src_Y (s + 1), rd src_Y s with
    | Except.ok x1, Except.ok x0, Except.ok y1, Except.ok y0 =>
      let ds := x1 - x0
      if ¬ (|ds| > 1 / 10 ^ 30) then Except.error Stop.assertion
      else
        let alpha := (x - x0) / ds
        let ds := y1 - y0
        Except.ok (y0 + (ds * alpha))
    | _, _, _, _ => Except.error Stop.bounds

/-- The loop `for (d = 0; d < dest_len; d++)` of `lerp_gen`. -/
def lerp_points (src_X src_Y : List D) : List D → Except Stop (List D)
  | [] => Except.ok []
  | x :: rest =>
    match lerp_point src_X src_Y x with
    | Except.error e => Except.error e
    | Except.ok y =>
      match lerp_points src_X src_Y rest with
      | Except.error e => Except.error e
      | Except.ok ys => Except.ok (y :: ys)

/-- The range check that opens `lerp_gen` and `spline_gen`: `some true` when
the `assert(0)` is reached, `none` when one of the four reads is outside its
array. -/
def range_check (src_X dest_X : List D) : Option Bool :=
  match rd dest_X 0, rd src_X 0, rd dest_X (dest_X.length - 1), rd src_X (src_X.length - 1) with
  | Except.ok d0, Except.ok s0, Except.ok d1, Except.ok s1 => some (decide (d0 < s0 ∨ d1 > s1))
  | _, _, _, _ => none

/-- Linear resampling: `lerp_gen`; the result is the array `dest_Y`. -/
def lerp_gen (src_X src_Y dest_X : List D) : Except Stop (List D) :=
  match range_check src_X dest_X with
  | none => Except.error Stop.bounds
  | some true => Except.error Stop.assertion
  | some false => lerp_points src_X src_Y dest_X

/-- The widths `h0`, `h1`, `h2` at the interior node `i` of `spline_gen`, after
the substitution of `epsilon = fabs(src_X[i]) * 1E-6` for each width whose
absolute value is below it. -/
def spline_widths (src_X : List D) (i : Nat) : D × D × D :=
  let epsilon := |src_X.getD i 0| * (1 / 1000000)
  let h0 := src_X.getD i 0 - src_X.getD (i - 1) 0
  let h1 := src_X.getD (i + 1) 0 - src_X.getD (i - 1) 0
  let h2 := src_X.getD (i + 1) 0 - src_X.getD i 0
  (if |h0| < epsilon then epsilon else h0,
   if |h1| < epsilon then epsilon else h1,
   if |h2| < epsilon then epsilon else h2)

/-- The pair `(D2[i], YD[i])` after the first loop of `spline_gen` (the forward
elimination): `D2[0] = YD[0] = 0`, and the body of the loop at `i + 1`. -/
def spline_forward (src_X src_Y : List D) : Nat → D × D
  | 0 => (0, 0)
  | i + 1 =>
    let w := spline_widths src_X (i + 1)
    let r0 := (src_Y.getD (i + 1) 0 - src_Y.getD i 0) / w.1
    let r1 := (src_Y.getD (i + 2) 0 - src_Y.getD (i + 1) 0) / w.2.2
    let h := w.1 / w.2.1
    let p := 1 / (h * (spline_forward src_X src_Y i).1 + 2)
    ((h - 1) * p, (((6 * (r1 - r0)) / w.2.1) - (h * (spline_forward src_X src_Y i).2)) * p)

/-- The value `D2[n - 1 - k]` after the second loop of `spline_gen` (the back
substitution) on `n` source points: `D2[n-1] = 0`, and
`D2[i] = D2[i] * D2[i+1] + YD[i]` downwards from `i = n - 2`. -/
def spline_back (src_X src_Y : List D) (n : Nat) : Nat → D
  | 0 => 0
  | k + 1 =>
    ((spline_forward src_X src_Y (n - 2 - k)).1 * spline_back src_X src_Y n k) +
      (spline_forward src_X src_Y (n - 2 - k)).2

/-- The array `D2` of second derivatives that the evaluation loop reads: its
`src_len` entries. -/
def spline_D2 (src_X src_Y : List D) : List D :=
  (List.range src_X.length).map
    (fun i => spline_back src_X src_Y src_X.length (src_X.length - 1 - i))

/-- The width `h = src_X[next] - src_X[cur]` of the evaluation loop of
`spline_gen`, after `if (h <= 0.0) h = 0.0001;`. -/
def eval_width (xn xc : D) : D :=
  let h := xn - xc
  if h ≤ 0 then 1 / 10000 else h

/-- The loop `while ((src_X[cur+1] <= x) && (cur+1 < src_len)) cur++;` with
`k` passes left.  The condition reads `src_X[cur+1]` before it tests
`cur+1 < src_len`. -/
def spline_seek (src_X : List D) (x : D) : Nat → Nat → Except Stop Nat
  | 0, cur => Except.ok cur
  | k + 1, cur =>
    match rd src_X (cur + 1) with
    | Except.error e => Except.error e
    | Except.ok x1 =>
      if x1 ≤ x ∧ cur + 1 < src_X.length then spline_seek src_X x k (cur + 1)
      else Except.ok cur

/-- The body of the evaluation loop of `spline_gen` for the destination `x`,
entered with the interval index `cur`: the value `dest_Y[i]` and the index
`cur` afterwards. -/
def spline_point (src_X src_Y D2 : List D) (cur : Nat) (x : D) : Except Stop (D × Nat) :=
  match spline_seek src_X x (src_X.length + 1) cur with
  | Except.error e => Except.error e
  | Except.ok cur =>
    match rd src_X (cur + 1), rd src_X cur, rd src_Y cur, rd src_Y (cur + 1), rd D2 cur,
      rd D2 (cur + 1) with
    | Except.ok xn, Except.ok xc, Except.ok yc, Except.ok yn, Except.ok dc, Except.ok dn =>
      let h := eval_width xn xc
      if ¬ (h > 0) then Except.error Stop.assertion
      else
        let a := (xn - x) / h
        let b := (x - xc) / h
        Except.ok ((a * yc) + (b * yn) +
          (((a * a * a - a) * dc) + ((b * b * b - b) * dn)) * (h * h) / 6, cur)
    | _, _, _, _, _, _ => Except.error Stop.bounds

/-- The evaluation loop `for (i = 0; i < dest_len; i++)` of `spline_gen`. -/
def spline_points (src_X src_Y D2 : List D) : Nat → List D → Except Stop (List D)
  | _, [] => Except.ok []
  | cur, x :: rest =>
    match spline_point src_X src_Y D2 cur x with
    | Except.error e => Except.error e
    | Except.ok (y, cur) =>
      match spline_points src_X src_Y D2 cur rest with
      | Except.error e => Except.error e
      | Except.ok ys => Except.ok (y :: ys)

/-- Cubic spline resampling: `spline_gen`; the result is the array `dest_Y`. -/
def spline_gen (src_X src_Y dest_X : List D) : Except Stop (List D) :=
  match range_check src_X dest_X with
  | none => Except.error Stop.bounds
  | some true => Except.error Stop.assertion
  | some false => spline_points src_X src_Y (spline_D2 src_X src_Y) 0 dest_X

/-- What `lerp_gen` stores for the destination `x`: the interpolation on the
first interval `s` that brackets `x`, as the code computes it. -/
def LerpResult (src_X src_Y : List D) (x y : D) : Prop :=
  ∃ s, s + 1 < src_X.length ∧
    src_X.getD s 0 ≤ x ∧ x ≤ src_X.getD (s + 1) 0 ∧
    (∀ t, t < s → ¬ (src_X.getD t 0 ≤ x ∧ x ≤ src_X.getD (t + 1) 0)) ∧
    y = src_Y.getD s 0 + ((src_Y.getD (s + 1) 0 - src_Y.getD s 0) *
      ((x - src_X.getD s 0) / (src_X.getD (s + 1) 0 - src_X.getD s 0)))

end resamplers

end Spline

namespace SPARAMS

/-- A one-port file without option line whose two data lines both have the
frequency 1 (in GHz, the default unit). -/
def repeatFile : List (List Char) :=
  [['1', ' ', '2', ' ', '3'], ['1', ' ', '4', ' ', '5']]

end SPARAMS

namespace SPARAMS

/-- The digits at the head of a text, read as a number that continues the value
`acc`: the value, the count of digits, and the text after them. -/
def scan_digits : List Char → Nat → Nat × Nat × List Char
  | [], acc => (acc, 0, [])
  | c :: cs, acc =>
    if c.isDigit then
      ((scan_digits cs (10 * acc + (c.toNat - 48))).1,
       (scan_digits cs (10 * acc + (c.toNat - 48))).2.1 + 1,
       (scan_digits cs (10 * acc + (c.toNat - 48))).2.2)
    else (acc, 0, c :: cs)

/-- An unsigned decimal number `ddd` or `ddd.ddd` after optional blanks: its
digits as one number, the count of decimals, the count of characters consumed,
and the text after it; `none` when no digit is found. -/
def scan_decimal (cs : List Char) : Option (Nat × Nat × Nat × List Char) :=
  match scan_digits (cs.dropWhile isspace) 0 with
  | (m, n, rest) =>
    if n = 0 then none
    else
      match rest with
      | '.' :: rest2 =>
        match scan_digits rest2 m with
        | (m2, n2, rest3) => some (m2, n2, (cs.takeWhile isspace).length + n + 1 + n2, rest3)
      | _ => some (m, 0, (cs.takeWhile isspace).length + n, rest)

/-- The decimal numbers at the start of a text, at most `fuel` of them. -/
def scan_numbers : Nat → List Char → List (Nat × Nat)
  | 0, _ => []
  | fuel + 1, cs =>
    match scan_decimal cs with
    | none => []
    | some (m, d, _, rest) => (m, d) :: scan_numbers fuel rest

/-- Text conversions for unsigned decimal numbers without exponent, on which
they give what `sscanf` gives: `%lf` skips blanks and converts `ddd.ddd`, and
the format `R %lf%n` matches the letter, converts the number and counts the
characters consumed. -/
def decimalScanf : Scanf ℚ where
  numbers txt := (scan_numbers txt.length txt).map (fun p => ((p.1 : Nat) : ℚ) / 10 ^ p.2)
  R_number src :=
    match src with
    | 'R' :: rest =>
      match scan_decimal rest with
      | none => none
      | some (m, d, len, _) => some (((m : Nat) : ℚ) / 10 ^ d, len + 1)
    | _ => none

end SPARAMS

/-! ## sparams.cpp: the Touchstone writer -/

/-- The C library's double-to-text conversions called by `write_SNP_file`. -/
structure Printf (D : Type) where
  /-- The text of `%lf`. -/
  lf : D → List Char
  /-- The text of `%lG`. -/
  lG : D → List Char

namespace SPARAMS

variable {D : Type}

/-- The table `freq_fac` of `write_SNP_file`. -/
def freq_fac [NatCast D] : List D :=
  [((1 : Nat) : D), ((1000 : Nat) : D), ((1000000 : Nat) : D), ((1000000000 : Nat) : D)]

/-- The cells `(b, a)` in the order in which the loops `for a`, `for b` of
`write_SNP_file` print them on a data line. -/
def write_order (n_ports : Nat) : List (Nat × Nat) :=
  (List.range n_ports).flatMap (fun a => (List.range n_ports).map (fun b => (b, a)))

section writer
variable [LinearOrderedField D]

/-- The text `"%lf %lf "` of one cell in the format chosen, with the matrix
after the read accessor; `none` is an `assert`. -/
def write_cell (P : Printf D) (K : MathLib D) (format : U8) (i : Nat) (M : SPARAMS D)
    (b a : Nat) : Option (List Char × SPARAMS D) :=
  if format = SNPTYPE.MA then
    match get_MA K M i b a with
    | none => none
    | some (v, M1) => some (P.lf v.mag ++ [' '] ++ P.lf v.deg ++ [' '], M1)
  else if format = SNPTYPE.DB then
    match get_DB K M i b a with
    | none => none
    | some (v, M1) => some (P.lf v.dB ++ [' '] ++ P.lf v.deg ++ [' '], M1)
  else if format = SNPTYPE.RI then
    match get_RI K M i b a with
    | none => none
    | some (v, M1) => some (P.lf v.real ++ [' '] ++ P.lf v.imag ++ [' '], M1)
  else none

/-- The cells of one data line, printed in the order given. -/
def write_cells (P : Printf D) (K : MathLib D) (format : U8) (i : Nat) :
    List (Nat × Nat) → SPARAMS D → Option (List Char × SPARAMS D)
  | [], M => some ([], M)
  | (b, a) :: rest, M =>
    match write_cell P K format i M b a with
    | none => none
    | some (t, M1) =>
      match write_cells P K format i rest M1 with
      | none => none
      | some (ts, M2) => some (t ++ ts, M2)

/-- The data line of point `i` that `write_SNP_file` prints: the frequency
divided by `freq_fac[freq_fmt]`, then the cells. -/
def write_data_line (P : Printf D) (K : MathLib D) (format : U8) (freq_fmt : Nat) (i : Nat)
    (M : SPARAMS D) : Option (List Char × SPARAMS D) :=
  match write_cells P K format i (write_order M.n_ports.toNat) M with
  | none => none
  | some (t, M1) =>
    some (P.lf (M.freq_Hz i / (freq_fac.getD freq_fmt 0)) ++ [' '] ++ t ++ ['\n'], M1)

end writer

end SPARAMS

namespace SPARAMS

/-- The tokens of the option-line grammar: a frequency unit, the parameter type
`S`, an encoding, or the letter `R`, a blank and the text of a number with the
value that `sscanf` converts from it. -/
inductive OptTok (D : Type) where
  | HZ
  | KHZ
  | MHZ
  | GHZ
  | S
  | MA
  | DB
  | RI
  | R (num : List Char) (v : D)

variable {D : Type}

/-- The text of a token in upper case. -/
def OptTok.text : OptTok D → List Char
  | OptTok.HZ => ['H', 'Z']
  | OptTok.KHZ => ['K', 'H', 'Z']
  | OptTok.MHZ => ['M', 'H', 'Z']
  | OptTok.GHZ => ['G', 'H', 'Z']
  | OptTok.S => ['S']
  | OptTok.MA => ['M', 'A']
  | OptTok.DB => ['D', 'B']
  | OptTok.RI => ['R', 'I']
  | OptTok.R num _ => 'R' :: ' ' :: num

/-- The frequency scale that a token declares, if it is a unit. -/
def OptTok.scale [NatCast D] : OptTok D → Option D
  | OptTok.HZ => some ((1 : Nat) : D)
  | OptTok.KHZ => some ((1000 : Nat) : D)
  | OptTok.MHZ => some ((1000000 : Nat) : D)
  | OptTok.GHZ => some ((1000000000 : Nat) : D)
  | _ => none

/-- The encoding that a token declares, if it is one. -/
def OptTok.format : OptTok D → Option U8
  | OptTok.MA => some SNPTYPE.MA
  | OptTok.DB => some SNPTYPE.DB
  | OptTok.RI => some SNPTYPE.RI
  | _ => none

/-- The reference resistance that a token declares, if it is an `R` pair. -/
def OptTok.resistance : OptTok D → Option D
  | OptTok.R _ v => some v
  | _ => none

/-- The token is the parameter type `S`. -/
def OptTok.isS : OptTok D → Bool
  | OptTok.S => true
  | _ => false

/-- The option-line variables after a token, by the grammar. -/
def OptTok.apply [NatCast D] (h : SNPHeader D) (t : OptTok D) : SNPHeader D :=
  { file_scale := t.scale.getD h.file_scale
    file_param := if t.isS then 'S' else h.file_param
    file_format := t.format.getD h.file_format
    file_R := t.resistance.getD h.file_R }

/-- The text of an option line after the `#`: every token preceded by its
separator, and the blanks `tail` at the end. -/
def option_text (items : List (List Char × OptTok D)) (tail : List Char) : List Char :=
  items.flatMap (fun it => it.1 ++ it.2.text) ++ tail

/-- What the grammar says an option line declares, given the values before it:
the scale of the unit given, the parameter type `S`, the encoding given and
the resistance given, each left as it was when the line does not give it. -/
def declared [NatCast D] (items : List (List Char × OptTok D)) (h : SNPHeader D) :
    SNPHeader D :=
  { file_scale := (items.findSome? (fun it => it.2.scale)).getD h.file_scale
    file_param := if items.any (fun it => it.2.isS) then 'S' else h.file_param
    file_format := (items.findSome? (fun it => it.2.format)).getD h.file_format
    file_R := (items.findSome? (fun it => it.2.resistance)).getD h.file_R }

/-- At most one unit, at most one encoding and at most one `R` pair. -/
def at_most_one [NatCast D] (items : List (List Char × OptTok D)) : Prop :=
  (items.filter (fun it => it.2.scale.isSome)).length ≤ 1 ∧
  (items.filter (fun it => it.2.format.isSome)).length ≤ 1 ∧
  (items.filter (fun it => it.2.resistance.isSome)).length ≤ 1

end SPARAMS

namespace SPARAMS

variable {D : Type}

/-- The option-line loop ends on every line of the file, from every state of
the option variables. -/
def scans [NatCast D] (S : Scanf D) (lines : List (List Char)) : Prop :=
  ∀ l ∈ lines, ∀ txt, strip l = some txt → ∀ h : SNPHeader D,
    option_loop S (txt.length + 1) ((txt.map Char.toUpper).drop 1) h ≠ none

end SPARAMS

/-- The C library in binary64 on the arguments that the conversions of the
rectangular value `(2^50, 2^50)` and of the polar magnitude `5` reach:
`sqrt(2^101)`, `atan2(2^50, 2^50)`, the cosine and the sine of that angle,
`log10(5)` and `pow(10, log10(5))`.  Each entry is the double that the library
returns there, written as a fraction; no other argument is reached, and the
functions are given the value 0 there. -/
def roundedMath : MathLib ℚ where
  pow x y :=
    if x = 10 ∧ y = 6295762102141697 / 9007199254740992 then
      5629499534213121 / 1125899906842624
    else 0
  sqrt x := if x = 2 ^ 101 then 6369051672525773 / 4 else 0
  atan2 y x := if y = 2 ^ 50 ∧ x = 2 ^ 50 then 884279719003555 / 1125899906842624 else 0
  cos x :=
    if x = 884279719003555 / 1125899906842624 then 6369051672525773 / 9007199254740992 else 0
  sin x :=
    if x = 884279719003555 / 1125899906842624 then 1592262918131443 / 2251799813685248 else 0
  log10 x := if x = 5 then 6295762102141697 / 9007199254740992 else 0

/-! ## Lemmas on the binary codec -/

namespace SPARAMS

variable {D : Type}

theorem toS32_of_range {x : Int} (h1 : -2147483648 ≤ x) (h2 : x < 2147483648) : toS32 x = x := by
  unfold toS32; omega

theorem length_le_bytes (k v : Nat) : (le_bytes k v).length = k := by
  induction k generalizing v with
  | zero => rfl
  | succ k ih => simp [le_bytes, ih]

theorem length_flatMap_range {α : Type} (f : Nat → List α) (c : Nat)
    (hf : ∀ i, (f i).length = c) (k : Nat) :
    ((List.range k).flatMap f).length = k * c := by
  induction k with
  | zero => simp
  | succ k ih =>
    rw [List.range_succ, List.flatMap_append, List.length_append, ih]
    simp [hf, Nat.succ_mul]

theorem agrees_append (block : Nat → U8) (off : Nat) (L1 L2 : List U8) :
    agrees block off (L1 ++ L2) ↔ agrees block off L1 ∧ agrees block (off + L1.length) L2 := by
  induction L1 generalizing off with
  | nil => simp [agrees]
  | cons x xs ih =>
    have e : off + 1 + xs.length = off + (xs.length + 1) := by omega
    rw [List.cons_append]
    simp only [agrees, List.length_cons]
    rw [ih (off + 1), e, and_assoc]

theorem agrees_of_forall (block : Nat → U8) (L : List U8) (off : Nat)
    (h : ∀ i (hi : i < L.length), block (off + i) = L[i]) : agrees block off L := by
  induction L generalizing off with
  | nil => trivial
  | cons x xs ih =>
    refine ⟨by simpa using h 0 (by simp), ih (off + 1) ?_⟩
    intro i hi
    have := h (i + 1) (by simpa using hi)
    simpa [Nat.add_assoc, Nat.add_comm 1 i] using this

theorem rd_le_bytes (block : Nat → U8) (k off v : Nat) (h : agrees block off (le_bytes k v)) :
    rd_le block off k = v % 256 ^ k := by
  induction k generalizing off v with
  | zero => simp [rd_le, Nat.mod_one]
  | succ k ih =>
    obtain ⟨h0, h1⟩ := h
    rw [rd_le, ih (off + 1) (v / 256) h1, h0]
    simp only [pow_succ]
    rw [Nat.mul_comm (256 ^ k) 256, Nat.mod_mul]

theorem agrees_flatMap_range (block : Nat → U8) (f : Nat → List U8) (c : Nat)
    (hf : ∀ i, (f i).length = c) (k off : Nat)
    (h : agrees block off ((List.range k).flatMap f)) :
    ∀ i, i < k → agrees block (off + c * i) (f i) := by
  induction k with
  | zero => intro i hi; omega
  | succ k ih =>
    rw [List.range_succ, List.flatMap_append, agrees_append, length_flatMap_range f c hf] at h
    intro i hi
    rcases Nat.lt_succ_iff_lt_or_eq.mp hi with hlt | rfl
    · exact ih h.1 i hlt
    · have := h.2
      simp only [List.flatMap_cons, List.flatMap_nil, List.append_nil] at this
      rwa [Nat.mul_comm] at this

theorem sameHeader_refl (S : SPARAMS D) : sameHeader S S := ⟨rfl, rfl, rfl, rfl, rfl, rfl⟩

theorem sameHeader_trans {S T U : SPARAMS D} (h1 : sameHeader S T) (h2 : sameHeader T U) :
    sameHeader S U :=
  ⟨h2.1.trans h1.1, h2.2.1.trans h1.2.1, h2.2.2.1.trans h1.2.2.1,
   h2.2.2.2.1.trans h1.2.2.2.1, h2.2.2.2.2.1.trans h1.2.2.2.2.1,
   h2.2.2.2.2.2.trans h1.2.2.2.2.2⟩

theorem agrees_map_range (block : Nat → U8) (g : Nat → U8) (k off : Nat)
    (h : agrees block off ((List.range k).map g)) : ∀ i, i < k → block (off + i) = g i := by
  induction k with
  | zero => intro i hi; omega
  | succ k ih =>
    rw [List.range_succ, List.map_append, agrees_append] at h
    intro i hi
    rcases Nat.lt_succ_iff_lt_or_eq.mp hi with hlt | rfl
    · exact ih h.1 i hlt
    · have := h.2
      simp only [List.length_map, List.length_range, List.map_cons, List.map_nil, agrees] at this
      exact this.1

theorem rd_dbl_bytes (R : DoubleRep D) (block : Nat → U8) (off : Nat) (d : D)
    (h : agrees block off (dbl_bytes R d)) : rd_dbl R block off = d := by
  unfold rd_dbl
  rw [rd_le_bytes block 8 off (R.bits d) h, Nat.mod_eq_of_lt (by simpa using R.bits_lt d)]
  exact R.ofBits_bits d

theorem length_dbl_bytes (R : DoubleRep D) (d : D) : (dbl_bytes R d).length = 8 :=
  length_le_bytes 8 _

theorem rd_pair (R : DoubleRep D) (block : Nat → U8) (off : Nat) (x y : D)
    (h : agrees block off (dbl_bytes R x ++ dbl_bytes R y)) :
    rd_dbl R block off = x ∧ rd_dbl R block (off + 8) = y := by
  rw [agrees_append, length_dbl_bytes] at h
  exact ⟨rd_dbl_bytes R block off x h.1, rd_dbl_bytes R block (off + 8) y h.2⟩

theorem length_put_cell (R : DoubleRep D) (M : SPARAMS D) (b a : Nat) :
    (put_cell R M b a).length = 65 * M.n_points.toNat := by
  unfold put_cell
  simp only [List.length_append, List.length_map, List.length_range]
  rw [length_flatMap_range _ 16 (by intro i; simp [length_dbl_bytes]),
      length_flatMap_range _ 16 (by intro i; simp [length_dbl_bytes]),
      length_flatMap_range _ 16 (by intro i; simp [length_dbl_bytes]),
      length_flatMap_range _ 16 (by intro i; simp [length_dbl_bytes])]
  omega

theorem deserialize_cell_spec (R : DoubleRep D) (block : Nat → U8) (M S : SPARAMS D)
    (b a off n : Nat) (hM : M.n_points.toNat = n) (hS : S.n_points.toNat = n)
    (h : agrees block off (put_cell R M b a)) :
    (deserialize_cell R block b a (off, S)).1 = off + 65 * n ∧
    sameHeader S (deserialize_cell R block b a (off, S)).2 ∧
    ∀ b1 a1 pt, cell (deserialize_cell R block b a (off, S)).2 b1 a1 pt =
      if b1 = b ∧ a1 = a ∧ pt < n then cell M b a pt else cell S b1 a1 pt := by
  unfold put_cell at h
  rw [hM] at h
  have l16 : ∀ (f g : Nat → D) (i : Nat), (dbl_bytes R (f i) ++ dbl_bytes R (g i)).length = 16 := by
    intro f g i; simp [length_dbl_bytes]
  simp only [agrees_append, List.length_append, List.length_map, List.length_range] at h
  rw [length_flatMap_range _ 16 (l16 _ _), length_flatMap_range _ 16 (l16 _ _),
      length_flatMap_range _ 16 (l16 _ _)] at h
  obtain ⟨⟨⟨⟨hv, hma⟩, hdb⟩, hri⟩, hcz⟩ := h
  have hv1 := agrees_map_range block _ n off hv
  have hma1 := agrees_flatMap_range block _ 16 (l16 _ _) n _ hma
  have hdb1 := agrees_flatMap_range block _ 16 (l16 _ _) n _ hdb
  have hri1 := agrees_flatMap_range block _ 16 (l16 _ _) n _ hri
  have hcz1 := agrees_flatMap_range block _ 16 (l16 _ _) n _ hcz
  refine ⟨?_, ?_, ?_⟩
  · simp only [deserialize_cell, hS]; omega
  · exact ⟨rfl, rfl, rfl, rfl, rfl, rfl⟩
  · intro b1 a1 pt
    simp only [deserialize_cell, cell, setRow, hS]
    by_cases hba : b1 = b ∧ a1 = a
    · obtain ⟨rfl, rfl⟩ := hba
      by_cases hpt : pt < n
      · have e1 := rd_pair R block _ _ _ (hma1 pt hpt)
        have e2 := rd_pair R block _ _ _ (hdb1 pt hpt)
        have e3 := rd_pair R block _ _ _ (hri1 pt hpt)
        have e4 := rd_pair R block _ _ _ (hcz1 pt hpt)
        simp only [true_and, and_self, if_true, hpt, hv1 pt hpt]
        simp only [Nat.mul_one, Nat.mul_comm n 16, ← Nat.add_assoc] at e1 e2 e3 e4 ⊢
        rw [e1.1, e1.2, e2.1, e2.2, e3.1, e3.2, e4.1, e4.2]
      · simp [hpt]
    · have : ¬ (b1 = b ∧ a1 = a ∧ pt < n) := fun h => hba ⟨h.1, h.2.1⟩
      simp [hba, this]

theorem deserialize_row_spec (R : DoubleRep D) (block : Nat → U8) (M S : SPARAMS D)
    (b n : Nat) (hM : M.n_points.toNat = n) (hS : S.n_points.toNat = n) (k off : Nat)
    (h : agrees block off ((List.range k).flatMap (fun a => put_cell R M b a))) :
    ((List.range k).foldl (fun st a => deserialize_cell R block b a st) (off, S)).1
        = off + k * (65 * n) ∧
    sameHeader S ((List.range k).foldl (fun st a => deserialize_cell R block b a st) (off, S)).2 ∧
    ∀ b1 a1 pt,
      cell ((List.range k).foldl (fun st a => deserialize_cell R block b a st) (off, S)).2 b1 a1 pt
        = if b1 = b ∧ a1 < k ∧ pt < n then cell M b a1 pt else cell S b1 a1 pt := by
  induction k with
  | zero => exact ⟨by simp, sameHeader_refl S, by intro b1 a1 pt; simp⟩
  | succ k ih =>
    have hlen : ∀ a, (put_cell R M b a).length = 65 * n := by
      intro a; rw [length_put_cell, hM]
    rw [List.range_succ, List.flatMap_append, agrees_append, length_flatMap_range _ _ hlen] at h
    obtain ⟨h1, h2⟩ := h
    simp only [List.flatMap_cons, List.flatMap_nil, List.append_nil] at h2
    obtain ⟨i1, i2, i3⟩ := ih h1
    rw [List.range_succ, List.foldl_append]
    simp only [List.foldl_cons, List.foldl_nil]
    generalize (List.range k).foldl (fun st a => deserialize_cell R block b a st) (off, S) = st
      at i1 i2 i3
    have hst : st.2.n_points.toNat = n := by rw [i2.2.1, hS]
    rw [← i1] at h2
    obtain ⟨j1, j2, j3⟩ := deserialize_cell_spec R block M st.2 b k st.1 n hM hst h2
    refine ⟨?_, sameHeader_trans i2 j2, ?_⟩
    · show (deserialize_cell R block b k (st.1, st.2)).1 = _
      rw [j1, i1]; ring
    · intro b1 a1 pt
      show cell (deserialize_cell R block b k (st.1, st.2)).2 b1 a1 pt = _
      rw [j3, i3]
      by_cases c1 : b1 = b ∧ a1 = k ∧ pt < n
      · obtain ⟨rfl, rfl, hpt⟩ := c1
        simp [hpt]
      · rw [if_neg c1]
        by_cases c2 : b1 = b ∧ a1 < k ∧ pt < n
        · rw [if_pos c2, if_pos ⟨c2.1, by omega, c2.2.2⟩]
        · rw [if_neg c2, if_neg]
          rintro ⟨e1, e2, e3⟩
          rcases Nat.lt_succ_iff_lt_or_eq.mp e2 with e | e
          · exact c2 ⟨e1, e, e3⟩
          · exact c1 ⟨e1, e, e3⟩

theorem deserialize_cells_spec (R : DoubleRep D) (block : Nat → U8) (M S : SPARAMS D)
    (p n : Nat) (hM : M.n_points.toNat = n) (hS : S.n_points.toNat = n)
    (hp : S.n_ports.toNat = p) (k off : Nat)
    (h : agrees block off
      ((List.range k).flatMap (fun b => (List.range p).flatMap (fun a => put_cell R M b a)))) :
    ((List.range k).foldl
      (fun st b => (List.range st.2.n_ports.toNat).foldl
        (fun st a => deserialize_cell R block b a st) st) (off, S)).1
        = off + k * (p * (65 * n)) ∧
    sameHeader S ((List.range k).foldl
      (fun st b => (List.range st.2.n_ports.toNat).foldl
        (fun st a => deserialize_cell R block b a st) st) (off, S)).2 ∧
    ∀ b1 a1 pt,
      cell ((List.range k).foldl
        (fun st b => (List.range st.2.n_ports.toNat).foldl
          (fun st a => deserialize_cell R block b a st) st) (off, S)).2 b1 a1 pt
        = if b1 < k ∧ a1 < p ∧ pt < n then cell M b1 a1 pt else cell S b1 a1 pt := by
  induction k with
  | zero => exact ⟨by simp, sameHeader_refl S, by intro b1 a1 pt; simp⟩
  | succ k ih =>
    have hcl : ∀ b a, (put_cell R M b a).length = 65 * n := by
      intro b a; rw [length_put_cell, hM]
    have hlen : ∀ b, ((List.range p).flatMap (fun a => put_cell R M b a)).length = p * (65 * n) :=
      fun b => length_flatMap_range _ _ (hcl b) p
    rw [List.range_succ, List.flatMap_append, agrees_append, length_flatMap_range _ _ hlen] at h
    obtain ⟨h1, h2⟩ := h
    simp only [List.flatMap_cons, List.flatMap_nil, List.append_nil] at h2
    obtain ⟨i1, i2, i3⟩ := ih h1
    rw [List.range_succ, List.foldl_append]
    simp only [List.foldl_cons, List.foldl_nil]
    generalize (List.range k).foldl
      (fun st b => (List.range st.2.n_ports.toNat).foldl
        (fun st a => deserialize_cell R block b a st) st) (off, S) = st at i1 i2 i3
    have hst : st.2.n_points.toNat = n := by rw [i2.2.1, hS]
    have hsp : st.2.n_ports.toNat = p := by rw [i2.1, hp]
    rw [← i1] at h2
    obtain ⟨j1, j2, j3⟩ := deserialize_row_spec R block M st.2 k n hM hst p st.1 h2
    rw [hsp]
    refine ⟨?_, sameHeader_trans i2 j2, ?_⟩
    · show ((List.range p).foldl (fun st a => deserialize_cell R block k a st) (st.1, st.2)).1 = _
      rw [j1, i1]; ring
    · intro b1 a1 pt
      show cell ((List.range p).foldl
        (fun st a => deserialize_cell R block k a st) (st.1, st.2)).2 b1 a1 pt = _
      rw [j3, i3]
      by_cases c1 : b1 = k ∧ a1 < p ∧ pt < n
      · obtain ⟨rfl, ha, hpt⟩ := c1
        simp [ha, hpt]
      · rw [if_neg c1]
        by_cases c2 : b1 < k ∧ a1 < p ∧ pt < n
        · rw [if_pos c2, if_pos ⟨by omega, c2.2.1, c2.2.2⟩]
        · rw [if_neg c2, if_neg]
          rintro ⟨e1, e2, e3⟩
          rcases Nat.lt_succ_iff_lt_or_eq.mp e1 with e | e
          · exact c2 ⟨e, e2, e3⟩
          · exact c1 ⟨e, e2, e3⟩

theorem serialize_n_data_bytes_eq (M : SPARAMS D) (hp : 0 ≤ M.n_ports) (hn : 0 ≤ M.n_points)
    (hsz : 52 + 8 * M.n_points + 65 * (M.n_ports * M.n_ports * M.n_points) < 2147483648) :
    serialize_n_data_bytes M = 40 + 8 * M.n_points + 65 * (M.n_ports * M.n_ports * M.n_points) := by
  unfold serialize_n_data_bytes
  have hq : 0 ≤ M.n_ports * M.n_ports := mul_nonneg hp hp
  have hm : 0 ≤ M.n_ports * M.n_ports * M.n_points := mul_nonneg hq hn
  have hmat : toS32 (toS32 (M.n_ports * M.n_ports) * M.n_points)
      = M.n_ports * M.n_ports * M.n_points := by
    rcases lt_or_ge 0 M.n_points with h | h
    · have hle : M.n_ports * M.n_ports ≤ M.n_ports * M.n_ports * M.n_points :=
        le_mul_of_one_le_right hq h
      have e1 : toS32 (M.n_ports * M.n_ports) = M.n_ports * M.n_ports :=
        toS32_of_range (by omega) (by omega)
      rw [e1, toS32_of_range (by omega) (by omega)]
    · have h0 : M.n_points = 0 := le_antisymm h hn
      rw [h0]; simp [toS32]
  simp only [hmat]
  generalize M.n_ports * M.n_ports * M.n_points = m at *
  simp only [toS32]
  omega

theorem serialize_n_block_bytes_eq (M : SPARAMS D) (hp : 0 ≤ M.n_ports) (hn : 0 ≤ M.n_points)
    (hsz : 52 + 8 * M.n_points + 65 * (M.n_ports * M.n_ports * M.n_points) < 2147483648) :
    serialize_n_block_bytes M = 52 + 8 * M.n_points + 65 * (M.n_ports * M.n_ports * M.n_points) := by
  have hm : 0 ≤ M.n_ports * M.n_ports * M.n_points := mul_nonneg (mul_nonneg hp hp) hn
  unfold serialize_n_block_bytes
  rw [serialize_n_data_bytes_eq M hp hn hsz, toS32_of_range (by omega) (by omega)]
  omega

theorem length_serialize_bytes (R : DoubleRep D) (M : SPARAMS D) :
    (serialize_bytes R M).length = 52 + 8 * M.n_points.toNat
      + M.n_ports.toNat * (M.n_ports.toNat * (65 * M.n_points.toNat)) := by
  unfold serialize_bytes put_freq s32_bytes
  simp only [List.length_append, length_le_bytes, length_dbl_bytes]
  rw [length_flatMap_range _ 8 (fun i => length_dbl_bytes R _),
      length_flatMap_range _ (M.n_ports.toNat * (65 * M.n_points.toNat))
        (fun b => length_flatMap_range _ _ (fun a => length_put_cell R M b a) _)]
  omega

theorem length_serialize_bytes_int (R : DoubleRep D) (M : SPARAMS D) (hp : 0 ≤ M.n_ports)
    (hn : 0 ≤ M.n_points) :
    ((serialize_bytes R M).length : Int)
      = 52 + 8 * M.n_points + 65 * (M.n_ports * M.n_ports * M.n_points) := by
  rw [length_serialize_bytes]
  push_cast
  rw [Int.toNat_of_nonneg hp, Int.toNat_of_nonneg hn]
  ring

theorem serialize_ok (R : DoubleRep D) (M : SPARAMS D) (hp : 0 ≤ M.n_ports) (hn : 0 ≤ M.n_points)
    (hsz : 52 + 8 * M.n_points + 65 * (M.n_ports * M.n_ports * M.n_points) < 2147483648) :
    serialize R M = Except.ok (serialize_bytes R M) := by
  have hm : 0 ≤ M.n_ports * M.n_ports * M.n_points := mul_nonneg (mul_nonneg hp hp) hn
  unfold serialize
  rw [serialize_n_block_bytes_eq M hp hn hsz, length_serialize_bytes_int R M hp hn,
      if_neg (by omega), if_pos rfl]

theorem rd_s32_bytes (block : Nat → U8) (off : Nat) (x : Int)
    (h : agrees block off (s32_bytes x)) (h1 : -2147483648 ≤ x) (h2 : x < 2147483648) :
    rd_s32 block off = x := by
  unfold rd_s32
  rw [rd_le_bytes block 4 off _ h]
  have e : (256 : Nat) ^ 4 = 4294967296 := by norm_num
  rw [e]
  unfold toS32
  omega

theorem alloc_pos (R : DoubleRep D) (ports points : Int) (M : SPARAMS D)
    (hp : 0 < ports) (hn : 0 < points) :
    (alloc R.consts ports points M).1 = true ∧
    (alloc R.consts ports points M).2.n_ports = ports ∧
    (alloc R.consts ports points M).2.n_points = points ∧
    (alloc R.consts ports points M).2.min_Hz = M.min_Hz ∧
    (alloc R.consts ports points M).2.max_Hz = M.max_Hz ∧
    (alloc R.consts ports points M).2.Zo = M.Zo := by
  have c1 : ¬ (points = 0 ∨ ports = 0) := by omega
  have c2 : ¬ points < 0 := by omega
  have c3 : ¬ ports < 0 := by omega
  unfold alloc
  simp only [if_neg c1, if_neg c2, if_neg c3]
  refine ⟨trivial, trivial, trivial, ?_, ?_, ?_⟩ <;> split <;> rfl

theorem deserialize_cells_all (R : DoubleRep D) (block : Nat → U8) (M Y : SPARAMS D)
    (hYp : Y.n_ports = M.n_ports) (hYn : Y.n_points = M.n_points) (off : Nat)
    (h : agrees block off ((List.range M.n_ports.toNat).flatMap
      (fun b => (List.range M.n_ports.toNat).flatMap (fun a => put_cell R M b a)))) :
    (deserialize_cells R block (off, Y)).1
      = off + M.n_ports.toNat * (M.n_ports.toNat * (65 * M.n_points.toNat)) ∧
    sameHeader Y (deserialize_cells R block (off, Y)).2 ∧
    ∀ b a pt, cell (deserialize_cells R block (off, Y)).2 b a pt =
      if b < M.n_ports.toNat ∧ a < M.n_ports.toNat ∧ pt < M.n_points.toNat then cell M b a pt
      else cell Y b a pt := by
  unfold deserialize_cells
  simp only [hYp]
  exact deserialize_cells_spec R block M Y M.n_ports.toNat M.n_points.toNat rfl
    (by rw [hYn]) (by rw [hYp]) M.n_ports.toNat off h

theorem foldl_offset {ι : Type} (step : ι → Nat × SPARAMS D → Nat × SPARAMS D)
    (c : SPARAMS D → Nat) (hc : ∀ S T, sameHeader S T → c T = c S)
    (hstep : ∀ x st, (step x st).1 = st.1 + c st.2 ∧ sameHeader st.2 (step x st).2)
    (l : List ι) (st : Nat × SPARAMS D) :
    (l.foldl (fun st x => step x st) st).1 = st.1 + l.length * c st.2 ∧
    sameHeader st.2 (l.foldl (fun st x => step x st) st).2 := by
  induction l generalizing st with
  | nil => exact ⟨by simp, sameHeader_refl _⟩
  | cons x xs ih =>
    obtain ⟨h1, h2⟩ := hstep x st
    obtain ⟨i1, i2⟩ := ih (step x st)
    simp only [List.foldl_cons, List.length_cons]
    refine ⟨?_, sameHeader_trans h2 i2⟩
    rw [i1, h1, hc _ _ h2]; ring

theorem deserialize_cell_offset (R : DoubleRep D) (block : Nat → U8) (b a : Nat)
    (st : Nat × SPARAMS D) :
    (deserialize_cell R block b a st).1 = st.1 + 65 * st.2.n_points.toNat ∧
    sameHeader st.2 (deserialize_cell R block b a st).2 := by
  refine ⟨?_, rfl, rfl, rfl, rfl, rfl, rfl⟩
  simp only [deserialize_cell]; omega

theorem deserialize_cells_offset (R : DoubleRep D) (block : Nat → U8) (st : Nat × SPARAMS D) :
    (deserialize_cells R block st).1
      = st.1 + st.2.n_ports.toNat * (st.2.n_ports.toNat * (65 * st.2.n_points.toNat)) ∧
    sameHeader st.2 (deserialize_cells R block st).2 := by
  unfold deserialize_cells
  have inner : ∀ (b : Nat) (st : Nat × SPARAMS D),
      ((List.range st.2.n_ports.toNat).foldl
        (fun st a => deserialize_cell R block b a st) st).1
        = st.1 + st.2.n_ports.toNat * (65 * st.2.n_points.toNat) ∧
      sameHeader st.2 ((List.range st.2.n_ports.toNat).foldl
        (fun st a => deserialize_cell R block b a st) st).2 := by
    intro b st
    have := foldl_offset (fun a st => deserialize_cell R block b a st)
      (fun S => 65 * S.n_points.toNat) (fun S T h => by simp only [h.2.1])
      (fun a st => deserialize_cell_offset R block b a st) (List.range st.2.n_ports.toNat) st
    simpa using this
  have := foldl_offset
    (fun b st => (List.range st.2.n_ports.toNat).foldl
      (fun st a => deserialize_cell R block b a st) st)
    (fun S => S.n_ports.toNat * (65 * S.n_points.toNat))
    (fun S T h => by simp only [h.1, h.2.1]) inner (List.range st.2.n_ports.toNat) st
  simpa using this

theorem rd_le_magic (block : Nat → U8) :
    rd_le block 0 4 = SPARAM.BIN_ID ↔
      (block 0 = 0x53 ∧ block 1 = 0x4E ∧ block 2 = 0x50 ∧ block 3 = 0x42) := by
  simp only [rd_le, SPARAM.BIN_ID, Fin.ext_iff]
  have h0 := (block 0).isLt
  have h1 := (block 1).isLt
  have h2 := (block 2).isLt
  have h3 := (block 3).isLt
  simp only [Nat.zero_add, Nat.reduceAdd] at *
  constructor
  · intro h; omega
  · intro h; omega

/-- What `deserialize` does with a block that has the right magic and
version: everything hangs on the outcome of `alloc`. -/
theorem deserialize_eq (R : DoubleRep D) (block : Nat → U8) (S : SPARAMS D)
    (hid : rd_le block 0 4 = SPARAM.BIN_ID) (hver : rd_le block 4 4 = SPARAM.BIN_VERSION) :
    deserialize R block S =
      if (alloc R.consts (rd_s32 block 12) (rd_s32 block 16)
            (deserialize_scalars R block (init R.consts (clear R.consts S)))).1 = true then
        deserialize_check (rd_s32 block 8)
          (deserialize_cells R block
            (52 + (alloc R.consts (rd_s32 block 12) (rd_s32 block 16)
                (deserialize_scalars R block (init R.consts (clear R.consts S)))).2.n_points.toNat * 8,
             deserialize_freq R block (alloc R.consts (rd_s32 block 12) (rd_s32 block 16)
                (deserialize_scalars R block (init R.consts (clear R.consts S)))).2))
      else (52, (alloc R.consts (rd_s32 block 12) (rd_s32 block 16)
            (deserialize_scalars R block (init R.consts (clear R.consts S)))).2) := by
  unfold deserialize
  simp only [hid, hver, ne_eq, not_true_eq_false, if_false]

theorem deserialize_check_eq (expect : Int) (st : Nat × SPARAMS D) (v : Int)
    (h : (st.1 : Int) = v) :
    deserialize_check expect st =
      (if toS32 (v - 12) ≠ expect then -1 else toS32 v, st.2) := by
  unfold deserialize_check
  simp only [h]
  by_cases hc : toS32 (v - 12) = expect
  · simp only [hc, ne_eq, not_true_eq_false, if_false]
  · simp only [hc, ne_eq, not_false_eq_true, if_true]

theorem deserialize_cells_offset_pair (R : DoubleRep D) (block : Nat → U8) (off : Nat)
    (Y : SPARAMS D) :
    (deserialize_cells R block (off, Y)).1
      = off + Y.n_ports.toNat * (Y.n_ports.toNat * (65 * Y.n_points.toNat)) ∧
    sameHeader Y (deserialize_cells R block (off, Y)).2 :=
  deserialize_cells_offset R block (off, Y)

theorem block_offset_int (off : Nat) (p n : Int) (hp : 0 ≤ p) (hn : 0 ≤ n)
    (h : off = 52 + n.toNat * 8 + p.toNat * (p.toNat * (65 * n.toNat))) :
    (off : Int) = 52 + 8 * n + 65 * (p * p * n) := by
  rw [h]
  push_cast
  rw [Int.toNat_of_nonneg hp, Int.toNat_of_nonneg hn]
  ring

/-- The part of `deserialize` after a successful `alloc`, for a matrix `A` of
`p` ports and `n` points: the value returned and the header left. -/
theorem deserialize_loaded (R : DoubleRep D) (block : Nat → U8) (expect p n : Int)
    (A : SPARAMS D) (a2 : A.n_ports = p) (a3 : A.n_points = n) (hp : 0 < p) (hn : 0 < n) :
    (deserialize_check expect (deserialize_cells R block
        (52 + A.n_points.toNat * 8, deserialize_freq R block A))).1 =
      (if toS32 (52 + 8 * n + 65 * (p * p * n) - 12) ≠ expect then -1
       else toS32 (52 + 8 * n + 65 * (p * p * n))) ∧
    (deserialize_check expect (deserialize_cells R block
        (52 + A.n_points.toNat * 8, deserialize_freq R block A))).2.n_ports = p ∧
    (deserialize_check expect (deserialize_cells R block
        (52 + A.n_points.toNat * 8, deserialize_freq R block A))).2.n_points = n ∧
    (∀ i, i < n.toNat →
      (deserialize_check expect (deserialize_cells R block
        (52 + A.n_points.toNat * 8, deserialize_freq R block A))).2.freq_Hz i
        = rd_dbl R block (52 + 8 * i)) := by
  obtain ⟨t1, u1, u2, -, -, -, u6⟩ := deserialize_cells_offset_pair R block
    (52 + A.n_points.toNat * 8) (deserialize_freq R block A)
  have b2 : (deserialize_freq R block A).n_ports = p := a2
  have b3 : (deserialize_freq R block A).n_points = n := a3
  have e := block_offset_int _ p n (le_of_lt hp) (le_of_lt hn)
    (t1.trans (by rw [b2, b3, a3]))
  rw [deserialize_check_eq _ _ _ e]
  refine ⟨?_, u1.trans b2, u2.trans b3, ?_⟩
  · simp only
  intro i hi
  have f : (deserialize_freq R block A).freq_Hz i = rd_dbl R block (52 + 8 * i) := by
    show (if i < A.n_points.toNat then rd_dbl R block (52 + 8 * i) else A.freq_Hz i) = _
    rw [a3, if_pos hi]
  simp only
  rw [u6, f]

/-- The value `deserialize` returns, and what it leaves, for a block with the
right magic and version that declares positive dimensions. -/
theorem deserialize_pos (R : DoubleRep D) (block : Nat → U8) (S : SPARAMS D)
    (hid : rd_le block 0 4 = SPARAM.BIN_ID) (hver : rd_le block 4 4 = SPARAM.BIN_VERSION)
    (hp : 0 < rd_s32 block 12) (hn : 0 < rd_s32 block 16) :
    (deserialize R block S).1 =
      (if toS32 (52 + 8 * rd_s32 block 16
            + 65 * (rd_s32 block 12 * rd_s32 block 12 * rd_s32 block 16) - 12) ≠ rd_s32 block 8
       then -1
       else toS32 (52 + 8 * rd_s32 block 16
            + 65 * (rd_s32 block 12 * rd_s32 block 12 * rd_s32 block 16))) ∧
    (deserialize R block S).2.n_ports = rd_s32 block 12 ∧
    (deserialize R block S).2.n_points = rd_s32 block 16 ∧
    (∀ i, i < (rd_s32 block 16).toNat →
      (deserialize R block S).2.freq_Hz i = rd_dbl R block (52 + 8 * i)) := by
  rw [deserialize_eq R block S hid hver]
  have ha := alloc_pos R (rd_s32 block 12) (rd_s32 block 16)
    (deserialize_scalars R block (init R.consts (clear R.consts S))) hp hn
  rw [if_pos ha.1]
  exact deserialize_loaded R block (rd_s32 block 8) (rd_s32 block 12) (rd_s32 block 16) _
    ha.2.1 ha.2.2.1 hp hn

/-- The part of `deserialize` after a successful `alloc`, when the block holds
the frequency and cell bytes of `M`. -/
theorem roundtrip_loaded (R : DoubleRep D) (block : Nat → U8) (M A : SPARAMS D)
    (a2 : A.n_ports = M.n_ports) (a3 : A.n_points = M.n_points)
    (hp : 1 ≤ M.n_ports) (hn : 1 ≤ M.n_points)
    (hsz : 52 + 8 * M.n_points + 65 * (M.n_ports * M.n_ports * M.n_points) < 2147483648)
    (h_freq : agrees block 52 (put_freq R M))
    (h_cells : agrees block (52 + M.n_points.toNat * 8)
      ((List.range M.n_ports.toNat).flatMap
        (fun b => (List.range M.n_ports.toNat).flatMap (fun a => put_cell R M b a)))) :
    (deserialize_check (serialize_n_data_bytes M) (deserialize_cells R block
        (52 + A.n_points.toNat * 8, deserialize_freq R block A))).1
      = 52 + 8 * M.n_points + 65 * (M.n_ports * M.n_ports * M.n_points) ∧
    sameHeader (deserialize_freq R block A)
      (deserialize_check (serialize_n_data_bytes M) (deserialize_cells R block
        (52 + A.n_points.toNat * 8, deserialize_freq R block A))).2 ∧
    (∀ i, i < M.n_points.toNat →
      (deserialize_freq R block A).freq_Hz i = M.freq_Hz i) ∧
    (∀ b a pt, b < M.n_ports.toNat → a < M.n_ports.toNat → pt < M.n_points.toNat →
      cell (deserialize_check (serialize_n_data_bytes M) (deserialize_cells R block
        (52 + A.n_points.toNat * 8, deserialize_freq R block A))).2 b a pt = cell M b a pt) := by
  have hm : 0 ≤ M.n_ports * M.n_ports * M.n_points :=
    mul_nonneg (mul_nonneg (by omega) (by omega)) (by omega)
  have b2 : (deserialize_freq R block A).n_ports = M.n_ports := a2
  have b3 : (deserialize_freq R block A).n_points = M.n_points := a3
  rw [a3]
  obtain ⟨t1, t2, t3⟩ := deserialize_cells_all R block M (deserialize_freq R block A) b2 b3
    (52 + M.n_points.toNat * 8) h_cells
  have e := block_offset_int _ M.n_ports M.n_points (by omega) (by omega) t1
  rw [deserialize_check_eq _ _ _ e, serialize_n_data_bytes_eq M (by omega) (by omega) hsz]
  have c1 : toS32 (52 + 8 * M.n_points + 65 * (M.n_ports * M.n_ports * M.n_points) - 12)
      = 40 + 8 * M.n_points + 65 * (M.n_ports * M.n_ports * M.n_points) := by
    rw [toS32_of_range (by omega) (by omega)]; omega
  have c2 : toS32 (52 + 8 * M.n_points + 65 * (M.n_ports * M.n_ports * M.n_points))
      = 52 + 8 * M.n_points + 65 * (M.n_ports * M.n_ports * M.n_points) :=
    toS32_of_range (by omega) (by omega)
  rw [c1, c2]
  simp only [ne_eq, not_true_eq_false, if_false]
  refine ⟨trivial, t2, ?_, ?_⟩
  · intro i hi
    show (if i < A.n_points.toNat then rd_dbl R block (52 + 8 * i) else A.freq_Hz i) = _
    rw [a3, if_pos hi]
    exact rd_dbl_bytes R block _ _
      (agrees_flatMap_range block _ 8 (fun i => length_dbl_bytes R (M.freq_Hz i)) _ _ h_freq i hi)
  · intro b a pt hb ha hpt
    rw [t3, if_pos ⟨hb, ha, hpt⟩]

/-- What a reader finds in the first twelve bytes of a serialized block. -/
theorem serialize_bytes_header (R : DoubleRep D) (M : SPARAMS D) (block : Nat → U8)
    (hp : 0 ≤ M.n_ports) (hn : 0 ≤ M.n_points)
    (hsz : 52 + 8 * M.n_points + 65 * (M.n_ports * M.n_ports * M.n_points) < 2147483648)
    (h : agrees block 0 (serialize_bytes R M)) :
    (block 0 = 0x53 ∧ block 1 = 0x4E ∧ block 2 = 0x50 ∧ block 3 = 0x42) ∧
    (block 4 = 1 ∧ block 5 = 0 ∧ block 6 = 0 ∧ block 7 = 0) ∧
    rd_le block 0 4 = SPARAM.BIN_ID ∧
    rd_le block 4 4 = SPARAM.BIN_VERSION ∧
    rd_s32 block 8 = serialize_n_data_bytes M := by
  have hm : 0 ≤ M.n_ports * M.n_ports * M.n_points := mul_nonneg (mul_nonneg hp hp) hn
  unfold serialize_bytes at h
  simp only [agrees_append, List.length_append, length_le_bytes, length_dbl_bytes, s32_bytes,
    Nat.zero_add] at h
  obtain ⟨⟨⟨⟨⟨⟨⟨⟨⟨h_id, h_ver⟩, h_len⟩, -⟩, -⟩, -⟩, -⟩, -⟩, -⟩, -⟩ := h
  have f_id : rd_le block 0 4 = SPARAM.BIN_ID := by
    rw [rd_le_bytes block 4 0 _ h_id]; decide
  have f_ver : rd_le block 4 4 = SPARAM.BIN_VERSION := by
    rw [rd_le_bytes block 4 4 _ h_ver]; decide
  refine ⟨(rd_le_magic block).mp f_id, ?_, f_id, f_ver, ?_⟩
  · obtain ⟨v0, v1, v2, v3, -⟩ := h_ver
    exact ⟨v0, v1, v2, v3⟩
  · exact rd_s32_bytes block 8 _ h_len
      (by rw [serialize_n_data_bytes_eq M hp hn hsz]; omega)
      (by rw [serialize_n_data_bytes_eq M hp hn hsz]; omega)

/-- What a reader finds after the first twelve bytes of a serialized block. -/
theorem serialize_bytes_fields (R : DoubleRep D) (M : SPARAMS D) (block : Nat → U8)
    (hp : 1 ≤ M.n_ports) (hn : 1 ≤ M.n_points)
    (hsz : 52 + 8 * M.n_points + 65 * (M.n_ports * M.n_ports * M.n_points) < 2147483648)
    (h : agrees block 0 (serialize_bytes R M)) :
    rd_s32 block 12 = M.n_ports ∧ rd_s32 block 16 = M.n_points ∧
    rd_dbl R block 20 = M.min_Hz ∧ rd_dbl R block 28 = M.max_Hz ∧
    rd_dbl R block 36 = M.Zo.real ∧ rd_dbl R block 44 = M.Zo.imag ∧
    agrees block 52 (put_freq R M) ∧
    agrees block (52 + M.n_points.toNat * 8)
      ((List.range M.n_ports.toNat).flatMap
        (fun b => (List.range M.n_ports.toNat).flatMap (fun a => put_cell R M b a))) := by
  have hm : 0 ≤ M.n_ports * M.n_ports * M.n_points :=
    mul_nonneg (mul_nonneg (by omega) (by omega)) (by omega)
  have hple : M.n_ports ≤ M.n_ports * M.n_ports * M.n_points := by
    have h1 : M.n_ports ≤ M.n_ports * M.n_ports := le_mul_of_one_le_right (by omega) hp
    have h2 : M.n_ports * M.n_ports ≤ M.n_ports * M.n_ports * M.n_points :=
      le_mul_of_one_le_right (mul_nonneg (by omega) (by omega)) hn
    omega
  unfold serialize_bytes at h
  simp only [agrees_append, List.length_append, length_le_bytes, length_dbl_bytes, s32_bytes,
    Nat.zero_add] at h
  obtain ⟨⟨⟨⟨⟨⟨⟨⟨⟨-, -⟩, -⟩, h_p⟩, h_n⟩, h_min⟩, h_max⟩, h_zo⟩, h_freq⟩, h_cells⟩ := h
  unfold put_freq at h_cells
  rw [length_flatMap_range _ 8 (fun i => length_dbl_bytes R _)] at h_cells
  exact ⟨rd_s32_bytes block 12 _ h_p (by omega) (by omega),
    rd_s32_bytes block 16 _ h_n (by omega) (by omega),
    rd_dbl_bytes R block 20 _ h_min, rd_dbl_bytes R block 28 _ h_max,
    rd_dbl_bytes R block 36 _ h_zo.1, rd_dbl_bytes R block 44 _ h_zo.2, h_freq, h_cells⟩

theorem deserialize_serialize_bytes (R : DoubleRep D) (M S : SPARAMS D) (block : Nat → U8)
    (hp : 1 ≤ M.n_ports) (hn : 1 ≤ M.n_points)
    (hsz : 52 + 8 * M.n_points + 65 * (M.n_ports * M.n_ports * M.n_points) < 2147483648)
    (h : agrees block 0 (serialize_bytes R M)) :
    (deserialize R block S).1
      = 52 + 8 * M.n_points + 65 * (M.n_ports * M.n_ports * M.n_points) ∧
    (deserialize R block S).2.n_ports = M.n_ports ∧
    (deserialize R block S).2.n_points = M.n_points ∧
    (deserialize R block S).2.min_Hz = M.min_Hz ∧
    (deserialize R block S).2.max_Hz = M.max_Hz ∧
    (deserialize R block S).2.Zo = M.Zo ∧
    (∀ i, i < M.n_points.toNat → (deserialize R block S).2.freq_Hz i = M.freq_Hz i) ∧
    (∀ b a pt, b < M.n_ports.toNat → a < M.n_ports.toNat → pt < M.n_points.toNat →
      cell (deserialize R block S).2 b a pt = cell M b a pt) := by
  have hp0 : 0 < M.n_ports := by omega
  have hn0 : 0 < M.n_points := by omega
  have hp1 : 0 ≤ M.n_ports := by omega
  have hn1 : 0 ≤ M.n_points := by omega
  obtain ⟨-, -, f_id, f_ver, f_len⟩ :=
    serialize_bytes_header R M block hp1 hn1 hsz h
  obtain ⟨f_p, f_n, f_min, f_max, f_zo1, f_zo2, h_freq, h_cells⟩ :=
    serialize_bytes_fields R M block hp hn hsz h
  rw [deserialize_eq R block S f_id f_ver, f_len, f_p, f_n]
  have ha := alloc_pos R M.n_ports M.n_points
    (deserialize_scalars R block (init R.consts (clear R.consts S))) hp0 hn0
  rw [if_pos ha.1]
  obtain ⟨r1, ⟨s1, s2, s3, s4, s5, s6⟩, r3, r4⟩ :=
    roundtrip_loaded R block M _ ha.2.1 ha.2.2.1 hp hn hsz h_freq h_cells
  refine ⟨r1, s1.trans ha.2.1, s2.trans ha.2.2.1, ?_, ?_, ?_, ?_, r4⟩
  · exact s3.trans (ha.2.2.2.1.trans f_min)
  · exact s4.trans (ha.2.2.2.2.1.trans f_max)
  · refine s5.trans (ha.2.2.2.2.2.trans ?_)
    show (⟨rd_dbl R block 36, rd_dbl R block 44⟩ : COMPLEX_DOUBLE D) = M.Zo
    rw [f_zo1, f_zo2]
  · intro i hi
    rw [s6]
    exact r3 i hi

theorem cell_eq_iff (S T : SPARAMS D) (b a pt : Nat) :
    cell S b a pt = cell T b a pt ↔
      (S.valid b a pt = T.valid b a pt ∧ S.MA b a pt = T.MA b a pt ∧
       S.DB b a pt = T.DB b a pt ∧ S.RI b a pt = T.RI b a pt ∧ S.CZ b a pt = T.CZ b a pt) := by
  unfold cell
  simp only [Prod.mk.injEq]

theorem agrees_blockOf (L : List U8) : agrees (blockOf L) 0 L := by
  apply agrees_of_forall
  intro i hi
  simp only [blockOf, Nat.zero_add]
  exact List.getD_eq_getElem L 0 hi

theorem payload_in_range (p n : Int) (hp : 0 < p) (hn : 0 < n)
    (h : 40 + 8 * n + 65 * (p * p * n) < 2147483648) :
    toS32 (40 + 8 * n + 65 * (p * p * n)) = 40 + 8 * n + 65 * (p * p * n) := by
  have hm : 0 ≤ p * p * n := mul_nonneg (mul_nonneg (le_of_lt hp) (le_of_lt hp)) (le_of_lt hn)
  exact toS32_of_range (by omega) (by omega)

theorem block_minus_header (p n : Int) :
    52 + 8 * n + 65 * (p * p * n) - 12 = 40 + 8 * n + 65 * (p * p * n) := by
  ring

theorem deserialize_bad_version (R : DoubleRep D) (block : Nat → U8) (S : SPARAMS D)
    (hid : rd_le block 0 4 = SPARAM.BIN_ID) (hver : rd_le block 4 4 ≠ SPARAM.BIN_VERSION) :
    deserialize R block S = (-1, init R.consts (clear R.consts S)) := by
  unfold deserialize
  simp only [hid, hver, ne_eq, not_true_eq_false, not_false_eq_true, if_false, if_true]

end SPARAMS

/-! ## The binary snapshot codec: serialize and deserialize -/

namespace SPARAMS

variable {D : Type}

/-- **C1** (amended).  Binary round trip: for every matrix `M` with `p ≥ 1` ports
and `n ≥ 1` points whose block size `52 + 8n + 65p²n` is below `2^31`,
`serialize` produces a block of `12 + (40 + 8n + 65p²n)` bytes, and
`deserialize` run on any memory that holds these bytes (over any prior matrix
`S`) returns the full block length and leaves a matrix whose port count, point
count, `min_Hz`, `max_Hz`, `Zo`, frequencies and, for every cell `(b, a)` and
point, validity mask and MA, DB, RI and CZ entries equal those of `M`. -/
theorem deserialize_serialize_roundtrip (R : DoubleRep D) (M S : SPARAMS D)
    (hp : 1 ≤ M.n_ports) (hn : 1 ≤ M.n_points)
    (hsz : 52 + 8 * M.n_points + 65 * (M.n_ports * M.n_ports * M.n_points) < 2147483648) :
    ∃ bytes : List U8, serialize R M = Except.ok bytes ∧
      (bytes.length : Int)
        = 12 + (40 + 8 * M.n_points + 65 * (M.n_ports * M.n_ports * M.n_points)) ∧
      ∀ block : Nat → U8, (∀ i (hi : i < bytes.length), block i = bytes[i]) →
        (deserialize R block S).1 = (bytes.length : Int) ∧
        (deserialize R block S).2.n_ports = M.n_ports ∧
        (deserialize R block S).2.n_points = M.n_points ∧
        (deserialize R block S).2.min_Hz = M.min_Hz ∧
        (deserialize R block S).2.max_Hz = M.max_Hz ∧
        (deserialize R block S).2.Zo = M.Zo ∧
        (∀ i, i < M.n_points.toNat → (deserialize R block S).2.freq_Hz i = M.freq_Hz i) ∧
        (∀ b a pt, b < M.n_ports.toNat → a < M.n_ports.toNat → pt < M.n_points.toNat →
          (deserialize R block S).2.valid b a pt = M.valid b a pt ∧
          (deserialize R block S).2.MA b a pt = M.MA b a pt ∧
          (deserialize R block S).2.DB b a pt = M.DB b a pt ∧
          (deserialize R block S).2.RI b a pt = M.RI b a pt ∧
          (deserialize R block S).2.CZ b a pt = M.CZ b a pt) := by
  have hp1 : 0 ≤ M.n_ports := by omega
  have hn1 : 0 ≤ M.n_points := by omega
  have hlen := length_serialize_bytes_int R M hp1 hn1
  refine ⟨serialize_bytes R M, serialize_ok R M hp1 hn1 hsz, ?_, ?_⟩
  · rw [hlen]; ring
  · intro block hb
    have hag : agrees block 0 (serialize_bytes R M) :=
      agrees_of_forall block _ 0 (fun i hi => by rw [Nat.zero_add]; exact hb i hi)
    obtain ⟨r1, r2, r3, r4, r5, r6, r7, r8⟩ :=
      deserialize_serialize_bytes R M S block hp hn hsz hag
    refine ⟨by rw [r1, hlen], r2, r3, r4, r5, r6, r7, ?_⟩
    intro b a pt hb ha hpt
    exact (cell_eq_iff _ _ b a pt).mp (r8 b a pt hb ha hpt)

/-- Witness for C1: the 3-point one-port sample matrix round-trips. -/
theorem deserialize_serialize_roundtrip_witness :
    (1 ≤ sampleOnePort.n_ports ∧ 1 ≤ sampleOnePort.n_points ∧
      52 + 8 * sampleOnePort.n_points
        + 65 * (sampleOnePort.n_ports * sampleOnePort.n_ports * sampleOnePort.n_points)
        < 2147483648) ∧
    ∃ bytes : List U8, serialize rawDouble sampleOnePort = Except.ok bytes ∧
      (bytes.length : Int)
        = 12 + (40 + 8 * sampleOnePort.n_points
            + 65 * (sampleOnePort.n_ports * sampleOnePort.n_ports * sampleOnePort.n_points)) ∧
      ∀ block : Nat → U8, (∀ i (hi : i < bytes.length), block i = bytes[i]) →
        (deserialize rawDouble block (construct rawDouble.consts)).1 = (bytes.length : Int) ∧
        (deserialize rawDouble block (construct rawDouble.consts)).2.n_ports = sampleOnePort.n_ports ∧
        (deserialize rawDouble block (construct rawDouble.consts)).2.n_points
          = sampleOnePort.n_points ∧
        (deserialize rawDouble block (construct rawDouble.consts)).2.min_Hz = sampleOnePort.min_Hz ∧
        (deserialize rawDouble block (construct rawDouble.consts)).2.max_Hz = sampleOnePort.max_Hz ∧
        (deserialize rawDouble block (construct rawDouble.consts)).2.Zo = sampleOnePort.Zo ∧
        (∀ i, i < sampleOnePort.n_points.toNat →
          (deserialize rawDouble block (construct rawDouble.consts)).2.freq_Hz i
            = sampleOnePort.freq_Hz i) ∧
        (∀ b a pt, b < sampleOnePort.n_ports.toNat → a < sampleOnePort.n_ports.toNat →
          pt < sampleOnePort.n_points.toNat →
          (deserialize rawDouble block (construct rawDouble.consts)).2.valid b a pt
            = sampleOnePort.valid b a pt ∧
          (deserialize rawDouble block (construct rawDouble.consts)).2.MA b a pt
            = sampleOnePort.MA b a pt ∧
          (deserialize rawDouble block (construct rawDouble.consts)).2.DB b a pt
            = sampleOnePort.DB b a pt ∧
          (deserialize rawDouble block (construct rawDouble.consts)).2.RI b a pt
            = sampleOnePort.RI b a pt ∧
          (deserialize rawDouble block (construct rawDouble.consts)).2.CZ b a pt
            = sampleOnePort.CZ b a pt) :=
  ⟨⟨by decide, by decide, by decide⟩,
   deserialize_serialize_roundtrip rawDouble sampleOnePort (construct rawDouble.consts)
     (by decide) (by decide) (by decide)⟩

/-- Counterexample to C1 as stated: a one-port matrix of 29,500,000 points has
`p ≥ 1` and `n ≥ 1`, yet `serialize` yields no block at all (the `S32` block size
is negative and `malloc` of it fails), so there is nothing to deserialize. -/
theorem serialize_bigOnePort_no_block :
    (1 ≤ bigOnePort.n_ports ∧ 1 ≤ bigOnePort.n_points) ∧
    serialize_n_block_bytes bigOnePort = -2141467244 ∧
    serialize rawDouble bigOnePort = Except.error SerErr.out_of_memory := by
  refine ⟨⟨by decide, by decide⟩, by decide, ?_⟩
  unfold serialize
  rw [if_pos (by decide)]

/-- **C2** (amended).  Serialized size and header: for every matrix with `p ≥ 0`
ports and `n ≥ 0` points whose block size `52 + 8n + 65p²n` is below `2^31`,
`serialize` ends with a block (neither the allocation nor the closing `assert`
fails) of exactly `52 + 8n + 65p²n` bytes, whose first four bytes are
`S`, `N`, `P`, `B`, whose next four bytes are `1, 0, 0, 0` (version 1,
little-endian) and whose payload length field holds `40 + 8n + 65p²n`, the block
length minus the 12-byte header. -/
theorem serialize_size_and_header (R : DoubleRep D) (M : SPARAMS D)
    (hp : 0 ≤ M.n_ports) (hn : 0 ≤ M.n_points)
    (hsz : 52 + 8 * M.n_points + 65 * (M.n_ports * M.n_ports * M.n_points) < 2147483648) :
    ∃ bytes : List U8, serialize R M = Except.ok bytes ∧
      (bytes.length : Int) = 52 + 8 * M.n_points + 65 * (M.n_ports * M.n_ports * M.n_points) ∧
      (blockOf bytes 0 = 0x53 ∧ blockOf bytes 1 = 0x4E ∧ blockOf bytes 2 = 0x50 ∧
        blockOf bytes 3 = 0x42) ∧
      (blockOf bytes 4 = 1 ∧ blockOf bytes 5 = 0 ∧ blockOf bytes 6 = 0 ∧ blockOf bytes 7 = 0) ∧
      rd_s32 (blockOf bytes) 8 = 40 + 8 * M.n_points + 65 * (M.n_ports * M.n_ports * M.n_points) ∧
      rd_s32 (blockOf bytes) 8 = (bytes.length : Int) - 12 := by
  have hlen := length_serialize_bytes_int R M hp hn
  have hdata := serialize_n_data_bytes_eq M hp hn hsz
  obtain ⟨h1, h2, -, -, h5⟩ :=
    serialize_bytes_header R M (blockOf (serialize_bytes R M)) hp hn hsz (agrees_blockOf _)
  refine ⟨serialize_bytes R M, serialize_ok R M hp hn hsz, hlen, h1, h2, h5.trans hdata, ?_⟩
  rw [h5, hdata, hlen]; ring

/-- Witness for C2: the 3-point one-port sample matrix. -/
theorem serialize_size_and_header_witness :
    (0 ≤ sampleOnePort.n_ports ∧ 0 ≤ sampleOnePort.n_points ∧
      52 + 8 * sampleOnePort.n_points
        + 65 * (sampleOnePort.n_ports * sampleOnePort.n_ports * sampleOnePort.n_points)
        < 2147483648) ∧
    ∃ bytes : List U8, serialize rawDouble sampleOnePort = Except.ok bytes ∧
      (bytes.length : Int) = 52 + 8 * sampleOnePort.n_points
        + 65 * (sampleOnePort.n_ports * sampleOnePort.n_ports * sampleOnePort.n_points) ∧
      (blockOf bytes 0 = 0x53 ∧ blockOf bytes 1 = 0x4E ∧ blockOf bytes 2 = 0x50 ∧
        blockOf bytes 3 = 0x42) ∧
      (blockOf bytes 4 = 1 ∧ blockOf bytes 5 = 0 ∧ blockOf bytes 6 = 0 ∧ blockOf bytes 7 = 0) ∧
      rd_s32 (blockOf bytes) 8 = 40 + 8 * sampleOnePort.n_points
        + 65 * (sampleOnePort.n_ports * sampleOnePort.n_ports * sampleOnePort.n_points) ∧
      rd_s32 (blockOf bytes) 8 = (bytes.length : Int) - 12 :=
  ⟨⟨by decide, by decide, by decide⟩,
   serialize_size_and_header rawDouble sampleOnePort (by decide) (by decide) (by decide)⟩

/-- Counterexample to C2 as stated: for the two-port matrix of 8,100,000 points
the formula gives `52 + 8n + 65p²n = 2,170,800,052`, and `serialize` produces no
block of that (or any) size: the `S32` block size has wrapped to a negative
number and the allocation fails. -/
theorem serialize_bigTwoPort_no_block :
    (52 + 8 * bigTwoPort.n_points
        + 65 * (bigTwoPort.n_ports * bigTwoPort.n_ports * bigTwoPort.n_points) = 2170800052) ∧
    ¬ ∃ bytes : List U8, serialize rawDouble bigTwoPort = Except.ok bytes ∧
        (bytes.length : Int) = 52 + 8 * bigTwoPort.n_points
          + 65 * (bigTwoPort.n_ports * bigTwoPort.n_ports * bigTwoPort.n_points) := by
  refine ⟨by decide, ?_⟩
  rintro ⟨bytes, h, -⟩
  unfold serialize at h
  rw [if_pos (by decide)] at h
  exact Except.noConfusion h

/-- **C3**.  Magic mismatch is a soft negative result: for every block whose
first four bytes are not `S`, `N`, `P`, `B`, `deserialize` returns `0` and leaves
the matrix, every field of it, exactly as it was. -/
theorem deserialize_unrecognized (R : DoubleRep D) (block : Nat → U8) (M : SPARAMS D)
    (h : ¬ (block 0 = 0x53 ∧ block 1 = 0x4E ∧ block 2 = 0x50 ∧ block 3 = 0x42)) :
    deserialize R block M = (0, M) := by
  have hid : rd_le block 0 4 ≠ SPARAM.BIN_ID := fun e => h ((rd_le_magic block).mp e)
  unfold deserialize
  simp only [hid, ne_eq, not_false_eq_true, if_true]

/-- Witness for C3: an all-zero block over the sample matrix. -/
theorem deserialize_unrecognized_witness :
    ¬ (blockOf [] 0 = 0x53 ∧ blockOf [] 1 = 0x4E ∧ blockOf [] 2 = 0x50 ∧ blockOf [] 3 = 0x42) ∧
    deserialize rawDouble (blockOf []) sampleOnePort = (0, sampleOnePort) :=
  ⟨by decide, deserialize_unrecognized rawDouble (blockOf []) sampleOnePort (by decide)⟩

theorem deserialize_payload_mismatch (R : DoubleRep D) (block : Nat → U8) (S : SPARAMS D)
    (hid : rd_le block 0 4 = SPARAM.BIN_ID) (hver : rd_le block 4 4 = SPARAM.BIN_VERSION)
    (hp : 0 < rd_s32 block 12) (hn : 0 < rd_s32 block 16)
    (hne : rd_s32 block 8 ≠ toS32 (40 + 8 * rd_s32 block 16
      + 65 * (rd_s32 block 12 * rd_s32 block 12 * rd_s32 block 16))) :
    (deserialize R block S).1 = -1 ∧
    (deserialize R block S).2.n_ports = rd_s32 block 12 ∧
    (deserialize R block S).2.n_points = rd_s32 block 16 ∧
    (∀ i, i < (rd_s32 block 16).toNat →
      (deserialize R block S).2.freq_Hz i = rd_dbl R block (52 + 8 * i)) := by
  obtain ⟨r1, r2, r3, r4⟩ := deserialize_pos R block S hid hver hp hn
  refine ⟨?_, r2, r3, r4⟩
  rw [r1, block_minus_header, if_pos (fun e => hne e.symm)]

/-- **C4** (amended).  Hard failures of the binary reader, for every block with
the right magic: if the version field differs from 1, `deserialize` returns
`-1`; and if the version is 1, the declared port and point counts `p`, `n` are
positive (their tables being allocated) and the declared payload length differs
from `40 + 8n + 65p²n` narrowed to a signed 32-bit value, `deserialize` returns
`-1`.  The narrowing changes nothing when `40 + 8n + 65p²n` is below `2^31`. -/
theorem deserialize_hard_failures (R : DoubleRep D) (block : Nat → U8) (S : SPARAMS D)
    (hmagic : block 0 = 0x53 ∧ block 1 = 0x4E ∧ block 2 = 0x50 ∧ block 3 = 0x42) :
    (rd_le block 4 4 ≠ SPARAM.BIN_VERSION → (deserialize R block S).1 = -1) ∧
    (rd_le block 4 4 = SPARAM.BIN_VERSION → 0 < rd_s32 block 12 → 0 < rd_s32 block 16 →
      rd_s32 block 8 ≠ toS32 (40 + 8 * rd_s32 block 16
        + 65 * (rd_s32 block 12 * rd_s32 block 12 * rd_s32 block 16)) →
      (deserialize R block S).1 = -1) ∧
    (rd_le block 4 4 = SPARAM.BIN_VERSION → 0 < rd_s32 block 12 → 0 < rd_s32 block 16 →
      40 + 8 * rd_s32 block 16
        + 65 * (rd_s32 block 12 * rd_s32 block 12 * rd_s32 block 16) < 2147483648 →
      rd_s32 block 8 ≠ 40 + 8 * rd_s32 block 16
        + 65 * (rd_s32 block 12 * rd_s32 block 12 * rd_s32 block 16) →
      (deserialize R block S).1 = -1) := by
  have hid := (rd_le_magic block).mpr hmagic
  refine ⟨?_, ?_, ?_⟩
  · intro hver
    rw [deserialize_bad_version R block S hid hver]
  · intro hver hp hn hne
    exact (deserialize_payload_mismatch R block S hid hver hp hn hne).1
  · intro hver hp hn hlt hne
    refine (deserialize_payload_mismatch R block S hid hver hp hn ?_).1
    rw [payload_in_range _ _ hp hn hlt]
    exact hne

/-- Witness for C4: a block of version 2, and a block of version 1 that declares
1 port, 1 point and a payload length of 0 instead of 113. -/
theorem deserialize_hard_failures_witness :
    ((futureBlock 0 = 0x53 ∧ futureBlock 1 = 0x4E ∧ futureBlock 2 = 0x50 ∧ futureBlock 3 = 0x42) ∧
      rd_le futureBlock 4 4 ≠ SPARAM.BIN_VERSION ∧
      (deserialize rawDouble futureBlock sampleOnePort).1 = -1) ∧
    ((shortBlock 0 = 0x53 ∧ shortBlock 1 = 0x4E ∧ shortBlock 2 = 0x50 ∧ shortBlock 3 = 0x42) ∧
      rd_le shortBlock 4 4 = SPARAM.BIN_VERSION ∧ 0 < rd_s32 shortBlock 12 ∧
      0 < rd_s32 shortBlock 16 ∧
      40 + 8 * rd_s32 shortBlock 16
        + 65 * (rd_s32 shortBlock 12 * rd_s32 shortBlock 12 * rd_s32 shortBlock 16)
        < 2147483648 ∧
      rd_s32 shortBlock 8 ≠ toS32 (40 + 8 * rd_s32 shortBlock 16
        + 65 * (rd_s32 shortBlock 12 * rd_s32 shortBlock 12 * rd_s32 shortBlock 16)) ∧
      rd_s32 shortBlock 8 ≠ 40 + 8 * rd_s32 shortBlock 16
        + 65 * (rd_s32 shortBlock 12 * rd_s32 shortBlock 12 * rd_s32 shortBlock 16) ∧
      (deserialize rawDouble shortBlock sampleOnePort).1 = -1) :=
  ⟨⟨by decide, by decide,
    (deserialize_hard_failures rawDouble futureBlock sampleOnePort (by decide)).1 (by decide)⟩,
   ⟨by decide, by decide, by decide, by decide, by decide, by decide, by decide,
    (deserialize_hard_failures rawDouble shortBlock sampleOnePort (by decide)).2.2
      (by decide) (by decide) (by decide) (by decide) (by decide)⟩⟩

/-- Counterexample to C4 as stated: a block with the right magic and version 1
that declares `p = 1`, `n = 29,500,000` and the payload length `-2,141,467,256`.
That differs from `40 + 8n + 65p²n = 2,153,500,040`, yet `deserialize` does not
return `-1`: the bytes read, narrowed to `S32`, equal the declared length, and
the value returned is `-2,141,467,244`. -/
theorem deserialize_wrappedBlock_not_rejected :
    (wrappedBlock 0 = 0x53 ∧ wrappedBlock 1 = 0x4E ∧ wrappedBlock 2 = 0x50 ∧
      wrappedBlock 3 = 0x42) ∧
    rd_le wrappedBlock 4 4 = 1 ∧
    rd_s32 wrappedBlock 12 = 1 ∧ rd_s32 wrappedBlock 16 = 29500000 ∧
    rd_s32 wrappedBlock 8 ≠ 40 + 8 * rd_s32 wrappedBlock 16
      + 65 * (rd_s32 wrappedBlock 12 * rd_s32 wrappedBlock 12 * rd_s32 wrappedBlock 16) ∧
    (deserialize rawDouble wrappedBlock (construct rawDouble.consts)).1 = -2141467244 ∧
    (deserialize rawDouble wrappedBlock (construct rawDouble.consts)).1 ≠ -1 := by
  refine ⟨by decide, by decide, by decide, by decide, by decide, by decide, by decide⟩

/-- **C5** (amended).  State after a hard failure of the binary reader, for every
block with the right magic.  On a version mismatch `deserialize` returns `-1` and
leaves the matrix unallocated: `n_ports = 0`, `n_points = 0`, no frequency and
no cell entry other than zero.  On a payload-length mismatch (version 1, positive
declared counts `p`, `n`) it returns `-1` as well, and the matrix is left with
`n_ports = p`, `n_points = n` and the frequencies read from the block. -/
theorem deserialize_failure_state (R : DoubleRep D) (block : Nat → U8) (S : SPARAMS D)
    (hmagic : block 0 = 0x53 ∧ block 1 = 0x4E ∧ block 2 = 0x50 ∧ block 3 = 0x42) :
    (rd_le block 4 4 ≠ SPARAM.BIN_VERSION →
      (deserialize R block S).1 = -1 ∧
      (deserialize R block S).2.n_ports = 0 ∧ (deserialize R block S).2.n_points = 0 ∧
      (∀ i, (deserialize R block S).2.freq_Hz i = R.zero) ∧
      (∀ b a pt, (deserialize R block S).2.valid b a pt = 0 ∧
        (deserialize R block S).2.MA b a pt = ⟨R.zero, R.zero⟩ ∧
        (deserialize R block S).2.DB b a pt = ⟨R.zero, R.zero⟩ ∧
        (deserialize R block S).2.RI b a pt = ⟨R.zero, R.zero⟩ ∧
        (deserialize R block S).2.CZ b a pt = ⟨R.zero, R.zero⟩)) ∧
    (rd_le block 4 4 = SPARAM.BIN_VERSION → 0 < rd_s32 block 12 → 0 < rd_s32 block 16 →
      rd_s32 block 8 ≠ toS32 (40 + 8 * rd_s32 block 16
        + 65 * (rd_s32 block 12 * rd_s32 block 12 * rd_s32 block 16)) →
      (deserialize R block S).1 = -1 ∧
      (deserialize R block S).2.n_ports = rd_s32 block 12 ∧
      (deserialize R block S).2.n_points = rd_s32 block 16 ∧
      (∀ i, i < (rd_s32 block 16).toNat →
        (deserialize R block S).2.freq_Hz i = rd_dbl R block (52 + 8 * i))) := by
  have hid := (rd_le_magic block).mpr hmagic
  refine ⟨?_, ?_⟩
  · intro hver
    rw [deserialize_bad_version R block S hid hver]
    exact ⟨rfl, rfl, rfl, fun _ => rfl, fun _ _ _ => ⟨rfl, rfl, rfl, rfl, rfl⟩⟩
  · intro hver hp hn hne
    exact deserialize_payload_mismatch R block S hid hver hp hn hne

/-- Witness for C5: the version-2 block and the short block, over the sample
matrix. -/
theorem deserialize_failure_state_witness :
    (rd_le futureBlock 4 4 ≠ SPARAM.BIN_VERSION ∧
      (deserialize rawDouble futureBlock sampleOnePort).2.n_ports = 0 ∧
      (deserialize rawDouble futureBlock sampleOnePort).2.n_points = 0) ∧
    (rd_le shortBlock 4 4 = SPARAM.BIN_VERSION ∧ 0 < rd_s32 shortBlock 12 ∧
      0 < rd_s32 shortBlock 16 ∧
      rd_s32 shortBlock 8 ≠ toS32 (40 + 8 * rd_s32 shortBlock 16
        + 65 * (rd_s32 shortBlock 12 * rd_s32 shortBlock 12 * rd_s32 shortBlock 16)) ∧
      (deserialize rawDouble shortBlock sampleOnePort).1 = -1 ∧
      (deserialize rawDouble shortBlock sampleOnePort).2.n_ports = rd_s32 shortBlock 12) :=
  ⟨⟨by decide,
    ((deserialize_failure_state rawDouble futureBlock sampleOnePort (by decide)).1
      (by decide)).2.1,
    ((deserialize_failure_state rawDouble futureBlock sampleOnePort (by decide)).1
      (by decide)).2.2.1⟩,
   ⟨by decide, by decide, by decide, by decide,
    ((deserialize_failure_state rawDouble shortBlock sampleOnePort (by decide)).2
      (by decide) (by decide) (by decide) (by decide)).1,
    ((deserialize_failure_state rawDouble shortBlock sampleOnePort (by decide)).2
      (by decide) (by decide) (by decide) (by decide)).2.1⟩⟩

/-- Counterexample to C5 as stated: `deserialize` returns `-1` on the short block
(payload length 0 declared, 113 bytes read), and the matrix is not unallocated
afterwards: it has 1 port and 1 point, and the validity byte of the rejected
block sits in its cell. -/
theorem deserialize_shortBlock_leaves_data :
    (deserialize rawDouble shortBlock (construct rawDouble.consts)).1 = -1 ∧
    (deserialize rawDouble shortBlock (construct rawDouble.consts)).2.n_ports = 1 ∧
    (deserialize rawDouble shortBlock (construct rawDouble.consts)).2.n_points = 1 ∧
    (deserialize rawDouble shortBlock (construct rawDouble.consts)).2.valid 0 0 0 = SNPTYPE.RI := by
  refine ⟨by decide, by decide, by decide, by decide⟩

end SPARAMS

/-! ## The accessors: set_RI and the lazy getters -/

namespace SPARAMS
variable {D : Type}

/-- **C6** (amended).  Setter contract: for every cell and point index and every
rectangular value `v`, `set_RI` (by indices, and by Touchstone position) stores
`v` as the cell's rectangular value and sets the cell's validity mask to
exactly the rectangular bit: the RI bit is set and the MA, DB and CZ bits are
clear after the call, whatever they were before.  Nothing else changes. -/
theorem set_RI_contract (M : SPARAMS D) (pt b a : Nat) (v : COMPLEX_DOUBLE D) :
    ((set_RI M pt b a v).RI b a pt = v ∧
     (set_RI M pt b a v).valid b a pt = SNPTYPE.RI ∧
     (set_RI M pt b a v).valid b a pt &&& SNPTYPE.RI ≠ 0 ∧
     (set_RI M pt b a v).valid b a pt &&& SNPTYPE.MA = 0 ∧
     (set_RI M pt b a v).valid b a pt &&& SNPTYPE.DB = 0 ∧
     (set_RI M pt b a v).valid b a pt &&& SNPTYPE.CZ = 0) ∧
    ((set_RI M pt b a v).MA = M.MA ∧ (set_RI M pt b a v).DB = M.DB ∧
     (set_RI M pt b a v).CZ = M.CZ ∧ (set_RI M pt b a v).freq_Hz = M.freq_Hz ∧
     (set_RI M pt b a v).n_ports = M.n_ports ∧ (set_RI M pt b a v).n_points = M.n_points ∧
     (set_RI M pt b a v).min_Hz = M.min_Hz ∧ (set_RI M pt b a v).max_Hz = M.max_Hz ∧
     (set_RI M pt b a v).Zo = M.Zo) ∧
    (∀ b1 a1 p1, ¬ (b1 = b ∧ a1 = a ∧ p1 = pt) →
      (set_RI M pt b a v).RI b1 a1 p1 = M.RI b1 a1 p1 ∧
      (set_RI M pt b a v).valid b1 a1 p1 = M.valid b1 a1 p1) ∧
    (∀ param, set_RI_param M pt param v = set_RI M pt (param_b param) (param_a param) v) := by
  refine ⟨⟨?_, ?_, ?_, ?_, ?_, ?_⟩, ⟨rfl, rfl, rfl, rfl, rfl, rfl, rfl, rfl, rfl⟩, ?_, fun _ => rfl⟩
  · simp [set_RI, setAt]
  · simp [set_RI, setAt]
  · simp only [set_RI, setAt, and_self, if_true]; decide
  · simp only [set_RI, setAt, and_self, if_true]; decide
  · simp only [set_RI, setAt, and_self, if_true]; decide
  · simp only [set_RI, setAt, and_self, if_true]; decide
  · intro b1 a1 p1 h
    simp [set_RI, setAt, h]

/-- Counterexample to C6 as stated: on a cell whose mask holds the MA bit,
`set_RI` does not leave the MA bit as it was: it is set before the call and
clear after it. -/
theorem set_RI_clears_MA_bit :
    maOnlyMatrix.valid 0 0 0 &&& SNPTYPE.MA = SNPTYPE.MA ∧
    (set_RI maOnlyMatrix 0 0 0 ⟨rawDouble.zero, rawDouble.zero⟩).valid 0 0 0 &&& SNPTYPE.MA = 0 ∧
    (set_RI maOnlyMatrix 0 0 0 ⟨rawDouble.zero, rawDouble.zero⟩).valid 0 0 0 &&& SNPTYPE.MA
      ≠ maOnlyMatrix.valid 0 0 0 &&& SNPTYPE.MA := by
  refine ⟨by decide, by decide, by decide⟩

end SPARAMS

namespace SPARAMS
variable {D : Type}

set_option maxRecDepth 100000 in
theorem mask_or_RI (m : U8) :
    (m ||| SNPTYPE.RI) &&& SNPTYPE.RI ≠ 0 ∧ (m ||| SNPTYPE.RI) &&& SNPTYPE.MA = m &&& SNPTYPE.MA ∧
    (m ||| SNPTYPE.RI) &&& SNPTYPE.DB = m &&& SNPTYPE.DB ∧
    (m ||| SNPTYPE.RI) &&& SNPTYPE.CZ = m &&& SNPTYPE.CZ := by
  revert m; decide

set_option maxRecDepth 100000 in
theorem mask_or_MA (m : U8) :
    (m ||| SNPTYPE.MA) &&& SNPTYPE.MA ≠ 0 ∧ (m ||| SNPTYPE.MA) &&& SNPTYPE.RI = m &&& SNPTYPE.RI ∧
    (m ||| SNPTYPE.MA) &&& SNPTYPE.DB = m &&& SNPTYPE.DB ∧
    (m ||| SNPTYPE.MA) &&& SNPTYPE.CZ = m &&& SNPTYPE.CZ := by
  revert m; decide

set_option maxRecDepth 100000 in
theorem mask_or_DB (m : U8) :
    (m ||| SNPTYPE.DB) &&& SNPTYPE.DB ≠ 0 ∧ (m ||| SNPTYPE.DB) &&& SNPTYPE.RI = m &&& SNPTYPE.RI ∧
    (m ||| SNPTYPE.DB) &&& SNPTYPE.MA = m &&& SNPTYPE.MA ∧
    (m ||| SNPTYPE.DB) &&& SNPTYPE.CZ = m &&& SNPTYPE.CZ := by
  revert m; decide

set_option maxRecDepth 100000 in
theorem mask_or_CZ (m : U8) :
    (m ||| SNPTYPE.CZ) &&& SNPTYPE.CZ ≠ 0 ∧ (m ||| SNPTYPE.CZ) &&& SNPTYPE.RI = m &&& SNPTYPE.RI ∧
    (m ||| SNPTYPE.CZ) &&& SNPTYPE.MA = m &&& SNPTYPE.MA ∧
    (m ||| SNPTYPE.CZ) &&& SNPTYPE.DB = m &&& SNPTYPE.DB := by
  revert m; decide

theorem setAt_same {α : Type} (T : Nat → Nat → Nat → α) (b a pt : Nat) (v : α) :
    setAt T b a pt v b a pt = v := by
  simp [setAt]

theorem setAt_other {α : Type} (T : Nat → Nat → Nat → α) (b a pt : Nat) (v : α)
    (b1 a1 p1 : Nat) (h : ¬ (b1 = b ∧ a1 = a ∧ p1 = pt)) :
    setAt T b a pt v b1 a1 p1 = T b1 a1 p1 := by
  simp [setAt, h]

section getters
variable [LinearOrderedField D]

theorem get_RI_cached (K : MathLib D) (M : SPARAMS D) (pt b a : Nat)
    (h : M.valid b a pt &&& SNPTYPE.RI ≠ 0) : get_RI K M pt b a = some (M.RI b a pt, M) := by
  unfold get_RI; rw [if_pos h]

theorem get_RI_convert (K : MathLib D) (M : SPARAMS D) (pt b a : Nat)
    (h : M.valid b a pt &&& SNPTYPE.RI = 0)
    (hs : M.valid b a pt &&& SNPTYPE.MA ≠ 0 ∨ M.valid b a pt &&& SNPTYPE.DB ≠ 0) :
    get_RI K M pt b a = some
      (if M.valid b a pt &&& SNPTYPE.MA ≠ 0 then SPARAM.RI.ofMA K (M.MA b a pt)
       else SPARAM.RI.ofDB K (M.DB b a pt),
       { M with
         RI := setAt M.RI b a pt
           (if M.valid b a pt &&& SNPTYPE.MA ≠ 0 then SPARAM.RI.ofMA K (M.MA b a pt)
            else SPARAM.RI.ofDB K (M.DB b a pt))
         valid := setAt M.valid b a pt (M.valid b a pt ||| SNPTYPE.RI) }) := by
  unfold get_RI
  rw [if_neg (not_not.mpr h)]
  by_cases hma : M.valid b a pt &&& SNPTYPE.MA ≠ 0
  · simp only [if_pos hma, setAt_same]
  · have hdb : M.valid b a pt &&& SNPTYPE.DB ≠ 0 := hs.resolve_left hma
    simp only [if_neg hma, if_pos hdb, setAt_same]

theorem get_MA_cached (K : MathLib D) (M : SPARAMS D) (pt b a : Nat)
    (h : M.valid b a pt &&& SNPTYPE.MA ≠ 0) : get_MA K M pt b a = some (M.MA b a pt, M) := by
  unfold get_MA; rw [if_pos h]

theorem get_MA_convert (K : MathLib D) (M : SPARAMS D) (pt b a : Nat)
    (h : M.valid b a pt &&& SNPTYPE.MA = 0)
    (hs : M.valid b a pt &&& SNPTYPE.DB ≠ 0 ∨ M.valid b a pt &&& SNPTYPE.RI ≠ 0) :
    get_MA K M pt b a = some
      (if M.valid b a pt &&& SNPTYPE.DB ≠ 0 then SPARAM.MA.ofDB K (M.DB b a pt)
       else SPARAM.MA.ofRI K (M.RI b a pt),
       { M with
         MA := setAt M.MA b a pt
           (if M.valid b a pt &&& SNPTYPE.DB ≠ 0 then SPARAM.MA.ofDB K (M.DB b a pt)
            else SPARAM.MA.ofRI K (M.RI b a pt))
         valid := setAt M.valid b a pt (M.valid b a pt ||| SNPTYPE.MA) }) := by
  unfold get_MA
  rw [if_neg (not_not.mpr h)]
  by_cases hdb : M.valid b a pt &&& SNPTYPE.DB ≠ 0
  · simp only [if_pos hdb, setAt_same]
  · have hri : M.valid b a pt &&& SNPTYPE.RI ≠ 0 := hs.resolve_left hdb
    simp only [if_neg hdb, if_pos hri, setAt_same]

theorem get_DB_cached (K : MathLib D) (M : SPARAMS D) (pt b a : Nat)
    (h : M.valid b a pt &&& SNPTYPE.DB ≠ 0) : get_DB K M pt b a = some (M.DB b a pt, M) := by
  unfold get_DB; rw [if_pos h]

theorem get_DB_convert (K : MathLib D) (M : SPARAMS D) (pt b a : Nat)
    (h : M.valid b a pt &&& SNPTYPE.DB = 0)
    (hs : M.valid b a pt &&& SNPTYPE.MA ≠ 0 ∨ M.valid b a pt &&& SNPTYPE.RI ≠ 0) :
    get_DB K M pt b a = some
      (if M.valid b a pt &&& SNPTYPE.MA ≠ 0 then SPARAM.DB.ofMA K (M.MA b a pt)
       else SPARAM.DB.ofRI K (M.RI b a pt),
       { M with
         DB := setAt M.DB b a pt
           (if M.valid b a pt &&& SNPTYPE.MA ≠ 0 then SPARAM.DB.ofMA K (M.MA b a pt)
            else SPARAM.DB.ofRI K (M.RI b a pt))
         valid := setAt M.valid b a pt (M.valid b a pt ||| SNPTYPE.DB) }) := by
  unfold get_DB
  rw [if_neg (not_not.mpr h)]
  by_cases hma : M.valid b a pt &&& SNPTYPE.MA ≠ 0
  · simp only [if_pos hma, setAt_same]
  · have hri : M.valid b a pt &&& SNPTYPE.RI ≠ 0 := hs.resolve_left hma
    simp only [if_neg hma, if_pos hri, setAt_same]

end getters

end SPARAMS

namespace SPARAMS
variable {D : Type}

section getters
variable [LinearOrderedField D]

theorem get_RI_lazy (K : MathLib D) (M : SPARAMS D) (pt b a : Nat)
    (hs : M.valid b a pt &&& SNPTYPE.MA ≠ 0 ∨ M.valid b a pt &&& SNPTYPE.DB ≠ 0 ∨
      M.valid b a pt &&& SNPTYPE.RI ≠ 0) :
    (M.valid b a pt &&& SNPTYPE.RI ≠ 0 → get_RI K M pt b a = some (M.RI b a pt, M)) ∧
    (M.valid b a pt &&& SNPTYPE.RI = 0 →
      ∃ v M1, get_RI K M pt b a = some (v, M1) ∧
        v = (if M.valid b a pt &&& SNPTYPE.MA ≠ 0 then SPARAM.RI.ofMA K (M.MA b a pt)
             else SPARAM.RI.ofDB K (M.DB b a pt)) ∧
        M1.RI b a pt = v ∧
        M1.valid b a pt = M.valid b a pt ||| SNPTYPE.RI ∧
        M1.valid b a pt &&& SNPTYPE.RI ≠ 0 ∧
        M1.valid b a pt &&& SNPTYPE.MA = M.valid b a pt &&& SNPTYPE.MA ∧
        M1.valid b a pt &&& SNPTYPE.DB = M.valid b a pt &&& SNPTYPE.DB ∧
        M1.valid b a pt &&& SNPTYPE.CZ = M.valid b a pt &&& SNPTYPE.CZ ∧
        M1.MA = M.MA ∧ M1.DB = M.DB ∧ M1.CZ = M.CZ ∧
        (∀ b1 a1 p1, ¬ (b1 = b ∧ a1 = a ∧ p1 = pt) →
          M1.RI b1 a1 p1 = M.RI b1 a1 p1 ∧ M1.valid b1 a1 p1 = M.valid b1 a1 p1) ∧
        get_RI K M1 pt b a = some (v, M1)) := by
  refine ⟨get_RI_cached K M pt b a, fun h => ?_⟩
  have hs2 : M.valid b a pt &&& SNPTYPE.MA ≠ 0 ∨ M.valid b a pt &&& SNPTYPE.DB ≠ 0 := by
    rcases hs with h1 | h1 | h1
    · exact Or.inl h1
    · exact Or.inr h1
    · exact absurd h h1
  obtain ⟨m1, m2, m3, m4⟩ := mask_or_RI (M.valid b a pt)
  refine ⟨_, _, get_RI_convert K M pt b a h hs2, rfl, setAt_same _ _ _ _ _, setAt_same _ _ _ _ _,
    ?_, ?_, ?_, ?_, rfl, rfl, rfl, ?_, ?_⟩
  · show setAt M.valid b a pt _ b a pt &&& SNPTYPE.RI ≠ 0
    rw [setAt_same]; exact m1
  · show setAt M.valid b a pt _ b a pt &&& SNPTYPE.MA = _
    rw [setAt_same]; exact m2
  · show setAt M.valid b a pt _ b a pt &&& SNPTYPE.DB = _
    rw [setAt_same]; exact m3
  · show setAt M.valid b a pt _ b a pt &&& SNPTYPE.CZ = _
    rw [setAt_same]; exact m4
  · intro b1 a1 p1 hne
    exact ⟨setAt_other _ _ _ _ _ _ _ _ hne, setAt_other _ _ _ _ _ _ _ _ hne⟩
  · rw [get_RI_cached]
    · show some (setAt M.RI b a pt _ b a pt, _) = _
      rw [setAt_same]
    · show setAt M.valid b a pt _ b a pt &&& SNPTYPE.RI ≠ 0
      rw [setAt_same]; exact m1

theorem get_MA_lazy (K : MathLib D) (M : SPARAMS D) (pt b a : Nat)
    (hs : M.valid b a pt &&& SNPTYPE.MA ≠ 0 ∨ M.valid b a pt &&& SNPTYPE.DB ≠ 0 ∨
      M.valid b a pt &&& SNPTYPE.RI ≠ 0) :
    (M.valid b a pt &&& SNPTYPE.MA ≠ 0 → get_MA K M pt b a = some (M.MA b a pt, M)) ∧
    (M.valid b a pt &&& SNPTYPE.MA = 0 →
      ∃ v M1, get_MA K M pt b a = some (v, M1) ∧
        v = (if M.valid b a pt &&& SNPTYPE.DB ≠ 0 then SPARAM.MA.ofDB K (M.DB b a pt)
             else SPARAM.MA.ofRI K (M.RI b a pt)) ∧
        M1.MA b a pt = v ∧
        M1.valid b a pt = M.valid b a pt ||| SNPTYPE.MA ∧
        M1.valid b a pt &&& SNPTYPE.MA ≠ 0 ∧
        M1.valid b a pt &&& SNPTYPE.RI = M.valid b a pt &&& SNPTYPE.RI ∧
        M1.valid b a pt &&& SNPTYPE.DB = M.valid b a pt &&& SNPTYPE.DB ∧
        M1.valid b a pt &&& SNPTYPE.CZ = M.valid b a pt &&& SNPTYPE.CZ ∧
        M1.RI = M.RI ∧ M1.DB = M.DB ∧ M1.CZ = M.CZ ∧
        (∀ b1 a1 p1, ¬ (b1 = b ∧ a1 = a ∧ p1 = pt) →
          M1.MA b1 a1 p1 = M.MA b1 a1 p1 ∧ M1.valid b1 a1 p1 = M.valid b1 a1 p1) ∧
        get_MA K M1 pt b a = some (v, M1)) := by
  refine ⟨get_MA_cached K M pt b a, fun h => ?_⟩
  have hs2 : M.valid b a pt &&& SNPTYPE.DB ≠ 0 ∨ M.valid b a pt &&& SNPTYPE.RI ≠ 0 := by
    rcases hs with h1 | h1 | h1
    · exact absurd h h1
    · exact Or.inl h1
    · exact Or.inr h1
  obtain ⟨m1, m2, m3, m4⟩ := mask_or_MA (M.valid b a pt)
  refine ⟨_, _, get_MA_convert K M pt b a h hs2, rfl, setAt_same _ _ _ _ _, setAt_same _ _ _ _ _,
    ?_, ?_, ?_, ?_, rfl, rfl, rfl, ?_, ?_⟩
  · show setAt M.valid b a pt _ b a pt &&& SNPTYPE.MA ≠ 0
    rw [setAt_same]; exact m1
  · show setAt M.valid b a pt _ b a pt &&& SNPTYPE.RI = _
    rw [setAt_same]; exact m2
  · show setAt M.valid b a pt _ b a pt &&& SNPTYPE.DB = _
    rw [setAt_same]; exact m3
  · show setAt M.valid b a pt _ b a pt &&& SNPTYPE.CZ = _
    rw [setAt_same]; exact m4
  · intro b1 a1 p1 hne
    exact ⟨setAt_other _ _ _ _ _ _ _ _ hne, setAt_other _ _ _ _ _ _ _ _ hne⟩
  · rw [get_MA_cached]
    · show some (setAt M.MA b a pt _ b a pt, _) = _
      rw [setAt_same]
    · show setAt M.valid b a pt _ b a pt &&& SNPTYPE.MA ≠ 0
      rw [setAt_same]; exact m1

theorem get_DB_lazy (K : MathLib D) (M : SPARAMS D) (pt b a : Nat)
    (hs : M.valid b a pt &&& SNPTYPE.MA ≠ 0 ∨ M.valid b a pt &&& SNPTYPE.DB ≠ 0 ∨
      M.valid b a pt &&& SNPTYPE.RI ≠ 0) :
    (M.valid b a pt &&& SNPTYPE.DB ≠ 0 → get_DB K M pt b a = some (M.DB b a pt, M)) ∧
    (M.valid b a pt &&& SNPTYPE.DB = 0 →
      ∃ v M1, get_DB K M pt b a = some (v, M1) ∧
        v = (if M.valid b a pt &&& SNPTYPE.MA ≠ 0 then SPARAM.DB.ofMA K (M.MA b a pt)
             else SPARAM.DB.ofRI K (M.RI b a pt)) ∧
        M1.DB b a pt = v ∧
        M1.valid b a pt = M.valid b a pt ||| SNPTYPE.DB ∧
        M1.valid b a pt &&& SNPTYPE.DB ≠ 0 ∧
        M1.valid b a pt &&& SNPTYPE.RI = M.valid b a pt &&& SNPTYPE.RI ∧
        M1.valid b a pt &&& SNPTYPE.MA = M.valid b a pt &&& SNPTYPE.MA ∧
        M1.valid b a pt &&& SNPTYPE.CZ = M.valid b a pt &&& SNPTYPE.CZ ∧
        M1.RI = M.RI ∧ M1.MA = M.MA ∧ M1.CZ = M.CZ ∧
        (∀ b1 a1 p1, ¬ (b1 = b ∧ a1 = a ∧ p1 = pt) →
          M1.DB b1 a1 p1 = M.DB b1 a1 p1 ∧ M1.valid b1 a1 p1 = M.valid b1 a1 p1) ∧
        get_DB K M1 pt b a = some (v, M1)) := by
  refine ⟨get_DB_cached K M pt b a, fun h => ?_⟩
  have hs2 : M.valid b a pt &&& SNPTYPE.MA ≠ 0 ∨ M.valid b a pt &&& SNPTYPE.RI ≠ 0 := by
    rcases hs with h1 | h1 | h1
    · exact Or.inl h1
    · exact absurd h h1
    · exact Or.inr h1
  obtain ⟨m1, m2, m3, m4⟩ := mask_or_DB (M.valid b a pt)
  refine ⟨_, _, get_DB_convert K M pt b a h hs2, rfl, setAt_same _ _ _ _ _, setAt_same _ _ _ _ _,
    ?_, ?_, ?_, ?_, rfl, rfl, rfl, ?_, ?_⟩
  · show setAt M.valid b a pt _ b a pt &&& SNPTYPE.DB ≠ 0
    rw [setAt_same]; exact m1
  · show setAt M.valid b a pt _ b a pt &&& SNPTYPE.RI = _
    rw [setAt_same]; exact m2
  · show setAt M.valid b a pt _ b a pt &&& SNPTYPE.MA = _
    rw [setAt_same]; exact m3
  · show setAt M.valid b a pt _ b a pt &&& SNPTYPE.CZ = _
    rw [setAt_same]; exact m4
  · intro b1 a1 p1 hne
    exact ⟨setAt_other _ _ _ _ _ _ _ _ hne, setAt_other _ _ _ _ _ _ _ _ hne⟩
  · rw [get_DB_cached]
    · show some (setAt M.DB b a pt _ b a pt, _) = _
      rw [setAt_same]
    · show setAt M.valid b a pt _ b a pt &&& SNPTYPE.DB ≠ 0
      rw [setAt_same]; exact m1

end getters

end SPARAMS

namespace SPARAMS
variable {D : Type}

/-- **C7**.  Lazy getter postcondition: for every cell and point whose mask has
at least one of the MA, DB, RI bits set, each of `get_RI`, `get_MA`, `get_DB`
(i) returns the stored target value and changes nothing when the target bit is
set, and (ii) otherwise returns the conversion of the first valid source in the
order MA, DB, RI (the target itself left out, CZ never a source), stores that
value in the target slot, sets the target bit, leaves every other mask bit,
the other encodings and every other cell unchanged, and returns the same value
when called a second time. -/
theorem lazy_getters [LinearOrderedField D] (K : MathLib D) (M : SPARAMS D) (pt b a : Nat)
    (hs : M.valid b a pt &&& SNPTYPE.MA ≠ 0 ∨ M.valid b a pt &&& SNPTYPE.DB ≠ 0 ∨
      M.valid b a pt &&& SNPTYPE.RI ≠ 0) :
    ((M.valid b a pt &&& SNPTYPE.RI ≠ 0 → get_RI K M pt b a = some (M.RI b a pt, M)) ∧
      (M.valid b a pt &&& SNPTYPE.RI = 0 →
        ∃ v M1, get_RI K M pt b a = some (v, M1) ∧
          v = (if M.valid b a pt &&& SNPTYPE.MA ≠ 0 then SPARAM.RI.ofMA K (M.MA b a pt)
               else SPARAM.RI.ofDB K (M.DB b a pt)) ∧
          M1.RI b a pt = v ∧
          M1.valid b a pt = M.valid b a pt ||| SNPTYPE.RI ∧
          M1.valid b a pt &&& SNPTYPE.RI ≠ 0 ∧
          M1.valid b a pt &&& SNPTYPE.MA = M.valid b a pt &&& SNPTYPE.MA ∧
          M1.valid b a pt &&& SNPTYPE.DB = M.valid b a pt &&& SNPTYPE.DB ∧
          M1.valid b a pt &&& SNPTYPE.CZ = M.valid b a pt &&& SNPTYPE.CZ ∧
          M1.MA = M.MA ∧ M1.DB = M.DB ∧ M1.CZ = M.CZ ∧
          (∀ b1 a1 p1, ¬ (b1 = b ∧ a1 = a ∧ p1 = pt) →
            M1.RI b1 a1 p1 = M.RI b1 a1 p1 ∧ M1.valid b1 a1 p1 = M.valid b1 a1 p1) ∧
          get_RI K M1 pt b a = some (v, M1))) ∧
    ((M.valid b a pt &&& SNPTYPE.MA ≠ 0 → get_MA K M pt b a = some (M.MA b a pt, M)) ∧
      (M.valid b a pt &&& SNPTYPE.MA = 0 →
        ∃ v M1, get_MA K M pt b a = some (v, M1) ∧
          v = (if M.valid b a pt &&& SNPTYPE.DB ≠ 0 then SPARAM.MA.ofDB K (M.DB b a pt)
               else SPARAM.MA.ofRI K (M.RI b a pt)) ∧
          M1.MA b a pt = v ∧
          M1.valid b a pt = M.valid b a pt ||| SNPTYPE.MA ∧
          M1.valid b a pt &&& SNPTYPE.MA ≠ 0 ∧
          M1.valid b a pt &&& SNPTYPE.RI = M.valid b a pt &&& SNPTYPE.RI ∧
          M1.valid b a pt &&& SNPTYPE.DB = M.valid b a pt &&& SNPTYPE.DB ∧
          M1.valid b a pt &&& SNPTYPE.CZ = M.valid b a pt &&& SNPTYPE.CZ ∧
          M1.RI = M.RI ∧ M1.DB = M.DB ∧ M1.CZ = M.CZ ∧
          (∀ b1 a1 p1, ¬ (b1 = b ∧ a1 = a ∧ p1 = pt) →
            M1.MA b1 a1 p1 = M.MA b1 a1 p1 ∧ M1.valid b1 a1 p1 = M.valid b1 a1 p1) ∧
          get_MA K M1 pt b a = some (v, M1))) ∧
    ((M.valid b a pt &&& SNPTYPE.DB ≠ 0 → get_DB K M pt b a = some (M.DB b a pt, M)) ∧
      (M.valid b a pt &&& SNPTYPE.DB = 0 →
        ∃ v M1, get_DB K M pt b a = some (v, M1) ∧
          v = (if M.valid b a pt &&& SNPTYPE.MA ≠ 0 then SPARAM.DB.ofMA K (M.MA b a pt)
               else SPARAM.DB.ofRI K (M.RI b a pt)) ∧
          M1.DB b a pt = v ∧
          M1.valid b a pt = M.valid b a pt ||| SNPTYPE.DB ∧
          M1.valid b a pt &&& SNPTYPE.DB ≠ 0 ∧
          M1.valid b a pt &&& SNPTYPE.RI = M.valid b a pt &&& SNPTYPE.RI ∧
          M1.valid b a pt &&& SNPTYPE.MA = M.valid b a pt &&& SNPTYPE.MA ∧
          M1.valid b a pt &&& SNPTYPE.CZ = M.valid b a pt &&& SNPTYPE.CZ ∧
          M1.RI = M.RI ∧ M1.MA = M.MA ∧ M1.CZ = M.CZ ∧
          (∀ b1 a1 p1, ¬ (b1 = b ∧ a1 = a ∧ p1 = pt) →
            M1.DB b1 a1 p1 = M.DB b1 a1 p1 ∧ M1.valid b1 a1 p1 = M.valid b1 a1 p1) ∧
          get_DB K M1 pt b a = some (v, M1))) :=
  ⟨get_RI_lazy K M pt b a hs, get_MA_lazy K M pt b a hs, get_DB_lazy K M pt b a hs⟩

/-- Witness for C7: on a cell valid in MA form only, `get_MA` returns the stored
value and changes nothing, and `get_RI` returns the conversion of the MA value
and sets the RI bit beside the MA bit. -/
theorem lazy_getters_witness :
    (maRealMatrix.valid 0 0 0 &&& SNPTYPE.MA ≠ 0 ∧ maRealMatrix.valid 0 0 0 &&& SNPTYPE.RI = 0) ∧
    get_MA realMath maRealMatrix 0 0 0 = some (maRealMatrix.MA 0 0 0, maRealMatrix) ∧
    ∃ v M1, get_RI realMath maRealMatrix 0 0 0 = some (v, M1) ∧
      v = SPARAM.RI.ofMA realMath (maRealMatrix.MA 0 0 0) ∧
      M1.valid 0 0 0 = SNPTYPE.MA ||| SNPTYPE.RI ∧
      get_RI realMath M1 0 0 0 = some (v, M1) :=
  ⟨⟨by decide, by decide⟩,
   (lazy_getters realMath maRealMatrix 0 0 0 (Or.inl (by decide))).2.1.1 (by decide),
   match (lazy_getters realMath maRealMatrix 0 0 0 (Or.inl (by decide))).1.2 (by decide) with
   | ⟨v, M1, h1, h2, _, h4, _, _, _, _, _, _, _, _, h13⟩ =>
     ⟨v, M1, h1, h2.trans (if_pos (by decide)), h4, h13⟩⟩

end SPARAMS

namespace SPARAMS
variable {D : Type}

set_option maxRecDepth 100000 in
theorem mask_ne_zero_of_RI (m : U8) (h : m &&& SNPTYPE.RI ≠ 0) : m ≠ 0 := by
  revert m; decide

theorem set_RI_bit (M : SPARAMS D) (pt b a : Nat) (v : COMPLEX_DOUBLE D) :
    (set_RI M pt b a v).valid b a pt &&& SNPTYPE.RI ≠ 0 := by
  show setAt M.valid b a pt SNPTYPE.RI b a pt &&& SNPTYPE.RI ≠ 0
  rw [setAt_same]; decide

section getters
variable [LinearOrderedField D]

theorem get_RI_unwritten (K : MathLib D) (M : SPARAMS D) (pt b a : Nat)
    (h : M.valid b a pt = 0) : get_RI K M pt b a = none := by
  unfold get_RI
  rw [h, if_neg (by decide), if_neg (by decide), if_neg (by decide)]

theorem get_MA_unwritten (K : MathLib D) (M : SPARAMS D) (pt b a : Nat)
    (h : M.valid b a pt = 0) : get_MA K M pt b a = none := by
  unfold get_MA
  rw [h, if_neg (by decide), if_neg (by decide), if_neg (by decide)]

theorem get_DB_unwritten (K : MathLib D) (M : SPARAMS D) (pt b a : Nat)
    (h : M.valid b a pt = 0) : get_DB K M pt b a = none := by
  unfold get_DB
  rw [h, if_neg (by decide), if_neg (by decide), if_neg (by decide)]

theorem get_CZ_unwritten (K : MathLib D) (M : SPARAMS D) (pt b a : Nat)
    (h : M.valid b a pt = 0) : get_CZ K M pt b a = none := by
  unfold get_CZ
  rw [get_MA_unwritten K M pt b a h, h, if_neg (by decide)]

/-- With the RI bit set, `get_MA` returns a value and keeps the RI bit set. -/
theorem get_MA_of_RI (K : MathLib D) (M : SPARAMS D) (pt b a : Nat)
    (h : M.valid b a pt &&& SNPTYPE.RI ≠ 0) :
    ∃ v M1, get_MA K M pt b a = some (v, M1) ∧ M1.valid b a pt &&& SNPTYPE.RI ≠ 0 ∧
      M1.Zo = M.Zo := by
  by_cases hma : M.valid b a pt &&& SNPTYPE.MA ≠ 0
  · exact ⟨_, _, get_MA_cached K M pt b a hma, h, rfl⟩
  · refine ⟨_, _, get_MA_convert K M pt b a (not_not.mp hma) (Or.inr h), ?_, rfl⟩
    show setAt M.valid b a pt _ b a pt &&& SNPTYPE.RI ≠ 0
    rw [setAt_same, (mask_or_MA (M.valid b a pt)).2.1]
    exact h

theorem get_DB_of_RI (K : MathLib D) (M : SPARAMS D) (pt b a : Nat)
    (h : M.valid b a pt &&& SNPTYPE.RI ≠ 0) :
    ∃ v M1, get_DB K M pt b a = some (v, M1) ∧ M1.valid b a pt &&& SNPTYPE.RI ≠ 0 := by
  by_cases hdb : M.valid b a pt &&& SNPTYPE.DB ≠ 0
  · exact ⟨_, _, get_DB_cached K M pt b a hdb, h⟩
  · refine ⟨_, _, get_DB_convert K M pt b a (not_not.mp hdb) (Or.inr h), ?_⟩
    show setAt M.valid b a pt _ b a pt &&& SNPTYPE.RI ≠ 0
    rw [setAt_same, (mask_or_DB (M.valid b a pt)).2.1]
    exact h

theorem get_CZ_of_get_MA (K : MathLib D) (M M1 : SPARAMS D) (pt b a : Nat) (ma : SPARAM.MA D)
    (h : M.valid b a pt &&& SNPTYPE.CZ = 0) (hma : get_MA K M pt b a = some (ma, M1)) :
    get_CZ K M pt b a = some (SPARAM.CZ.ofMA K ma M1.Zo.real,
      { M1 with
        CZ := setAt M1.CZ b a pt (SPARAM.CZ.ofMA K ma M1.Zo.real)
        valid := setAt M1.valid b a pt (M1.valid b a pt ||| SNPTYPE.CZ) }) := by
  unfold get_CZ
  rw [if_neg (not_not.mpr h), hma]
  simp only [setAt_same]

theorem get_CZ_of_RI (K : MathLib D) (M : SPARAMS D) (pt b a : Nat)
    (h : M.valid b a pt &&& SNPTYPE.RI ≠ 0) :
    ∃ v M1, get_CZ K M pt b a = some (v, M1) ∧ M1.valid b a pt &&& SNPTYPE.RI ≠ 0 := by
  by_cases hcz : M.valid b a pt &&& SNPTYPE.CZ ≠ 0
  · refine ⟨M.CZ b a pt, M, ?_, h⟩
    unfold get_CZ; rw [if_pos hcz]
  · obtain ⟨ma, M1, e, h1, -⟩ := get_MA_of_RI K M pt b a h
    refine ⟨_, _, get_CZ_of_get_MA K M M1 pt b a ma (not_not.mp hcz) e, ?_⟩
    show setAt M1.valid b a pt _ b a pt &&& SNPTYPE.RI ≠ 0
    rw [setAt_same, (mask_or_CZ (M1.valid b a pt)).2.1]
    exact h1

theorem call_getter_of_RI (K : MathLib D) (M : SPARAMS D) (pt b a : Nat) (g : Getter)
    (h : M.valid b a pt &&& SNPTYPE.RI ≠ 0) :
    ∃ M1, call_getter K pt b a g M = some M1 ∧ M1.valid b a pt &&& SNPTYPE.RI ≠ 0 := by
  cases g with
  | RI =>
    refine ⟨M, ?_, h⟩
    unfold call_getter; simp only; rw [get_RI_cached K M pt b a h]; rfl
  | MA =>
    obtain ⟨v, M1, e, h1, -⟩ := get_MA_of_RI K M pt b a h
    refine ⟨M1, ?_, h1⟩
    unfold call_getter; simp only; rw [e]; rfl
  | DB =>
    obtain ⟨v, M1, e, h1⟩ := get_DB_of_RI K M pt b a h
    refine ⟨M1, ?_, h1⟩
    unfold call_getter; simp only; rw [e]; rfl
  | CZ =>
    obtain ⟨v, M1, e, h1⟩ := get_CZ_of_RI K M pt b a h
    refine ⟨M1, ?_, h1⟩
    unfold call_getter; simp only; rw [e]; rfl

theorem call_getters_of_RI (K : MathLib D) (pt b a : Nat) (gs : List Getter) (M : SPARAMS D)
    (h : M.valid b a pt &&& SNPTYPE.RI ≠ 0) :
    ∃ M1, call_getters K pt b a gs M = some M1 ∧ M1.valid b a pt &&& SNPTYPE.RI ≠ 0 := by
  induction gs generalizing M with
  | nil => exact ⟨M, rfl, h⟩
  | cons g gs ih =>
    obtain ⟨M1, e, h1⟩ := call_getter_of_RI K M pt b a g h
    obtain ⟨M2, e2, h2⟩ := ih M1 h1
    refine ⟨M2, ?_, h2⟩
    unfold call_getters
    rw [e]
    exact e2

/-- **C8**.  Invalid access: on a cell and point whose validity mask is 0, each
of `get_RI`, `get_MA`, `get_DB` and `get_CZ` fails (reaches `assert(0)`) instead
of returning a value; and on a cell written through `set_RI` the mask is
non-zero and stays non-zero under every sequence of getter calls, after which
none of the four getters fails. -/
theorem invalid_access (K : MathLib D) :
    (∀ (M : SPARAMS D) (pt b a : Nat), M.valid b a pt = 0 →
      get_RI K M pt b a = none ∧ get_MA K M pt b a = none ∧
      get_DB K M pt b a = none ∧ get_CZ K M pt b a = none) ∧
    (∀ (M : SPARAMS D) (pt b a : Nat) (v : COMPLEX_DOUBLE D) (gs : List Getter),
      (set_RI M pt b a v).valid b a pt ≠ 0 ∧
      ∃ M1, call_getters K pt b a gs (set_RI M pt b a v) = some M1 ∧
        M1.valid b a pt ≠ 0 ∧
        (get_RI K M1 pt b a).isSome = true ∧ (get_MA K M1 pt b a).isSome = true ∧
        (get_DB K M1 pt b a).isSome = true ∧ (get_CZ K M1 pt b a).isSome = true) := by
  refine ⟨fun M pt b a h => ⟨get_RI_unwritten K M pt b a h, get_MA_unwritten K M pt b a h,
    get_DB_unwritten K M pt b a h, get_CZ_unwritten K M pt b a h⟩, ?_⟩
  intro M pt b a v gs
  have h0 := set_RI_bit M pt b a v
  obtain ⟨M1, e, h1⟩ := call_getters_of_RI K pt b a gs _ h0
  refine ⟨mask_ne_zero_of_RI _ h0, M1, e, mask_ne_zero_of_RI _ h1, ?_, ?_, ?_, ?_⟩
  · rw [get_RI_cached K M1 pt b a h1]; rfl
  · obtain ⟨v1, M2, e1, -, -⟩ := get_MA_of_RI K M1 pt b a h1
    rw [e1]; rfl
  · obtain ⟨v1, M2, e1, -⟩ := get_DB_of_RI K M1 pt b a h1
    rw [e1]; rfl
  · obtain ⟨v1, M2, e1, -⟩ := get_CZ_of_RI K M1 pt b a h1
    rw [e1]; rfl

end getters

/-- Witness for C8: the four getters fail on the unwritten cell of a blank
matrix. -/
theorem invalid_access_witness :
    blankRealMatrix.valid 0 0 0 = 0 ∧
    (get_RI realMath blankRealMatrix 0 0 0 = none ∧ get_MA realMath blankRealMatrix 0 0 0 = none ∧
      get_DB realMath blankRealMatrix 0 0 0 = none ∧
      get_CZ realMath blankRealMatrix 0 0 0 = none) :=
  ⟨rfl, (invalid_access realMath).1 blankRealMatrix 0 0 0 rfl⟩

end SPARAMS

/-! ## Read order and the cached encodings -/

namespace SPARAM

theorem tenth_pow_lt (x : ℝ) (h : x > 1 / 10 ^ 10) : (1 : ℝ) / 10 ^ 15 < x :=
  lt_trans (by norm_num) h

theorem pow_log10 (x : ℝ) (h : 0 < x) : realMath.pow 10 (20 * realMath.log10 x / 20) = x := by
  show (10 : ℝ) ^ (20 * Real.logb 10 x / 20) = x
  rw [mul_div_cancel_left₀ _ (by norm_num : (20 : ℝ) ≠ 0)]
  exact Real.rpow_logb (by norm_num) (by norm_num) h

theorem log10_gt (x : ℝ) (h : x > 1 / 10 ^ 10) : 20 * realMath.log10 x > -200 := by
  have h1 : (-10 : ℝ) < Real.logb 10 x := by
    rw [Real.lt_logb_iff_rpow_lt (by norm_num) (lt_trans (by norm_num) h)]
    have e : (10 : ℝ) ^ (-10 : ℝ) = 1 / 10 ^ 10 := by
      rw [Real.rpow_neg (by norm_num), one_div]
      congr 1
      exact_mod_cast Real.rpow_natCast 10 10
    rw [e]; exact h
  show 20 * Real.logb 10 x > -200
  linarith

/-- Above magnitude `1e-10` the polar form read from the dB form of `v` is the
polar form of `v`. -/
theorem MA_ofDB_ofRI (v : RI ℝ)
    (hv : realMath.sqrt (v.real * v.real + v.imag * v.imag) > 1 / 10 ^ 10) :
    MA.ofDB realMath (DB.ofRI realMath v) = MA.ofRI realMath v := by
  have h15 := tenth_pow_lt _ hv
  have hpos : 0 < realMath.sqrt (v.real * v.real + v.imag * v.imag) :=
    lt_trans (by norm_num) hv
  have h20 : realMath.sqrt (v.real * v.real + v.imag * v.imag) > 1 / 10 ^ 20 :=
    lt_trans (by norm_num) hv
  have hl := log10_gt _ hv
  unfold MA.ofDB DB.ofRI MA.ofRI
  simp only [max_eq_right (le_of_lt h15), if_pos hl, if_pos h20]
  rw [pow_log10 _ hpos]

/-- Above magnitude `1e-10` the dB form read from the polar form of `v` is the
dB form of `v`. -/
theorem DB_ofMA_ofRI (v : RI ℝ)
    (hv : realMath.sqrt (v.real * v.real + v.imag * v.imag) > 1 / 10 ^ 10) :
    DB.ofMA realMath (MA.ofRI realMath v) = DB.ofRI realMath v := by
  have h15 := tenth_pow_lt _ hv
  have h20 : realMath.sqrt (v.real * v.real + v.imag * v.imag) > 1 / 10 ^ 20 :=
    lt_trans (by norm_num) hv
  have hl := log10_gt _ hv
  unfold DB.ofMA DB.ofRI MA.ofRI
  simp only [max_eq_right (le_of_lt h15), if_pos hl, if_pos h20]

end SPARAM

namespace SPARAMS
variable {D : Type}

section getters
variable [LinearOrderedField D]

theorem get_RI_upToDate (K : MathLib D) (M : SPARAMS D) (pt b a : Nat) (v : SPARAM.RI D)
    (h : upToDate K M pt b a v) : get_RI K M pt b a = some (v, M) := by
  rw [get_RI_cached K M pt b a h.1, h.2.1]

theorem get_MA_upToDate (K : MathLib D) (M : SPARAMS D) (pt b a : Nat) (v : SPARAM.RI D)
    (hMD : SPARAM.MA.ofDB K (SPARAM.DB.ofRI K v) = SPARAM.MA.ofRI K v)
    (h : upToDate K M pt b a v) :
    ∃ M1, get_MA K M pt b a = some (SPARAM.MA.ofRI K v, M1) ∧ upToDate K M1 pt b a v ∧
      M1.Zo = M.Zo ∧ M1.valid b a pt &&& SNPTYPE.MA ≠ 0 := by
  obtain ⟨hri, hv, hma, hdb, hcz⟩ := h
  by_cases c : M.valid b a pt &&& SNPTYPE.MA ≠ 0
  · refine ⟨M, ?_, ⟨hri, hv, hma, hdb, hcz⟩, rfl, c⟩
    rw [get_MA_cached K M pt b a c, hma c]
  · have e := get_MA_convert K M pt b a (not_not.mp c) (Or.inr hri)
    have ev : (if M.valid b a pt &&& SNPTYPE.DB ≠ 0 then SPARAM.MA.ofDB K (M.DB b a pt)
        else SPARAM.MA.ofRI K (M.RI b a pt)) = SPARAM.MA.ofRI K v := by
      by_cases d : M.valid b a pt &&& SNPTYPE.DB ≠ 0
      · rw [if_pos d, hdb d, hMD]
      · rw [if_neg d, hv]
    rw [ev] at e
    have m := mask_or_MA (M.valid b a pt)
    refine ⟨_, e, ⟨?_, hv, ?_, ?_, ?_⟩, rfl, ?_⟩
    · show setAt M.valid b a pt _ b a pt &&& SNPTYPE.RI ≠ 0
      rw [setAt_same, m.2.1]; exact hri
    · intro _
      show setAt M.MA b a pt _ b a pt = _
      rw [setAt_same]
    · show setAt M.valid b a pt _ b a pt &&& SNPTYPE.DB ≠ 0 → _
      rw [setAt_same, m.2.2.1]; exact hdb
    · show setAt M.valid b a pt _ b a pt &&& SNPTYPE.CZ ≠ 0 → _
      rw [setAt_same, m.2.2.2]; exact hcz
    · show setAt M.valid b a pt _ b a pt &&& SNPTYPE.MA ≠ 0
      rw [setAt_same]; exact m.1

theorem get_DB_upToDate (K : MathLib D) (M : SPARAMS D) (pt b a : Nat) (v : SPARAM.RI D)
    (hDM : SPARAM.DB.ofMA K (SPARAM.MA.ofRI K v) = SPARAM.DB.ofRI K v)
    (h : upToDate K M pt b a v) :
    ∃ M1, get_DB K M pt b a = some (SPARAM.DB.ofRI K v, M1) ∧ upToDate K M1 pt b a v ∧
      M1.Zo = M.Zo := by
  obtain ⟨hri, hv, hma, hdb, hcz⟩ := h
  by_cases c : M.valid b a pt &&& SNPTYPE.DB ≠ 0
  · refine ⟨M, ?_, ⟨hri, hv, hma, hdb, hcz⟩, rfl⟩
    rw [get_DB_cached K M pt b a c, hdb c]
  · have e := get_DB_convert K M pt b a (not_not.mp c) (Or.inr hri)
    have ev : (if M.valid b a pt &&& SNPTYPE.MA ≠ 0 then SPARAM.DB.ofMA K (M.MA b a pt)
        else SPARAM.DB.ofRI K (M.RI b a pt)) = SPARAM.DB.ofRI K v := by
      by_cases d : M.valid b a pt &&& SNPTYPE.MA ≠ 0
      · rw [if_pos d, hma d, hDM]
      · rw [if_neg d, hv]
    rw [ev] at e
    have m := mask_or_DB (M.valid b a pt)
    refine ⟨_, e, ⟨?_, hv, ?_, ?_, ?_⟩, rfl⟩
    · show setAt M.valid b a pt _ b a pt &&& SNPTYPE.RI ≠ 0
      rw [setAt_same, m.2.1]; exact hri
    · show setAt M.valid b a pt _ b a pt &&& SNPTYPE.MA ≠ 0 → _
      rw [setAt_same, m.2.2.1]; exact hma
    · intro _
      show setAt M.DB b a pt _ b a pt = _
      rw [setAt_same]
    · show setAt M.valid b a pt _ b a pt &&& SNPTYPE.CZ ≠ 0 → _
      rw [setAt_same, m.2.2.2]; exact hcz

theorem get_CZ_upToDate (K : MathLib D) (M : SPARAMS D) (pt b a : Nat) (v : SPARAM.RI D)
    (hMD : SPARAM.MA.ofDB K (SPARAM.DB.ofRI K v) = SPARAM.MA.ofRI K v)
    (h : upToDate K M pt b a v) :
    ∃ M1, get_CZ K M pt b a = some (SPARAM.CZ.ofMA K (SPARAM.MA.ofRI K v) M.Zo.real, M1) ∧
      upToDate K M1 pt b a v ∧ M1.Zo = M.Zo := by
  by_cases c : M.valid b a pt &&& SNPTYPE.CZ ≠ 0
  · refine ⟨M, ?_, h, rfl⟩
    unfold get_CZ; rw [if_pos c, h.2.2.2.2 c]
  · obtain ⟨M1, e, ⟨hri, hv, hma, hdb, hcz⟩, hz, hm⟩ := get_MA_upToDate K M pt b a v hMD h
    have e2 : get_CZ K M pt b a = some (SPARAM.CZ.ofMA K (SPARAM.MA.ofRI K v) M.Zo.real,
        { M1 with
          CZ := setAt M1.CZ b a pt (SPARAM.CZ.ofMA K (SPARAM.MA.ofRI K v) M1.Zo.real)
          valid := setAt M1.valid b a pt (M1.valid b a pt ||| SNPTYPE.CZ) }) := by
      rw [← hz]
      exact get_CZ_of_get_MA K M M1 pt b a _ (not_not.mp c) e
    have m := mask_or_CZ (M1.valid b a pt)
    refine ⟨_, e2, ⟨?_, hv, ?_, ?_, ?_⟩, hz⟩
    · show setAt M1.valid b a pt _ b a pt &&& SNPTYPE.RI ≠ 0
      rw [setAt_same, m.2.1]; exact hri
    · show setAt M1.valid b a pt _ b a pt &&& SNPTYPE.MA ≠ 0 → _
      rw [setAt_same, m.2.2.1]; exact hma
    · show setAt M1.valid b a pt _ b a pt &&& SNPTYPE.DB ≠ 0 → _
      rw [setAt_same, m.2.2.2]; exact hdb
    · intro _
      show setAt M1.CZ b a pt _ b a pt = SPARAM.CZ.ofMA K (SPARAM.MA.ofRI K v) M1.Zo.real
      rw [setAt_same]

theorem call_getter_upToDate (K : MathLib D) (M : SPARAMS D) (pt b a : Nat) (v : SPARAM.RI D)
    (g : Getter)
    (hMD : SPARAM.MA.ofDB K (SPARAM.DB.ofRI K v) = SPARAM.MA.ofRI K v)
    (hDM : SPARAM.DB.ofMA K (SPARAM.MA.ofRI K v) = SPARAM.DB.ofRI K v)
    (h : upToDate K M pt b a v) :
    ∃ M1, call_getter K pt b a g M = some M1 ∧ upToDate K M1 pt b a v ∧ M1.Zo = M.Zo := by
  cases g with
  | RI =>
    refine ⟨M, ?_, h, rfl⟩
    unfold call_getter; simp only; rw [get_RI_upToDate K M pt b a v h]; rfl
  | MA =>
    obtain ⟨M1, e, h1, hz, -⟩ := get_MA_upToDate K M pt b a v hMD h
    refine ⟨M1, ?_, h1, hz⟩
    unfold call_getter; simp only; rw [e]; rfl
  | DB =>
    obtain ⟨M1, e, h1, hz⟩ := get_DB_upToDate K M pt b a v hDM h
    refine ⟨M1, ?_, h1, hz⟩
    unfold call_getter; simp only; rw [e]; rfl
  | CZ =>
    obtain ⟨M1, e, h1, hz⟩ := get_CZ_upToDate K M pt b a v hMD h
    refine ⟨M1, ?_, h1, hz⟩
    unfold call_getter; simp only; rw [e]; rfl

theorem call_getters_upToDate (K : MathLib D) (pt b a : Nat) (v : SPARAM.RI D)
    (hMD : SPARAM.MA.ofDB K (SPARAM.DB.ofRI K v) = SPARAM.MA.ofRI K v)
    (hDM : SPARAM.DB.ofMA K (SPARAM.MA.ofRI K v) = SPARAM.DB.ofRI K v)
    (gs : List Getter) (M : SPARAMS D) (h : upToDate K M pt b a v) :
    ∃ M1, call_getters K pt b a gs M = some M1 ∧ upToDate K M1 pt b a v ∧ M1.Zo = M.Zo := by
  induction gs generalizing M with
  | nil => exact ⟨M, rfl, h, rfl⟩
  | cons g gs ih =>
    obtain ⟨M1, e, h1, z1⟩ := call_getter_upToDate K M pt b a v g hMD hDM h
    obtain ⟨M2, e2, h2, z2⟩ := ih M1 h1
    refine ⟨M2, ?_, h2, z2.trans z1⟩
    unfold call_getters
    rw [e]
    exact e2

theorem set_RI_upToDate (K : MathLib D) (M : SPARAMS D) (pt b a : Nat) (v : SPARAM.RI D) :
    upToDate K (set_RI M pt b a v) pt b a v := by
  have e : (set_RI M pt b a v).valid b a pt = SNPTYPE.RI := setAt_same _ _ _ _ _
  have e2 : (set_RI M pt b a v).RI b a pt = v := setAt_same _ _ _ _ _
  unfold upToDate
  rw [e, e2]
  exact ⟨by decide, rfl, fun h => absurd h (by decide), fun h => absurd h (by decide),
    fun h => absurd h (by decide)⟩

end getters

end SPARAMS

namespace SPARAMS
variable {D : Type}

section getters
variable [LinearOrderedField D]

/-- Straight after `set_RI`, `get_MA` converts from the rectangular value. -/
theorem get_MA_after_set_RI (K : MathLib D) (M : SPARAMS D) (pt b a : Nat) (v : SPARAM.RI D) :
    ∃ M1, get_MA K (set_RI M pt b a v) pt b a = some (SPARAM.MA.ofRI K v, M1) := by
  have hval : (set_RI M pt b a v).valid b a pt = SNPTYPE.RI := setAt_same _ _ _ _ _
  have hri : (set_RI M pt b a v).RI b a pt = v := setAt_same _ _ _ _ _
  have e := get_MA_convert K (set_RI M pt b a v) pt b a (by rw [hval]; decide)
    (Or.inr (by rw [hval]; decide))
  rw [hval, if_neg (by decide), hri] at e
  exact ⟨_, e⟩

/-- After `set_RI` and `get_DB`, `get_MA` converts from the dB form. -/
theorem get_MA_after_get_DB (K : MathLib D) (M : SPARAMS D) (pt b a : Nat) (v : SPARAM.RI D) :
    ∃ M2 M3, get_DB K (set_RI M pt b a v) pt b a = some (SPARAM.DB.ofRI K v, M2) ∧
      get_MA K M2 pt b a = some (SPARAM.MA.ofDB K (SPARAM.DB.ofRI K v), M3) := by
  have hval : (set_RI M pt b a v).valid b a pt = SNPTYPE.RI := setAt_same _ _ _ _ _
  have hri : (set_RI M pt b a v).RI b a pt = v := setAt_same _ _ _ _ _
  have e := get_DB_convert K (set_RI M pt b a v) pt b a (by rw [hval]; decide)
    (Or.inr (by rw [hval]; decide))
  rw [hval, if_neg (by decide), hri] at e
  have key : ∀ (M2 : SPARAMS D) (x : SPARAM.DB D),
      M2.valid b a pt = SNPTYPE.RI ||| SNPTYPE.DB → M2.DB b a pt = x →
      ∃ M3, get_MA K M2 pt b a = some (SPARAM.MA.ofDB K x, M3) := by
    intro M2 x h1 h2
    have e2 := get_MA_convert K M2 pt b a (by rw [h1]; decide) (Or.inl (by rw [h1]; decide))
    rw [h1, if_pos (by decide), h2] at e2
    exact ⟨_, e2⟩
  obtain ⟨M3, e3⟩ := key
    { set_RI M pt b a v with
      DB := setAt (set_RI M pt b a v).DB b a pt (SPARAM.DB.ofRI K v)
      valid := setAt (set_RI M pt b a v).valid b a pt (SNPTYPE.RI ||| SNPTYPE.DB) }
    (SPARAM.DB.ofRI K v) (setAt_same _ _ _ _ _) (setAt_same _ _ _ _ _)
  exact ⟨_, M3, e, e3⟩

/-- After `set_RI` and `get_MA`, `get_DB` converts from the polar form. -/
theorem get_DB_after_get_MA (K : MathLib D) (M : SPARAMS D) (pt b a : Nat) (v : SPARAM.RI D) :
    ∃ M2 M3, get_MA K (set_RI M pt b a v) pt b a = some (SPARAM.MA.ofRI K v, M2) ∧
      get_DB K M2 pt b a = some (SPARAM.DB.ofMA K (SPARAM.MA.ofRI K v), M3) := by
  have hval : (set_RI M pt b a v).valid b a pt = SNPTYPE.RI := setAt_same _ _ _ _ _
  have hri : (set_RI M pt b a v).RI b a pt = v := setAt_same _ _ _ _ _
  have e := get_MA_convert K (set_RI M pt b a v) pt b a (by rw [hval]; decide)
    (Or.inr (by rw [hval]; decide))
  rw [hval, if_neg (by decide), hri] at e
  have key : ∀ (M2 : SPARAMS D) (x : SPARAM.MA D),
      M2.valid b a pt = SNPTYPE.RI ||| SNPTYPE.MA → M2.MA b a pt = x →
      ∃ M3, get_DB K M2 pt b a = some (SPARAM.DB.ofMA K x, M3) := by
    intro M2 x h1 h2
    have e2 := get_DB_convert K M2 pt b a (by rw [h1]; decide) (Or.inl (by rw [h1]; decide))
    rw [h1, if_pos (by decide), h2] at e2
    exact ⟨_, e2⟩
  obtain ⟨M3, e3⟩ := key
    { set_RI M pt b a v with
      MA := setAt (set_RI M pt b a v).MA b a pt (SPARAM.MA.ofRI K v)
      valid := setAt (set_RI M pt b a v).valid b a pt (SNPTYPE.RI ||| SNPTYPE.MA) }
    (SPARAM.MA.ofRI K v) (setAt_same _ _ _ _ _) (setAt_same _ _ _ _ _)
  exact ⟨_, M3, e, e3⟩

/-- **C9** (amended).  The cache after `set_RI(v)` and the order of the reads,
for every `DOUBLE` type and library.  `get_MA` called first returns `MA(v)`,
called after `get_DB` it returns `MA(DB(v))`; `get_DB` called first returns
`DB(v)`, called after `get_MA` it returns `DB(MA(v))`.  When these agree as
computed, `MA(DB(v)) = MA(v)` and `DB(MA(v)) = DB(v)`, every sequence of
index-based getter calls on the cell succeeds, every encoding whose bit is then
set holds the value belonging to `v`, and each getter returns the same value
whatever was requested before: `get_RI` gives `v`, `get_MA` gives `MA(v)`,
`get_DB` gives `DB(v)` and `get_CZ` gives `CZ(MA(v), Zo)`.  With `DOUBLE` read
as a real number and exact library functions the two conversions agree for
every `u` with `sqrt(re^2 + im^2) > 1e-10`. -/
theorem read_order_independent (K : MathLib D) (M : SPARAMS D) (pt b a : Nat)
    (v : SPARAM.RI D) (gs : List Getter) (u : SPARAM.RI ℝ) :
    (∃ M1, get_MA K (set_RI M pt b a v) pt b a = some (SPARAM.MA.ofRI K v, M1)) ∧
    (∃ M2 M3, get_DB K (set_RI M pt b a v) pt b a = some (SPARAM.DB.ofRI K v, M2) ∧
      get_MA K M2 pt b a = some (SPARAM.MA.ofDB K (SPARAM.DB.ofRI K v), M3)) ∧
    (∃ M2 M3, get_MA K (set_RI M pt b a v) pt b a = some (SPARAM.MA.ofRI K v, M2) ∧
      get_DB K M2 pt b a = some (SPARAM.DB.ofMA K (SPARAM.MA.ofRI K v), M3)) ∧
    (SPARAM.MA.ofDB K (SPARAM.DB.ofRI K v) = SPARAM.MA.ofRI K v →
      SPARAM.DB.ofMA K (SPARAM.MA.ofRI K v) = SPARAM.DB.ofRI K v →
      ∃ M1, call_getters K pt b a gs (set_RI M pt b a v) = some M1 ∧
        upToDate K M1 pt b a v ∧
        (∃ M2, get_RI K M1 pt b a = some (v, M2)) ∧
        (∃ M2, get_MA K M1 pt b a = some (SPARAM.MA.ofRI K v, M2)) ∧
        (∃ M2, get_DB K M1 pt b a = some (SPARAM.DB.ofRI K v, M2)) ∧
        (∃ M2, get_CZ K M1 pt b a =
          some (SPARAM.CZ.ofMA K (SPARAM.MA.ofRI K v) M.Zo.real, M2))) ∧
    (realMath.sqrt (u.real * u.real + u.imag * u.imag) > 1 / 10 ^ 10 →
      SPARAM.MA.ofDB realMath (SPARAM.DB.ofRI realMath u) = SPARAM.MA.ofRI realMath u ∧
      SPARAM.DB.ofMA realMath (SPARAM.MA.ofRI realMath u) = SPARAM.DB.ofRI realMath u) := by
  refine ⟨get_MA_after_set_RI K M pt b a v, get_MA_after_get_DB K M pt b a v,
    get_DB_after_get_MA K M pt b a v, ?_,
    fun hu => ⟨SPARAM.MA_ofDB_ofRI u hu, SPARAM.DB_ofMA_ofRI u hu⟩⟩
  intro hMD hDM
  obtain ⟨M1, e, h1, z1⟩ := call_getters_upToDate K pt b a v hMD hDM gs _
    (set_RI_upToDate K M pt b a v)
  have z : M1.Zo = M.Zo := z1
  refine ⟨M1, e, h1, ⟨M1, get_RI_upToDate K M1 pt b a v h1⟩, ?_, ?_, ?_⟩
  · obtain ⟨M2, e2, -⟩ := get_MA_upToDate K M1 pt b a v hMD h1
    exact ⟨M2, e2⟩
  · obtain ⟨M2, e2, -⟩ := get_DB_upToDate K M1 pt b a v hDM h1
    exact ⟨M2, e2⟩
  · obtain ⟨M2, e2, -⟩ := get_CZ_upToDate K M1 pt b a v hMD h1
    rw [z] at e2
    exact ⟨M2, e2⟩

end getters

/-- Witness for C9: the value `1 + 0j` over the reals, read as dB first and as
polar magnitude second. -/
theorem read_order_independent_witness :
    (realMath.sqrt ((⟨1, 0⟩ : SPARAM.RI ℝ).real * (⟨1, 0⟩ : SPARAM.RI ℝ).real +
        (⟨1, 0⟩ : SPARAM.RI ℝ).imag * (⟨1, 0⟩ : SPARAM.RI ℝ).imag) > 1 / 10 ^ 10 ∧
      SPARAM.MA.ofDB realMath (SPARAM.DB.ofRI realMath ⟨1, 0⟩) =
        SPARAM.MA.ofRI realMath ⟨1, 0⟩ ∧
      SPARAM.DB.ofMA realMath (SPARAM.MA.ofRI realMath ⟨1, 0⟩) =
        SPARAM.DB.ofRI realMath ⟨1, 0⟩) ∧
    ∃ M1, call_getters realMath 0 0 0 [Getter.DB, Getter.MA]
        (set_RI blankRealMatrix 0 0 0 ⟨1, 0⟩) = some M1 ∧
      upToDate realMath M1 0 0 0 ⟨1, 0⟩ ∧
      (∃ M2, get_RI realMath M1 0 0 0 = some (⟨1, 0⟩, M2)) ∧
      (∃ M2, get_MA realMath M1 0 0 0 = some (SPARAM.MA.ofRI realMath ⟨1, 0⟩, M2)) ∧
      (∃ M2, get_DB realMath M1 0 0 0 = some (SPARAM.DB.ofRI realMath ⟨1, 0⟩, M2)) ∧
      (∃ M2, get_CZ realMath M1 0 0 0 =
        some (SPARAM.CZ.ofMA realMath (SPARAM.MA.ofRI realMath ⟨1, 0⟩)
          blankRealMatrix.Zo.real, M2)) :=
  have hv : realMath.sqrt ((⟨1, 0⟩ : SPARAM.RI ℝ).real * (⟨1, 0⟩ : SPARAM.RI ℝ).real +
      (⟨1, 0⟩ : SPARAM.RI ℝ).imag * (⟨1, 0⟩ : SPARAM.RI ℝ).imag) > 1 / 10 ^ 10 := by
    show Real.sqrt ((1 : ℝ) * 1 + 0 * 0) > 1 / 10 ^ 10
    norm_num
  have hc := (read_order_independent realMath blankRealMatrix 0 0 0 ⟨1, 0⟩
    [Getter.DB, Getter.MA] ⟨1, 0⟩).2.2.2.2 hv
  ⟨⟨hv, hc.1, hc.2⟩, (read_order_independent realMath blankRealMatrix 0 0 0 ⟨1, 0⟩
    [Getter.DB, Getter.MA] ⟨1, 0⟩).2.2.2.1 hc.1 hc.2⟩

/-- Counterexample to C9 as stated: on the cell written with `0 + 0j`, `get_MA`
called first returns magnitude 0, but called after `get_DB` it returns the
magnitude read back from the floored dB value, which is positive. -/
theorem read_order_changes_magnitude :
    ∃ M1 M2 M3,
      get_MA realMath (set_RI blankRealMatrix 0 0 0 ⟨0, 0⟩) 0 0 0 =
        some (SPARAM.MA.ofRI realMath ⟨0, 0⟩, M1) ∧
      get_DB realMath (set_RI blankRealMatrix 0 0 0 ⟨0, 0⟩) 0 0 0 =
        some (SPARAM.DB.ofRI realMath ⟨0, 0⟩, M2) ∧
      get_MA realMath M2 0 0 0 =
        some (SPARAM.MA.ofDB realMath (SPARAM.DB.ofRI realMath ⟨0, 0⟩), M3) ∧
      (SPARAM.MA.ofRI realMath ⟨0, 0⟩).mag = 0 ∧
      0 < (SPARAM.MA.ofDB realMath (SPARAM.DB.ofRI realMath ⟨0, 0⟩)).mag := by
  obtain ⟨M1, e1⟩ := get_MA_after_set_RI realMath blankRealMatrix 0 0 0 ⟨0, 0⟩
  obtain ⟨M2, M3, e2, e3⟩ := get_MA_after_get_DB realMath blankRealMatrix 0 0 0 ⟨0, 0⟩
  refine ⟨M1, M2, M3, e1, e2, e3, ?_, ?_⟩
  · have h : ¬ (realMath.sqrt ((0 : ℝ) * 0 + 0 * 0) > 1 / 10 ^ 20) := by
      show ¬ (Real.sqrt ((0 : ℝ) * 0 + 0 * 0) > 1 / 10 ^ 20)
      norm_num
    unfold SPARAM.MA.ofRI
    simp only [if_neg h]
    show Real.sqrt ((0 : ℝ) * 0 + 0 * 0) = 0
    norm_num
  · show 0 < (10 : ℝ) ^ ((SPARAM.DB.ofRI realMath ⟨0, 0⟩).dB / 20)
    exact Real.rpow_pos_of_pos (by norm_num) _

end SPARAMS

/-! ## Searching the frequency array -/

namespace SPARAMS
variable {D : Type}

theorem search_double_array_neg [LinearOrder D] (key d0 d1 : D) (h : key < d0) :
    search_double_array key d0 d1 = -1 := by
  unfold search_double_array; rw [if_pos h]

theorem search_double_array_pos [LinearOrder D] (key d0 d1 : D) (h0 : ¬ key < d0)
    (h1 : key ≥ d1) : search_double_array key d0 d1 = 1 := by
  unfold search_double_array; rw [if_neg h0, if_pos h1]

theorem search_double_array_zero [LinearOrder D] (key d0 d1 : D) (h0 : ¬ key < d0)
    (h1 : ¬ key ≥ d1) : search_double_array key d0 d1 = 0 := by
  unfold search_double_array; rw [if_neg h0, if_neg h1]

/-- The binary search over the elements `l, ..., u - 1` finds a bracketing
index whenever `f l ≤ Hz < f u`. -/
theorem bsearch_range_bracket [LinearOrder D] (f : Nat → D) (Hz : D) :
    ∀ (k l u : Nat), u - l = k → l < u → f l ≤ Hz → Hz < f u →
      ∃ i, l ≤ i ∧ i < u ∧ f i ≤ Hz ∧ Hz < f (i + 1) ∧
        bsearch_range (fun i => search_double_array Hz (f i) (f (i + 1))) l u = some i := by
  intro k
  induction k using Nat.strong_induction_on with
  | _ k ih =>
    intro l u hk hlu hl hu
    rw [bsearch_range, if_pos hlu]
    simp only
    by_cases c0 : Hz < f ((l + u) / 2)
    · rw [search_double_array_neg _ _ _ c0, if_pos (by decide)]
      have hne : l ≠ (l + u) / 2 := fun e => absurd (e ▸ hl) (not_le.mpr c0)
      have hlt : l < (l + u) / 2 := by omega
      obtain ⟨i, h1, h2, h3, h4, h5⟩ := ih ((l + u) / 2 - l) (by omega) l ((l + u) / 2) rfl hlt hl c0
      exact ⟨i, h1, by omega, h3, h4, h5⟩
    · by_cases c1 : Hz ≥ f ((l + u) / 2 + 1)
      · rw [search_double_array_pos _ _ _ c0 c1, if_neg (by decide), if_pos (by decide)]
        have hne : (l + u) / 2 + 1 ≠ u := fun e => absurd (e ▸ c1) (not_le.mpr hu)
        have hlt : (l + u) / 2 + 1 < u := by omega
        obtain ⟨i, h1, h2, h3, h4, h5⟩ :=
          ih (u - ((l + u) / 2 + 1)) (by omega) ((l + u) / 2 + 1) u rfl hlt c1 hu
        exact ⟨i, by omega, h2, h3, h4, h5⟩
      · rw [search_double_array_zero _ _ _ c0 c1, if_neg (by decide), if_neg (by decide)]
        exact ⟨(l + u) / 2, by omega, by omega, not_lt.mp c0, not_le.mp c1, rfl⟩

end SPARAMS

namespace SPARAMS
variable {D : Type}

theorem last_index (M : SPARAMS D) (n : Nat) (hn : M.n_points = (n : Int)) :
    (M.n_points - 1).toNat = n - 1 := by
  rw [hn]; omega

theorem last_index_int (M : SPARAMS D) (n : Nat) (hn : M.n_points = (n : Int)) (h1 : 1 ≤ n) :
    M.n_points - 1 = ((n - 1 : Nat) : Int) := by
  rw [hn]; omega

/-- In a non-decreasing array at most one index brackets `Hz`. -/
theorem bracket_unique [LinearOrder D] (f : Nat → D) (n : Nat)
    (mono : ∀ i j, i ≤ j → j < n → f i ≤ f j) (Hz : D) (i j : Nat)
    (hi : i + 1 < n) (hi0 : f i ≤ Hz) (hi1 : Hz < f (i + 1))
    (hj : j + 1 < n) (hj0 : f j ≤ Hz) (hj1 : Hz < f (j + 1)) : j = i := by
  rcases Nat.lt_trichotomy i j with h | h | h
  · exact absurd (le_trans (mono (i + 1) j h (by omega)) hj0) (not_le.mpr hi1)
  · exact h.symm
  · exact absurd (le_trans (mono (j + 1) i h (by omega)) hi0) (not_le.mpr hj1)

/-- The fraction of a bracketed query lies in `[0, 1)`. -/
theorem alpha_range [LinearOrderedField D] (f0 f1 Hz : D) (h0 : f0 ≤ Hz) (h1 : Hz < f1) :
    0 ≤ (Hz - f0) / (f1 - f0) ∧ (Hz - f0) / (f1 - f0) < 1 := by
  have hd : 0 < f1 - f0 := sub_pos.mpr (lt_of_le_of_lt h0 h1)
  refine ⟨div_nonneg (sub_nonneg.mpr h0) (le_of_lt hd), ?_⟩
  rw [div_lt_one hd]
  exact sub_lt_sub_right h1 f0

/-- The search inside the range: for `f[0] < Hz < f[n-1]` the result is a
bracketing index with its fraction. -/
theorem nearest_freq_Hz_inside [LinearOrderedField D] (M : SPARAMS D) (Hz : D) (n : Nat)
    (hn : M.n_points = (n : Int)) (h0 : M.freq_Hz 0 < Hz) (h1 : Hz < M.freq_Hz (n - 1)) :
    ∃ i, i + 1 < n ∧ M.freq_Hz i ≤ Hz ∧ Hz < M.freq_Hz (i + 1) ∧
      nearest_freq_Hz M Hz =
        some ((i : Int), (Hz - M.freq_Hz i) / (M.freq_Hz (i + 1) - M.freq_Hz i)) := by
  have hpos : 0 < n - 1 := by
    rcases Nat.eq_zero_or_pos (n - 1) with e | e
    · rw [e] at h1; exact absurd (lt_trans h0 h1) (lt_irrefl _)
    · exact e
  obtain ⟨i, -, hi, b0, b1, e⟩ :=
    bsearch_range_bracket M.freq_Hz Hz (n - 1 - 0) 0 (n - 1) rfl hpos (le_of_lt h0) h1
  refine ⟨i, by omega, b0, b1, ?_⟩
  unfold nearest_freq_Hz
  rw [last_index M n hn, if_neg (not_le.mpr h0), if_neg (not_le.mpr h1), e]

/-- **C10** (amended).  `nearest_freq_Hz` on a non-decreasing frequency array of
`n >= 1` points: if `Hz <= f[0]` the result is index 0 with alpha 0; if
`Hz > f[0]` and `Hz >= f[n-1]` the result is index `n-1` with alpha 0;
otherwise the result is the one index `i` with `f[i] <= Hz < f[i+1]` and
`alpha = (Hz - f[i])/(f[i+1] - f[i])`, with `0 <= alpha < 1`.  A result is
returned in every case, so the assertion after the binary search is not
reached. -/
theorem nearest_freq_Hz_spec [LinearOrderedField D] (M : SPARAMS D) (Hz : D) (n : Nat)
    (hn : M.n_points = (n : Int)) (h1 : 1 ≤ n)
    (mono : ∀ i j, i ≤ j → j < n → M.freq_Hz i ≤ M.freq_Hz j) :
    (Hz ≤ M.freq_Hz 0 → nearest_freq_Hz M Hz = some (0, 0)) ∧
    (M.freq_Hz 0 < Hz → M.freq_Hz (n - 1) ≤ Hz →
      nearest_freq_Hz M Hz = some (((n - 1 : Nat) : Int), 0)) ∧
    (M.freq_Hz 0 < Hz → Hz < M.freq_Hz (n - 1) →
      ∃ (i : Nat) (alpha : D), nearest_freq_Hz M Hz = some ((i : Int), alpha) ∧
        i + 1 < n ∧ M.freq_Hz i ≤ Hz ∧ Hz < M.freq_Hz (i + 1) ∧
        alpha = (Hz - M.freq_Hz i) / (M.freq_Hz (i + 1) - M.freq_Hz i) ∧
        0 ≤ alpha ∧ alpha < 1 ∧
        ∀ j, j + 1 < n → M.freq_Hz j ≤ Hz → Hz < M.freq_Hz (j + 1) → j = i) := by
  refine ⟨?_, ?_, ?_⟩
  · intro h
    unfold nearest_freq_Hz
    rw [if_pos h]
  · intro h0 hl
    unfold nearest_freq_Hz
    rw [last_index M n hn, if_neg (not_le.mpr h0), if_pos hl, last_index_int M n hn h1]
  · intro h0 hl
    obtain ⟨i, hi, b0, b1, e⟩ := nearest_freq_Hz_inside M Hz n hn h0 hl
    have r := alpha_range (M.freq_Hz i) (M.freq_Hz (i + 1)) Hz b0 b1
    exact ⟨i, _, e, hi, b0, b1, rfl, r.1, r.2,
      fun j hj j0 j1 => bracket_unique M.freq_Hz n mono Hz i j hi b0 b1 hj j0 j1⟩

theorem threePoint_mono (i j : Nat) (h : i ≤ j) : threePoint.freq_Hz i ≤ threePoint.freq_Hz j := by
  show ((i : ℝ) + 1) * 1000000000 ≤ ((j : ℝ) + 1) * 1000000000
  have : (i : ℝ) ≤ j := Nat.cast_le.mpr h
  linarith

/-- Witness for C10: the three-point example queried at 1.5e9 Hz. -/
theorem nearest_freq_Hz_spec_witness :
    (threePoint.n_points = ((3 : Nat) : Int) ∧ 1 ≤ 3 ∧
      ∀ i j, i ≤ j → j < 3 → threePoint.freq_Hz i ≤ threePoint.freq_Hz j) ∧
    ((1500000000 : ℝ) ≤ threePoint.freq_Hz 0 →
      nearest_freq_Hz threePoint 1500000000 = some (0, 0)) ∧
    (threePoint.freq_Hz 0 < 1500000000 → threePoint.freq_Hz (3 - 1) ≤ 1500000000 →
      nearest_freq_Hz threePoint 1500000000 = some (((3 - 1 : Nat) : Int), 0)) ∧
    (threePoint.freq_Hz 0 < 1500000000 → 1500000000 < threePoint.freq_Hz (3 - 1) →
      ∃ (i : Nat) (alpha : ℝ), nearest_freq_Hz threePoint 1500000000 = some ((i : Int), alpha) ∧
        i + 1 < 3 ∧ threePoint.freq_Hz i ≤ 1500000000 ∧
        1500000000 < threePoint.freq_Hz (i + 1) ∧
        alpha = (1500000000 - threePoint.freq_Hz i) /
          (threePoint.freq_Hz (i + 1) - threePoint.freq_Hz i) ∧
        0 ≤ alpha ∧ alpha < 1 ∧
        ∀ j, j + 1 < 3 → threePoint.freq_Hz j ≤ 1500000000 →
          1500000000 < threePoint.freq_Hz (j + 1) → j = i) :=
  ⟨⟨rfl, by decide, fun i j h _ => threePoint_mono i j h⟩,
    nearest_freq_Hz_spec threePoint 1500000000 3 rfl (by decide)
      (fun i j h _ => threePoint_mono i j h)⟩

/-- Counterexample to C10 as stated: on the non-decreasing two-point array
`[5, 5]` the query `Hz = 5` satisfies `Hz >= f[n-1]`, yet the result is index
0, not index `n - 1 = 1`. -/
theorem nearest_freq_Hz_flatPair :
    flatPair.n_points = 2 ∧
    (∀ i j, i ≤ j → flatPair.freq_Hz i ≤ flatPair.freq_Hz j) ∧
    (5 : ℝ) ≥ flatPair.freq_Hz (2 - 1) ∧
    nearest_freq_Hz flatPair 5 = some (0, 0) ∧
    nearest_freq_Hz flatPair 5 ≠ some (((2 - 1 : Nat) : Int), 0) := by
  have e : nearest_freq_Hz flatPair 5 = some (0, 0) := by
    unfold nearest_freq_Hz
    rw [if_pos (show (5 : ℝ) ≤ flatPair.freq_Hz 0 from le_refl (5 : ℝ))]
  refine ⟨rfl, fun _ _ _ => le_refl _, le_refl _, e, ?_⟩
  rw [e]
  intro h
  have h2 : (0 : Int) = ((2 - 1 : Nat) : Int) := congrArg Prod.fst (Option.some.inj h)
  exact absurd h2 (by decide)

end SPARAMS

/-! ## Frequency-based queries: extrapolation policies -/

namespace SPARAMS
variable {D : Type}

section queries
variable [LinearOrderedField D]

theorem get_RI_Hz_below (K : MathLib D) (M : SPARAMS D) (Hz : D) (b a : Nat) (flags : U8)
    (h : Hz < M.min_Hz) :
    get_RI_Hz K M Hz b a flags =
      if flags &&& SPARAM.EXT_ZERO ≠ 0 then some (⟨0, 0⟩, true, M)
      else if flags &&& SPARAM.EXT_LEND ≠ 0 then
        match get_RI K M 0 b a with
        | none => none
        | some (v, M) => some (v, true, M)
      else some (⟨0, 0⟩, false, M) := by
  unfold get_RI_Hz
  rw [if_pos h]

theorem get_RI_Hz_above (K : MathLib D) (M : SPARAMS D) (Hz : D) (b a : Nat) (flags : U8)
    (h0 : ¬ Hz < M.min_Hz) (h : Hz > M.max_Hz) :
    get_RI_Hz K M Hz b a flags =
      if flags &&& SPARAM.EXT_ZERO ≠ 0 then some (⟨0, 0⟩, true, M)
      else if flags &&& SPARAM.EXT_REND ≠ 0 then
        match get_RI K M (M.n_points - 1).toNat b a with
        | none => none
        | some (v, M) => some (v, true, M)
      else some (⟨0, 0⟩, false, M) := by
  unfold get_RI_Hz
  rw [if_neg h0, if_pos h]

theorem get_MA_Hz_below (K : MathLib D) (fuel : Nat) (M : SPARAMS D) (Hz : D) (b a : Nat)
    (flags : U8) (h : Hz < M.min_Hz) :
    get_MA_Hz K fuel M Hz b a flags =
      if flags &&& SPARAM.EXT_ZERO ≠ 0 then Except.ok (⟨0, 0⟩, true, M)
      else if flags &&& SPARAM.EXT_LEND ≠ 0 then
        match get_MA K M 0 b a with
        | none => Except.error Halt.assertion
        | some (v, M) => Except.ok (v, true, M)
      else Except.ok (⟨0, 0⟩, false, M) := by
  unfold get_MA_Hz
  rw [if_pos h]

theorem get_MA_Hz_above (K : MathLib D) (fuel : Nat) (M : SPARAMS D) (Hz : D) (b a : Nat)
    (flags : U8) (h0 : ¬ Hz < M.min_Hz) (h : Hz > M.max_Hz) :
    get_MA_Hz K fuel M Hz b a flags =
      if flags &&& SPARAM.EXT_ZERO ≠ 0 then Except.ok (⟨0, 0⟩, true, M)
      else if flags &&& SPARAM.EXT_REND ≠ 0 then
        match get_MA K M (M.n_points - 1).toNat b a with
        | none => Except.error Halt.assertion
        | some (v, M) => Except.ok (v, true, M)
      else Except.ok (⟨0, 0⟩, false, M) := by
  unfold get_MA_Hz
  rw [if_neg h0, if_pos h]

theorem get_RI_Hz_zero (K : MathLib D) (M : SPARAMS D) (Hz : D) (b a : Nat) (flags : U8)
    (hz : flags &&& SPARAM.EXT_ZERO ≠ 0) (ho : Hz < M.min_Hz ∨ Hz > M.max_Hz) :
    get_RI_Hz K M Hz b a flags = some (⟨0, 0⟩, true, M) := by
  by_cases h : Hz < M.min_Hz
  · rw [get_RI_Hz_below K M Hz b a flags h, if_pos hz]
  · rw [get_RI_Hz_above K M Hz b a flags h (ho.resolve_left h), if_pos hz]

theorem get_MA_Hz_zero (K : MathLib D) (fuel : Nat) (M : SPARAMS D) (Hz : D) (b a : Nat)
    (flags : U8) (hz : flags &&& SPARAM.EXT_ZERO ≠ 0) (ho : Hz < M.min_Hz ∨ Hz > M.max_Hz) :
    get_MA_Hz K fuel M Hz b a flags = Except.ok (⟨0, 0⟩, true, M) := by
  by_cases h : Hz < M.min_Hz
  · rw [get_MA_Hz_below K fuel M Hz b a flags h, if_pos hz]
  · rw [get_MA_Hz_above K fuel M Hz b a flags h (ho.resolve_left h), if_pos hz]

/-- **C11** (amended).  Zero extrapolation policy: for every query outside
`[min_Hz, max_Hz]` whose flags include `EXT_ZERO`, the frequency-based `get_RI`
and `get_MA` return the zero value `(0, 0)`, leave the matrix as it was, and
leave the range flag at TRUE, that is in-range. -/
theorem ext_zero_policy (K : MathLib D) (fuel : Nat) (M : SPARAMS D) (Hz : D) (b a : Nat)
    (flags : U8) (hz : flags &&& SPARAM.EXT_ZERO ≠ 0)
    (ho : Hz < M.min_Hz ∨ Hz > M.max_Hz) :
    get_RI_Hz K M Hz b a flags = some (⟨0, 0⟩, true, M) ∧
    get_MA_Hz K fuel M Hz b a flags = Except.ok (⟨0, 0⟩, true, M) :=
  ⟨get_RI_Hz_zero K M Hz b a flags hz ho, get_MA_Hz_zero K fuel M Hz b a flags hz ho⟩

end queries

theorem threePoint_below : (0 : ℝ) < threePoint.min_Hz := by
  show (0 : ℝ) < 1000000000
  norm_num

theorem threePoint_above : (4000000000 : ℝ) > threePoint.max_Hz := by
  show (4000000000 : ℝ) > 3000000000
  norm_num

/-- Witness for C11: the three-point example queried at 4e9 Hz, above the
range, with the flags `EXT_ZERO | EXT_REND`. -/
theorem ext_zero_policy_witness :
    ((SPARAM.EXT_ZERO ||| SPARAM.EXT_REND) &&& SPARAM.EXT_ZERO ≠ 0 ∧
      ((4000000000 : ℝ) < threePoint.min_Hz ∨ (4000000000 : ℝ) > threePoint.max_Hz)) ∧
    get_RI_Hz realMath threePoint 4000000000 0 0 (SPARAM.EXT_ZERO ||| SPARAM.EXT_REND) =
      some (⟨0, 0⟩, true, threePoint) ∧
    get_MA_Hz realMath 0 threePoint 4000000000 0 0 (SPARAM.EXT_ZERO ||| SPARAM.EXT_REND) =
      Except.ok (⟨0, 0⟩, true, threePoint) :=
  ⟨⟨by decide, Or.inr threePoint_above⟩,
    ext_zero_policy realMath 0 threePoint 4000000000 0 0 (SPARAM.EXT_ZERO ||| SPARAM.EXT_REND)
      (by decide) (Or.inr threePoint_above)⟩

/-- Counterexample to C11 as stated: the three-point example queried at 0 Hz,
below the range, with the flag `EXT_ZERO`: both getters return with the range
flag TRUE (in-range), not FALSE. -/
theorem ext_zero_reports_in_range :
    (0 : ℝ) < threePoint.min_Hz ∧ SPARAM.EXT_ZERO &&& SPARAM.EXT_ZERO ≠ 0 ∧
    (get_RI_Hz realMath threePoint 0 0 0 SPARAM.EXT_ZERO).map (fun r => r.2.1) = some true ∧
    (get_MA_Hz realMath 0 threePoint 0 0 0 SPARAM.EXT_ZERO).map (fun r => r.2.1) =
      Except.ok true := by
  refine ⟨threePoint_below, by decide, ?_, ?_⟩
  · rw [get_RI_Hz_zero realMath threePoint 0 0 0 SPARAM.EXT_ZERO (by decide)
      (Or.inl threePoint_below)]
    rfl
  · rw [get_MA_Hz_zero realMath 0 threePoint 0 0 0 SPARAM.EXT_ZERO (by decide)
      (Or.inl threePoint_below)]
    rfl

end SPARAMS

namespace SPARAMS
variable {D : Type}

section queries
variable [LinearOrderedField D]

theorem get_RI_Hz_last (K : MathLib D) (M : SPARAMS D) (Hz : D) (b a : Nat) (flags : U8)
    (p0 : Int) (A : D) (h0 : ¬ Hz < M.min_Hz) (h1 : ¬ Hz > M.max_Hz)
    (hn : nearest_freq_Hz M Hz = some (p0, A)) (hp : p0 ≥ M.n_points - 1) :
    get_RI_Hz K M Hz b a flags =
      match get_RI K M (M.n_points - 1).toNat b a with
      | none => none
      | some (v, M) => some (v, true, M) := by
  unfold get_RI_Hz
  rw [if_neg h0, if_neg h1, hn]
  simp only [if_pos hp]

theorem get_RI_Hz_interp (K : MathLib D) (M M1 M2 : SPARAMS D) (Hz : D) (b a : Nat)
    (flags : U8) (p0 : Int) (A : D) (v0 v1 : SPARAM.RI D)
    (h0 : ¬ Hz < M.min_Hz) (h1 : ¬ Hz > M.max_Hz)
    (hn : nearest_freq_Hz M Hz = some (p0, A)) (hp : ¬ p0 ≥ M.n_points - 1)
    (e0 : get_RI K M p0.toNat b a = some (v0, M1))
    (e1 : get_RI K M1 (p0 + 1).toNat b a = some (v1, M2)) :
    get_RI_Hz K M Hz b a flags =
      some (⟨v0.real + ((v1.real - v0.real) * A), v0.imag + ((v1.imag - v0.imag) * A)⟩,
        true, M2) := by
  unfold get_RI_Hz
  rw [if_neg h0, if_neg h1, hn]
  simp only [if_neg hp, e0, e1]

theorem get_MA_Hz_last (K : MathLib D) (fuel : Nat) (M : SPARAMS D) (Hz : D) (b a : Nat)
    (flags : U8) (p0 : Int) (A : D) (h0 : ¬ Hz < M.min_Hz) (h1 : ¬ Hz > M.max_Hz)
    (hn : nearest_freq_Hz M Hz = some (p0, A)) (hp : p0 ≥ M.n_points - 1) :
    get_MA_Hz K fuel M Hz b a flags =
      match get_MA K M (M.n_points - 1).toNat b a with
      | none => Except.error Halt.assertion
      | some (v, M) => Except.ok (v, true, M) := by
  unfold get_MA_Hz
  rw [if_neg h0, if_neg h1, hn]
  simp only [if_pos hp]

theorem get_MA_Hz_interp (K : MathLib D) (fuel : Nat) (M M1 M2 : SPARAMS D) (Hz : D)
    (b a : Nat) (flags : U8) (p0 : Int) (A : D) (v0 v1 : SPARAM.MA D) (d r : D)
    (h0 : ¬ Hz < M.min_Hz) (h1 : ¬ Hz > M.max_Hz)
    (hn : nearest_freq_Hz M Hz = some (p0, A)) (hp : ¬ p0 ≥ M.n_points - 1)
    (e0 : get_MA K M p0.toNat b a = some (v0, M1))
    (e1 : get_MA K M1 (p0 + 1).toNat b a = some (v1, M2))
    (w0 : wrap_deg fuel (v1.deg - v0.deg) = some d)
    (w1 : wrap_deg fuel (v0.deg + (d * A)) = some r) :
    get_MA_Hz K fuel M Hz b a flags =
      Except.ok (⟨v0.mag + ((v1.mag - v0.mag) * A), r⟩, true, M2) := by
  unfold get_MA_Hz
  rw [if_neg h0, if_neg h1, hn]
  simp only [if_neg hp, e0, e1, w0, w1]

/-- The search returns an index and a fraction for every query. -/
theorem nearest_freq_Hz_total (M : SPARAMS D) (Hz : D) :
    ∃ p0 A, nearest_freq_Hz M Hz = some (p0, A) ∧
      (p0 ≥ M.n_points - 1 ∨ (0 ≤ p0 ∧ p0 + 1 ≤ M.n_points - 1)) := by
  by_cases c0 : Hz ≤ M.freq_Hz 0
  · by_cases c : (0 : Int) ≥ M.n_points - 1
    · exact ⟨0, 0, by unfold nearest_freq_Hz; rw [if_pos c0], Or.inl c⟩
    · exact ⟨0, 0, by unfold nearest_freq_Hz; rw [if_pos c0], Or.inr ⟨le_refl _, by omega⟩⟩
  · by_cases c1 : Hz ≥ M.freq_Hz (M.n_points - 1).toNat
    · exact ⟨M.n_points - 1, 0, by unfold nearest_freq_Hz; rw [if_neg c0, if_pos c1],
        Or.inl (le_refl _)⟩
    · have hpos : 0 < (M.n_points - 1).toNat := by
        rcases Nat.eq_zero_or_pos (M.n_points - 1).toNat with e | e
        · rw [e] at c1; exact absurd (le_of_lt (not_le.mp c0)) c1
        · exact e
      obtain ⟨i, -, hi, -, -, e⟩ := bsearch_range_bracket M.freq_Hz Hz
        ((M.n_points - 1).toNat - 0) 0 (M.n_points - 1).toNat rfl hpos
        (le_of_lt (not_le.mp c0)) (not_le.mp c1)
      have hb : (0 : Int) ≤ (i : Int) ∧ (i : Int) + 1 ≤ M.n_points - 1 := ⟨by omega, by omega⟩
      refine ⟨(i : Int), (Hz - M.freq_Hz i) / (M.freq_Hz (i + 1) - M.freq_Hz i), ?_, Or.inr hb⟩
      unfold nearest_freq_Hz
      rw [if_neg c0, if_neg c1, e]

end queries

theorem readable_get_RI [LinearOrderedField D] (K : MathLib D) (M : SPARAMS D) (pt b a : Nat)
    (h : readable M b a pt) :
    ∃ v M1, get_RI K M pt b a = some (v, M1) ∧ ∀ p, readable M b a p → readable M1 b a p := by
  by_cases c : M.valid b a pt &&& SNPTYPE.RI ≠ 0
  · exact ⟨_, _, get_RI_cached K M pt b a c, fun _ hp => hp⟩
  · have hs : M.valid b a pt &&& SNPTYPE.MA ≠ 0 ∨ M.valid b a pt &&& SNPTYPE.DB ≠ 0 := by
      rcases h with h | h | h
      · exact Or.inl h
      · exact Or.inr h
      · exact absurd h c
    refine ⟨_, _, get_RI_convert K M pt b a (not_not.mp c) hs, ?_⟩
    intro p hp
    by_cases e : p = pt
    · subst e
      refine Or.inr (Or.inr ?_)
      show setAt M.valid b a p _ b a p &&& SNPTYPE.RI ≠ 0
      rw [setAt_same]
      exact (mask_or_RI _).1
    · have e2 : setAt M.valid b a pt (M.valid b a pt ||| SNPTYPE.RI) b a p = M.valid b a p :=
        setAt_other _ _ _ _ _ _ _ _ (fun x => e x.2.2)
      unfold readable
      show setAt M.valid b a pt _ b a p &&& SNPTYPE.MA ≠ 0 ∨
        setAt M.valid b a pt _ b a p &&& SNPTYPE.DB ≠ 0 ∨
        setAt M.valid b a pt _ b a p &&& SNPTYPE.RI ≠ 0
      rw [e2]
      exact hp

theorem readable_get_MA [LinearOrderedField D] (K : MathLib D) (M : SPARAMS D) (pt b a : Nat)
    (h : readable M b a pt) :
    ∃ v M1, get_MA K M pt b a = some (v, M1) ∧ ∀ p, readable M b a p → readable M1 b a p := by
  by_cases c : M.valid b a pt &&& SNPTYPE.MA ≠ 0
  · exact ⟨_, _, get_MA_cached K M pt b a c, fun _ hp => hp⟩
  · have hs : M.valid b a pt &&& SNPTYPE.DB ≠ 0 ∨ M.valid b a pt &&& SNPTYPE.RI ≠ 0 := by
      rcases h with h | h | h
      · exact absurd h c
      · exact Or.inl h
      · exact Or.inr h
    refine ⟨_, _, get_MA_convert K M pt b a (not_not.mp c) hs, ?_⟩
    intro p hp
    by_cases e : p = pt
    · subst e
      refine Or.inl ?_
      show setAt M.valid b a p _ b a p &&& SNPTYPE.MA ≠ 0
      rw [setAt_same]
      exact (mask_or_MA _).1
    · have e2 : setAt M.valid b a pt (M.valid b a pt ||| SNPTYPE.MA) b a p = M.valid b a p :=
        setAt_other _ _ _ _ _ _ _ _ (fun x => e x.2.2)
      unfold readable
      show setAt M.valid b a pt _ b a p &&& SNPTYPE.MA ≠ 0 ∨
        setAt M.valid b a pt _ b a p &&& SNPTYPE.DB ≠ 0 ∨
        setAt M.valid b a pt _ b a p &&& SNPTYPE.RI ≠ 0
      rw [e2]
      exact hp

end SPARAMS

namespace SPARAMS
variable {D : Type}

section loops
variable [LinearOrderedField D]

theorem wrap_up_steps : ∀ (n : Nat) (d : D), -180 ≤ d + 360 * (n : D) →
    ∃ k : Nat, k ≤ n ∧ -180 ≤ d + 360 * (k : D) ∧ (k = 0 ∨ d + 360 * (k : D) < 180) ∧
      ∀ fuel, n + 1 ≤ fuel → wrap_up fuel d = some (d + 360 * (k : D)) := by
  intro n
  induction n with
  | zero =>
    intro d h
    have hd : -180 ≤ d := by simpa using h
    refine ⟨0, le_refl _, by simpa using hd, Or.inl rfl, ?_⟩
    intro fuel hf
    obtain ⟨f, rfl⟩ : ∃ f, fuel = f + 1 := ⟨fuel - 1, by omega⟩
    unfold wrap_up
    rw [if_neg (not_lt.mpr hd)]
    simp
  | succ n ih =>
    intro d h
    by_cases c : d < -180
    · have h2 : -180 ≤ (d + 360) + 360 * (n : D) := by
        have e : ((n + 1 : Nat) : D) = (n : D) + 1 := by push_cast; rfl
        rw [e] at h
        linarith
      obtain ⟨k, hk, b0, b1, hw⟩ := ih (d + 360) h2
      have e : d + 360 * ((k + 1 : Nat) : D) = (d + 360) + 360 * (k : D) := by
        push_cast; ring
      refine ⟨k + 1, by omega, by rw [e]; exact b0, Or.inr ?_, ?_⟩
      · rw [e]
        rcases b1 with b1 | b1
        · subst b1
          have : (d + 360) + 360 * ((0 : Nat) : D) = d + 360 := by simp
          rw [this]
          linarith
        · exact b1
      · intro fuel hf
        obtain ⟨f, rfl⟩ : ∃ f, fuel = f + 1 := ⟨fuel - 1, by omega⟩
        unfold wrap_up
        rw [if_pos c, hw f (by omega), e]
    · have hd : -180 ≤ d := not_lt.mp c
      refine ⟨0, Nat.zero_le _, by simpa using hd, Or.inl rfl, ?_⟩
      intro fuel hf
      obtain ⟨f, rfl⟩ : ∃ f, fuel = f + 1 := ⟨fuel - 1, by omega⟩
      unfold wrap_up
      rw [if_neg c]
      simp

theorem wrap_down_steps : ∀ (n : Nat) (d : D), d - 360 * (n : D) ≤ 180 →
    ∃ k : Nat, k ≤ n ∧ d - 360 * (k : D) ≤ 180 ∧ (k = 0 ∨ -180 < d - 360 * (k : D)) ∧
      ∀ fuel, n + 1 ≤ fuel → wrap_down fuel d = some (d - 360 * (k : D)) := by
  intro n
  induction n with
  | zero =>
    intro d h
    have hd : d ≤ 180 := by simpa using h
    refine ⟨0, le_refl _, by simpa using hd, Or.inl rfl, ?_⟩
    intro fuel hf
    obtain ⟨f, rfl⟩ : ∃ f, fuel = f + 1 := ⟨fuel - 1, by omega⟩
    unfold wrap_down
    rw [if_neg (not_lt.mpr hd)]
    simp
  | succ n ih =>
    intro d h
    by_cases c : d > 180
    · have h2 : (d - 360) - 360 * (n : D) ≤ 180 := by
        have e : ((n + 1 : Nat) : D) = (n : D) + 1 := by push_cast; rfl
        rw [e] at h
        linarith
      obtain ⟨k, hk, b0, b1, hw⟩ := ih (d - 360) h2
      have e : d - 360 * ((k + 1 : Nat) : D) = (d - 360) - 360 * (k : D) := by
        push_cast; ring
      refine ⟨k + 1, by omega, by rw [e]; exact b0, Or.inr ?_, ?_⟩
      · rw [e]
        rcases b1 with b1 | b1
        · subst b1
          have : (d - 360) - 360 * ((0 : Nat) : D) = d - 360 := by simp
          rw [this]
          linarith
        · exact b1
      · intro fuel hf
        obtain ⟨f, rfl⟩ : ∃ f, fuel = f + 1 := ⟨fuel - 1, by omega⟩
        unfold wrap_down
        rw [if_pos c, hw f (by omega), e]
    · have hd : d ≤ 180 := not_lt.mp c
      refine ⟨0, Nat.zero_le _, by simpa using hd, Or.inl rfl, ?_⟩
      intro fuel hf
      obtain ⟨f, rfl⟩ : ∃ f, fuel = f + 1 := ⟨fuel - 1, by omega⟩
      unfold wrap_down
      rw [if_neg c]
      simp

/-- Both loops on an angle within `n` turns of the range: the result differs
from the input by a whole number of turns and lies in `[-180, 180]`. -/
theorem wrap_deg_steps (n : Nat) (d : D) (hlo : -180 ≤ d + 360 * (n : D))
    (hhi : d - 360 * (n : D) ≤ 180) :
    ∃ z : Int, -180 ≤ d + 360 * (z : D) ∧ d + 360 * (z : D) ≤ 180 ∧
      ∀ fuel, n + 1 ≤ fuel → wrap_deg fuel d = some (d + 360 * (z : D)) := by
  obtain ⟨k1, hk1, a0, a1, hw1⟩ := wrap_up_steps n d hlo
  rcases a1 with a1 | a1
  · -- the first loop did not run
    subst a1
    have e0 : d + 360 * ((0 : Nat) : D) = d := by simp
    rw [e0] at a0 hw1
    obtain ⟨k3, hk3, c0, c1, hw3⟩ := wrap_down_steps n d hhi
    have e3 : d + 360 * ((-(k3 : Int) : Int) : D) = d - 360 * (k3 : D) := by
      push_cast; ring
    refine ⟨-(k3 : Int), ?_, by rw [e3]; exact c0, ?_⟩
    · rw [e3]
      rcases c1 with c1 | c1
      · subst c1; simpa using a0
      · exact le_of_lt c1
    · intro fuel hf
      unfold wrap_deg
      rw [hw1 fuel hf, Option.some_bind, hw3 fuel hf, e3]
  · -- the first loop ran: its result is below 180, the second loop does not run
    have hd : ¬ (d + 360 * (k1 : D) > 180) := not_lt.mpr (le_of_lt a1)
    refine ⟨(k1 : Int), by push_cast; exact a0, by push_cast; exact le_of_lt a1, ?_⟩
    intro fuel hf
    obtain ⟨f, rfl⟩ : ∃ f, fuel = f + 1 := ⟨fuel - 1, by omega⟩
    unfold wrap_deg
    rw [hw1 (f + 1) hf, Option.some_bind]
    unfold wrap_down
    rw [if_neg hd]
    push_cast
    rfl

/-- An angle already in `[-180, 180]` passes both loops unchanged. -/
theorem wrap_deg_id (d : D) (hlo : -180 ≤ d) (hhi : d ≤ 180) (fuel : Nat) (hf : 1 ≤ fuel) :
    wrap_deg fuel d = some d := by
  obtain ⟨f, rfl⟩ : ∃ f, fuel = f + 1 := ⟨fuel - 1, by omega⟩
  unfold wrap_deg wrap_up
  rw [if_neg (not_lt.mpr hlo), Option.some_bind]
  unfold wrap_down
  rw [if_neg (not_lt.mpr hhi)]

/-- Both loops on an angle within `n` turns of the range: the result lies in
`[-180, 180]`, differs from the input by whole turns, and is `-180` only for an
input that is not above `-180`. -/
theorem wrap_deg_range (n : Nat) (d : D) (hlo : -180 ≤ d + 360 * (n : D))
    (hhi : d - 360 * (n : D) ≤ 180) :
    ∃ r : D, -180 ≤ r ∧ r ≤ 180 ∧ (r = -180 → d ≤ -180) ∧ (∃ z : Int, r = d + 360 * (z : D)) ∧
      ∀ fuel, n + 1 ≤ fuel → wrap_deg fuel d = some r := by
  obtain ⟨k1, -, a0, a1, hw1⟩ := wrap_up_steps n d hlo
  have hk1 : (0 : D) ≤ 360 * (k1 : D) := by positivity
  by_cases c : d + 360 * (k1 : D) > 180
  · -- the first loop cannot have run
    have k0 : k1 = 0 := by
      rcases a1 with a1 | a1
      · exact a1
      · exact absurd a1 (not_lt.mpr (le_of_lt c))
    subst k0
    have e0 : d + 360 * ((0 : Nat) : D) = d := by simp
    rw [e0] at a0 hw1 c
    obtain ⟨k3, -, c0, c1, hw3⟩ := wrap_down_steps n d hhi
    have k3pos : k3 ≠ 0 := by
      intro h
      subst h
      have : d - 360 * ((0 : Nat) : D) = d := by simp
      rw [this] at c0
      exact absurd c (not_lt.mpr c0)
    have hr : -180 < d - 360 * (k3 : D) := by
      rcases c1 with c1 | c1
      · exact absurd c1 k3pos
      · exact c1
    refine ⟨d - 360 * (k3 : D), le_of_lt hr, c0, fun h => absurd h (ne_of_gt hr),
      ⟨-(k3 : Int), by push_cast; ring⟩, ?_⟩
    intro fuel hf
    unfold wrap_deg
    rw [hw1 fuel hf, Option.some_bind, hw3 fuel hf]
  · refine ⟨d + 360 * (k1 : D), a0, not_lt.mp c, fun h => by linarith,
      ⟨(k1 : Int), by push_cast; ring⟩, ?_⟩
    intro fuel hf
    obtain ⟨f, rfl⟩ : ∃ f, fuel = f + 1 := ⟨fuel - 1, by omega⟩
    unfold wrap_deg
    rw [hw1 (f + 1) hf, Option.some_bind]
    unfold wrap_down
    rw [if_neg c]

/-- Both loops on an angle of magnitude at most `1e16`: they end within `1e14`
passes each, with a result in `[-180, 180]` that differs from the input by whole
turns and is `-180` only for an input that is not above `-180`. -/
theorem wrap_deg_bounded (d : D) (h : |d| ≤ 10 ^ 16) :
    ∃ r : D, -180 ≤ r ∧ r ≤ 180 ∧ (r = -180 → d ≤ -180) ∧ (∃ z : Int, r = d + 360 * (z : D)) ∧
      ∀ fuel, 10 ^ 14 + 1 ≤ fuel → wrap_deg fuel d = some r := by
  obtain ⟨h1, h2⟩ := abs_le.mp h
  have c : (((10 ^ 14 : Nat)) : D) = 10 ^ 14 := by norm_num
  exact wrap_deg_range (10 ^ 14) d (by rw [c]; linarith) (by rw [c]; linarith)

/-- Over an Archimedean field both loops terminate on every angle. -/
theorem wrap_deg_terminates [Archimedean D] (d : D) :
    ∃ (n0 : Nat) (z : Int), -180 ≤ d + 360 * (z : D) ∧ d + 360 * (z : D) ≤ 180 ∧
      ∀ fuel, n0 ≤ fuel → wrap_deg fuel d = some (d + 360 * (z : D)) := by
  obtain ⟨n1, h1⟩ := exists_nat_ge ((-180 - d) / 360)
  obtain ⟨n2, h2⟩ := exists_nat_ge ((d - 180) / 360)
  have p1 : -180 - d ≤ 360 * (n1 : D) := by
    have := (div_le_iff₀ (by norm_num : (0 : D) < 360)).mp h1
    linarith
  have p2 : d - 180 ≤ 360 * (n2 : D) := by
    have := (div_le_iff₀ (by norm_num : (0 : D) < 360)).mp h2
    linarith
  have m1 : (n1 : D) ≤ ((max n1 n2 : Nat) : D) := Nat.cast_le.mpr (le_max_left _ _)
  have m2 : (n2 : D) ≤ ((max n1 n2 : Nat) : D) := Nat.cast_le.mpr (le_max_right _ _)
  obtain ⟨z, a, b, hw⟩ := wrap_deg_steps (max n1 n2) d (by linarith) (by linarith)
  exact ⟨max n1 n2 + 1, z, a, b, hw⟩

end loops

end SPARAMS

namespace SPARAMS
variable {D : Type}

section queries
variable [LinearOrderedField D]

theorem get_RI_Hz_lend (K : MathLib D) (M M1 : SPARAMS D) (Hz : D) (b a : Nat) (flags : U8)
    (v : SPARAM.RI D) (hz : flags &&& SPARAM.EXT_ZERO = 0) (h : Hz < M.min_Hz)
    (hl : flags &&& SPARAM.EXT_LEND ≠ 0) (e : get_RI K M 0 b a = some (v, M1)) :
    get_RI_Hz K M Hz b a flags = some (v, true, M1) := by
  rw [get_RI_Hz_below K M Hz b a flags h, if_neg (not_not.mpr hz), if_pos hl, e]

theorem get_MA_Hz_lend (K : MathLib D) (fuel : Nat) (M M1 : SPARAMS D) (Hz : D) (b a : Nat)
    (flags : U8) (v : SPARAM.MA D) (hz : flags &&& SPARAM.EXT_ZERO = 0) (h : Hz < M.min_Hz)
    (hl : flags &&& SPARAM.EXT_LEND ≠ 0) (e : get_MA K M 0 b a = some (v, M1)) :
    get_MA_Hz K fuel M Hz b a flags = Except.ok (v, true, M1) := by
  rw [get_MA_Hz_below K fuel M Hz b a flags h, if_neg (not_not.mpr hz), if_pos hl, e]

theorem get_RI_Hz_rend (K : MathLib D) (M M1 : SPARAMS D) (Hz : D) (b a : Nat) (flags : U8)
    (v : SPARAM.RI D) (n : Nat) (hn : M.n_points = (n : Int))
    (hz : flags &&& SPARAM.EXT_ZERO = 0) (h0 : ¬ Hz < M.min_Hz) (h : Hz > M.max_Hz)
    (hr : flags &&& SPARAM.EXT_REND ≠ 0) (e : get_RI K M (n - 1) b a = some (v, M1)) :
    get_RI_Hz K M Hz b a flags = some (v, true, M1) := by
  rw [get_RI_Hz_above K M Hz b a flags h0 h, if_neg (not_not.mpr hz), if_pos hr,
    last_index M n hn, e]

theorem get_MA_Hz_rend (K : MathLib D) (fuel : Nat) (M M1 : SPARAMS D) (Hz : D) (b a : Nat)
    (flags : U8) (v : SPARAM.MA D) (n : Nat) (hn : M.n_points = (n : Int))
    (hz : flags &&& SPARAM.EXT_ZERO = 0) (h0 : ¬ Hz < M.min_Hz) (h : Hz > M.max_Hz)
    (hr : flags &&& SPARAM.EXT_REND ≠ 0) (e : get_MA K M (n - 1) b a = some (v, M1)) :
    get_MA_Hz K fuel M Hz b a flags = Except.ok (v, true, M1) := by
  rw [get_MA_Hz_above K fuel M Hz b a flags h0 h, if_neg (not_not.mpr hz), if_pos hr,
    last_index M n hn, e]

/-- **C12** (amended).  Endpoint-extend policy, for flags that do not include
`EXT_ZERO`: for every query below `min_Hz` whose flags include `EXT_LEND`, the
frequency-based `get_RI` and `get_MA` return what the index-based getter returns
for sample 0, with the range flag TRUE; and on a matrix of `n >= 1` points with
`min_Hz <= max_Hz`, for every query above `max_Hz` whose flags include
`EXT_REND` they return what the index-based getter returns for sample `n - 1`,
with the range flag TRUE. -/
theorem ext_endpoint_policy (K : MathLib D) (fuel : Nat) (M : SPARAMS D) (Hz : D) (b a : Nat)
    (flags : U8) (hz : flags &&& SPARAM.EXT_ZERO = 0) :
    (Hz < M.min_Hz → flags &&& SPARAM.EXT_LEND ≠ 0 →
      (∀ v M1, get_RI K M 0 b a = some (v, M1) →
        get_RI_Hz K M Hz b a flags = some (v, true, M1)) ∧
      (∀ v M1, get_MA K M 0 b a = some (v, M1) →
        get_MA_Hz K fuel M Hz b a flags = Except.ok (v, true, M1))) ∧
    (∀ n : Nat, M.n_points = (n : Int) → 1 ≤ n → M.min_Hz ≤ M.max_Hz →
      Hz > M.max_Hz → flags &&& SPARAM.EXT_REND ≠ 0 →
      (∀ v M1, get_RI K M (n - 1) b a = some (v, M1) →
        get_RI_Hz K M Hz b a flags = some (v, true, M1)) ∧
      (∀ v M1, get_MA K M (n - 1) b a = some (v, M1) →
        get_MA_Hz K fuel M Hz b a flags = Except.ok (v, true, M1))) := by
  refine ⟨fun h hl => ⟨fun v M1 e => get_RI_Hz_lend K M M1 Hz b a flags v hz h hl e,
    fun v M1 e => get_MA_Hz_lend K fuel M M1 Hz b a flags v hz h hl e⟩, ?_⟩
  intro n hn _ hmm h hr
  have h0 : ¬ Hz < M.min_Hz := not_lt.mpr (le_trans hmm (le_of_lt h))
  exact ⟨fun v M1 e => get_RI_Hz_rend K M M1 Hz b a flags v n hn hz h0 h hr e,
    fun v M1 e => get_MA_Hz_rend K fuel M M1 Hz b a flags v n hn hz h0 h hr e⟩

theorem get_RI_Hz_default (K : MathLib D) (M : SPARAMS D) (Hz : D) (b a : Nat) (flags : U8)
    (hz : flags &&& SPARAM.EXT_ZERO = 0)
    (h : (Hz < M.min_Hz ∧ flags &&& SPARAM.EXT_LEND = 0) ∨
      (¬ Hz < M.min_Hz ∧ Hz > M.max_Hz ∧ flags &&& SPARAM.EXT_REND = 0)) :
    get_RI_Hz K M Hz b a flags = some (⟨0, 0⟩, false, M) := by
  rcases h with ⟨h, hl⟩ | ⟨h0, h, hr⟩
  · rw [get_RI_Hz_below K M Hz b a flags h, if_neg (not_not.mpr hz), if_neg (not_not.mpr hl)]
  · rw [get_RI_Hz_above K M Hz b a flags h0 h, if_neg (not_not.mpr hz),
      if_neg (not_not.mpr hr)]

theorem get_MA_Hz_default (K : MathLib D) (fuel : Nat) (M : SPARAMS D) (Hz : D) (b a : Nat)
    (flags : U8) (hz : flags &&& SPARAM.EXT_ZERO = 0)
    (h : (Hz < M.min_Hz ∧ flags &&& SPARAM.EXT_LEND = 0) ∨
      (¬ Hz < M.min_Hz ∧ Hz > M.max_Hz ∧ flags &&& SPARAM.EXT_REND = 0)) :
    get_MA_Hz K fuel M Hz b a flags = Except.ok (⟨0, 0⟩, false, M) := by
  rcases h with ⟨h, hl⟩ | ⟨h0, h, hr⟩
  · rw [get_MA_Hz_below K fuel M Hz b a flags h, if_neg (not_not.mpr hz),
      if_neg (not_not.mpr hl)]
  · rw [get_MA_Hz_above K fuel M Hz b a flags h0 h, if_neg (not_not.mpr hz),
      if_neg (not_not.mpr hr)]

end queries

theorem threePoint_RI_bit (pt : Nat) : threePoint.valid 0 0 pt &&& SNPTYPE.RI ≠ 0 := by
  show SNPTYPE.RI &&& SNPTYPE.RI ≠ 0
  decide

/-- Witness for C12: the three-point example queried at 0 Hz with the flag
`EXT_LEND` returns sample 0, in range. -/
theorem ext_endpoint_policy_witness :
    SPARAM.EXT_LEND &&& SPARAM.EXT_ZERO = 0 ∧
    get_RI_Hz realMath threePoint 0 0 0 SPARAM.EXT_LEND =
      some (threePoint.RI 0 0 0, true, threePoint) :=
  ⟨by decide,
    ((ext_endpoint_policy realMath 0 threePoint 0 0 0 SPARAM.EXT_LEND (by decide)).1
      threePoint_below (by decide)).1 _ _
      (get_RI_cached realMath threePoint 0 0 0 (threePoint_RI_bit 0))⟩

/-- Counterexample to C12 as stated: the three-point example queried at 0 Hz,
below the range, with the flags `EXT_ZERO | EXT_LEND`, which include the
left-endpoint-extend flag: the value returned is zero, while sample 0 holds
`0.1 + 0j`. -/
theorem ext_zero_overrides_lend :
    (0 : ℝ) < threePoint.min_Hz ∧
    (SPARAM.EXT_ZERO ||| SPARAM.EXT_LEND) &&& SPARAM.EXT_LEND ≠ 0 ∧
    get_RI_Hz realMath threePoint 0 0 0 (SPARAM.EXT_ZERO ||| SPARAM.EXT_LEND) =
      some (⟨0, 0⟩, true, threePoint) ∧
    get_RI realMath threePoint 0 0 0 = some (threePoint.RI 0 0 0, threePoint) ∧
    (threePoint.RI 0 0 0).real = 1 / 10 ∧ (threePoint.RI 0 0 0).real ≠ 0 := by
  have e : (threePoint.RI 0 0 0).real = 1 / 10 := by
    show (((0 : Nat) : ℝ) + 1) / 10 = 1 / 10
    norm_num
  refine ⟨threePoint_below, by decide,
    get_RI_Hz_zero realMath threePoint 0 0 0 _ (by decide) (Or.inl threePoint_below),
    get_RI_cached realMath threePoint 0 0 0 (threePoint_RI_bit 0), e, ?_⟩
  rw [e]
  norm_num

end SPARAMS

namespace SPARAMS
variable {D : Type}

section queries
variable [LinearOrderedField D]

/-- Inside the range every value `get_RI` returns comes with the flag TRUE. -/
theorem get_RI_Hz_flag (K : MathLib D) (M : SPARAMS D) (Hz : D) (b a : Nat) (flags : U8)
    (h0 : ¬ Hz < M.min_Hz) (h1 : ¬ Hz > M.max_Hz)
    (r : SPARAM.RI D × Bool × SPARAMS D) (hr : get_RI_Hz K M Hz b a flags = some r) :
    r.2.1 = true := by
  obtain ⟨p0, A, hn, -⟩ := nearest_freq_Hz_total M Hz
  by_cases hp : p0 ≥ M.n_points - 1
  · rw [get_RI_Hz_last K M Hz b a flags p0 A h0 h1 hn hp] at hr
    cases e : get_RI K M (M.n_points - 1).toNat b a with
    | none => rw [e] at hr; exact absurd hr (by simp)
    | some x =>
      rw [e] at hr
      rw [← Option.some.inj hr]
  · cases e0 : get_RI K M p0.toNat b a with
    | none =>
      unfold get_RI_Hz at hr
      rw [if_neg h0, if_neg h1, hn] at hr
      simp only [if_neg hp, e0] at hr
      exact absurd hr (by simp)
    | some x0 =>
      cases e1 : get_RI K x0.2 (p0 + 1).toNat b a with
      | none =>
        unfold get_RI_Hz at hr
        rw [if_neg h0, if_neg h1, hn] at hr
        simp only [if_neg hp, e0, e1] at hr
        exact absurd hr (by simp)
      | some x1 =>
        rw [get_RI_Hz_interp K M x0.2 x1.2 Hz b a flags p0 A x0.1 x1.1 h0 h1 hn hp e0 e1] at hr
        rw [← Option.some.inj hr]

/-- Inside the range every value `get_MA` returns comes with the flag TRUE. -/
theorem get_MA_Hz_flag (K : MathLib D) (fuel : Nat) (M : SPARAMS D) (Hz : D) (b a : Nat)
    (flags : U8) (h0 : ¬ Hz < M.min_Hz) (h1 : ¬ Hz > M.max_Hz)
    (r : SPARAM.MA D × Bool × SPARAMS D) (hr : get_MA_Hz K fuel M Hz b a flags = Except.ok r) :
    r.2.1 = true := by
  obtain ⟨p0, A, hn, -⟩ := nearest_freq_Hz_total M Hz
  by_cases hp : p0 ≥ M.n_points - 1
  · rw [get_MA_Hz_last K fuel M Hz b a flags p0 A h0 h1 hn hp] at hr
    cases e : get_MA K M (M.n_points - 1).toNat b a with
    | none => rw [e] at hr; exact absurd hr (by simp)
    | some x =>
      rw [e] at hr
      rw [← Except.ok.inj hr]
  · unfold get_MA_Hz at hr
    rw [if_neg h0, if_neg h1, hn] at hr
    simp only [if_neg hp] at hr
    cases e0 : get_MA K M p0.toNat b a with
    | none => simp only [e0] at hr; exact absurd hr (by simp)
    | some x0 =>
      cases e1 : get_MA K x0.2 (p0 + 1).toNat b a with
      | none => simp only [e0, e1] at hr; exact absurd hr (by simp)
      | some x1 =>
        cases w0 : wrap_deg fuel (x1.1.deg - x0.1.deg) with
        | none => simp only [e0, e1, w0] at hr; exact absurd hr (by simp)
        | some d =>
          cases w1 : wrap_deg fuel (x0.1.deg + d * A) with
          | none => simp only [e0, e1, w0, w1] at hr; exact absurd hr (by simp)
          | some q =>
            simp only [e0, e1, w0, w1] at hr
            rw [← Except.ok.inj hr]

/-- Inside the range `get_RI` returns a value when the cell is readable at
every point. -/
theorem get_RI_Hz_returns (K : MathLib D) (M : SPARAMS D) (Hz : D) (b a : Nat) (flags : U8)
    (h0 : ¬ Hz < M.min_Hz) (h1 : ¬ Hz > M.max_Hz) (hr : ∀ pt, readable M b a pt) :
    ∃ v M1, get_RI_Hz K M Hz b a flags = some (v, true, M1) := by
  obtain ⟨p0, A, hn, -⟩ := nearest_freq_Hz_total M Hz
  by_cases hp : p0 ≥ M.n_points - 1
  · obtain ⟨v, M1, e, -⟩ := readable_get_RI K M (M.n_points - 1).toNat b a (hr _)
    refine ⟨v, M1, ?_⟩
    rw [get_RI_Hz_last K M Hz b a flags p0 A h0 h1 hn hp, e]
  · obtain ⟨v0, M1, e0, r1⟩ := readable_get_RI K M p0.toNat b a (hr _)
    obtain ⟨v1, M2, e1, -⟩ := readable_get_RI K M1 (p0 + 1).toNat b a (r1 _ (hr _))
    exact ⟨_, M2, get_RI_Hz_interp K M M1 M2 Hz b a flags p0 A v0 v1 h0 h1 hn hp e0 e1⟩

/-- Inside the range `get_MA` returns a value, given enough iterations, when
the cell is readable at every point. -/
theorem get_MA_Hz_returns [Archimedean D] (K : MathLib D) (M : SPARAMS D) (Hz : D)
    (b a : Nat) (flags : U8)
    (h0 : ¬ Hz < M.min_Hz) (h1 : ¬ Hz > M.max_Hz) (hr : ∀ pt, readable M b a pt) :
    ∃ fuel0, ∀ fuel, fuel0 ≤ fuel →
      ∃ v M1, get_MA_Hz K fuel M Hz b a flags = Except.ok (v, true, M1) := by
  obtain ⟨p0, A, hn, -⟩ := nearest_freq_Hz_total M Hz
  by_cases hp : p0 ≥ M.n_points - 1
  · obtain ⟨v, M1, e, -⟩ := readable_get_MA K M (M.n_points - 1).toNat b a (hr _)
    refine ⟨0, fun fuel _ => ⟨v, M1, ?_⟩⟩
    rw [get_MA_Hz_last K fuel M Hz b a flags p0 A h0 h1 hn hp, e]
  · obtain ⟨v0, M1, e0, r1⟩ := readable_get_MA K M p0.toNat b a (hr _)
    obtain ⟨v1, M2, e1, -⟩ := readable_get_MA K M1 (p0 + 1).toNat b a (r1 _ (hr _))
    obtain ⟨n0, z0, -, -, w0⟩ := wrap_deg_terminates (v1.deg - v0.deg)
    obtain ⟨n1, z1, -, -, w1⟩ :=
      wrap_deg_terminates (v0.deg + ((v1.deg - v0.deg + 360 * (z0 : D)) * A))
    refine ⟨max n0 n1, fun fuel hf =>
      ⟨⟨v0.mag + ((v1.mag - v0.mag) * A),
        v0.deg + ((v1.deg - v0.deg + 360 * (z0 : D)) * A) + 360 * (z1 : D)⟩, M2, ?_⟩⟩
    exact get_MA_Hz_interp K fuel M M1 M2 Hz b a flags p0 A v0 v1 _ _ h0 h1 hn hp e0 e1
      (w0 fuel (le_trans (le_max_left _ _) hf)) (w1 fuel (le_trans (le_max_right _ _) hf))

/-- **C13**.  Default extrapolation policy: for every query below `min_Hz` whose
flags contain neither `EXT_ZERO` nor `EXT_LEND`, and (on a matrix with
`min_Hz <= max_Hz`) every query above `max_Hz` whose flags contain neither
`EXT_ZERO` nor `EXT_REND`, the frequency-based `get_RI` and `get_MA` return the
zero value and set the range flag to FALSE; for every query inside
`[min_Hz, max_Hz]` every value returned comes with the range flag TRUE whatever
the flags, and a value is returned when the cell is readable at every point
(for `get_MA`, once the loops are given enough iterations). -/
theorem ext_default_policy [Archimedean D] (K : MathLib D) (M : SPARAMS D) (Hz : D)
    (b a : Nat) (flags : U8) :
    (∀ fuel, Hz < M.min_Hz → flags &&& SPARAM.EXT_ZERO = 0 → flags &&& SPARAM.EXT_LEND = 0 →
      get_RI_Hz K M Hz b a flags = some (⟨0, 0⟩, false, M) ∧
      get_MA_Hz K fuel M Hz b a flags = Except.ok (⟨0, 0⟩, false, M)) ∧
    (∀ fuel, M.min_Hz ≤ M.max_Hz → Hz > M.max_Hz →
      flags &&& SPARAM.EXT_ZERO = 0 → flags &&& SPARAM.EXT_REND = 0 →
      get_RI_Hz K M Hz b a flags = some (⟨0, 0⟩, false, M) ∧
      get_MA_Hz K fuel M Hz b a flags = Except.ok (⟨0, 0⟩, false, M)) ∧
    (M.min_Hz ≤ Hz → Hz ≤ M.max_Hz →
      (∀ r, get_RI_Hz K M Hz b a flags = some r → r.2.1 = true) ∧
      (∀ fuel r, get_MA_Hz K fuel M Hz b a flags = Except.ok r → r.2.1 = true) ∧
      ((∀ pt, readable M b a pt) →
        (∃ v M1, get_RI_Hz K M Hz b a flags = some (v, true, M1)) ∧
        (∃ fuel0, ∀ fuel, fuel0 ≤ fuel →
          ∃ v M1, get_MA_Hz K fuel M Hz b a flags = Except.ok (v, true, M1)))) := by
  refine ⟨?_, ?_, ?_⟩
  · intro fuel h hz hl
    exact ⟨get_RI_Hz_default K M Hz b a flags hz (Or.inl ⟨h, hl⟩),
      get_MA_Hz_default K fuel M Hz b a flags hz (Or.inl ⟨h, hl⟩)⟩
  · intro fuel hmm h hz hr
    have h0 : ¬ Hz < M.min_Hz := not_lt.mpr (le_trans hmm (le_of_lt h))
    exact ⟨get_RI_Hz_default K M Hz b a flags hz (Or.inr ⟨h0, h, hr⟩),
      get_MA_Hz_default K fuel M Hz b a flags hz (Or.inr ⟨h0, h, hr⟩)⟩
  · intro hlo hhi
    have h0 : ¬ Hz < M.min_Hz := not_lt.mpr hlo
    have h1 : ¬ Hz > M.max_Hz := not_lt.mpr hhi
    exact ⟨fun r hr => get_RI_Hz_flag K M Hz b a flags h0 h1 r hr,
      fun fuel r hr => get_MA_Hz_flag K fuel M Hz b a flags h0 h1 r hr,
      fun hr => ⟨get_RI_Hz_returns K M Hz b a flags h0 h1 hr,
        get_MA_Hz_returns K M Hz b a flags h0 h1 hr⟩⟩

end queries

/-- Witness for C13: the three-point example queried at 0 Hz, below the range,
with the flag `EXT_REND` only. -/
theorem ext_default_policy_witness :
    ((0 : ℝ) < threePoint.min_Hz ∧ SPARAM.EXT_REND &&& SPARAM.EXT_ZERO = 0 ∧
      SPARAM.EXT_REND &&& SPARAM.EXT_LEND = 0) ∧
    get_RI_Hz realMath threePoint 0 0 0 SPARAM.EXT_REND = some (⟨0, 0⟩, false, threePoint) ∧
    get_MA_Hz realMath 0 threePoint 0 0 0 SPARAM.EXT_REND =
      Except.ok (⟨0, 0⟩, false, threePoint) :=
  ⟨⟨threePoint_below, by decide, by decide⟩,
    (ext_default_policy realMath threePoint 0 0 0 SPARAM.EXT_REND).1 0 threePoint_below
      (by decide) (by decide)⟩

end SPARAMS

/-! ## Frequency-based queries: rectangular interpolation -/

namespace SPARAMS
variable {D : Type}

section queries
variable [LinearOrderedField D]

/-- On `n >= 1` points the search returns an index below `n`. -/
theorem nearest_freq_Hz_index (M : SPARAMS D) (Hz : D) (n : Nat)
    (hn : M.n_points = (n : Int)) (h1 : 1 ≤ n) :
    ∃ (i : Nat) (alpha : D), nearest_freq_Hz M Hz = some ((i : Int), alpha) ∧ i < n := by
  by_cases c0 : Hz ≤ M.freq_Hz 0
  · refine ⟨0, 0, ?_, by omega⟩
    unfold nearest_freq_Hz
    rw [if_pos c0]
    rfl
  · by_cases c1 : M.freq_Hz (n - 1) ≤ Hz
    · refine ⟨n - 1, 0, ?_, by omega⟩
      unfold nearest_freq_Hz
      rw [last_index M n hn, if_neg c0, if_pos c1, last_index_int M n hn h1]
    · obtain ⟨i, hi, -, -, e⟩ :=
        nearest_freq_Hz_inside M Hz n hn (not_le.mp c0) (not_le.mp c1)
      exact ⟨i, _, e, by omega⟩

/-- With strictly increasing frequencies the search at a sample frequency
returns that sample's index and the fraction 0. -/
theorem nearest_freq_Hz_sample (M : SPARAMS D) (n : Nat)
    (hn : M.n_points = (n : Int))
    (strict : ∀ i j, i < j → j < n → M.freq_Hz i < M.freq_Hz j) (k : Nat) (hk : k < n) :
    nearest_freq_Hz M (M.freq_Hz k) = some ((k : Int), 0) := by
  have h1 : 1 ≤ n := by omega
  have mono : ∀ i j, i ≤ j → j < n → M.freq_Hz i ≤ M.freq_Hz j := by
    intro i j hij hj
    rcases Nat.lt_or_ge i j with h | h
    · exact le_of_lt (strict i j h hj)
    · have : i = j := Nat.le_antisymm hij h
      rw [this]
  rcases Nat.eq_zero_or_pos k with e | hpos
  · subst e
    unfold nearest_freq_Hz
    rw [if_pos (le_refl _)]
    rfl
  · have c0 : ¬ M.freq_Hz k ≤ M.freq_Hz 0 := not_le.mpr (strict 0 k hpos hk)
    by_cases e : k = n - 1
    · unfold nearest_freq_Hz
      rw [last_index M n hn, if_neg c0, ← e, if_pos (le_refl _), e, last_index_int M n hn h1]
    · have hk1 : k + 1 < n := by omega
      have c1 : M.freq_Hz k < M.freq_Hz (n - 1) := strict k (n - 1) (by omega) (by omega)
      obtain ⟨i, hi, b0, b1, e2⟩ :=
        nearest_freq_Hz_inside M (M.freq_Hz k) n hn (not_le.mp c0) c1
      have hik : k = i := bracket_unique M.freq_Hz n mono (M.freq_Hz k) i k hi b0 b1 hk1
        (le_refl _) (strict k (k + 1) (by omega) hk1)
      subst hik
      rw [e2, sub_self, zero_div]

theorem get_RI_Hz_at_last (K : MathLib D) (M M1 : SPARAMS D) (Hz : D) (b a : Nat)
    (flags : U8) (n : Nat) (alpha : D) (v : SPARAM.RI D)
    (hn : M.n_points = (n : Int)) (h1 : 1 ≤ n)
    (hlo : M.min_Hz ≤ Hz) (hhi : Hz ≤ M.max_Hz)
    (e : nearest_freq_Hz M Hz = some (((n - 1 : Nat) : Int), alpha))
    (g : get_RI K M (n - 1) b a = some (v, M1)) :
    get_RI_Hz K M Hz b a flags = some (v, true, M1) := by
  have hp : ((n - 1 : Nat) : Int) ≥ M.n_points - 1 := by rw [hn]; omega
  rw [get_RI_Hz_last K M Hz b a flags _ alpha (not_lt.mpr hlo) (not_lt.mpr hhi) e hp,
    last_index M n hn, g]

theorem get_RI_Hz_between (K : MathLib D) (M M1 M2 : SPARAMS D) (Hz : D) (b a : Nat)
    (flags : U8) (n i : Nat) (alpha : D) (v0 v1 : SPARAM.RI D)
    (hn : M.n_points = (n : Int)) (hi : i + 1 < n)
    (hlo : M.min_Hz ≤ Hz) (hhi : Hz ≤ M.max_Hz)
    (e : nearest_freq_Hz M Hz = some ((i : Int), alpha))
    (g0 : get_RI K M i b a = some (v0, M1))
    (g1 : get_RI K M1 (i + 1) b a = some (v1, M2)) :
    get_RI_Hz K M Hz b a flags =
      some (⟨v0.real + ((v1.real - v0.real) * alpha),
        v0.imag + ((v1.imag - v0.imag) * alpha)⟩, true, M2) := by
  have hp : ¬ ((i : Int) ≥ M.n_points - 1) := by rw [hn]; omega
  have t0 : (i : Int).toNat = i := Int.toNat_ofNat i
  have t1 : ((i : Int) + 1).toNat = i + 1 := by omega
  exact get_RI_Hz_interp K M M1 M2 Hz b a flags (i : Int) alpha v0 v1 (not_lt.mpr hlo)
    (not_lt.mpr hhi) e hp (by rw [t0]; exact g0) (by rw [t1]; exact g1)

end queries

end SPARAMS

namespace SPARAMS
variable {D : Type}

theorem threePoint_freq (i : Nat) : threePoint.freq_Hz i = ((i : ℝ) + 1) * 1000000000 := rfl

theorem threePoint_RI (pt : Nat) : threePoint.RI 0 0 pt = ⟨((pt : ℝ) + 1) / 10, 0⟩ := rfl

theorem threePoint_nearest :
    nearest_freq_Hz threePoint 1500000000 = some (((0 : Nat) : Int), 1 / 2) := by
  have c0 : threePoint.freq_Hz 0 < 1500000000 := by
    rw [threePoint_freq]; norm_num
  have c1 : (1500000000 : ℝ) < threePoint.freq_Hz (3 - 1) := by
    rw [threePoint_freq]; norm_num
  obtain ⟨i, hi, b0, -, e⟩ := nearest_freq_Hz_inside threePoint 1500000000 3 rfl c0 c1
  have hi0 : i = 0 := by
    rcases Nat.eq_zero_or_pos i with h | h
    · exact h
    · have h1 : i = 1 := by omega
      subst h1
      rw [threePoint_freq] at b0
      norm_num at b0
  subst hi0
  rw [e, threePoint_freq, threePoint_freq]
  norm_num

theorem threePoint_range : threePoint.min_Hz ≤ 1500000000 ∧ (1500000000 : ℝ) ≤ threePoint.max_Hz := by
  constructor
  · show (1000000000 : ℝ) ≤ 1500000000
    norm_num
  · show (1500000000 : ℝ) ≤ 3000000000
    norm_num

theorem threePoint_query :
    get_RI_Hz realMath threePoint 1500000000 0 0 0 = some (⟨15 / 100, 0⟩, true, threePoint) := by
  have g0 := get_RI_cached realMath threePoint 0 0 0 (threePoint_RI_bit 0)
  have g1 := get_RI_cached realMath threePoint (0 + 1) 0 0 (threePoint_RI_bit (0 + 1))
  rw [get_RI_Hz_between realMath threePoint threePoint threePoint 1500000000 0 0 0 3 0 (1 / 2)
    _ _ rfl (by decide) threePoint_range.1 threePoint_range.2 threePoint_nearest g0 g1,
    threePoint_RI, threePoint_RI]
  norm_num

section queries
variable [LinearOrderedField D]

theorem RI_interp_zero (v0 v1 : SPARAM.RI D) :
    (⟨v0.real + ((v1.real - v0.real) * 0), v0.imag + ((v1.imag - v0.imag) * 0)⟩ : SPARAM.RI D)
      = v0 := by
  cases v0
  simp

/-- At a sample frequency of strictly increasing frequencies `get_RI` returns
the sample unchanged. -/
theorem get_RI_Hz_sample (K : MathLib D) (M M1 : SPARAMS D) (b a : Nat) (flags : U8)
    (n : Nat) (hn : M.n_points = (n : Int))
    (hmin : M.min_Hz = M.freq_Hz 0) (hmax : M.max_Hz = M.freq_Hz (n - 1))
    (strict : ∀ i j, i < j → j < n → M.freq_Hz i < M.freq_Hz j) (k : Nat) (hk : k < n)
    (v : SPARAM.RI D) (g : get_RI K M k b a = some (v, M1))
    (hr : ∀ pt, readable M b a pt) :
    ∃ M2, get_RI_Hz K M (M.freq_Hz k) b a flags = some (v, true, M2) := by
  have e := nearest_freq_Hz_sample M n hn strict k hk
  have hlo : M.min_Hz ≤ M.freq_Hz k := by
    rw [hmin]
    rcases Nat.eq_zero_or_pos k with h | h
    · rw [h]
    · exact le_of_lt (strict 0 k h hk)
  have hhi : M.freq_Hz k ≤ M.max_Hz := by
    rw [hmax]
    rcases Nat.lt_or_ge k (n - 1) with h | h
    · exact le_of_lt (strict k (n - 1) h (by omega))
    · have : k = n - 1 := by omega
      rw [this]
  by_cases c : k = n - 1
  · subst c
    exact ⟨M1, get_RI_Hz_at_last K M M1 _ b a flags n 0 v hn (by omega) hlo hhi e g⟩
  · obtain ⟨v', M1', g', r1⟩ := readable_get_RI K M k b a (hr k)
    have gi : (v', M1') = (v, M1) := Option.some.inj (g'.symm.trans g)
    have r2 : ∀ p, readable M b a p → readable M1 b a p := by
      have : M1' = M1 := congrArg Prod.snd gi
      rw [← this]; exact r1
    obtain ⟨v1, M2, g1, -⟩ := readable_get_RI K M1 (k + 1) b a (r2 _ (hr _))
    refine ⟨M2, ?_⟩
    rw [get_RI_Hz_between K M M1 M2 _ b a flags n k 0 v v1 hn (by omega) hlo hhi e g g1,
      RI_interp_zero]

/-- **C14**.  Rectangular interpolation.  On a matrix of `n >= 1` points with
`min_Hz = f[0]` and `max_Hz = f[n-1]`, for every query `min_Hz <= Hz <= max_Hz`
and `(i, alpha)` the result of `nearest_freq_Hz(Hz)`: when `i` is the last
index, `get_RI(Hz)` returns the last sample; otherwise it returns
`(re0 + (re1 - re0)*alpha, im0 + (im1 - im0)*alpha)` for the rectangular values
of samples `i` and `i + 1`; the range flag is TRUE.  With strictly increasing
frequencies a query at `f[k]` returns sample `k` unchanged.  For the samples
`(1e9, 0.1)`, `(2e9, 0.2)`, `(3e9, 0.3)` the query at `1.5e9` with no flag
yields `(0.15, 0)`. -/
theorem rect_interpolation (K : MathLib D) (M : SPARAMS D) (b a : Nat) (flags : U8) (n : Nat)
    (hn : M.n_points = (n : Int)) (h1 : 1 ≤ n)
    (hmin : M.min_Hz = M.freq_Hz 0) (hmax : M.max_Hz = M.freq_Hz (n - 1)) :
    (∀ Hz, M.min_Hz ≤ Hz → Hz ≤ M.max_Hz →
      ∃ (i : Nat) (alpha : D), nearest_freq_Hz M Hz = some ((i : Int), alpha) ∧ i < n ∧
        (i = n - 1 → ∀ v M1, get_RI K M (n - 1) b a = some (v, M1) →
          get_RI_Hz K M Hz b a flags = some (v, true, M1)) ∧
        (i + 1 < n → ∀ v0 M1 v1 M2, get_RI K M i b a = some (v0, M1) →
          get_RI K M1 (i + 1) b a = some (v1, M2) →
          get_RI_Hz K M Hz b a flags =
            some (⟨v0.real + ((v1.real - v0.real) * alpha),
              v0.imag + ((v1.imag - v0.imag) * alpha)⟩, true, M2))) ∧
    ((∀ i j, i < j → j < n → M.freq_Hz i < M.freq_Hz j) →
      ∀ k, k < n → ∀ v M1, get_RI K M k b a = some (v, M1) → (∀ pt, readable M b a pt) →
        ∃ M2, get_RI_Hz K M (M.freq_Hz k) b a flags = some (v, true, M2)) ∧
    get_RI_Hz realMath threePoint 1500000000 0 0 0 =
      some (⟨15 / 100, 0⟩, true, threePoint) := by
  refine ⟨?_, ?_, threePoint_query⟩
  · intro Hz hlo hhi
    obtain ⟨i, alpha, e, hi⟩ := nearest_freq_Hz_index M Hz n hn h1
    refine ⟨i, alpha, e, hi, ?_, ?_⟩
    · intro hl v M1 g
      subst hl
      exact get_RI_Hz_at_last K M M1 Hz b a flags n alpha v hn h1 hlo hhi e g
    · intro hl v0 M1 v1 M2 g0 g1
      exact get_RI_Hz_between K M M1 M2 Hz b a flags n i alpha v0 v1 hn hl hlo hhi e g0 g1
  · intro strict k hk v M1 g hr
    exact get_RI_Hz_sample K M M1 b a flags n hn hmin hmax strict k hk v g hr

end queries

theorem threePoint_bounds :
    threePoint.min_Hz = threePoint.freq_Hz 0 ∧ threePoint.max_Hz = threePoint.freq_Hz (3 - 1) := by
  constructor
  · rw [threePoint_freq]
    show (1000000000 : ℝ) = _
    norm_num
  · rw [threePoint_freq]
    show (3000000000 : ℝ) = _
    norm_num

/-- Witness for C14: the three-point example, at 1.5e9 Hz and at its middle
sample frequency. -/
theorem rect_interpolation_witness :
    (threePoint.n_points = ((3 : Nat) : Int) ∧ 1 ≤ 3 ∧
      threePoint.min_Hz = threePoint.freq_Hz 0 ∧
      threePoint.max_Hz = threePoint.freq_Hz (3 - 1)) ∧
    get_RI_Hz realMath threePoint 1500000000 0 0 0 =
      some (⟨15 / 100, 0⟩, true, threePoint) :=
  ⟨⟨rfl, by decide, threePoint_bounds.1, threePoint_bounds.2⟩,
    (rect_interpolation realMath threePoint 0 0 0 3 rfl (by decide) threePoint_bounds.1
      threePoint_bounds.2).2.2⟩

end SPARAMS

/-! ## Frequency-based queries: polar interpolation -/

namespace SPARAMS
variable {D : Type}

section queries
variable [LinearOrderedField D]

theorem get_MA_Hz_at_last (K : MathLib D) (fuel : Nat) (M M1 : SPARAMS D) (Hz : D) (b a : Nat)
    (flags : U8) (n : Nat) (alpha : D) (v : SPARAM.MA D)
    (hn : M.n_points = (n : Int)) (h1 : 1 ≤ n)
    (hlo : M.min_Hz ≤ Hz) (hhi : Hz ≤ M.max_Hz)
    (e : nearest_freq_Hz M Hz = some (((n - 1 : Nat) : Int), alpha))
    (g : get_MA K M (n - 1) b a = some (v, M1)) :
    get_MA_Hz K fuel M Hz b a flags = Except.ok (v, true, M1) := by
  have hp : ((n - 1 : Nat) : Int) ≥ M.n_points - 1 := by rw [hn]; omega
  rw [get_MA_Hz_last K fuel M Hz b a flags _ alpha (not_lt.mpr hlo) (not_lt.mpr hhi) e hp,
    last_index M n hn, g]

theorem get_MA_Hz_between (K : MathLib D) (fuel : Nat) (M M1 M2 : SPARAMS D) (Hz : D)
    (b a : Nat) (flags : U8) (n i : Nat) (alpha : D) (v0 v1 : SPARAM.MA D) (d r : D)
    (hn : M.n_points = (n : Int)) (hi : i + 1 < n)
    (hlo : M.min_Hz ≤ Hz) (hhi : Hz ≤ M.max_Hz)
    (e : nearest_freq_Hz M Hz = some ((i : Int), alpha))
    (g0 : get_MA K M i b a = some (v0, M1))
    (g1 : get_MA K M1 (i + 1) b a = some (v1, M2))
    (w0 : wrap_deg fuel (v1.deg - v0.deg) = some d)
    (w1 : wrap_deg fuel (v0.deg + (d * alpha)) = some r) :
    get_MA_Hz K fuel M Hz b a flags =
      Except.ok (⟨v0.mag + ((v1.mag - v0.mag) * alpha), r⟩, true, M2) := by
  have hp : ¬ ((i : Int) ≥ M.n_points - 1) := by rw [hn]; omega
  have t0 : (i : Int).toNat = i := Int.toNat_ofNat i
  have t1 : ((i : Int) + 1).toNat = i + 1 := by omega
  exact get_MA_Hz_interp K fuel M M1 M2 Hz b a flags (i : Int) alpha v0 v1 d r
    (not_lt.mpr hlo) (not_lt.mpr hhi) e hp (by rw [t0]; exact g0) (by rw [t1]; exact g1) w0 w1

/-- The shape of an in-range polar query between two samples whose stored
angles have magnitude at most `1e15`, for a fraction `alpha` in `[0, 1]`: both
normalisations end, each shifting by whole turns into `[-180, 180]`. -/
theorem get_MA_Hz_shape_bounded (K : MathLib D) (M M1 M2 : SPARAMS D) (Hz : D)
    (b a : Nat) (flags : U8) (n i : Nat) (alpha : D) (v0 v1 : SPARAM.MA D)
    (hn : M.n_points = (n : Int)) (hi : i + 1 < n)
    (hlo : M.min_Hz ≤ Hz) (hhi : Hz ≤ M.max_Hz)
    (e : nearest_freq_Hz M Hz = some ((i : Int), alpha))
    (g0 : get_MA K M i b a = some (v0, M1))
    (g1 : get_MA K M1 (i + 1) b a = some (v1, M2))
    (hb0 : |v0.deg| ≤ 10 ^ 15) (hb1 : |v1.deg| ≤ 10 ^ 15)
    (ha0 : 0 ≤ alpha) (ha1 : alpha ≤ 1) :
    ∃ (d r : D), -180 ≤ d ∧ d ≤ 180 ∧ (∃ z : Int, d = v1.deg - v0.deg + 360 * (z : D)) ∧
      -180 ≤ r ∧ r ≤ 180 ∧ (∃ w : Int, r = v0.deg + (d * alpha) + 360 * (w : D)) ∧
      ∀ fuel, 10 ^ 14 + 1 ≤ fuel →
        wrap_deg fuel (v1.deg - v0.deg) = some d ∧
        wrap_deg fuel (v0.deg + (d * alpha)) = some r ∧
        get_MA_Hz K fuel M Hz b a flags =
          Except.ok (⟨v0.mag + ((v1.mag - v0.mag) * alpha), r⟩, true, M2) := by
  obtain ⟨l0, u0⟩ := abs_le.mp hb0
  obtain ⟨l1, u1⟩ := abs_le.mp hb1
  obtain ⟨d, a0, a1, -, z, w0⟩ := wrap_deg_bounded (v1.deg - v0.deg)
    (abs_le.mpr ⟨by linarith, by linarith⟩)
  have p1 : d * alpha ≤ 180 := by
    rcases le_total 0 d with s | s
    · calc d * alpha ≤ d * 1 := mul_le_mul_of_nonneg_left ha1 s
        _ ≤ 180 := by linarith
    · have := mul_nonpos_of_nonpos_of_nonneg s ha0
      linarith
  have p2 : -180 ≤ d * alpha := by
    rcases le_total 0 d with s | s
    · have := mul_nonneg s ha0
      linarith
    · have := mul_le_mul_of_nonpos_left ha1 s
      linarith
  obtain ⟨r, b0, b1, -, w, w1⟩ := wrap_deg_bounded (v0.deg + (d * alpha))
    (abs_le.mpr ⟨by linarith, by linarith⟩)
  refine ⟨d, r, a0, a1, z, b0, b1, w, fun fuel hf => ?_⟩
  exact ⟨w0 fuel hf, w1 fuel hf,
    get_MA_Hz_between K fuel M M1 M2 Hz b a flags n i alpha v0 v1 d r hn hi hlo hhi e g0 g1
      (w0 fuel hf) (w1 fuel hf)⟩

end queries

end SPARAMS

namespace SPARAMS
variable {D : Type}

theorem MA_eta (v : SPARAM.MA D) : (⟨v.mag, v.deg⟩ : SPARAM.MA D) = v := by
  cases v
  rfl

section queries
variable [LinearOrderedField D]

/-- An angle one turn above the range: the second loop runs once. -/
theorem wrap_deg_down_once (d : D) (h1 : 180 < d) (h2 : d - 360 ≤ 180) (fuel : Nat)
    (hf : 2 ≤ fuel) : wrap_deg fuel d = some (d - 360) := by
  obtain ⟨f, rfl⟩ : ∃ f, fuel = f + 2 := ⟨fuel - 2, by omega⟩
  have c0 : ¬ d < -180 := not_lt.mpr (by linarith)
  unfold wrap_deg wrap_up
  rw [if_neg c0, Option.some_bind]
  unfold wrap_down
  rw [if_pos h1]
  unfold wrap_down
  rw [if_neg (not_lt.mpr h2)]

/-- An angle one turn below the range: the first loop runs once. -/
theorem wrap_deg_up_once (d : D) (h1 : d < -180) (h2 : -180 ≤ d + 360) (fuel : Nat)
    (hf : 2 ≤ fuel) : wrap_deg fuel d = some (d + 360) := by
  obtain ⟨f, rfl⟩ : ∃ f, fuel = f + 2 := ⟨fuel - 2, by omega⟩
  have c1 : ¬ d + 360 > 180 := not_lt.mpr (by linarith)
  unfold wrap_deg wrap_up
  rw [if_pos h1]
  unfold wrap_up
  rw [if_neg (not_lt.mpr h2), Option.some_bind]
  unfold wrap_down
  rw [if_neg c1]

theorem MA_interp_zero (v0 v1 : SPARAM.MA D) (r : D) :
    (⟨v0.mag + ((v1.mag - v0.mag) * 0), r⟩ : SPARAM.MA D) = ⟨v0.mag, r⟩ := by
  simp

theorem sample_in_range (M : SPARAMS D) (n : Nat)
    (hmin : M.min_Hz = M.freq_Hz 0) (hmax : M.max_Hz = M.freq_Hz (n - 1))
    (strict : ∀ i j, i < j → j < n → M.freq_Hz i < M.freq_Hz j) (k : Nat) (hk : k < n) :
    M.min_Hz ≤ M.freq_Hz k ∧ M.freq_Hz k ≤ M.max_Hz := by
  constructor
  · rw [hmin]
    rcases Nat.eq_zero_or_pos k with h | h
    · rw [h]
    · exact le_of_lt (strict 0 k h hk)
  · rw [hmax]
    rcases Nat.lt_or_ge k (n - 1) with h | h
    · exact le_of_lt (strict k (n - 1) h (by omega))
    · have : k = n - 1 := by omega
      rw [this]

/-- The second read of an interpolating query succeeds on a readable cell. -/
theorem second_read_MA (K : MathLib D) (M M1 : SPARAMS D) (b a k : Nat) (v : SPARAM.MA D)
    (g : get_MA K M k b a = some (v, M1)) (hr : ∀ pt, readable M b a pt) :
    ∃ v1 M2, get_MA K M1 (k + 1) b a = some (v1, M2) := by
  obtain ⟨v', M1', g', r1⟩ := readable_get_MA K M k b a (hr k)
  have gi : (v', M1') = (v, M1) := Option.some.inj (g'.symm.trans g)
  have e : M1' = M1 := congrArg Prod.snd gi
  rw [e] at r1
  obtain ⟨v1, M2, g1, -⟩ := readable_get_MA K M1 (k + 1) b a (r1 _ (hr _))
  exact ⟨v1, M2, g1⟩

/-- **C15** (amended).  Polar query at a sample frequency, for strictly
increasing frequencies, `min_Hz = f[0]`, `max_Hz = f[n-1]` and a cell readable at
every point, with `v` the value the index-based `get_MA(k)` returns: at the last
index `get_MA(f[k])` returns `v` unchanged, whatever its angle; at any other
index, when the angle of `v` and the angle of the next sample have magnitude at
most `1e15` (and the two magnitudes at most `1e300`, which keeps their
difference finite in binary64), it returns the magnitude of `v` and the angle of
`v` moved by whole turns into `[-180, 180]`, so it returns `v` unchanged when
the angle of `v` lies in `[-180, 180]`.  The loops end within `1e14` passes
each. -/
theorem polar_exactness (K : MathLib D) (M M1 : SPARAMS D) (b a : Nat)
    (flags : U8) (n : Nat) (hn : M.n_points = (n : Int))
    (hmin : M.min_Hz = M.freq_Hz 0) (hmax : M.max_Hz = M.freq_Hz (n - 1))
    (strict : ∀ i j, i < j → j < n → M.freq_Hz i < M.freq_Hz j) (k : Nat) (hk : k < n)
    (v : SPARAM.MA D) (g : get_MA K M k b a = some (v, M1))
    (hr : ∀ pt, readable M b a pt) :
    (k = n - 1 → ∀ fuel,
      get_MA_Hz K fuel M (M.freq_Hz k) b a flags = Except.ok (v, true, M1)) ∧
    (k + 1 < n → ∃ v1 M2, get_MA K M1 (k + 1) b a = some (v1, M2) ∧
      (|v.deg| ≤ 10 ^ 15 → |v1.deg| ≤ 10 ^ 15 → |v.mag| ≤ 10 ^ 300 → |v1.mag| ≤ 10 ^ 300 →
        ∃ w : Int, -180 ≤ v.deg + 360 * (w : D) ∧ v.deg + 360 * (w : D) ≤ 180 ∧
        ∀ fuel, 10 ^ 14 + 1 ≤ fuel →
          get_MA_Hz K fuel M (M.freq_Hz k) b a flags =
            Except.ok (⟨v.mag, v.deg + 360 * (w : D)⟩, true, M2)) ∧
      (-180 ≤ v.deg → v.deg ≤ 180 → |v1.deg| ≤ 10 ^ 15 → |v.mag| ≤ 10 ^ 300 →
        |v1.mag| ≤ 10 ^ 300 → ∀ fuel, 10 ^ 14 + 1 ≤ fuel →
          get_MA_Hz K fuel M (M.freq_Hz k) b a flags = Except.ok (v, true, M2))) := by
  have e := nearest_freq_Hz_sample M n hn strict k hk
  obtain ⟨hlo, hhi⟩ := sample_in_range M n hmin hmax strict k hk
  refine ⟨?_, ?_⟩
  · intro c fuel
    subst c
    exact get_MA_Hz_at_last K fuel M M1 _ b a flags n 0 v hn (by omega) hlo hhi e g
  · intro c
    obtain ⟨v1, M2, g1⟩ := second_read_MA K M M1 b a k v g hr
    refine ⟨v1, M2, g1, ?_, ?_⟩
    · intro hb0 hb1 _ _
      obtain ⟨d, r, -, -, -, b0, b1, ⟨w, hw⟩, h⟩ :=
        get_MA_Hz_shape_bounded K M M1 M2 _ b a flags n k 0 v v1 hn c hlo hhi e g g1 hb0 hb1
          (le_refl _) zero_le_one
      rw [mul_zero, add_zero] at hw
      rw [hw] at b0 b1
      refine ⟨w, b0, b1, fun fuel hf => ?_⟩
      rw [(h fuel hf).2.2, MA_interp_zero, hw]
    · intro lo hi hb1 _ _
      have hb0 : |v.deg| ≤ 10 ^ 15 := abs_le.mpr ⟨by linarith, by linarith⟩
      obtain ⟨d, r, -, -, -, -, -, -, h⟩ :=
        get_MA_Hz_shape_bounded K M M1 M2 _ b a flags n k 0 v v1 hn c hlo hhi e g g1 hb0 hb1
          (le_refl _) zero_le_one
      intro fuel hf
      obtain ⟨-, w1, hq⟩ := h fuel hf
      rw [mul_zero, add_zero, wrap_deg_id v.deg lo hi fuel (by omega)] at w1
      rw [hq, MA_interp_zero, ← Option.some.inj w1, MA_eta]

end queries

theorem polarPair_MA_bit (t0 t1 : ℝ) (pt : Nat) :
    (polarPair t0 t1).valid 0 0 pt &&& SNPTYPE.MA ≠ 0 := by
  show SNPTYPE.MA &&& SNPTYPE.MA ≠ 0
  decide

theorem polarPair_readable (t0 t1 : ℝ) (pt : Nat) : readable (polarPair t0 t1) 0 0 pt :=
  Or.inl (polarPair_MA_bit t0 t1 pt)

theorem polarPair_freq (t0 t1 : ℝ) (i : Nat) : (polarPair t0 t1).freq_Hz i = 2 * (i : ℝ) + 1 :=
  rfl

theorem polarPair_strict (t0 t1 : ℝ) (i j : Nat) (h : i < j) :
    (polarPair t0 t1).freq_Hz i < (polarPair t0 t1).freq_Hz j := by
  rw [polarPair_freq, polarPair_freq]
  have : (i : ℝ) < (j : ℝ) := Nat.cast_lt.mpr h
  linarith

theorem polarPair_bounds (t0 t1 : ℝ) :
    (polarPair t0 t1).min_Hz = (polarPair t0 t1).freq_Hz 0 ∧
    (polarPair t0 t1).max_Hz = (polarPair t0 t1).freq_Hz (2 - 1) := by
  constructor
  · rw [polarPair_freq]
    show (1 : ℝ) = _
    norm_num
  · rw [polarPair_freq]
    show (3 : ℝ) = _
    norm_num

theorem polarPair_get_MA (t0 t1 : ℝ) (pt : Nat) :
    get_MA realMath (polarPair t0 t1) pt 0 0 =
      some ((polarPair t0 t1).MA 0 0 pt, polarPair t0 t1) :=
  get_MA_cached realMath (polarPair t0 t1) pt 0 0 (polarPair_MA_bit t0 t1 pt)

theorem polarPair_deg_bound (t0 t1 : ℝ) (h0 : |t0| ≤ 10 ^ 15) (h1 : |t1| ≤ 10 ^ 15) :
    |((polarPair t0 t1).MA 0 0 0).deg| ≤ 10 ^ 15 ∧
    |((polarPair t0 t1).MA 0 0 (0 + 1)).deg| ≤ 10 ^ 15 :=
  ⟨h0, h1⟩

theorem polarPair_179_bound : |(179 : ℝ)| ≤ 10 ^ 15 ∧ |(-179 : ℝ)| ≤ 10 ^ 15 :=
  ⟨abs_le.mpr ⟨by norm_num, by norm_num⟩, abs_le.mpr ⟨by norm_num, by norm_num⟩⟩

/-- Witness for C15: the first sample of the pair with angles 179 and -179
degrees, queried at its own frequency. -/
theorem polar_exactness_witness :
    ((polarPair 179 (-179)).n_points = ((2 : Nat) : Int) ∧
      (polarPair 179 (-179)).min_Hz = (polarPair 179 (-179)).freq_Hz 0 ∧
      (polarPair 179 (-179)).max_Hz = (polarPair 179 (-179)).freq_Hz (2 - 1) ∧
      (∀ i j, i < j → j < 2 →
        (polarPair 179 (-179)).freq_Hz i < (polarPair 179 (-179)).freq_Hz j) ∧
      0 < 2 ∧
      get_MA realMath (polarPair 179 (-179)) 0 0 0 =
        some ((polarPair 179 (-179)).MA 0 0 0, polarPair 179 (-179)) ∧
      ∀ pt, readable (polarPair 179 (-179)) 0 0 pt) ∧
    ∃ M2, ∀ fuel, 10 ^ 14 + 1 ≤ fuel →
      get_MA_Hz realMath fuel (polarPair 179 (-179)) ((polarPair 179 (-179)).freq_Hz 0) 0 0 0 =
        Except.ok ((polarPair 179 (-179)).MA 0 0 0, true, M2) := by
  refine ⟨⟨rfl, (polarPair_bounds _ _).1, (polarPair_bounds _ _).2,
    fun i j h _ => polarPair_strict _ _ i j h, by decide, polarPair_get_MA _ _ 0,
    polarPair_readable _ _⟩, ?_⟩
  obtain ⟨v1, M2, g1, -, h⟩ :=
    (polar_exactness realMath (polarPair 179 (-179)) (polarPair 179 (-179)) 0 0 0 2 rfl
      (polarPair_bounds _ _).1 (polarPair_bounds _ _).2
      (fun i j h _ => polarPair_strict _ _ i j h) 0 (by decide) _ (polarPair_get_MA _ _ 0)
      (polarPair_readable _ _)).2 (by decide)
  have e1 : (polarPair 179 (-179)).MA 0 0 (0 + 1) = v1 :=
    congrArg Prod.fst (Option.some.inj ((polarPair_get_MA 179 (-179) (0 + 1)).symm.trans g1))
  refine ⟨M2, h (by show (-180 : ℝ) ≤ 179; norm_num) (by show (179 : ℝ) ≤ 180; norm_num) ?_
    (by show |(1 : ℝ)| ≤ 10 ^ 300; rw [abs_one]; norm_num) ?_⟩
  · rw [← e1]
    exact (polarPair_deg_bound 179 (-179) polarPair_179_bound.1 polarPair_179_bound.2).2
  · rw [← e1]
    show |(1 : ℝ)| ≤ 10 ^ 300
    rw [abs_one]
    norm_num

theorem polarPair_nearest_first (t0 t1 : ℝ) :
    nearest_freq_Hz (polarPair t0 t1) 1 = some (((0 : Nat) : Int), 0) := by
  have c : (1 : ℝ) ≤ (polarPair t0 t1).freq_Hz 0 := by
    rw [polarPair_freq]; norm_num
  unfold nearest_freq_Hz
  rw [if_pos c]
  rfl

/-- Counterexample to C15 as stated: two samples at 1 Hz and 3 Hz, both stored
with the angle 270 degrees.  The index-based `get_MA(0)` returns the angle 270;
the query at the first sample's frequency returns the angle -90. -/
theorem polar_query_renormalizes :
    (polarPair 270 270).freq_Hz 0 = 1 ∧
    (polarPair 270 270).freq_Hz 0 < (polarPair 270 270).freq_Hz 1 ∧
    get_MA realMath (polarPair 270 270) 0 0 0 = some (⟨1, 270⟩, polarPair 270 270) ∧
    (∀ fuel, 2 ≤ fuel →
      get_MA_Hz realMath fuel (polarPair 270 270) 1 0 0 0 =
        Except.ok (⟨1, -90⟩, true, polarPair 270 270)) ∧
    (270 : ℝ) ≠ -90 := by
  refine ⟨by rw [polarPair_freq]; norm_num, polarPair_strict _ _ 0 1 (by decide),
    polarPair_get_MA 270 270 0, ?_, by norm_num⟩
  intro fuel hf
  have hlo : (polarPair 270 270).min_Hz ≤ 1 := le_refl (1 : ℝ)
  have hhi : (1 : ℝ) ≤ (polarPair 270 270).max_Hz := by
    show (1 : ℝ) ≤ 3
    norm_num
  have w0 : wrap_deg fuel (((polarPair 270 270).MA 0 0 (0 + 1)).deg -
      ((polarPair 270 270).MA 0 0 0).deg) = some 0 := by
    have : ((polarPair 270 270).MA 0 0 (0 + 1)).deg - ((polarPair 270 270).MA 0 0 0).deg = 0 := by
      show (270 : ℝ) - 270 = 0
      norm_num
    rw [this]
    exact wrap_deg_id 0 (by norm_num) (by norm_num) fuel (by omega)
  have w1 : wrap_deg fuel (((polarPair 270 270).MA 0 0 0).deg + (0 * 0)) = some (-90) := by
    have : ((polarPair 270 270).MA 0 0 0).deg + ((0 : ℝ) * 0) = 270 := by
      show (270 : ℝ) + 0 * 0 = 270
      norm_num
    rw [this]
    have h := wrap_deg_down_once (270 : ℝ) (by norm_num) (by norm_num) fuel hf
    rw [h]
    norm_num
  rw [get_MA_Hz_between realMath fuel (polarPair 270 270) (polarPair 270 270)
    (polarPair 270 270) 1 0 0 0 2 0 0 _ _ 0 (-90) rfl (by decide) hlo hhi
    (polarPair_nearest_first 270 270) (polarPair_get_MA 270 270 0)
    (polarPair_get_MA 270 270 (0 + 1)) w0 w1, MA_interp_zero]
  rfl

end SPARAMS

namespace SPARAMS
variable {D : Type}

section queries
variable [LinearOrderedField D]

/-- The query halfway between the angles +179 and -179 degrees. -/
theorem get_MA_Hz_wrap (K : MathLib D) (fuel : Nat) (M M1 M2 : SPARAMS D) (Hz : D) (b a : Nat)
    (flags : U8) (n i : Nat) (alpha : D) (v0 v1 : SPARAM.MA D)
    (hn : M.n_points = (n : Int)) (hi : i + 1 < n)
    (hlo : M.min_Hz ≤ Hz) (hhi : Hz ≤ M.max_Hz)
    (e : nearest_freq_Hz M Hz = some ((i : Int), alpha))
    (g0 : get_MA K M i b a = some (v0, M1))
    (g1 : get_MA K M1 (i + 1) b a = some (v1, M2))
    (h0 : v0.deg = 179) (h1 : v1.deg = -179) (ha : alpha = 1 / 2) (hf : 2 ≤ fuel) :
    get_MA_Hz K fuel M Hz b a flags =
      Except.ok (⟨v0.mag + ((v1.mag - v0.mag) * alpha), 180⟩, true, M2) := by
  have w0 : wrap_deg fuel (v1.deg - v0.deg) = some 2 := by
    have h := wrap_deg_up_once ((-179 : D) - 179) (by norm_num) (by norm_num) fuel hf
    have e2 : (-179 : D) - 179 + 360 = 2 := by norm_num
    rw [e2] at h
    rw [h1, h0]
    exact h
  have w1 : wrap_deg fuel (v0.deg + (2 * alpha)) = some 180 := by
    have e2 : (179 : D) + 2 * (1 / 2) = 180 := by norm_num
    rw [h0, ha, e2]
    exact wrap_deg_id 180 (by norm_num) (le_refl _) fuel (by omega)
  exact get_MA_Hz_between K fuel M M1 M2 Hz b a flags n i alpha v0 v1 2 180 hn hi hlo hhi e
    g0 g1 w0 w1

/-- **C16**.  Shortest angular path: for adjacent samples `i`, `i + 1` with
magnitudes `m0`, `m1` and angles `t0`, `t1` of magnitude at most `1e15` and a
fraction `alpha` in `[0, 1]` returned by the search, the in-range polar query
returns the magnitude `m0 + (m1 - m0)*alpha` and the angle
`t0 + d*alpha + 360*w`, where `d = t1 - t0 + 360*z` with `-180 <= d <= 180` and
`z`, `w` whole numbers; the angle returned lies in `[-180, 180]` and the range
flag is TRUE; the loops end within `1e14` passes each.  For `t0 = +179`,
`t1 = -179` and `alpha = 1/2` the angle returned is `+180`. -/
theorem shortest_angular_path (K : MathLib D) (M M1 M2 : SPARAMS D) (Hz : D)
    (b a : Nat) (flags : U8) (n i : Nat) (alpha : D) (v0 v1 : SPARAM.MA D)
    (hn : M.n_points = (n : Int)) (hi : i + 1 < n)
    (hlo : M.min_Hz ≤ Hz) (hhi : Hz ≤ M.max_Hz)
    (e : nearest_freq_Hz M Hz = some ((i : Int), alpha))
    (g0 : get_MA K M i b a = some (v0, M1))
    (g1 : get_MA K M1 (i + 1) b a = some (v1, M2)) :
    (|v0.deg| ≤ 10 ^ 15 → |v1.deg| ≤ 10 ^ 15 → 0 ≤ alpha → alpha ≤ 1 →
      ∃ (z w : Int),
        -180 ≤ v1.deg - v0.deg + 360 * (z : D) ∧ v1.deg - v0.deg + 360 * (z : D) ≤ 180 ∧
        -180 ≤ v0.deg + ((v1.deg - v0.deg + 360 * (z : D)) * alpha) + 360 * (w : D) ∧
        v0.deg + ((v1.deg - v0.deg + 360 * (z : D)) * alpha) + 360 * (w : D) ≤ 180 ∧
        ∀ fuel, 10 ^ 14 + 1 ≤ fuel →
          get_MA_Hz K fuel M Hz b a flags =
            Except.ok (⟨v0.mag + ((v1.mag - v0.mag) * alpha),
              v0.deg + ((v1.deg - v0.deg + 360 * (z : D)) * alpha) + 360 * (w : D)⟩,
              true, M2)) ∧
    (v0.deg = 179 → v1.deg = -179 → alpha = 1 / 2 → ∀ fuel, 2 ≤ fuel →
      get_MA_Hz K fuel M Hz b a flags =
        Except.ok (⟨v0.mag + ((v1.mag - v0.mag) * alpha), 180⟩, true, M2)) := by
  refine ⟨fun hb0 hb1 ha0 ha1 => ?_, fun h0 h1 ha fuel hf =>
    get_MA_Hz_wrap K fuel M M1 M2 Hz b a flags n i alpha v0 v1 hn hi hlo hhi e g0 g1
      h0 h1 ha hf⟩
  obtain ⟨d, r, a0, a1, ⟨z, hz⟩, b0, b1, ⟨w, hw⟩, h⟩ :=
    get_MA_Hz_shape_bounded K M M1 M2 Hz b a flags n i alpha v0 v1 hn hi hlo hhi e g0 g1
      hb0 hb1 ha0 ha1
  rw [hz] at a0 a1 hw
  rw [hw] at b0 b1
  refine ⟨z, w, a0, a1, b0, b1, fun fuel hf => ?_⟩
  rw [(h fuel hf).2.2, hw]

end queries

theorem polarPair_nearest_mid (t0 t1 : ℝ) :
    nearest_freq_Hz (polarPair t0 t1) 2 = some (((0 : Nat) : Int), 1 / 2) := by
  have c0 : (polarPair t0 t1).freq_Hz 0 < 2 := by
    rw [polarPair_freq]; norm_num
  have c1 : (2 : ℝ) < (polarPair t0 t1).freq_Hz (2 - 1) := by
    rw [polarPair_freq]; norm_num
  obtain ⟨i, hi, -, -, e⟩ := nearest_freq_Hz_inside (polarPair t0 t1) 2 2 rfl c0 c1
  have hi0 : i = 0 := by omega
  subst hi0
  rw [e, polarPair_freq, polarPair_freq]
  norm_num

theorem polarPair_mid_range (t0 t1 : ℝ) :
    (polarPair t0 t1).min_Hz ≤ 2 ∧ (2 : ℝ) ≤ (polarPair t0 t1).max_Hz := by
  constructor
  · show (1 : ℝ) ≤ 2
    norm_num
  · show (2 : ℝ) ≤ 3
    norm_num

/-- Witness for C16: samples at 1 Hz and 3 Hz with the angles +179 and -179
degrees, queried at 2 Hz: the angle returned is 180. -/
theorem shortest_angular_path_witness :
    ((polarPair 179 (-179)).n_points = ((2 : Nat) : Int) ∧ 0 + 1 < 2 ∧
      (polarPair 179 (-179)).min_Hz ≤ 2 ∧ (2 : ℝ) ≤ (polarPair 179 (-179)).max_Hz ∧
      nearest_freq_Hz (polarPair 179 (-179)) 2 = some (((0 : Nat) : Int), 1 / 2) ∧
      get_MA realMath (polarPair 179 (-179)) 0 0 0 =
        some ((polarPair 179 (-179)).MA 0 0 0, polarPair 179 (-179)) ∧
      get_MA realMath (polarPair 179 (-179)) (0 + 1) 0 0 =
        some ((polarPair 179 (-179)).MA 0 0 (0 + 1), polarPair 179 (-179)) ∧
      |((polarPair 179 (-179)).MA 0 0 0).deg| ≤ 10 ^ 15 ∧
      |((polarPair 179 (-179)).MA 0 0 (0 + 1)).deg| ≤ 10 ^ 15 ∧
      (0 : ℝ) ≤ 1 / 2 ∧ (1 / 2 : ℝ) ≤ 1) ∧
    (∃ (z w : Int),
      -180 ≤ ((polarPair 179 (-179)).MA 0 0 (0 + 1)).deg -
        ((polarPair 179 (-179)).MA 0 0 0).deg + 360 * (z : ℝ) ∧
      ((polarPair 179 (-179)).MA 0 0 (0 + 1)).deg -
        ((polarPair 179 (-179)).MA 0 0 0).deg + 360 * (z : ℝ) ≤ 180 ∧
      ∀ fuel, 10 ^ 14 + 1 ≤ fuel →
        get_MA_Hz realMath fuel (polarPair 179 (-179)) 2 0 0 0 =
          Except.ok (⟨((polarPair 179 (-179)).MA 0 0 0).mag +
            ((((polarPair 179 (-179)).MA 0 0 (0 + 1)).mag -
              ((polarPair 179 (-179)).MA 0 0 0).mag) * (1 / 2)),
            ((polarPair 179 (-179)).MA 0 0 0).deg +
              ((((polarPair 179 (-179)).MA 0 0 (0 + 1)).deg -
                ((polarPair 179 (-179)).MA 0 0 0).deg + 360 * (z : ℝ)) * (1 / 2)) +
              360 * (w : ℝ)⟩, true, polarPair 179 (-179))) ∧
    ∀ fuel, 2 ≤ fuel →
      get_MA_Hz realMath fuel (polarPair 179 (-179)) 2 0 0 0 =
        Except.ok (⟨((polarPair 179 (-179)).MA 0 0 0).mag +
          ((((polarPair 179 (-179)).MA 0 0 (0 + 1)).mag -
            ((polarPair 179 (-179)).MA 0 0 0).mag) * (1 / 2)), 180⟩,
          true, polarPair 179 (-179)) := by
  have hb := polarPair_deg_bound 179 (-179) polarPair_179_bound.1 polarPair_179_bound.2
  have h := shortest_angular_path realMath (polarPair 179 (-179)) (polarPair 179 (-179))
    (polarPair 179 (-179)) 2 0 0 0 2 0 (1 / 2) _ _ rfl (by decide)
    (polarPair_mid_range _ _).1 (polarPair_mid_range _ _).2 (polarPair_nearest_mid _ _)
    (polarPair_get_MA _ _ 0) (polarPair_get_MA _ _ (0 + 1))
  refine ⟨⟨rfl, by decide, (polarPair_mid_range _ _).1, (polarPair_mid_range _ _).2,
    polarPair_nearest_mid _ _, polarPair_get_MA _ _ 0, polarPair_get_MA _ _ (0 + 1),
    hb.1, hb.2, by norm_num, by norm_num⟩, ?_, h.2 rfl rfl rfl⟩
  obtain ⟨z, w, a0, a1, -, -, q⟩ := h.1 hb.1 hb.2 (by norm_num) (by norm_num)
  exact ⟨z, w, a0, a1, q⟩

end SPARAMS

/-! ## Conversions between the encodings -/

namespace SPARAM

theorem PI_pos : (0 : ℝ) < PI := by
  unfold PI
  norm_num

theorem RAD2DEG_mul_DEG2RAD (x : ℝ) : x * RAD2DEG * DEG2RAD = x := by
  unfold RAD2DEG DEG2RAD
  have h : (PI : ℝ) ≠ 0 := ne_of_gt PI_pos
  field_simp

theorem sqrt_eq_abs (re im : ℝ) : realMath.sqrt (re * re + im * im) = Complex.abs ⟨re, im⟩ := by
  show Real.sqrt (re * re + im * im) = Complex.abs ⟨re, im⟩
  rw [Complex.abs_apply, Complex.normSq_mk]

/-- Over the reals the polar form of a non-zero value converts back to it. -/
theorem RI_ofMA_ofRI (v : RI ℝ)
    (h : realMath.sqrt (v.real * v.real + v.imag * v.imag) > 1 / 10 ^ 20) :
    RI.ofMA realMath (MA.ofRI realMath v) = v := by
  obtain ⟨re, im⟩ := v
  have hpos : 0 < realMath.sqrt (re * re + im * im) := lt_trans (by norm_num) h
  have habs : 0 < Complex.abs ⟨re, im⟩ := by rw [← sqrt_eq_abs]; exact hpos
  have hz : (⟨re, im⟩ : ℂ) ≠ 0 := by
    intro e
    rw [e, map_zero] at habs
    exact lt_irrefl _ habs
  unfold RI.ofMA MA.ofRI
  simp only [if_pos h]
  rw [RAD2DEG_mul_DEG2RAD]
  show (⟨Real.cos (Complex.arg ⟨re, im⟩) * realMath.sqrt (re * re + im * im),
    Real.sin (Complex.arg ⟨re, im⟩) * realMath.sqrt (re * re + im * im)⟩ : RI ℝ) = ⟨re, im⟩
  rw [Complex.cos_arg hz, Complex.sin_arg, sqrt_eq_abs]
  have e1 : (⟨re, im⟩ : ℂ).re / Complex.abs ⟨re, im⟩ * Complex.abs ⟨re, im⟩ = re :=
    div_mul_cancel₀ _ (ne_of_gt habs)
  have e2 : (⟨re, im⟩ : ℂ).im / Complex.abs ⟨re, im⟩ * Complex.abs ⟨re, im⟩ = im :=
    div_mul_cancel₀ _ (ne_of_gt habs)
  rw [e1, e2]

theorem rounded_polar :
    MA.ofRI roundedMath ⟨2 ^ 50, 2 ^ 50⟩ =
      ⟨6369051672525773 / 4, 884279719003555 / 1125899906842624 * RAD2DEG⟩ := by
  have e : ((2 : ℚ) ^ 50 * 2 ^ 50 + 2 ^ 50 * 2 ^ 50) = 2 ^ 101 := by norm_num
  have s : roundedMath.sqrt ((2 : ℚ) ^ 50 * 2 ^ 50 + 2 ^ 50 * 2 ^ 50) = 6369051672525773 / 4 := by
    show (if ((2 : ℚ) ^ 50 * 2 ^ 50 + 2 ^ 50 * 2 ^ 50) = 2 ^ 101 then
      (6369051672525773 / 4 : ℚ) else 0) = _
    rw [if_pos e]
  have t : roundedMath.atan2 ((2 : ℚ) ^ 50) (2 ^ 50) = 884279719003555 / 1125899906842624 := by
    show (if (2 : ℚ) ^ 50 = 2 ^ 50 ∧ (2 : ℚ) ^ 50 = 2 ^ 50 then
      (884279719003555 / 1125899906842624 : ℚ) else 0) = _
    rw [if_pos ⟨rfl, rfl⟩]
  unfold MA.ofRI
  simp only [s, t]
  rw [if_pos (by norm_num)]

theorem rounded_angle :
    (884279719003555 / 1125899906842624 * RAD2DEG * DEG2RAD : ℚ) =
      884279719003555 / 1125899906842624 := by
  unfold RAD2DEG DEG2RAD PI
  norm_num

theorem rounded_round_trip :
    RI.ofMA roundedMath (MA.ofRI roundedMath ⟨2 ^ 50, 2 ^ 50⟩) =
      ⟨6369051672525773 / 9007199254740992 * (6369051672525773 / 4),
        1592262918131443 / 2251799813685248 * (6369051672525773 / 4)⟩ := by
  rw [rounded_polar]
  unfold RI.ofMA
  simp only [rounded_angle]
  have c : roundedMath.cos (884279719003555 / 1125899906842624) =
      6369051672525773 / 9007199254740992 := by
    show (if (884279719003555 / 1125899906842624 : ℚ) = 884279719003555 / 1125899906842624 then
      (6369051672525773 / 9007199254740992 : ℚ) else 0) = _
    rw [if_pos rfl]
  have s : roundedMath.sin (884279719003555 / 1125899906842624) =
      1592262918131443 / 2251799813685248 := by
    show (if (884279719003555 / 1125899906842624 : ℚ) = 884279719003555 / 1125899906842624 then
      (1592262918131443 / 2251799813685248 : ℚ) else 0) = _
    rw [if_pos rfl]
  rw [c, s]

/-- **C17** (amended).  Conversion identity.  For every `DOUBLE` type and
library, `MA(v)` has the magnitude `sqrt(re*re + im*im)` as computed, with the
angle `atan2(im, re) * RAD2DEG` when that magnitude exceeds `1e-20` and the
angle 0 otherwise, and `RI(m)` is `(cos(r) * mag, sin(r) * mag)` for
`r = deg * DEG2RAD`.  With `DOUBLE` read as a real number and exact library
functions, `RI(MA(v))` equals `v` for every `v` with
`sqrt(re^2 + im^2) > 1e-20`. -/
theorem conversion_identity {D : Type} [LinearOrderedField D] (K : MathLib D) (w : RI D)
    (m : MA D) (v : RI ℝ) :
    (MA.ofRI K w).mag = K.sqrt (w.real * w.real + w.imag * w.imag) ∧
    (K.sqrt (w.real * w.real + w.imag * w.imag) > 1 / 10 ^ 20 →
      (MA.ofRI K w).deg = K.atan2 w.imag w.real * RAD2DEG) ∧
    (K.sqrt (w.real * w.real + w.imag * w.imag) ≤ 1 / 10 ^ 20 → (MA.ofRI K w).deg = 0) ∧
    RI.ofMA K m = ⟨K.cos (m.deg * DEG2RAD) * m.mag, K.sin (m.deg * DEG2RAD) * m.mag⟩ ∧
    (realMath.sqrt (v.real * v.real + v.imag * v.imag) > 1 / 10 ^ 20 →
      RI.ofMA realMath (MA.ofRI realMath v) = v) := by
  refine ⟨?_, ?_, ?_, rfl, RI_ofMA_ofRI v⟩
  · unfold MA.ofRI
    simp only
    split <;> rfl
  · intro h
    unfold MA.ofRI
    simp only [if_pos h]
  · intro h
    unfold MA.ofRI
    simp only [if_neg (not_lt.mpr h)]

/-- Witness for C17: the values `1 + 0j` and `0 + 0j` over the reals. -/
theorem conversion_identity_witness :
    (realMath.sqrt ((⟨1, 0⟩ : RI ℝ).real * (⟨1, 0⟩ : RI ℝ).real +
      (⟨1, 0⟩ : RI ℝ).imag * (⟨1, 0⟩ : RI ℝ).imag) > 1 / 10 ^ 20 ∧
     realMath.sqrt ((⟨0, 0⟩ : RI ℝ).real * (⟨0, 0⟩ : RI ℝ).real +
      (⟨0, 0⟩ : RI ℝ).imag * (⟨0, 0⟩ : RI ℝ).imag) ≤ 1 / 10 ^ 20) ∧
    RI.ofMA realMath (MA.ofRI realMath ⟨1, 0⟩) = ⟨1, 0⟩ ∧
    (MA.ofRI realMath ⟨0, 0⟩).deg = 0 :=
  have h : realMath.sqrt ((⟨1, 0⟩ : RI ℝ).real * (⟨1, 0⟩ : RI ℝ).real +
      (⟨1, 0⟩ : RI ℝ).imag * (⟨1, 0⟩ : RI ℝ).imag) > 1 / 10 ^ 20 := by
    show Real.sqrt ((1 : ℝ) * 1 + 0 * 0) > 1 / 10 ^ 20
    norm_num
  have h0 : realMath.sqrt ((⟨0, 0⟩ : RI ℝ).real * (⟨0, 0⟩ : RI ℝ).real +
      (⟨0, 0⟩ : RI ℝ).imag * (⟨0, 0⟩ : RI ℝ).imag) ≤ 1 / 10 ^ 20 := by
    show Real.sqrt ((0 : ℝ) * 0 + 0 * 0) ≤ 1 / 10 ^ 20
    norm_num
  ⟨⟨h, h0⟩, (conversion_identity realMath ⟨0, 0⟩ ⟨0, 0⟩ ⟨1, 0⟩).2.2.2.2 h,
    (conversion_identity realMath ⟨0, 0⟩ ⟨0, 0⟩ ⟨1, 0⟩).2.2.1 h0⟩

/-- Counterexample to C17 as stated: the value `(2^50, 2^50)`, whose magnitude
exceeds `1e-20`, converted with the library results rounded to binary64 and the
arithmetic between them exact.  The real part of `RI(MA(v))` exceeds that of
`v` by more than `0.1`, so it is not within `1e-9`. -/
theorem conversion_round_trip_rounded :
    roundedMath.sqrt ((⟨2 ^ 50, 2 ^ 50⟩ : RI ℚ).real * (⟨2 ^ 50, 2 ^ 50⟩ : RI ℚ).real +
      (⟨2 ^ 50, 2 ^ 50⟩ : RI ℚ).imag * (⟨2 ^ 50, 2 ^ 50⟩ : RI ℚ).imag) > 1 / 10 ^ 20 ∧
    (RI.ofMA roundedMath (MA.ofRI roundedMath ⟨2 ^ 50, 2 ^ 50⟩)).real - 2 ^ 50 > 1 / 10 ∧
    ¬ (|(RI.ofMA roundedMath (MA.ofRI roundedMath ⟨2 ^ 50, 2 ^ 50⟩)).real - 2 ^ 50| ≤
      1 / 10 ^ 9) := by
  have e : ((2 : ℚ) ^ 50 * 2 ^ 50 + 2 ^ 50 * 2 ^ 50) = 2 ^ 101 := by norm_num
  have s : roundedMath.sqrt ((2 : ℚ) ^ 50 * 2 ^ 50 + 2 ^ 50 * 2 ^ 50) = 6369051672525773 / 4 := by
    show (if ((2 : ℚ) ^ 50 * 2 ^ 50 + 2 ^ 50 * 2 ^ 50) = 2 ^ 101 then
      (6369051672525773 / 4 : ℚ) else 0) = _
    rw [if_pos e]
  have r : (RI.ofMA roundedMath (MA.ofRI roundedMath ⟨2 ^ 50, 2 ^ 50⟩)).real =
      6369051672525773 / 9007199254740992 * (6369051672525773 / 4) := by
    rw [rounded_round_trip]
  have g : (6369051672525773 / 9007199254740992 * (6369051672525773 / 4) : ℚ) - 2 ^ 50 >
      1 / 10 := by norm_num
  refine ⟨?_, ?_, ?_⟩
  · show roundedMath.sqrt ((2 : ℚ) ^ 50 * 2 ^ 50 + 2 ^ 50 * 2 ^ 50) > 1 / 10 ^ 20
    rw [s]
    norm_num
  · rw [r]
    exact g
  · rw [r, abs_of_pos (lt_trans (by norm_num) g)]
    exact not_le.mpr (lt_trans (by norm_num) g)

theorem log10_floor : Real.logb 10 (1 / 10 ^ 15) = -15 := by
  have e : (1 : ℝ) / 10 ^ 15 = (10 : ℝ) ^ (-15 : ℝ) := by
    rw [Real.rpow_neg (by norm_num), one_div]
    congr 1
    exact_mod_cast (Real.rpow_natCast 10 15).symm
  rw [e, Real.logb_rpow (by norm_num) (by norm_num)]

theorem pow_floor : (10 : ℝ) ^ (-15 : ℝ) = 1 / 10 ^ 15 := by
  rw [Real.rpow_neg (by norm_num), one_div]
  congr 1
  exact_mod_cast Real.rpow_natCast 10 15

theorem DB_ofMA_ge (m : MA ℝ) : (DB.ofMA realMath m).dB ≥ -300 := by
  show 20 * Real.logb 10 (max (1 / 10 ^ 15) m.mag) ≥ -300
  have h : Real.logb 10 (1 / 10 ^ 15) ≤ Real.logb 10 (max (1 / 10 ^ 15) m.mag) :=
    Real.logb_le_logb_of_le (by norm_num) (by norm_num) (le_max_left _ _)
  rw [log10_floor] at h
  linarith

theorem MA_ofDB_ofMA (m : MA ℝ) (h : m.mag ≥ 1 / 10 ^ 15) :
    MA.ofDB realMath (DB.ofMA realMath m) = m := by
  obtain ⟨mag, deg⟩ := m
  have hpos : (0 : ℝ) < mag := lt_of_lt_of_le (by norm_num) h
  unfold MA.ofDB DB.ofMA
  simp only [max_eq_right h]
  rw [pow_log10 mag hpos]

theorem DB_ofMA_ofDB (d : DB ℝ) (h : d.dB ≥ -300) :
    DB.ofMA realMath (MA.ofDB realMath d) = d := by
  obtain ⟨dB, deg⟩ := d
  have h1 : (1 : ℝ) / 10 ^ 15 ≤ (10 : ℝ) ^ (dB / 20) := by
    rw [← pow_floor]
    exact Real.rpow_le_rpow_of_exponent_le (by norm_num) (by
      have : (-300 : ℝ) ≤ dB := h
      linarith)
  show (⟨20 * Real.logb 10 (max (1 / 10 ^ 15) ((10 : ℝ) ^ (dB / 20))), deg⟩ : DB ℝ) = ⟨dB, deg⟩
  rw [max_eq_right h1, Real.logb_rpow (by norm_num) (by norm_num)]
  congr 1
  ring

/-- **C18** (amended).  Magnitude/dB conversions.  For every `DOUBLE` type and
library, `DB(MA)` has `dB = 20*log10(max(1e-15, mag))` and `MA(DB)` has
`mag = pow(10, dB/20)`, each with the angle unchanged.  With `DOUBLE` read as a
real number and exact `log10` and `pow`, `dB >= -300` for every `mag`,
`MA(DB(m)) = m` for every `m` with `mag >= 1e-15`, and `DB(MA(d)) = d` for every
`d` with `dB >= -300`. -/
theorem magnitude_dB_conversions {D : Type} [LinearOrderedField D] (K : MathLib D) :
    (∀ m : MA D, (DB.ofMA K m).dB = 20 * K.log10 (max (1 / 10 ^ 15) m.mag) ∧
      (DB.ofMA K m).deg = m.deg) ∧
    (∀ d : DB D, (MA.ofDB K d).mag = K.pow 10 (d.dB / 20) ∧ (MA.ofDB K d).deg = d.deg) ∧
    (∀ m : MA ℝ, (DB.ofMA realMath m).dB ≥ -300) ∧
    (∀ m : MA ℝ, m.mag ≥ 1 / 10 ^ 15 → MA.ofDB realMath (DB.ofMA realMath m) = m) ∧
    (∀ d : DB ℝ, d.dB ≥ -300 → DB.ofMA realMath (MA.ofDB realMath d) = d) :=
  ⟨fun _ => ⟨rfl, rfl⟩, fun _ => ⟨rfl, rfl⟩, DB_ofMA_ge, MA_ofDB_ofMA, DB_ofMA_ofDB⟩

/-- Witness for C18: the polar value of magnitude 1 at 30 degrees and the dB
value 0 dB at 30 degrees. -/
theorem magnitude_dB_conversions_witness :
    ((⟨1, 30⟩ : MA ℝ).mag ≥ 1 / 10 ^ 15 ∧ (⟨0, 30⟩ : DB ℝ).dB ≥ -300) ∧
    MA.ofDB realMath (DB.ofMA realMath ⟨1, 30⟩) = ⟨1, 30⟩ ∧
    DB.ofMA realMath (MA.ofDB realMath ⟨0, 30⟩) = ⟨0, 30⟩ :=
  have h1 : (⟨1, 30⟩ : MA ℝ).mag ≥ 1 / 10 ^ 15 := by
    show (1 : ℝ) ≥ 1 / 10 ^ 15
    norm_num
  have h2 : (⟨0, 30⟩ : DB ℝ).dB ≥ -300 := by
    show (0 : ℝ) ≥ -300
    norm_num
  ⟨⟨h1, h2⟩, (magnitude_dB_conversions realMath).2.2.2.1 ⟨1, 30⟩ h1,
    (magnitude_dB_conversions realMath).2.2.2.2 ⟨0, 30⟩ h2⟩

/-- Counterexample to C18 as stated: the polar value of magnitude 5, which is
not below `1e-15`, converted with the library results rounded to binary64.
`DB(m)` has `dB = 20 * log10(5)`, and `MA(DB(m))` has the magnitude
`pow(10, log10(5)) = 5.000000000000001`, not 5. -/
theorem magnitude_round_trip_rounded :
    (⟨5, 0⟩ : MA ℚ).mag ≥ 1 / 10 ^ 15 ∧
    (DB.ofMA roundedMath ⟨5, 0⟩).dB = 20 * (6295762102141697 / 9007199254740992) ∧
    (MA.ofDB roundedMath (DB.ofMA roundedMath ⟨5, 0⟩)).mag =
      5629499534213121 / 1125899906842624 ∧
    MA.ofDB roundedMath (DB.ofMA roundedMath ⟨5, 0⟩) ≠ ⟨5, 0⟩ := by
  have m : max (1 / 10 ^ 15 : ℚ) 5 = 5 := max_eq_right (by norm_num)
  have l : roundedMath.log10 5 = 6295762102141697 / 9007199254740992 := by
    show (if (5 : ℚ) = 5 then (6295762102141697 / 9007199254740992 : ℚ) else 0) = _
    rw [if_pos rfl]
  have d : (DB.ofMA roundedMath ⟨5, 0⟩).dB = 20 * (6295762102141697 / 9007199254740992) := by
    show 20 * roundedMath.log10 (max (1 / 10 ^ 15) 5) = _
    rw [m, l]
  have q : (20 * (6295762102141697 / 9007199254740992) : ℚ) / 20 =
      6295762102141697 / 9007199254740992 := by norm_num
  have p : (MA.ofDB roundedMath (DB.ofMA roundedMath ⟨5, 0⟩)).mag =
      5629499534213121 / 1125899906842624 := by
    show roundedMath.pow 10 ((DB.ofMA roundedMath ⟨5, 0⟩).dB / 20) = _
    rw [d, q]
    show (if (10 : ℚ) = 10 ∧ (6295762102141697 / 9007199254740992 : ℚ) =
      6295762102141697 / 9007199254740992 then (5629499534213121 / 1125899906842624 : ℚ)
      else 0) = _
    rw [if_pos ⟨rfl, rfl⟩]
  refine ⟨?_, d, p, ?_⟩
  · show (5 : ℚ) ≥ 1 / 10 ^ 15
    norm_num
  · intro h
    have h2 := congrArg MA.mag h
    rw [p] at h2
    exact absurd h2 (by norm_num)

end SPARAM

namespace SPARAM

theorem CZ_ofMA_real (m : MA ℝ) (Ro : ℝ) :
    CZ.ofMA realMath m Ro =
      ⟨((1 - m.mag * m.mag) * Ro) /
          (1 + m.mag * m.mag - (2 * m.mag * Real.cos (m.deg * DEG2RAD))),
        (2 * m.mag * Real.sin (m.deg * DEG2RAD) * Ro) /
          (1 + m.mag * m.mag - (2 * m.mag * Real.cos (m.deg * DEG2RAD)))⟩ := rfl

/-- The impedance as a complex number is `Ro*(1 + G)/(1 - G)` for the
reflection coefficient `G = mag*(cos + j sin)`, for any `cos`, `sin` with
`cos^2 + sin^2 = 1`. -/
theorem CZ_complex_aux (mag Ro c s : ℝ) (hcs : c ^ 2 + s ^ 2 = 1)
    (hD : 1 + mag * mag - 2 * mag * c ≠ 0) :
    (⟨((1 - mag * mag) * Ro) / (1 + mag * mag - (2 * mag * c)),
      (2 * mag * s * Ro) / (1 + mag * mag - (2 * mag * c))⟩ : ℂ) =
      (Ro : ℂ) * (1 + (mag : ℂ) * ⟨c, s⟩) / (1 - (mag : ℂ) * ⟨c, s⟩) := by
  have hG : (1 : ℂ) - (mag : ℂ) * ⟨c, s⟩ ≠ 0 := by
    intro e
    have e1 := congrArg Complex.re e
    have e2 := congrArg Complex.im e
    simp at e1 e2
    apply hD
    have h1 : mag * c = 1 := by linarith
    rcases e2 with e2 | e2
    · rw [e2] at h1; norm_num at h1
    · rw [e2] at hcs
      have hc : c ^ 2 = 1 := by linarith
      have : (mag * c) * (mag * c) = 1 := by rw [h1]; ring
      have hm : mag * mag = 1 := by nlinarith
      nlinarith
  rw [eq_div_iff hG]
  apply Complex.ext
  · simp
    field_simp
    linear_combination (2 * mag ^ 2 * Ro) * hcs
  · simp
    field_simp
    ring

/-- **C19**.  Impedance conversion: `CZ(MA, Ro)` has `R = Ro*(1 - mag^2)/D` and
`X = Ro*2*mag*sin(r)/D` with `r = deg*PI/180` and
`D = 1 + mag^2 - 2*mag*cos(r)`; and with `DOUBLE` read as a real number and `D`
non-zero, `R + jX` equals `Ro*(1 + G)/(1 - G)` for the complex reflection
coefficient `G = mag*(cos(r) + j sin(r))`. -/
theorem impedance_conversion {D : Type} [LinearOrderedField D] (K : MathLib D) (m : MA D)
    (Ro : D) :
    ((CZ.ofMA K m Ro).R =
        Ro * (1 - m.mag ^ 2) / (1 + m.mag ^ 2 - 2 * m.mag * K.cos (m.deg * PI / 180)) ∧
      (CZ.ofMA K m Ro).jX =
        Ro * 2 * m.mag * K.sin (m.deg * PI / 180) /
          (1 + m.mag ^ 2 - 2 * m.mag * K.cos (m.deg * PI / 180))) ∧
    (∀ (x : MA ℝ) (r : ℝ),
      1 + x.mag ^ 2 - 2 * x.mag * Real.cos (x.deg * PI / 180) ≠ 0 →
      (⟨(CZ.ofMA realMath x r).R, (CZ.ofMA realMath x r).jX⟩ : ℂ) =
        (r : ℂ) *
          (1 + (x.mag : ℂ) * ⟨Real.cos (x.deg * PI / 180), Real.sin (x.deg * PI / 180)⟩) /
          (1 - (x.mag : ℂ) * ⟨Real.cos (x.deg * PI / 180), Real.sin (x.deg * PI / 180)⟩)) := by
  have ed : ∀ (E : Type) [LinearOrderedField E] (t : E), t * DEG2RAD = t * PI / 180 := by
    intro E _ t
    unfold DEG2RAD
    ring
  refine ⟨⟨?_, ?_⟩, ?_⟩
  · unfold CZ.ofMA
    simp only [ed]
    ring
  · unfold CZ.ofMA
    simp only [ed]
    ring
  · intro x r hD
    rw [CZ_ofMA_real, ed ℝ]
    have hD2 : 1 + x.mag * x.mag - 2 * x.mag * Real.cos (x.deg * PI / 180) ≠ 0 := by
      intro e; apply hD; rw [← e]; ring
    exact CZ_complex_aux x.mag r _ _ (Real.cos_sq_add_sin_sq _) hD2

/-- Witness for C19: magnitude 1/2 at 0 degrees, reference 50. -/
theorem impedance_conversion_witness :
    1 + (⟨1 / 2, 0⟩ : MA ℝ).mag ^ 2 -
      2 * (⟨1 / 2, 0⟩ : MA ℝ).mag * Real.cos ((⟨1 / 2, 0⟩ : MA ℝ).deg * PI / 180) ≠ 0 ∧
    (⟨(CZ.ofMA realMath ⟨1 / 2, 0⟩ 50).R, (CZ.ofMA realMath ⟨1 / 2, 0⟩ 50).jX⟩ : ℂ) =
      ((50 : ℝ) : ℂ) *
        (1 + (((⟨1 / 2, 0⟩ : MA ℝ).mag : ℝ) : ℂ) *
          ⟨Real.cos ((⟨1 / 2, 0⟩ : MA ℝ).deg * PI / 180),
            Real.sin ((⟨1 / 2, 0⟩ : MA ℝ).deg * PI / 180)⟩) /
        (1 - (((⟨1 / 2, 0⟩ : MA ℝ).mag : ℝ) : ℂ) *
          ⟨Real.cos ((⟨1 / 2, 0⟩ : MA ℝ).deg * PI / 180),
            Real.sin ((⟨1 / 2, 0⟩ : MA ℝ).deg * PI / 180)⟩) :=
  have h : 1 + (⟨1 / 2, 0⟩ : MA ℝ).mag ^ 2 -
      2 * (⟨1 / 2, 0⟩ : MA ℝ).mag * Real.cos ((⟨1 / 2, 0⟩ : MA ℝ).deg * PI / 180) ≠ 0 := by
    show (1 : ℝ) + (1 / 2) ^ 2 - 2 * (1 / 2) * Real.cos (0 * PI / 180) ≠ 0
    norm_num
  ⟨h, (impedance_conversion realMath (⟨1 / 2, 0⟩ : MA ℝ) 50).2 ⟨1 / 2, 0⟩ 50 h⟩

end SPARAM

/-! ## The Touchstone reader -/

namespace SPARAMS
variable {D : Type}

section store

variable {α : Type} (g : SPARAMS D → Nat → Nat → Nat → α) (fmt : U8) (pt : Nat)
  (RI : Nat → Nat → D × D)

/-- A table that each cell store updates at `(b, a, pt)`, after one row. -/
theorem store_row_set (val : Nat → Nat → α)
    (hg : ∀ M b a, g (store_cell fmt pt RI M b a) = setAt (g M) b a pt (val b a))
    (n : Nat) (M : SPARAMS D) (b b1 a1 i : Nat) :
    g (store_row fmt pt RI n M b) b1 a1 i =
      if b1 = b ∧ a1 < n ∧ i = pt then val b1 a1 else g M b1 a1 i := by
  induction n with
  | zero =>
    have : ¬ (b1 = b ∧ a1 < 0 ∧ i = pt) := fun h => absurd h.2.1 (Nat.not_lt_zero _)
    rw [if_neg this]
    rfl
  | succ n ih =>
    unfold store_row at ih ⊢
    rw [List.range_succ, List.foldl_append, List.foldl_cons, List.foldl_nil, hg]
    unfold setAt
    by_cases c : b1 = b ∧ a1 = n ∧ i = pt
    · rw [if_pos c, if_pos ⟨c.1, by omega, c.2.2⟩, c.1, c.2.1]
    · rw [if_neg c, ih]
      by_cases c2 : b1 = b ∧ a1 < n ∧ i = pt
      · rw [if_pos c2, if_pos ⟨c2.1, by omega, c2.2.2⟩]
      · rw [if_neg c2, if_neg]
        intro h
        rcases Nat.lt_succ_iff_lt_or_eq.mp h.2.1 with h1 | h1
        · exact c2 ⟨h.1, h1, h.2.2⟩
        · exact c ⟨h.1, h1, h.2.2⟩

/-- A table that no cell store changes, after one row. -/
theorem store_row_keep {β : Type} (k : SPARAMS D → β)
    (hk : ∀ M b a, k (store_cell fmt pt RI M b a) = k M)
    (n : Nat) (M : SPARAMS D) (b : Nat) : k (store_row fmt pt RI n M b) = k M := by
  induction n with
  | zero => rfl
  | succ n ih =>
    unfold store_row at ih ⊢
    rw [List.range_succ, List.foldl_append, List.foldl_cons, List.foldl_nil, hk, ih]

theorem store_rows_set (val : Nat → Nat → α)
    (hg : ∀ M b a, g (store_cell fmt pt RI M b a) = setAt (g M) b a pt (val b a))
    (n m : Nat) (M : SPARAMS D) (b1 a1 i : Nat) :
    g ((List.range m).foldl (store_row fmt pt RI n) M) b1 a1 i =
      if b1 < m ∧ a1 < n ∧ i = pt then val b1 a1 else g M b1 a1 i := by
  induction m with
  | zero =>
    have : ¬ (b1 < 0 ∧ a1 < n ∧ i = pt) := fun h => absurd h.1 (Nat.not_lt_zero _)
    rw [if_neg this]
    rfl
  | succ m ih =>
    rw [List.range_succ, List.foldl_append, List.foldl_cons, List.foldl_nil,
      store_row_set g fmt pt RI val hg, ih]
    by_cases c : b1 = m ∧ a1 < n ∧ i = pt
    · rw [if_pos c, if_pos ⟨by omega, c.2⟩]
    · rw [if_neg c]
      by_cases c2 : b1 < m ∧ a1 < n ∧ i = pt
      · rw [if_pos c2, if_pos ⟨by omega, c2.2⟩]
      · rw [if_neg c2, if_neg]
        intro h
        rcases Nat.lt_succ_iff_lt_or_eq.mp h.1 with h1 | h1
        · exact c2 ⟨h1, h.2⟩
        · exact c ⟨h1, h.2⟩

theorem store_rows_keep {β : Type} (k : SPARAMS D → β)
    (hk : ∀ M b a, k (store_cell fmt pt RI M b a) = k M)
    (n m : Nat) (M : SPARAMS D) : k ((List.range m).foldl (store_row fmt pt RI n) M) = k M := by
  induction m with
  | zero => rfl
  | succ m ih =>
    rw [List.range_succ, List.foldl_append, List.foldl_cons, List.foldl_nil,
      store_row_keep fmt pt RI k hk, ih]

end store

theorem store_cell_valid (fmt : U8) (pt : Nat) (RI : Nat → Nat → D × D) (M : SPARAMS D)
    (b a : Nat) : (store_cell fmt pt RI M b a).valid = setAt M.valid b a pt fmt := by
  unfold store_cell
  simp only
  split
  · rfl
  · split
    · rfl
    · split <;> rfl

theorem store_cell_header (fmt : U8) (pt : Nat) (RI : Nat → Nat → D × D) (M : SPARAMS D)
    (b a : Nat) :
    (fun M : SPARAMS D => (M.n_ports, M.n_points, M.min_Hz, M.max_Hz, M.Zo, M.freq_Hz, M.CZ))
      (store_cell fmt pt RI M b a) =
    (M.n_ports, M.n_points, M.min_Hz, M.max_Hz, M.Zo, M.freq_Hz, M.CZ) := by
  unfold store_cell
  simp only
  split
  · rfl
  · split
    · rfl
    · split <;> rfl

theorem store_cell_MA (fmt : U8) (pt : Nat) (RI : Nat → Nat → D × D) (M : SPARAMS D)
    (b a : Nat) :
    (store_cell fmt pt RI M b a).MA =
      if fmt = SNPTYPE.MA then setAt M.MA b a pt ⟨(RI b a).1, (RI b a).2⟩ else M.MA := by
  unfold store_cell
  simp only
  by_cases c1 : fmt = SNPTYPE.DB
  · have : fmt ≠ SNPTYPE.MA := by rw [c1]; decide
    rw [if_pos c1, if_neg this]
  · rw [if_neg c1]
    by_cases c2 : fmt = SNPTYPE.MA
    · rw [if_pos c2, if_pos c2]
    · rw [if_neg c2, if_neg c2]
      split <;> rfl

theorem store_cell_DB (fmt : U8) (pt : Nat) (RI : Nat → Nat → D × D) (M : SPARAMS D)
    (b a : Nat) :
    (store_cell fmt pt RI M b a).DB =
      if fmt = SNPTYPE.DB then setAt M.DB b a pt ⟨(RI b a).1, (RI b a).2⟩ else M.DB := by
  unfold store_cell
  simp only
  by_cases c1 : fmt = SNPTYPE.DB
  · rw [if_pos c1, if_pos c1]
  · rw [if_neg c1, if_neg c1]
    split
    · rfl
    · split <;> rfl

theorem store_cell_RI (fmt : U8) (pt : Nat) (RI : Nat → Nat → D × D) (M : SPARAMS D)
    (b a : Nat) :
    (store_cell fmt pt RI M b a).RI =
      if fmt = SNPTYPE.RI then setAt M.RI b a pt ⟨(RI b a).1, (RI b a).2⟩ else M.RI := by
  unfold store_cell
  simp only
  by_cases c1 : fmt = SNPTYPE.DB
  · have : fmt ≠ SNPTYPE.RI := by rw [c1]; decide
    rw [if_pos c1, if_neg this]
  · rw [if_neg c1]
    by_cases c2 : fmt = SNPTYPE.MA
    · have : fmt ≠ SNPTYPE.RI := by rw [c2]; decide
      rw [if_pos c2, if_neg this]
    · rw [if_neg c2]
      by_cases c3 : fmt = SNPTYPE.RI
      · rw [if_pos c3, if_pos c3]
      · rw [if_neg c3, if_neg c3]

end SPARAMS

namespace SPARAMS
variable {D : Type}

/-- What the storing loops leave: the header untouched, and in each table the
cells `(b, a)` with `b, a < n_ports` at point `pt` overwritten. -/
theorem store_point_spec (fmt : U8) (pt : Nat) (RI : Nat → Nat → D × D) (M : SPARAMS D) :
    (store_point fmt pt RI M).n_ports = M.n_ports ∧
    (store_point fmt pt RI M).n_points = M.n_points ∧
    (store_point fmt pt RI M).min_Hz = M.min_Hz ∧
    (store_point fmt pt RI M).max_Hz = M.max_Hz ∧
    (store_point fmt pt RI M).Zo = M.Zo ∧
    (store_point fmt pt RI M).freq_Hz = M.freq_Hz ∧
    (∀ b a i, (store_point fmt pt RI M).valid b a i =
      if b < M.n_ports.toNat ∧ a < M.n_ports.toNat ∧ i = pt then fmt else M.valid b a i) ∧
    (∀ b a i, (store_point fmt pt RI M).MA b a i =
      if fmt = SNPTYPE.MA ∧ b < M.n_ports.toNat ∧ a < M.n_ports.toNat ∧ i = pt
      then ⟨(RI b a).1, (RI b a).2⟩ else M.MA b a i) ∧
    (∀ b a i, (store_point fmt pt RI M).DB b a i =
      if fmt = SNPTYPE.DB ∧ b < M.n_ports.toNat ∧ a < M.n_ports.toNat ∧ i = pt
      then ⟨(RI b a).1, (RI b a).2⟩ else M.DB b a i) ∧
    (∀ b a i, (store_point fmt pt RI M).RI b a i =
      if fmt = SNPTYPE.RI ∧ b < M.n_ports.toNat ∧ a < M.n_ports.toNat ∧ i = pt
      then ⟨(RI b a).1, (RI b a).2⟩ else M.RI b a i) := by
  have hh := store_rows_keep fmt pt RI
    (fun M : SPARAMS D => (M.n_ports, M.n_points, M.min_Hz, M.max_Hz, M.Zo, M.freq_Hz, M.CZ))
    (store_cell_header fmt pt RI) M.n_ports.toNat M.n_ports.toNat M
  simp only [Prod.mk.injEq] at hh
  refine ⟨hh.1, hh.2.1, hh.2.2.1, hh.2.2.2.1, hh.2.2.2.2.1, hh.2.2.2.2.2.1, ?_, ?_, ?_, ?_⟩
  · intro b a i
    exact store_rows_set SPARAMS.valid fmt pt RI (fun _ _ => fmt) (store_cell_valid fmt pt RI)
      M.n_ports.toNat M.n_ports.toNat M b a i
  · intro b a i
    by_cases c : fmt = SNPTYPE.MA
    · have h := store_rows_set SPARAMS.MA fmt pt RI (fun b a => ⟨(RI b a).1, (RI b a).2⟩)
        (fun M b a => by rw [store_cell_MA, if_pos c]) M.n_ports.toNat M.n_ports.toNat M b a i
      simp only [c, true_and]
      rw [← c]
      exact h
    · have h := store_rows_keep fmt pt RI SPARAMS.MA
        (fun M b a => by rw [store_cell_MA, if_neg c]) M.n_ports.toNat M.n_ports.toNat M
      rw [if_neg (fun x => c x.1)]
      exact congrFun (congrFun (congrFun h b) a) i
  · intro b a i
    by_cases c : fmt = SNPTYPE.DB
    · have h := store_rows_set SPARAMS.DB fmt pt RI (fun b a => ⟨(RI b a).1, (RI b a).2⟩)
        (fun M b a => by rw [store_cell_DB, if_pos c]) M.n_ports.toNat M.n_ports.toNat M b a i
      simp only [c, true_and]
      rw [← c]
      exact h
    · have h := store_rows_keep fmt pt RI SPARAMS.DB
        (fun M b a => by rw [store_cell_DB, if_neg c]) M.n_ports.toNat M.n_ports.toNat M
      rw [if_neg (fun x => c x.1)]
      exact congrFun (congrFun (congrFun h b) a) i
  · intro b a i
    by_cases c : fmt = SNPTYPE.RI
    · have h := store_rows_set SPARAMS.RI fmt pt RI (fun b a => ⟨(RI b a).1, (RI b a).2⟩)
        (fun M b a => by rw [store_cell_RI, if_pos c]) M.n_ports.toNat M.n_ports.toNat M b a i
      simp only [c, true_and]
      rw [← c]
      exact h
    · have h := store_rows_keep fmt pt RI SPARAMS.RI
        (fun M b a => by rw [store_cell_RI, if_neg c]) M.n_ports.toNat M.n_ports.toNat M
      rw [if_neg (fun x => c x.1)]
      exact congrFun (congrFun (congrFun h b) a) i

end SPARAMS

namespace SPARAMS
variable {D : Type}

section reader
variable [LinearOrder D] [Mul D]

/-- The scaled frequency that `data_line` computes. -/
theorem data_line_false (S : Scanf D) (C : DoubleConsts D) (txt : List Char) (st : ReadState D)
    (f : D)
    (hf : f = ((S.numbers txt).take (if st.M.n_ports = 1 then 3 else 9)).getD 0
      (st.M.freq_Hz st.pt) * st.hdr.file_scale)
    (hlt : f < st.M.max_Hz) :
    data_line S C txt st =
      (false, { st with
        file_points := (st.pt : Int)
        M := { st.M with
          freq_Hz := fun i => if i = st.pt then f else st.M.freq_Hz i
          n_points := (st.pt : Int) } }) := by
  subst hf
  unfold data_line
  simp only
  rw [if_pos hlt]

theorem data_line_true (S : Scanf D) (C : DoubleConsts D) (txt : List Char) (st : ReadState D)
    (f : D)
    (hf : f = ((S.numbers txt).take (if st.M.n_ports = 1 then 3 else 9)).getD 0
      (st.M.freq_Hz st.pt) * st.hdr.file_scale)
    (hge : ¬ f < st.M.max_Hz) :
    ∃ M2 : SPARAMS D,
      data_line S C txt st =
        (true, { st with
          pt := st.pt + 1
          M := store_point st.hdr.file_format st.pt
            (R_I C.zero ((S.numbers txt).take (if st.M.n_ports = 1 then 3 else 9))) M2 }) ∧
      M2.n_ports = st.M.n_ports ∧ M2.n_points = st.M.n_points ∧ M2.Zo = st.M.Zo ∧
      M2.freq_Hz = (fun i => if i = st.pt then f else st.M.freq_Hz i) ∧
      M2.min_Hz = (if f < st.M.min_Hz then f else st.M.min_Hz) ∧
      M2.max_Hz = (if f > st.M.max_Hz then f else st.M.max_Hz) ∧
      M2.valid = st.M.valid ∧ M2.MA = st.M.MA ∧ M2.DB = st.M.DB ∧ M2.RI = st.M.RI := by
  subst hf
  unfold data_line
  simp only
  rw [if_neg hge]
  refine ⟨_, rfl, ?_, ?_, ?_, ?_, ?_, ?_, ?_, ?_, ?_, ?_⟩
  all_goals (split_ifs <;> rfl)

theorem getD_take_zero {α : Type} (l : List α) (k : Nat) (hk : 0 < k) (d : α) :
    (l.take k).getD 0 d = l.getD 0 d := by
  cases l with
  | nil => simp
  | cons x xs =>
    obtain ⟨k, rfl⟩ : ∃ j, k = j + 1 := ⟨k - 1, by omega⟩
    simp

end reader

end SPARAMS

namespace SPARAMS
variable {D : Type}

theorem getD_snoc {α : Type} (l : List α) (x d : α) (i : Nat) :
    (l ++ [x]).getD i d = if i = l.length then x else l.getD i d := by
  induction l generalizing i with
  | nil =>
    cases i with
    | zero => simp
    | succ i => simp
  | cons y ys ih =>
    cases i with
    | zero => simp
    | succ i =>
      simp only [List.cons_append, List.getD_cons_succ, List.length_cons, ih]
      by_cases c : i = ys.length
      · rw [if_pos c, if_pos (by omega)]
      · rw [if_neg c, if_neg (by omega)]

theorem head_snoc {α : Type} (l : List α) (x d : α) :
    (l ++ [x]).head?.getD d = l.head?.getD x := by
  cases l <;> simp

theorem getLast_snoc {α : Type} (l : List α) (x d : α) :
    (l ++ [x]).getLast?.getD d = x := by
  simp

section reader
variable [LinearOrder D] [Mul D]

/-- One more data line whose frequency is not below the running maximum is
stored and leaves the loop invariant in place. -/
theorem loaded_step (S : Scanf D) (C : DoubleConsts D) (h : SNPHeader D) (ports N : Int)
    (txts : List (List Char)) (t : List Char) (st : ReadState D)
    (hl : loaded S C h ports N txts st)
    (hmax : st.M.max_Hz ≤ line_freq S C h t)
    (hmin : (txts ≠ [] ∧ st.M.min_Hz ≤ line_freq S C h t) ∨
      (txts = [] ∧ line_freq S C h t ≤ C.DBL_MAX)) :
    ∃ st1, data_line S C t st = (true, st1) ∧ loaded S C h ports N (txts ++ [t]) st1 := by
  obtain ⟨e_hdr, e_fp, e_pt, e_np, e_npt, e_freq, e_min, e_max, e_cells⟩ := hl
  have hz : st.M.freq_Hz st.pt = C.zero := by
    rw [e_freq, e_pt]
    exact List.getD_eq_default _ _ (by simp)
  have hk : 0 < (if st.M.n_ports = 1 then 3 else 9) := by split <;> decide
  have hf : line_freq S C h t =
      ((S.numbers t).take (if st.M.n_ports = 1 then 3 else 9)).getD 0 (st.M.freq_Hz st.pt) *
        st.hdr.file_scale := by
    rw [hz, getD_take_zero _ _ hk, e_hdr]
    rfl
  obtain ⟨M2, hd, m1, m2, -, m4, m5, m6, m7, m8, m9, m10⟩ :=
    data_line_true S C t st _ hf (not_lt.mpr hmax)
  have hpair : R_I C.zero ((S.numbers t).take (if st.M.n_ports = 1 then 3 else 9)) =
      line_pair S C ports t := by
    funext b a
    unfold line_pair
    rw [e_np]
  rw [hpair] at hd
  obtain ⟨s1, s2, s3, s4, -, s6, s7, s8, s9, s10⟩ :=
    store_point_spec st.hdr.file_format st.pt (line_pair S C ports t) M2
  have hn2 : M2.n_ports.toNat = ports.toNat := by rw [m1, e_np]
  rw [hn2] at s7 s8 s9 s10
  refine ⟨_, hd, e_hdr, e_fp, ?_, ?_, ?_, ?_, ?_, ?_, ?_⟩
  · show st.pt + 1 = (txts ++ [t]).length
    rw [e_pt, List.length_append]
    rfl
  · show (store_point _ _ _ M2).n_ports = ports
    rw [s1, m1, e_np]
  · show (store_point _ _ _ M2).n_points = N
    rw [s2, m2, e_npt]
  · intro i
    show (store_point _ _ _ M2).freq_Hz i = _
    rw [s6, m4, List.map_append, List.map_cons, List.map_nil, getD_snoc, List.length_map,
      e_pt]
    beta_reduce
    by_cases c : i = txts.length
    · rw [if_pos c, if_pos c]
    · rw [if_neg c, if_neg c, e_freq]
  · show (store_point _ _ _ M2).min_Hz = _
    rw [s3, m5, List.map_append, List.map_cons, List.map_nil, head_snoc]
    rcases hmin with ⟨hne, hmin⟩ | ⟨hnil, hmin⟩
    · rw [if_neg (not_lt.mpr hmin), e_min]
      cases txts with
      | nil => exact absurd rfl hne
      | cons x xs => simp
    · subst hnil
      simp only [List.map_nil, List.head?_nil, Option.getD_none] at e_min ⊢
      rw [e_min]
      by_cases c : line_freq S C h t < C.DBL_MAX
      · rw [if_pos c]
      · rw [if_neg c]
        exact le_antisymm (not_lt.mp c) hmin
  · show (store_point _ _ _ M2).max_Hz = _
    rw [s4, m6, List.map_append, List.map_cons, List.map_nil, getLast_snoc]
    by_cases c : line_freq S C h t > st.M.max_Hz
    · rw [if_pos c]
    · rw [if_neg c]
      exact le_antisymm hmax (not_lt.mp c)
  · intro i hi b a hb ha
    rw [List.length_append, List.length_singleton] at hi
    have hcond : (b < ports.toNat ∧ a < ports.toNat ∧ i = st.pt) ↔ i = txts.length := by
      rw [e_pt]
      exact ⟨fun x => x.2.2, fun x => ⟨hb, ha, x⟩⟩
    have hg : (txts ++ [t]).getD i [] = if i = txts.length then t else txts.getD i [] :=
      getD_snoc txts t [] i
    show (store_point _ _ _ M2).valid b a i = h.file_format ∧
      (h.file_format = SNPTYPE.MA → (store_point _ _ _ M2).MA b a i = _) ∧
      (h.file_format = SNPTYPE.DB → (store_point _ _ _ M2).DB b a i = _) ∧
      (h.file_format = SNPTYPE.RI → (store_point _ _ _ M2).RI b a i = _)
    rw [s7, s8, s9, s10, hg, m7, m8, m9, m10, e_hdr]
    by_cases c : i = txts.length
    · have c2 : b < ports.toNat ∧ a < ports.toNat ∧ i = st.pt := hcond.mpr c
      rw [if_pos c2, if_pos c]
      refine ⟨rfl, fun x => ?_, fun x => ?_, fun x => ?_⟩
      · rw [if_pos ⟨x, c2⟩]
      · rw [if_pos ⟨x, c2⟩]
      · rw [if_pos ⟨x, c2⟩]
    · have c2 : ¬ (b < ports.toNat ∧ a < ports.toNat ∧ i = st.pt) := fun x => c (hcond.mp x)
      have hi2 : i < txts.length := by omega
      obtain ⟨v0, v1, v2, v3⟩ := e_cells i hi2 b a hb ha
      rw [if_neg c2, if_neg c, if_neg (fun x => c2 x.2), if_neg (fun x => c2 x.2),
        if_neg (fun x => c2 x.2)]
      exact ⟨v0, v1, v2, v3⟩

end reader

end SPARAMS

namespace SPARAMS
variable {D : Type}

theorem getLast_map_mem {α β : Type} (f : α → β) (l : List α) (hne : l ≠ []) (d : β) :
    ∃ y ∈ l, (l.map f).getLast?.getD d = f y := by
  rcases List.eq_nil_or_concat l with h | ⟨l1, y, h⟩
  · exact absurd h hne
  · subst h
    exact ⟨y, by simp, by simp⟩

theorem head_map_mem {α β : Type} (f : α → β) (l : List α) (hne : l ≠ []) (d : β) :
    ∃ y ∈ l, (l.map f).head?.getD d = f y := by
  cases l with
  | nil => exact absurd rfl hne
  | cons x xs => exact ⟨x, by simp, by simp⟩

section reader
variable [LinearOrder D] [Mul D]

/-- The data lines `pre`, non-decreasing in frequency and within the double
range, are all stored. -/
theorem run_data_pre (S : Scanf D) (C : DoubleConsts D) (h : SNPHeader D) (ports N : Int)
    (tail : List (List Char)) :
    ∀ (pre done : List (List Char)) (st : ReadState D),
      loaded S C h ports N done st →
      List.Pairwise (fun x y => line_freq S C h x ≤ line_freq S C h y) (done ++ pre) →
      (∀ t ∈ pre, C.neg_DBL_MAX ≤ line_freq S C h t ∧ line_freq S C h t ≤ C.DBL_MAX) →
      ∃ st1, run_data S C (pre ++ tail) st = run_data S C tail st1 ∧
        loaded S C h ports N (done ++ pre) st1 := by
  intro pre
  induction pre with
  | nil =>
    intro done st hl _ _
    exact ⟨st, rfl, by rw [List.append_nil]; exact hl⟩
  | cons t pre ih =>
    intro done st hl hs hb
    have hpw := List.pairwise_append.mp hs
    have hdt : ∀ a ∈ done, line_freq S C h a ≤ line_freq S C h t :=
      fun a ha => hpw.2.2 a ha t (List.mem_cons_self _ _)
    have hbt := hb t (List.mem_cons_self _ _)
    have hmax : st.M.max_Hz ≤ line_freq S C h t := by
      rw [hl.2.2.2.2.2.2.2.1]
      by_cases c : done = []
      · subst c
        exact hbt.1
      · obtain ⟨y, hy, e⟩ := getLast_map_mem (line_freq S C h) done c C.neg_DBL_MAX
        rw [e]
        exact hdt y hy
    have hmin : (done ≠ [] ∧ st.M.min_Hz ≤ line_freq S C h t) ∨
        (done = [] ∧ line_freq S C h t ≤ C.DBL_MAX) := by
      by_cases c : done = []
      · exact Or.inr ⟨c, hbt.2⟩
      · refine Or.inl ⟨c, ?_⟩
        rw [hl.2.2.2.2.2.2.1]
        obtain ⟨y, hy, e⟩ := head_map_mem (line_freq S C h) done c C.DBL_MAX
        rw [e]
        exact hdt y hy
    obtain ⟨st1, hd, hl1⟩ := loaded_step S C h ports N done t st hl hmax hmin
    have hs1 : List.Pairwise (fun x y => line_freq S C h x ≤ line_freq S C h y)
        ((done ++ [t]) ++ pre) := by
      rw [List.append_assoc]
      exact hs
    obtain ⟨st2, hr, hl2⟩ := ih (done ++ [t]) st1 hl1 hs1
      (fun x hx => hb x (List.mem_cons_of_mem _ hx))
    refine ⟨st2, ?_, ?_⟩
    · rw [List.cons_append]
      show (match data_line S C t st with
        | (false, st) => st
        | (true, st) => run_data S C (pre ++ tail) st) = _
      rw [hd]
      exact hr
    · rw [List.append_assoc] at hl2
      exact hl2

/-- A data line whose frequency is below the running maximum ends the loop
with `n_points` set to the number of points stored. -/
theorem run_data_stop (S : Scanf D) (C : DoubleConsts D) (h : SNPHeader D) (ports N : Int)
    (done more : List (List Char)) (tx : List Char) (st : ReadState D)
    (hl : loaded S C h ports N done st)
    (hx : line_freq S C h tx < st.M.max_Hz) :
    run_data S C (tx :: more) st =
      { st with
        file_points := (st.pt : Int)
        M := { st.M with
          freq_Hz := fun i => if i = st.pt then line_freq S C h tx else st.M.freq_Hz i
          n_points := (st.pt : Int) } } := by
  obtain ⟨e_hdr, -, e_pt, -, -, e_freq, -⟩ := hl
  have hz : st.M.freq_Hz st.pt = C.zero := by
    rw [e_freq, e_pt]
    exact List.getD_eq_default _ _ (by simp)
  have hk : 0 < (if st.M.n_ports = 1 then 3 else 9) := by split <;> decide
  have hf : line_freq S C h tx =
      ((S.numbers tx).take (if st.M.n_ports = 1 then 3 else 9)).getD 0 (st.M.freq_Hz st.pt) *
        st.hdr.file_scale := by
    rw [hz, getD_take_zero _ _ hk, e_hdr]
    rfl
  show (match data_line S C tx st with
    | (false, st) => st
    | (true, st) => run_data S C more st) = _
  rw [data_line_false S C tx st _ hf hx]

end reader

end SPARAMS

namespace SPARAMS
variable {D : Type}

theorem data_txts_skip (l : List Char) (rest : List (List Char)) (h : strip l = none) :
    data_txts (l :: rest) = data_txts rest := by
  unfold data_txts
  rw [List.filterMap_cons_none h]

theorem data_txts_other (l txt : List Char) (rest : List (List Char)) (h : strip l = some txt)
    (hk : txt.head? = some '[' ∨ txt.head? = some '#') :
    data_txts (l :: rest) = data_txts rest := by
  unfold data_txts
  rw [List.filterMap_cons_some h, List.filter_cons_of_neg]
  rcases hk with hk | hk <;> simp [hk]

theorem data_txts_data (l txt : List Char) (rest : List (List Char)) (h : strip l = some txt)
    (h1 : txt.head? ≠ some '[') (h2 : txt.head? ≠ some '#') :
    data_txts (l :: rest) = txt :: data_txts rest := by
  unfold data_txts
  rw [List.filterMap_cons_some h, List.filter_cons_of_pos]
  simp [h1, h2]

theorem pair_false_ne_true {α : Type} (x y : α) : (false, x) ≠ (true, y) :=
  fun h => Bool.noConfusion (Prod.mk.inj h).1

theorem ok_false_ne_true {ε α : Type} (x y : α) :
    (Except.ok (false, x) : Except ε (Bool × α)) ≠ Except.ok (true, y) :=
  fun h => pair_false_ne_true x y (Except.ok.inj h)

section reader
variable [LinearOrder D] [Mul D]

theorem data_line_file_points (S : Scanf D) (C : DoubleConsts D) (txt : List Char)
    (st st1 : ReadState D) (h : data_line S C txt st = (true, st1)) :
    st1.file_points = st.file_points := by
  by_cases c : ((S.numbers txt).take (if st.M.n_ports = 1 then 3 else 9)).getD 0
      (st.M.freq_Hz st.pt) * st.hdr.file_scale < st.M.max_Hz
  · rw [data_line_false S C txt st _ rfl c] at h
    exact absurd h (pair_false_ne_true _ _)
  · obtain ⟨M2, hd, -⟩ := data_line_true S C txt st _ rfl c
    rw [hd] at h
    rw [← (Prod.mk.inj h).2]

end reader

section reader
variable [LinearOrder D] [Mul D] [NatCast D]

/-- Pass 2 over a file without `[` lines, entered with a non-zero count: the
option lines are passed over and the loop is the one over the data lines. -/
theorem read_lines_pass2 (S : Scanf D) (C : DoubleConsts D) :
    ∀ (lines : List (List Char)) (st : ReadState D),
      (∀ l ∈ lines, ∀ txt, strip l = some txt → txt.head? ≠ some '[') →
      st.file_points ≠ 0 →
      read_lines S C 2 lines st = Except.ok (true, run_data S C (data_txts lines) st) := by
  intro lines
  induction lines with
  | nil =>
    intro st _ _
    rfl
  | cons l rest ih =>
    intro st hb hfp
    have hb2 : ∀ l1 ∈ rest, ∀ txt, strip l1 = some txt → txt.head? ≠ some '[' :=
      fun l1 h1 => hb l1 (List.mem_cons_of_mem _ h1)
    rw [read_lines]
    cases hs : strip l with
    | none =>
      simp only
      rw [ih st hb2 hfp, data_txts_skip l rest hs]
    | some txt =>
      simp only
      have h1 : txt.head? ≠ some '[' := hb l (List.mem_cons_self _ _) txt hs
      rw [if_neg h1]
      by_cases h2 : txt.head? = some '#'
      · rw [if_pos h2, if_neg hfp, ih st hb2 hfp, data_txts_other l txt rest hs (Or.inr h2)]
      · rw [if_neg h2, if_neg (by decide), data_txts_data l txt rest hs h1 h2]
        show _ = Except.ok (true, match data_line S C txt st with
          | (false, st) => st
          | (true, st) => run_data S C (data_txts rest) st)
        cases hd : data_line S C txt st with
        | mk ok st1 =>
          cases ok with
          | false => rfl
          | true =>
            simp only
            have := data_line_file_points S C txt st st1 hd
            exact ih st1 hb2 (by rw [this]; exact hfp)

/-- Pass 1 that runs to the end of the file: the count grows by the number of
data lines, the matrix and `pt` are untouched, and no line starts with `[`. -/
theorem read_lines_pass1 (S : Scanf D) (C : DoubleConsts D) :
    ∀ (lines : List (List Char)) (st st1 : ReadState D),
      read_lines S C 1 lines st = Except.ok (true, st1) →
      st1.file_points = st.file_points + ((data_txts lines).length : Int) ∧
      st1.M = st.M ∧ st1.pt = st.pt ∧
      (∀ l ∈ lines, ∀ txt, strip l = some txt → txt.head? ≠ some '[') := by
  intro lines
  induction lines with
  | nil =>
    intro st st1 h
    have e : st = st1 := congrArg Prod.snd (Except.ok.inj h)
    subst e
    exact ⟨by simp [data_txts], rfl, rfl, fun l hl => absurd hl (List.not_mem_nil _)⟩
  | cons l rest ih =>
    intro st st1 h
    rw [read_lines] at h
    cases hs : strip l with
    | none =>
      rw [hs] at h
      simp only at h
      obtain ⟨a, b, c, d⟩ := ih st st1 h
      refine ⟨by rw [data_txts_skip l rest hs]; exact a, b, c, ?_⟩
      intro l1 hl1 txt ht
      rcases List.mem_cons.mp hl1 with e | e
      · rw [e, hs] at ht
        exact absurd ht (by simp)
      · exact d l1 e txt ht
    | some txt =>
      rw [hs] at h
      simp only at h
      by_cases h1 : txt.head? = some '['
      · rw [if_pos h1] at h
        exact absurd h (ok_false_ne_true _ _)
      · rw [if_neg h1] at h
        have hbr : ∀ l1 ∈ l :: rest, (∀ l2 ∈ rest, ∀ txt, strip l2 = some txt →
            txt.head? ≠ some '[') → ∀ txt1, strip l1 = some txt1 → txt1.head? ≠ some '[' := by
          intro l1 hl1 d txt1 ht
          rcases List.mem_cons.mp hl1 with e | e
          · rw [e, hs] at ht
            rw [← Option.some.inj ht]
            exact h1
          · exact d l1 e txt1 ht
        by_cases h2 : txt.head? = some '#'
        · rw [if_pos h2] at h
          by_cases h3 : st.file_points = 0
          · rw [if_pos h3] at h
            cases ho : option_loop S (txt.length + 1) ((txt.map Char.toUpper).drop 1) st.hdr with
            | none =>
              rw [ho] at h
              exact absurd h (by simp)
            | some hdr =>
              rw [ho] at h
              simp only at h
              by_cases h4 : hdr.file_param ≠ 'S'
              · rw [if_pos h4] at h
                exact absurd h (ok_false_ne_true _ _)
              · rw [if_neg h4] at h
                obtain ⟨a, b, c, d⟩ := ih _ st1 h
                exact ⟨by rw [data_txts_other l txt rest hs (Or.inr h2)]; exact a, b, c,
                  fun l1 hl1 => hbr l1 hl1 d⟩
          · rw [if_neg h3] at h
            obtain ⟨a, b, c, d⟩ := ih _ st1 h
            exact ⟨by rw [data_txts_other l txt rest hs (Or.inr h2)]; exact a, b, c,
              fun l1 hl1 => hbr l1 hl1 d⟩
        · rw [if_neg h2, if_true] at h
          obtain ⟨a, b, c, d⟩ := ih _ st1 h
          refine ⟨?_, b, c, fun l1 hl1 => hbr l1 hl1 d⟩
          rw [data_txts_data l txt rest hs h1 h2, a, List.length_cons]
          show st.file_points + 1 + _ = _
          push_cast
          ring

end reader

end SPARAMS

namespace SPARAMS
variable {D : Type}

/-- Allocation on an empty matrix with positive dimensions. -/
theorem alloc_fresh (C : DoubleConsts D) (ports points : Int) (M : SPARAMS D)
    (h0 : M.n_ports = 0) (h1 : M.n_points = 0) (hp : 0 < ports) (hn : 0 < points) :
    alloc C ports points M =
      (true, { M with
        n_ports := ports
        n_points := points
        freq_Hz := fun _ => C.zero
        valid := fun _ _ _ => 0
        MA := fun _ _ _ => ⟨C.zero, C.zero⟩
        DB := fun _ _ _ => ⟨C.zero, C.zero⟩
        RI := fun _ _ _ => ⟨C.zero, C.zero⟩
        CZ := fun _ _ _ => ⟨C.zero, C.zero⟩ }) := by
  have c0 : ¬ (points = 0 ∨ ports = 0) := by omega
  have c1 : ¬ (M.n_ports ≠ 0 ∨ M.n_points ≠ 0) := by
    rw [h0, h1]; simp
  have c2 : ¬ points < 0 := by omega
  have c3 : ¬ ports < 0 := by omega
  unfold alloc
  rw [if_neg c0]
  simp only [if_neg c1, if_neg c2, if_neg c3]

theorem getLast_map {α β : Type} (f : α → β) (l : List α) (hne : l ≠ []) (d : β) :
    (l.map f).getLast?.getD d = f (l.getLast hne) := by
  rcases List.eq_nil_or_concat l with h | ⟨l1, y, h⟩
  · exact absurd h hne
  · subst h
    simp

theorem head_map {α β : Type} (f : α → β) (l : List α) (hne : l ≠ []) (d : β) :
    (l.map f).head?.getD d = f (l.head hne) := by
  cases l with
  | nil => exact absurd rfl hne
  | cons x xs => simp

theorem getD_map_lt {α β : Type} (f : α → β) (l : List α) (i : Nat) (hi : i < l.length)
    (d : β) (e : α) : (l.map f).getD i d = f (l.getD i e) := by
  induction l generalizing i with
  | nil => exact absurd hi (Nat.not_lt_zero _)
  | cons x xs ih =>
    cases i with
    | zero => simp
    | succ i =>
      simp only [List.map_cons, List.getD_cons_succ]
      exact ih i (by simpa using hi)

theorem loaded_start [Mul D] (S : Scanf D) (C : DoubleConsts D) (h : SNPHeader D) (ports N : Int)
    (st : ReadState D) (hh : st.hdr = h) (hfp : st.file_points = N) (hpt : st.pt = 0)
    (hnp : st.M.n_ports = ports) (hn : st.M.n_points = N)
    (hf : ∀ i, st.M.freq_Hz i = C.zero)
    (hmin : st.M.min_Hz = C.DBL_MAX) (hmax : st.M.max_Hz = C.neg_DBL_MAX) :
    loaded S C h ports N [] st := by
  refine ⟨hh, hfp, hpt, hnp, hn, fun i => ?_, hmin, hmax, ?_⟩
  · rw [hf]; simp
  · intro i hi
    exact absurd hi (Nat.not_lt_zero _)

section reader
variable [LinearOrder D] [Mul D] [NatCast D]

theorem read_SNP_file_eq (S : Scanf D) (C : DoubleConsts D) (lines : List (List Char))
    (file_ports : Int) (M0 M3 : SPARAMS D) (st1 st2 : ReadState D)
    (h1 : read_lines S C 1 lines (read_start C M0) = Except.ok (true, st1))
    (h2 : alloc C file_ports st1.file_points st1.M = (true, M3))
    (h3 : read_lines S C 2 lines { st1 with M := M3 } = Except.ok (true, st2)) :
    read_SNP_file S C (some lines) file_ports M0 =
      Except.ok (true, { st2.M with Zo := ⟨st2.hdr.file_R, C.zero⟩ }) := by
  unfold read_start at h1
  unfold read_SNP_file
  simp only [h1, h2, h3]

end reader

end SPARAMS

namespace SPARAMS
variable {D : Type}

section reader
variable [LinearOrder D] [Mul D] [NatCast D]

end reader

end SPARAMS

namespace SPARAMS

theorem decreasingFile_pass1 :
    read_lines digitScanf ratConsts 1 decreasingFile (read_start ratConsts (construct ratConsts)) =
      Except.ok (true, { read_start ratConsts (construct ratConsts) with file_points := 3 }) := by
  rfl

theorem decreasingFile_data :
    data_txts decreasingFile =
      [['1', ' ', '2', ' ', '3'], ['2', ' ', '4', ' ', '5']] ++
        ['1', ' ', '6', ' ', '7'] :: [] := by
  rfl

theorem decreasingFile_freq :
    line_freq digitScanf ratConsts (read_start ratConsts (construct ratConsts)).hdr
      ['1', ' ', '2', ' ', '3'] = 1000000000 ∧
    line_freq digitScanf ratConsts (read_start ratConsts (construct ratConsts)).hdr
      ['2', ' ', '4', ' ', '5'] = 2000000000 ∧
    line_freq digitScanf ratConsts (read_start ratConsts (construct ratConsts)).hdr
      ['1', ' ', '6', ' ', '7'] = 1000000000 := by
  refine ⟨?_, ?_, ?_⟩ <;>
    (simp [line_freq, digitScanf, read_start, ratConsts, Char.isDigit]; try norm_num)

end SPARAMS

namespace SPARAMS

theorem ratConsts_bounds (x : ℚ) (h0 : 0 ≤ x) (h1 : x ≤ 2000000000) :
    ratConsts.neg_DBL_MAX ≤ x ∧ x ≤ ratConsts.DBL_MAX := by
  have e : (2000000000 : ℚ) ≤ 2 ^ 1024 - 2 ^ 971 := by norm_num
  constructor
  · show -((2 : ℚ) ^ 1024 - 2 ^ 971) ≤ x
    linarith
  · show x ≤ (2 : ℚ) ^ 1024 - 2 ^ 971
    linarith

end SPARAMS

/-! ## The option line of the Touchstone reader -/

namespace SPARAMS

/-- **C38**.  The option-line scan does not always end.  When the text at the
scan position starts with `R` and a blank and `sscanf` converts no number there
(it fails, or it reports a length of 0), the loop leaves the scan position where
it is: no number of passes ends it. -/
theorem option_loop_stuck {D : Type} [LinearOrder D] [Mul D] [NatCast D] (S : Scanf D)
    (rest : List Char) (h : SNPHeader D)
    (hR : S.R_number ('R' :: ' ' :: rest) = none ∨
      ∃ v, S.R_number ('R' :: ' ' :: rest) = some (v, 0)) (fuel : Nat) :
    option_loop S fuel ('R' :: ' ' :: rest) h = none := by
  cases fuel with
  | zero => rfl
  | succ n =>
    rcases hR with hR | ⟨v, hR⟩
    · simp [option_loop, strnicmp_eq, hR]
    · simp [option_loop, strnicmp_eq, hR]

/-- Witness for C38: the option text `R X` under the digit conversions. -/
theorem option_loop_stuck_witness :
    (digitScanf.R_number ('R' :: ' ' :: ['X']) = none ∨
      ∃ v, digitScanf.R_number ('R' :: ' ' :: ['X']) = some (v, 0)) ∧
    option_loop digitScanf 1000 ('R' :: ' ' :: ['X']) ⟨1000000000, 'S', SNPTYPE.MA, 50⟩ = none :=
  ⟨Or.inl rfl, option_loop_stuck digitScanf ['X'] _ (Or.inl rfl) 1000⟩

/-- **C23**.  An unknown word on the option line is scanned character by
character, so the letters of `HELLO` are read as keywords: the line `# S HELLO`
leaves the parameter type `H` where `# S` leaves `S`, and a file with that
option line is refused. -/
theorem unknown_word_read_as_keywords (h : SNPHeader ℚ) (M : SPARAMS ℚ) :
    option_loop digitScanf 10 [' ', 'S', ' ', 'H', 'E', 'L', 'L', 'O'] h =
      some { h with file_param := 'H' } ∧
    option_loop digitScanf 10 [' ', 'S'] h = some { h with file_param := 'S' } ∧
    (read_SNP_file digitScanf ratConsts (some wordyFile) 1 M).map Prod.fst = Except.ok false :=
  ⟨rfl, rfl, rfl⟩

end SPARAMS

/-! ## Allocation, empty blocks and the spline sources -/

namespace SPARAMS
variable {D : Type}

/-- **C39**.  A block with the right magic and version that declares zero ports
or zero points: `alloc` refuses it, and `deserialize` still returns 52, the
size of the header it has read, with an empty matrix. -/
theorem deserialize_empty_dims (R : DoubleRep D) (block : Nat → U8) (S : SPARAMS D)
    (hid : rd_le block 0 4 = SPARAM.BIN_ID) (hver : rd_le block 4 4 = SPARAM.BIN_VERSION)
    (h0 : rd_s32 block 12 = 0 ∨ rd_s32 block 16 = 0) :
    (deserialize R block S).1 = 52 ∧
    (deserialize R block S).2.n_ports = 0 ∧
    (deserialize R block S).2.n_points = 0 := by
  have c : rd_s32 block 16 = 0 ∨ rd_s32 block 12 = 0 := h0.symm
  have ha : alloc R.consts (rd_s32 block 12) (rd_s32 block 16)
      (deserialize_scalars R block (init R.consts (clear R.consts S))) =
      (false, deserialize_scalars R block (init R.consts (clear R.consts S))) := by
    unfold alloc
    rw [if_pos c]
  rw [deserialize_eq R block S hid hver, ha]
  exact ⟨rfl, rfl, rfl⟩

/-- Witness for C39: the block that declares 0 ports and 3 points. -/
theorem deserialize_empty_dims_witness :
    (rd_le emptyBlock 0 4 = SPARAM.BIN_ID ∧ rd_le emptyBlock 4 4 = SPARAM.BIN_VERSION ∧
      (rd_s32 emptyBlock 12 = 0 ∨ rd_s32 emptyBlock 16 = 0)) ∧
    (deserialize rawDouble emptyBlock sampleOnePort).1 = 52 ∧
    (deserialize rawDouble emptyBlock sampleOnePort).2.n_ports = 0 ∧
    (deserialize rawDouble emptyBlock sampleOnePort).2.n_points = 0 :=
  ⟨⟨by decide, by decide, Or.inl (by decide)⟩,
    deserialize_empty_dims rawDouble emptyBlock sampleOnePort (by decide) (by decide)
      (Or.inl (by decide))⟩

end SPARAMS

namespace SPARAMS
variable {D : Type}

/-- **C30**.  Allocation contract: `alloc(ports, points)` with `ports = 0` or
`points = 0` returns FALSE and leaves the matrix as it is; with `ports >= 1` and
`points >= 1` it returns TRUE, stores both dimensions, and afterwards every
frequency, every validity mask and every value of the four encodings is zero,
whatever the matrix held before. -/
theorem alloc_contract (C : DoubleConsts D) (ports points : Int) (M : SPARAMS D) :
    (ports = 0 ∨ points = 0 → alloc C ports points M = (false, M)) ∧
    (1 ≤ ports → 1 ≤ points →
      (alloc C ports points M).1 = true ∧
      (alloc C ports points M).2.n_ports = ports ∧
      (alloc C ports points M).2.n_points = points ∧
      (∀ i, (alloc C ports points M).2.freq_Hz i = C.zero) ∧
      (∀ b a pt, (alloc C ports points M).2.valid b a pt = 0 ∧
        (alloc C ports points M).2.MA b a pt = ⟨C.zero, C.zero⟩ ∧
        (alloc C ports points M).2.DB b a pt = ⟨C.zero, C.zero⟩ ∧
        (alloc C ports points M).2.RI b a pt = ⟨C.zero, C.zero⟩ ∧
        (alloc C ports points M).2.CZ b a pt = ⟨C.zero, C.zero⟩)) := by
  constructor
  · intro h
    unfold alloc
    rw [if_pos h.symm]
  · intro hp hn
    have c1 : ¬ (points = 0 ∨ ports = 0) := by omega
    have c2 : ¬ points < 0 := by omega
    have c3 : ¬ ports < 0 := by omega
    unfold alloc
    simp only [if_neg c1, if_neg c2, if_neg c3]
    exact ⟨trivial, trivial, trivial, fun _ => trivial, fun _ _ _ =>
      ⟨trivial, trivial, trivial, trivial, trivial⟩⟩

/-- Witness for C30: `alloc(0, 5)` and `alloc(2, 3)` on the sample matrix. -/
theorem alloc_contract_witness :
    (((0 : Int) = 0 ∨ (5 : Int) = 0) ∧
      alloc rawDouble.consts 0 5 sampleOnePort = (false, sampleOnePort)) ∧
    ((1 : Int) ≤ 2 ∧ (1 : Int) ≤ 3 ∧
      (alloc rawDouble.consts 2 3 sampleOnePort).1 = true ∧
      (alloc rawDouble.consts 2 3 sampleOnePort).2.n_ports = 2 ∧
      (alloc rawDouble.consts 2 3 sampleOnePort).2.n_points = 3 ∧
      (alloc rawDouble.consts 2 3 sampleOnePort).2.valid 0 0 0 = 0) :=
  ⟨⟨Or.inl rfl, (alloc_contract rawDouble.consts 0 5 sampleOnePort).1 (Or.inl rfl)⟩,
    by decide, by decide,
    ((alloc_contract rawDouble.consts 2 3 sampleOnePort).2 (by decide) (by decide)).1,
    ((alloc_contract rawDouble.consts 2 3 sampleOnePort).2 (by decide) (by decide)).2.1,
    ((alloc_contract rawDouble.consts 2 3 sampleOnePort).2 (by decide) (by decide)).2.2.1,
    (((alloc_contract rawDouble.consts 2 3 sampleOnePort).2 (by decide) (by decide)).2.2.2.2
      0 0 0).1⟩

/-- **C37**.  The extents that `alloc` reserves.  The first level of `valid` is
reserved with `n_points` entries, that of the four value tables with `n_ports`
entries: after `alloc(2, 1)` the access `valid[1][0][0]` is outside the first
level of `valid`, while `MA[1][0][0]` is inside its table.  With
`ports <= points` every access with `b, a < ports` and `pt < points` is inside
all the tables. -/
theorem alloc_valid_first_level :
    (alloc_extent_valid 2 1).first = 1 ∧
    ¬ (alloc_extent_valid 2 1).covers 1 0 0 ∧
    (alloc_extent_value 2 1).covers 1 0 0 ∧
    (∀ ports points b a pt : Int, ports ≤ points → 0 ≤ b → b < ports → 0 ≤ a → a < ports →
      0 ≤ pt → pt < points →
      (alloc_extent_valid ports points).covers b a pt ∧
      (alloc_extent_value ports points).covers b a pt) := by
  refine ⟨rfl, ?_, ?_, ?_⟩
  · intro h
    exact absurd h.2.1 (by decide)
  · exact ⟨by decide, by decide, by decide, by decide, by decide, by decide⟩
  · intro ports points b a pt h hb0 hb ha0 ha hp0 hp
    exact ⟨⟨hb0, lt_of_lt_of_le hb h, ha0, ha, hp0, hp⟩, ⟨hb0, hb, ha0, ha, hp0, hp⟩⟩

/-- Witness for C37: the access `[0][0][2]` after `alloc(1, 3)`. -/
theorem alloc_valid_first_level_witness :
    (alloc_extent_valid 1 3).covers 0 0 2 ∧ (alloc_extent_value 1 3).covers 0 0 2 :=
  alloc_valid_first_level.2.2.2 1 3 0 0 2 (by decide) (by decide) (by decide) (by decide)
    (by decide) (by decide) (by decide)

/-- **C40**.  The source values of `spline_dB` come from cell `(1, 0)` whatever
port pair is requested, those of `spline_deg` from the cell requested: on the
two-port matrix `fourCells`, `spline_dB(0, 0, ...)` resamples the magnitude 2 of
cell `(1, 0)` (cell `(0, 0)` holds 1) and `spline_deg(0, 0, ...)` the angle 10 of
cell `(0, 0)`; on a one-port matrix the read of cell `(1, 0)` in `spline_dB`
finds no value. -/
theorem spline_dB_ignores_port_pair (K : MathLib ℚ) :
    (∀ (M : SPARAMS ℚ) (b a : Nat), spline_dB_src K M b a = spline_dB_src K M 1 0) ∧
    (fourCells.MA 0 0 0).mag = 1 ∧ (fourCells.MA 1 0 0).mag = 2 ∧
    (spline_dB_src K fourCells 0 0).map Prod.fst = some [2] ∧
    (spline_deg_src K fourCells 0 0).map Prod.fst = some [10] ∧
    spline_dB_src K oneCell 0 0 = none ∧
    (spline_deg_src K oneCell 0 0).map Prod.fst = some [10] := by
  refine ⟨fun _ _ _ => rfl, ?_, ?_, ?_, ?_, ?_, ?_⟩
  · show (1 : ℚ) + ((0 : Nat) : ℚ) + 2 * ((0 : Nat) : ℚ) = 1
    norm_num
  · show (1 : ℚ) + ((1 : Nat) : ℚ) + 2 * ((0 : Nat) : ℚ) = 2
    norm_num
  · show some [(1 : ℚ) + ((1 : Nat) : ℚ) + 2 * ((0 : Nat) : ℚ)] = some [2]
    norm_num
  · show some [(10 : ℚ) * (1 + ((0 : Nat) : ℚ) + 2 * ((0 : Nat) : ℚ))] = some [10]
    norm_num
  · rfl
  · rfl

end SPARAMS

/-! ## Angle normalisation of the polar queries -/

namespace SPARAMS
variable {D : Type}

section loops
variable [LinearOrderedField D]

/-- What the first loop leaves when it ends: a value that is not below `-180`,
and that is below `180` unless the loop did not run. -/
theorem wrap_up_result : ∀ (fuel : Nat) (d u : D), wrap_up fuel d = some u →
    -180 ≤ u ∧ (u = d ∨ u < 180) := by
  intro fuel
  induction fuel with
  | zero =>
    intro d u h
    exact absurd h (by unfold wrap_up; exact Option.noConfusion)
  | succ f ih =>
    intro d u h
    unfold wrap_up at h
    by_cases c : d < -180
    · rw [if_pos c] at h
      obtain ⟨a, b⟩ := ih (d + 360) u h
      refine ⟨a, Or.inr ?_⟩
      rcases b with b | b
      · rw [b]; linarith
      · exact b
    · rw [if_neg c] at h
      have e : d = u := Option.some.inj h
      exact ⟨by rw [← e]; exact not_lt.mp c, Or.inl e.symm⟩

/-- What the second loop leaves when it ends: a value that is not above `180`,
and that is above `-180` unless the loop did not run. -/
theorem wrap_down_result : ∀ (fuel : Nat) (u r : D), wrap_down fuel u = some r →
    r ≤ 180 ∧ (r = u ∨ -180 < r) := by
  intro fuel
  induction fuel with
  | zero =>
    intro u r h
    exact absurd h (by unfold wrap_down; exact Option.noConfusion)
  | succ f ih =>
    intro u r h
    unfold wrap_down at h
    by_cases c : u > 180
    · rw [if_pos c] at h
      obtain ⟨a, b⟩ := ih (u - 360) r h
      refine ⟨a, Or.inr ?_⟩
      rcases b with b | b
      · rw [b]; linarith
      · exact b
    · rw [if_neg c] at h
      have e : u = r := Option.some.inj h
      exact ⟨by rw [← e]; exact not_lt.mp c, Or.inl e.symm⟩

/-- Whenever both loops end, the angle they leave lies in `[-180, 180]`. -/
theorem wrap_deg_result (fuel : Nat) (d r : D) (h : wrap_deg fuel d = some r) :
    -180 ≤ r ∧ r ≤ 180 := by
  unfold wrap_deg at h
  cases hu : wrap_up fuel d with
  | none =>
    rw [hu] at h
    exact absurd h (by simp)
  | some u =>
    rw [hu, Option.some_bind] at h
    obtain ⟨a, -⟩ := wrap_up_result fuel d u hu
    obtain ⟨b, c⟩ := wrap_down_result fuel u r h
    refine ⟨?_, b⟩
    rcases c with c | c
    · rw [c]; exact a
    · exact le_of_lt c

/-- **C36** (amended).  Angle normalisation range.  Whenever the two
normalisation loops end, the angle they leave lies in the closed range
`[-180, 180]`; they end, within `1e14` passes each, on every angle `t` of
magnitude at most `1e16`, with a result that differs from `t` by whole turns; an
angle of exactly `-180` is left as it is, and `-180` results only from angles
not above `-180`.  For adjacent samples whose stored angles have magnitude at
most `1e15` and an in-range query between them with a fraction `alpha` in
`[0, 1]`, the difference `d` used by the polar interpolation and the angle `r`
returned are the results of these loops, so both lie in `[-180, 180]`. -/
theorem angle_normalisation_range (K : MathLib D) (M M1 M2 : SPARAMS D)
    (Hz : D) (b a : Nat) (flags : U8) (n i : Nat) (alpha : D) (v0 v1 : SPARAM.MA D)
    (hn : M.n_points = (n : Int)) (hi : i + 1 < n)
    (hlo : M.min_Hz ≤ Hz) (hhi : Hz ≤ M.max_Hz)
    (e : nearest_freq_Hz M Hz = some ((i : Int), alpha))
    (g0 : get_MA K M i b a = some (v0, M1))
    (g1 : get_MA K M1 (i + 1) b a = some (v1, M2)) :
    (∀ (fuel : Nat) (t r : D), wrap_deg fuel t = some r → -180 ≤ r ∧ r ≤ 180) ∧
    (∀ t : D, |t| ≤ 10 ^ 16 → ∃ r : D, -180 ≤ r ∧ r ≤ 180 ∧ (r = -180 → t ≤ -180) ∧
      (∃ z : Int, r = t + 360 * (z : D)) ∧
      ∀ fuel, 10 ^ 14 + 1 ≤ fuel → wrap_deg fuel t = some r) ∧
    (∀ fuel, 1 ≤ fuel → wrap_deg fuel (-180 : D) = some (-180)) ∧
    (|v0.deg| ≤ 10 ^ 15 → |v1.deg| ≤ 10 ^ 15 → 0 ≤ alpha → alpha ≤ 1 →
      ∃ (d r : D), -180 ≤ d ∧ d ≤ 180 ∧ -180 ≤ r ∧ r ≤ 180 ∧
        ∀ fuel, 10 ^ 14 + 1 ≤ fuel →
          wrap_deg fuel (v1.deg - v0.deg) = some d ∧
          wrap_deg fuel (v0.deg + (d * alpha)) = some r ∧
          get_MA_Hz K fuel M Hz b a flags =
            Except.ok (⟨v0.mag + ((v1.mag - v0.mag) * alpha), r⟩, true, M2)) := by
  refine ⟨wrap_deg_result, fun t ht => wrap_deg_bounded t ht,
    fun fuel hf => wrap_deg_id (-180) (le_refl _) (by norm_num) fuel hf, ?_⟩
  intro hb0 hb1 ha0 ha1
  obtain ⟨d, r, a0, a1, -, b0, b1, -, h⟩ :=
    get_MA_Hz_shape_bounded K M M1 M2 Hz b a flags n i alpha v0 v1 hn hi hlo hhi e g0 g1
      hb0 hb1 ha0 ha1
  exact ⟨d, r, a0, a1, b0, b1, h⟩

end loops

/-- Witness for C36: samples at 1 Hz and 3 Hz with the angles +179 and -179
degrees, queried at 2 Hz. -/
theorem angle_normalisation_range_witness :
    ((polarPair 179 (-179)).n_points = ((2 : Nat) : Int) ∧ 0 + 1 < 2 ∧
      (polarPair 179 (-179)).min_Hz ≤ 2 ∧ (2 : ℝ) ≤ (polarPair 179 (-179)).max_Hz ∧
      nearest_freq_Hz (polarPair 179 (-179)) 2 = some (((0 : Nat) : Int), 1 / 2) ∧
      get_MA realMath (polarPair 179 (-179)) 0 0 0 =
        some ((polarPair 179 (-179)).MA 0 0 0, polarPair 179 (-179)) ∧
      get_MA realMath (polarPair 179 (-179)) (0 + 1) 0 0 =
        some ((polarPair 179 (-179)).MA 0 0 (0 + 1), polarPair 179 (-179)) ∧
      |((polarPair 179 (-179)).MA 0 0 0).deg| ≤ 10 ^ 15 ∧
      |((polarPair 179 (-179)).MA 0 0 (0 + 1)).deg| ≤ 10 ^ 15 ∧
      (0 : ℝ) ≤ 1 / 2 ∧ (1 / 2 : ℝ) ≤ 1) ∧
    ∃ (d r : ℝ), -180 ≤ d ∧ d ≤ 180 ∧ -180 ≤ r ∧ r ≤ 180 ∧
      ∀ fuel, 10 ^ 14 + 1 ≤ fuel →
        wrap_deg fuel (((polarPair 179 (-179)).MA 0 0 (0 + 1)).deg -
          ((polarPair 179 (-179)).MA 0 0 0).deg) = some d ∧
        wrap_deg fuel (((polarPair 179 (-179)).MA 0 0 0).deg + (d * (1 / 2))) = some r ∧
        get_MA_Hz realMath fuel (polarPair 179 (-179)) 2 0 0 0 =
          Except.ok (⟨((polarPair 179 (-179)).MA 0 0 0).mag +
            ((((polarPair 179 (-179)).MA 0 0 (0 + 1)).mag -
              ((polarPair 179 (-179)).MA 0 0 0).mag) * (1 / 2)), r⟩, true,
            polarPair 179 (-179)) :=
  ⟨⟨rfl, by decide, (polarPair_mid_range _ _).1, (polarPair_mid_range _ _).2,
      polarPair_nearest_mid _ _, polarPair_get_MA _ _ 0, polarPair_get_MA _ _ (0 + 1),
      (polarPair_deg_bound 179 (-179) polarPair_179_bound.1 polarPair_179_bound.2).1,
      (polarPair_deg_bound 179 (-179) polarPair_179_bound.1 polarPair_179_bound.2).2,
      by norm_num, by norm_num⟩,
    (angle_normalisation_range realMath (polarPair 179 (-179)) (polarPair 179 (-179))
      (polarPair 179 (-179)) 2 0 0 0 2 0 (1 / 2) _ _ rfl (by decide)
      (polarPair_mid_range _ _).1 (polarPair_mid_range _ _).2 (polarPair_nearest_mid _ _)
      (polarPair_get_MA _ _ 0) (polarPair_get_MA _ _ (0 + 1))).2.2.2
      (polarPair_deg_bound 179 (-179) polarPair_179_bound.1 polarPair_179_bound.2).1
      (polarPair_deg_bound 179 (-179) polarPair_179_bound.1 polarPair_179_bound.2).2
      (by norm_num) (by norm_num)⟩

/-- Counterexample to C36 as stated: two samples at 1 Hz and 3 Hz, both stored
with the angle -180 degrees, queried at 2 Hz.  The angle returned is -180, which
is outside the half-open range (-180, 180]; and for the stored angles +90 and
-90 the difference used is -180. -/
theorem angle_minus_180_returned :
    (∀ fuel, 1 ≤ fuel →
      get_MA_Hz realMath fuel (polarPair (-180) (-180)) 2 0 0 0 =
        Except.ok (⟨1 + ((1 - 1) * (1 / 2)), -180⟩, true, polarPair (-180) (-180))) ∧
    (∀ fuel, 1 ≤ fuel →
      wrap_deg fuel (((polarPair 90 (-90)).MA 0 0 1).deg - ((polarPair 90 (-90)).MA 0 0 0).deg) =
        some (-180)) ∧
    ¬ ((-180 : ℝ) < -180) := by
  refine ⟨fun fuel hf => ?_, fun fuel hf => ?_, lt_irrefl _⟩
  · have w0 : wrap_deg fuel (((polarPair (-180) (-180)).MA 0 0 (0 + 1)).deg -
        ((polarPair (-180) (-180)).MA 0 0 0).deg) = some 0 := by
      have : ((polarPair (-180) (-180)).MA 0 0 (0 + 1)).deg -
          ((polarPair (-180) (-180)).MA 0 0 0).deg = 0 := by
        show (-180 : ℝ) - (-180) = 0
        norm_num
      rw [this]
      exact wrap_deg_id 0 (by norm_num) (by norm_num) fuel hf
    have w1 : wrap_deg fuel (((polarPair (-180) (-180)).MA 0 0 0).deg + (0 * (1 / 2))) =
        some (-180) := by
      have : ((polarPair (-180) (-180)).MA 0 0 0).deg + (0 * (1 / 2)) = -180 := by
        show (-180 : ℝ) + (0 * (1 / 2)) = -180
        norm_num
      rw [this]
      exact wrap_deg_id (-180) (le_refl _) (by norm_num) fuel hf
    exact get_MA_Hz_between realMath fuel (polarPair (-180) (-180)) (polarPair (-180) (-180))
      (polarPair (-180) (-180)) 2 0 0 0 2 0 (1 / 2) _ _ 0 (-180) rfl (by decide)
      (polarPair_mid_range _ _).1 (polarPair_mid_range _ _).2 (polarPair_nearest_mid _ _)
      (polarPair_get_MA _ _ 0) (polarPair_get_MA _ _ (0 + 1)) w0 w1
  · have : ((polarPair 90 (-90)).MA 0 0 1).deg - ((polarPair 90 (-90)).MA 0 0 0).deg = -180 := by
      show (-90 : ℝ) - 90 = -180
      norm_num
    rw [this]
    exact wrap_deg_id (-180) (le_refl _) (by norm_num) fuel hf

end SPARAMS

/-! ## Header sanitisation -/

namespace SPARAMS

set_option maxRecDepth 100000 in
theorem sanitize_byte_idem : ∀ s : U8, sanitize_byte (sanitize_byte s) = sanitize_byte s := by
  decide

set_option maxRecDepth 100000 in
theorem sanitize_byte_range : ∀ s : U8,
    (0x20 ≤ sanitize_byte s ∧ sanitize_byte s ≤ 0x7E) ∨ sanitize_byte s = 9 ∨
      sanitize_byte s = 10 ∨ sanitize_byte s = 13 := by
  decide

theorem sanitize_length (input : List U8) :
    (sanitize input).length = min input.length (MAX_PATH - 1) := by
  unfold sanitize
  simp only [List.length_map, List.length_take, MAX_PATH]
  split <;> omega

theorem sanitize_short (input : List U8) (h : input.length < MAX_PATH) :
    sanitize input = input.map sanitize_byte := by
  unfold sanitize
  simp only
  rw [if_neg (not_le.mpr h), List.take_length]

set_option maxRecDepth 100000 in
theorem sanitize_byte_eq : ∀ s : U8, sanitize_byte s =
    (if (s < 0x20 ∨ s > 0x7E) ∧ s ≠ 9 ∧ s ≠ 10 ∧ s ≠ 13 then 32 else s) := by
  decide

/-- **C29** (amended).  Header sanitisation: `sanitize` keeps the first
`MAX_PATH - 1 = 259` bytes of its input and replaces every byte below 0x20 or
above 0x7E other than tab, line feed and carriage return by a space, leaving
every other byte unchanged.  So an input of fewer than 260 bytes gives an output
of the same length, every output holds only printable ASCII, tab, LF and CR, and
`sanitize (sanitize s) = sanitize s` for every input. -/
theorem sanitize_spec (input : List U8) :
    (sanitize input).length = min input.length 259 ∧
    (input.length < 260 →
      (sanitize input).length = input.length ∧
      ∀ i, i < input.length →
        (sanitize input).getD i 0 =
          (if (input.getD i 0 < 0x20 ∨ input.getD i 0 > 0x7E) ∧ input.getD i 0 ≠ 9 ∧
              input.getD i 0 ≠ 10 ∧ input.getD i 0 ≠ 13
           then 32 else input.getD i 0)) ∧
    (∀ i, i < (sanitize input).length →
      (sanitize input).getD i 0 = sanitize_byte (input.getD i 0)) ∧
    (∀ c ∈ sanitize input, (0x20 ≤ c ∧ c ≤ 0x7E) ∨ c = 9 ∨ c = 10 ∨ c = 13) ∧
    sanitize (sanitize input) = sanitize input := by
  have hbyte := sanitize_byte_eq
  have hget : ∀ i, i < (sanitize input).length →
      (sanitize input).getD i 0 = sanitize_byte (input.getD i 0) := by
    intro i hi
    have hl := sanitize_length input
    have hi2 : i < input.length := by omega
    unfold sanitize at hi ⊢
    simp only [List.length_map] at hi
    rw [List.getD_eq_getElem _ _ (by simpa using hi), List.getD_eq_getElem _ _ hi2]
    simp
  refine ⟨sanitize_length input, ?_, hget, ?_, ?_⟩
  · intro h
    have hl : (sanitize input).length = input.length := by
      rw [sanitize_length]
      show min input.length 259 = input.length
      omega
    refine ⟨hl, fun i hi => ?_⟩
    rw [hget i (by rw [hl]; exact hi), hbyte]
  · intro c hc
    unfold sanitize at hc
    obtain ⟨s, -, rfl⟩ := List.mem_map.mp hc
    exact sanitize_byte_range s
  · have hl : (sanitize input).length < MAX_PATH := by
      rw [sanitize_length]
      show min input.length 259 < 260
      omega
    rw [sanitize_short _ hl]
    unfold sanitize
    rw [List.map_map]
    apply List.map_congr_left
    intro s _
    exact sanitize_byte_idem s

/-- Witness for C29: the four bytes BEL, `A`, tab, 0x80. -/
theorem sanitize_spec_witness :
    ([7, 65, 9, 128] : List U8).length < 260 ∧
    (sanitize [7, 65, 9, 128]).length = ([7, 65, 9, 128] : List U8).length ∧
    sanitize (sanitize [7, 65, 9, 128]) = sanitize [7, 65, 9, 128] :=
  ⟨by decide, ((sanitize_spec [7, 65, 9, 128]).2.1 (by decide)).1,
    (sanitize_spec [7, 65, 9, 128]).2.2.2.2⟩

/-- Counterexample to C29 as stated: a header of 300 bytes `A` comes back with
259 bytes. -/
theorem sanitize_long_input_cut :
    (List.replicate 300 (65 : U8)).length = 300 ∧
    (sanitize (List.replicate 300 (65 : U8))).length = 259 := by
  refine ⟨List.length_replicate _ _, ?_⟩
  rw [sanitize_length, List.length_replicate]
  rfl

end SPARAMS

/-! ## The resamplers of spline.cpp -/

namespace Spline
variable {D : Type}

theorem rd_lt (xs : List D) (i : Nat) (d : D) (h : i < xs.length) :
    rd xs i = Except.ok (xs.getD i d) := by
  unfold rd
  rw [List.getD_eq_getElem _ _ h, List.getElem?_eq_getElem h]

theorem rd_ge (xs : List D) (i : Nat) (h : xs.length ≤ i) :
    rd xs i = Except.error Stop.bounds := by
  unfold rd
  rw [List.getElem?_eq_none h]

section resamplers
variable [LinearOrderedField D]

/-- Adjacent increase gives increase over every distance. -/
theorem strict_of_adjacent (X : List D)
    (hX : ∀ i, i + 1 < X.length → X.getD i 0 < X.getD (i + 1) 0) :
    ∀ j i, i < j → j < X.length → X.getD i 0 < X.getD j 0 := by
  intro j
  induction j with
  | zero => intro i h; exact absurd h (Nat.not_lt_zero _)
  | succ j ih =>
    intro i h hj
    rcases Nat.lt_succ_iff_lt_or_eq.mp h with h1 | h1
    · exact lt_trans (ih i h1 (by omega)) (hX j hj)
    · rw [h1]; exact hX j hj

theorem mono_of_adjacent (X : List D)
    (hX : ∀ i, i + 1 < X.length → X.getD i 0 ≤ X.getD (i + 1) 0) :
    ∀ j i, i ≤ j → j < X.length → X.getD i 0 ≤ X.getD j 0 := by
  intro j
  induction j with
  | zero =>
    intro i h _
    have : i = 0 := by omega
    rw [this]
  | succ j ih =>
    intro i h hj
    rcases Nat.lt_or_ge i (j + 1) with h1 | h1
    · exact le_trans (ih i (by omega) (by omega)) (hX j hj)
    · have : i = j + 1 := by omega
      rw [this]

/-- The scan of `lerp_gen`: the result is the first index from `s` on that
brackets `x`, or `s + k` when none of `s, ..., s + k - 1` does. -/
theorem lerp_find_spec (X : List D) (x : D) :
    ∀ k s, s ≤ lerp_find X x k s ∧ lerp_find X x k s ≤ s + k ∧
      (∀ t, s ≤ t → t < lerp_find X x k s → ¬ (X.getD t 0 ≤ x ∧ X.getD (t + 1) 0 ≥ x)) ∧
      (lerp_find X x k s < s + k →
        X.getD (lerp_find X x k s) 0 ≤ x ∧ X.getD (lerp_find X x k s + 1) 0 ≥ x) := by
  intro k
  induction k with
  | zero =>
    intro s
    refine ⟨le_refl _, le_refl _, fun t h1 h2 => ?_, fun h => ?_⟩
    · exact absurd h2 (by show ¬ t < s; omega)
    · exact absurd h (by show ¬ s < s + 0; omega)
  | succ k ih =>
    intro s
    unfold lerp_find
    by_cases c : X.getD s 0 ≤ x ∧ X.getD (s + 1) 0 ≥ x
    · rw [if_pos c]
      exact ⟨le_refl _, by omega, fun t h1 h2 => absurd h2 (by omega), fun _ => c⟩
    · rw [if_neg c]
      obtain ⟨a1, a2, a3, a4⟩ := ih (s + 1)
      refine ⟨by omega, by omega, fun t h1 h2 => ?_, fun h => a4 (by omega)⟩
      rcases Nat.eq_or_lt_of_le h1 with e | e
      · rw [← e]; exact c
      · exact a3 t e h2

/-- A value between the first and the `m`-th node is bracketed by two adjacent
nodes below `m`. -/
theorem lerp_bracket_exists (X : List D) (x : D) (h0 : X.getD 0 0 ≤ x) :
    ∀ m, 1 ≤ m → x ≤ X.getD m 0 → ∃ t, t < m ∧ X.getD t 0 ≤ x ∧ X.getD (t + 1) 0 ≥ x := by
  intro m
  induction m with
  | zero => intro h; exact absurd h (by decide)
  | succ m ih =>
    intro _ hx
    by_cases c : X.getD m 0 ≤ x
    · exact ⟨m, by omega, c, hx⟩
    · have hm : 1 ≤ m := by
        rcases Nat.eq_zero_or_pos m with e | e
        · rw [e] at c; exact absurd h0 c
        · exact e
      obtain ⟨t, ht, b⟩ := ih hm (le_of_lt (not_le.mp c))
      exact ⟨t, by omega, b⟩

end resamplers

end Spline

namespace Spline
variable {D : Type}

section resamplers
variable [LinearOrderedField D]

/-- One destination inside the source range, on nodes more than `1E-30`
apart. -/
theorem lerp_point_spec (src_X src_Y : List D) (x : D)
    (hn : 2 ≤ src_X.length) (hY : src_Y.length = src_X.length)
    (hX : ∀ i, i + 1 < src_X.length → src_X.getD i 0 + 1 / 10 ^ 30 < src_X.getD (i + 1) 0)
    (hlo : src_X.getD 0 0 ≤ x) (hhi : x ≤ src_X.getD (src_X.length - 1) 0) :
    ∃ y, lerp_point src_X src_Y x = Except.ok y ∧ LerpResult src_X src_Y x y := by
  have heps : (0 : D) < 1 / 10 ^ 30 := by positivity
  obtain ⟨a1, a2, a3, a4⟩ := lerp_find_spec src_X x (src_X.length - 1) 0
  obtain ⟨t, ht, bt⟩ := lerp_bracket_exists src_X x hlo (src_X.length - 1) (by omega) hhi
  obtain ⟨s, hsd⟩ : ∃ s, s = lerp_find src_X x (src_X.length - 1) 0 := ⟨_, rfl⟩
  rw [← hsd] at a1 a2 a3 a4
  have hs : s + 1 < src_X.length := by
    by_contra c
    exact a3 t (Nat.zero_le _) (by omega) bt
  obtain ⟨b1, b2⟩ := a4 (by omega)
  have hds : src_X.getD (s + 1) 0 - src_X.getD s 0 > 1 / 10 ^ 30 := by
    have := hX s hs
    linarith
  have hpos : 0 < src_X.getD (s + 1) 0 - src_X.getD s 0 := lt_trans heps hds
  have habs : |src_X.getD (s + 1) 0 - src_X.getD s 0| > 1 / 10 ^ 30 := by
    rw [abs_of_pos hpos]
    exact hds
  refine ⟨_, ?_, s, hs, b1, b2, fun t ht => a3 t (Nat.zero_le _) ht, rfl⟩
  unfold lerp_point
  simp only
  rw [← hsd, if_neg (not_not.mpr hs), rd_lt src_X (s + 1) 0 hs, rd_lt src_X s 0 (by omega),
    rd_lt src_Y (s + 1) 0 (by omega), rd_lt src_Y s 0 (by omega)]
  simp only
  rw [if_neg (not_not.mpr habs)]

/-- The loop over the destinations: every destination inside the source range
gets its `LerpResult`. -/
theorem lerp_points_spec (src_X src_Y : List D)
    (hn : 2 ≤ src_X.length) (hY : src_Y.length = src_X.length)
    (hX : ∀ i, i + 1 < src_X.length → src_X.getD i 0 + 1 / 10 ^ 30 < src_X.getD (i + 1) 0) :
    ∀ dest_X : List D,
      (∀ x ∈ dest_X, src_X.getD 0 0 ≤ x ∧ x ≤ src_X.getD (src_X.length - 1) 0) →
      ∃ dest_Y, lerp_points src_X src_Y dest_X = Except.ok dest_Y ∧
        List.Forall₂ (LerpResult src_X src_Y) dest_X dest_Y := by
  intro dest_X
  induction dest_X with
  | nil => intro _; exact ⟨[], rfl, List.Forall₂.nil⟩
  | cons x rest ih =>
    intro hr
    obtain ⟨y, e1, p1⟩ := lerp_point_spec src_X src_Y x hn hY hX
      (hr x (List.mem_cons_self _ _)).1 (hr x (List.mem_cons_self _ _)).2
    obtain ⟨ys, e2, p2⟩ := ih (fun z hz => hr z (List.mem_cons_of_mem _ hz))
    refine ⟨y :: ys, ?_, List.Forall₂.cons p1 p2⟩
    unfold lerp_points
    rw [e1]
    simp only
    rw [e2]

/-- The range check on non-empty arrays. -/
theorem range_check_eq (src_X dest_X : List D) (hs : src_X ≠ []) (hd : dest_X ≠ []) :
    range_check src_X dest_X =
      some (decide (dest_X.getD 0 0 < src_X.getD 0 0 ∨
        dest_X.getD (dest_X.length - 1) 0 > src_X.getD (src_X.length - 1) 0)) := by
  have h1 : 0 < src_X.length := List.length_pos.mpr hs
  have h2 : 0 < dest_X.length := List.length_pos.mpr hd
  unfold range_check
  rw [rd_lt dest_X 0 0 h2, rd_lt src_X 0 0 h1, rd_lt dest_X (dest_X.length - 1) 0 (by omega),
    rd_lt src_X (src_X.length - 1) 0 (by omega)]

theorem getD_mem_of_lt (xs : List D) (i : Nat) (h : i < xs.length) : xs.getD i 0 ∈ xs := by
  rw [List.getD_eq_getElem _ _ h]
  exact List.getElem_mem h

end resamplers

end Spline

namespace Spline
variable {D : Type}

section resamplers
variable [LinearOrderedField D]

/-- **C31** (amended).  Linear resampler: for source nodes `src_X` of which
there are at least two and each of which exceeds its predecessor by more than
`1E-30`, source values `src_Y` of the same length, and a non-empty destination
array all of whose values lie in `[src_X[0], src_X[last]]` (in any order),
`lerp_gen` reaches none of its assertions and stores for every destination `x`
the value `src_Y[s] + (src_Y[s+1] - src_Y[s]) * ((x - src_X[s]) / (src_X[s+1] -
src_X[s]))` for the first interval `s` with `src_X[s] <= x <= src_X[s+1]`. -/
theorem lerp_gen_spec (src_X src_Y dest_X : List D)
    (hn : 2 ≤ src_X.length) (hY : src_Y.length = src_X.length)
    (hX : ∀ i, i + 1 < src_X.length → src_X.getD i 0 + 1 / 10 ^ 30 < src_X.getD (i + 1) 0)
    (hd : dest_X ≠ [])
    (hr : ∀ x ∈ dest_X, src_X.getD 0 0 ≤ x ∧ x ≤ src_X.getD (src_X.length - 1) 0) :
    ∃ dest_Y, lerp_gen src_X src_Y dest_X = Except.ok dest_Y ∧
      List.Forall₂ (LerpResult src_X src_Y) dest_X dest_Y := by
  have hs : src_X ≠ [] := by
    intro e
    rw [e] at hn
    exact absurd hn (Nat.not_succ_le_zero 1)
  have hl : 0 < dest_X.length := List.length_pos.mpr hd
  have h0 := hr _ (getD_mem_of_lt dest_X 0 hl)
  have h1 := hr _ (getD_mem_of_lt dest_X (dest_X.length - 1) (by omega))
  have hc : ¬ (dest_X.getD 0 0 < src_X.getD 0 0 ∨
      dest_X.getD (dest_X.length - 1) 0 > src_X.getD (src_X.length - 1) 0) := by
    intro c
    rcases c with c | c
    · exact absurd h0.1 (not_le.mpr c)
    · exact absurd h1.2 (not_le.mpr c)
  obtain ⟨ys, e, p⟩ := lerp_points_spec src_X src_Y hn hY hX dest_X hr
  refine ⟨ys, ?_, p⟩
  unfold lerp_gen
  rw [range_check_eq src_X dest_X hs hd, decide_eq_false hc]
  exact e

end resamplers

/-- Witness for C31: the nodes 0 and 1 with the values 0 and 2, resampled at 1
and at 1/2. -/
theorem lerp_gen_spec_witness :
    (2 ≤ ([0, 1] : List ℚ).length ∧ ([0, 2] : List ℚ).length = ([0, 1] : List ℚ).length ∧
      ([1, 1 / 2] : List ℚ) ≠ []) ∧
    ∃ dest_Y, lerp_gen ([0, 1] : List ℚ) [0, 2] [1, 1 / 2] = Except.ok dest_Y ∧
      List.Forall₂ (LerpResult ([0, 1] : List ℚ) [0, 2]) [1, 1 / 2] dest_Y :=
  ⟨⟨by decide, rfl, List.cons_ne_nil _ _⟩,
    lerp_gen_spec [0, 1] [0, 2] [1, 1 / 2] (by decide) rfl
      (by
        intro i hi
        have : i = 0 := by
          have : i + 1 < 2 := hi
          omega
        subst this
        show (0 : ℚ) + 1 / 10 ^ 30 < 1
        norm_num)
      (List.cons_ne_nil _ _)
      (by
        intro x hx
        rcases List.mem_cons.mp hx with e | e
        · rw [e]
          show (0 : ℚ) ≤ 1 ∧ (1 : ℚ) ≤ 1
          norm_num
        · rw [List.mem_singleton.mp e]
          show (0 : ℚ) ≤ 1 / 2 ∧ (1 / 2 : ℚ) ≤ 1
          norm_num)⟩

/-- Counterexample to C31 as stated: the strictly increasing nodes 0 and
`1E-31` with the destination 0, which lies on the first node.  The assertion
`fabs(ds) > 1E-30` fails. -/
theorem lerp_gen_close_nodes :
    (0 : ℚ) < 1 / 10 ^ 31 ∧
    lerp_gen ([0, 1 / 10 ^ 31] : List ℚ) [0, 1] [0] = Except.error Stop.assertion := by
  have e : ¬ (|(1 : ℚ) / 10 ^ 31 - 0| > 1 / 10 ^ 30) := by
    rw [abs_of_nonneg (by norm_num)]
    norm_num
  have c : ¬ ((0 : ℚ) < 0 ∨ (0 : ℚ) > 1 / 10 ^ 31) := by norm_num
  have f : lerp_find ([0, 1 / 10 ^ 31] : List ℚ) 0 1 0 = 0 := by
    unfold lerp_find
    rw [if_pos]
    show (0 : ℚ) ≤ 0 ∧ (1 / 10 ^ 31 : ℚ) ≥ 0
    norm_num
  refine ⟨by norm_num, ?_⟩
  unfold lerp_gen
  rw [range_check_eq _ _ (List.cons_ne_nil _ _) (List.cons_ne_nil _ _)]
  show (match some (decide ((0 : ℚ) < 0 ∨ (0 : ℚ) > 1 / 10 ^ 31)) with
    | none => Except.error Stop.bounds
    | some true => Except.error Stop.assertion
    | some false => lerp_points [0, 1 / 10 ^ 31] [0, 1] [(0 : ℚ)]) = _
  rw [decide_eq_false c]
  have f2 : lerp_find ([0, 1 / 10 ^ 31] : List ℚ) 0 (([0, 1 / 10 ^ 31] : List ℚ).length - 1) 0 = 0 :=
    f
  have e2 : ¬ (|([0, 1 / 10 ^ 31] : List ℚ).getD (0 + 1) 0 - ([0, 1 / 10 ^ 31] : List ℚ).getD 0 0| >
      1 / 10 ^ 30) := e
  have p : lerp_point ([0, 1 / 10 ^ 31] : List ℚ) [0, 1] 0 = Except.error Stop.assertion := by
    unfold lerp_point
    simp only [f2]
    rw [if_neg (by decide), rd_lt _ (0 + 1) 0 (by decide), rd_lt _ 0 0 (by decide),
      rd_lt _ (0 + 1) 0 (by decide), rd_lt _ 0 0 (by decide)]
    simp only
    rw [if_pos e2]
  show lerp_points ([0, 1 / 10 ^ 31] : List ℚ) [0, 1] [0] = _
  unfold lerp_points
  rw [p]

end Spline

namespace Spline
variable {D : Type}

section resamplers
variable [LinearOrderedField D]

/-- With source values for every node, the body of the loop of `lerp_gen`
either stores a value or fails an assertion. -/
theorem lerp_point_ok_or_assert (src_X src_Y : List D) (x : D)
    (hY : src_Y.length = src_X.length) :
    (∃ y, lerp_point src_X src_Y x = Except.ok y) ∨
      lerp_point src_X src_Y x = Except.error Stop.assertion := by
  unfold lerp_point
  simp only
  by_cases hs : lerp_find src_X x (src_X.length - 1) 0 + 1 < src_X.length
  · rw [if_neg (not_not.mpr hs), rd_lt src_X _ 0 hs, rd_lt src_X _ 0 (by omega),
      rd_lt src_Y _ 0 (by omega), rd_lt src_Y _ 0 (by omega)]
    simp only
    split
    · exact Or.inr rfl
    · exact Or.inl ⟨_, rfl⟩
  · rw [if_pos hs]
    exact Or.inr rfl

/-- A destination outside the range of non-decreasing nodes finds no interval:
the assertion `s < src_len-1` fails. -/
theorem lerp_point_reject (src_X src_Y : List D) (x : D)
    (hX : ∀ i, i + 1 < src_X.length → src_X.getD i 0 ≤ src_X.getD (i + 1) 0)
    (hx : x < src_X.getD 0 0 ∨ x > src_X.getD (src_X.length - 1) 0) :
    lerp_point src_X src_Y x = Except.error Stop.assertion := by
  obtain ⟨-, -, -, a4⟩ := lerp_find_spec src_X x (src_X.length - 1) 0
  have hs : ¬ (lerp_find src_X x (src_X.length - 1) 0 + 1 < src_X.length) := by
    intro c
    obtain ⟨b1, b2⟩ := a4 (by omega)
    have m1 := mono_of_adjacent src_X hX (lerp_find src_X x (src_X.length - 1) 0) 0
      (Nat.zero_le _) (by omega)
    have m2 := mono_of_adjacent src_X hX (src_X.length - 1)
      (lerp_find src_X x (src_X.length - 1) 0 + 1) (by omega) (by omega)
    rcases hx with hx | hx
    · exact absurd (le_trans m1 b1) (not_le.mpr hx)
    · exact absurd (le_trans b2 m2) (not_le.mpr hx)
  unfold lerp_point
  simp only
  rw [if_pos hs]

theorem lerp_points_reject (src_X src_Y : List D) (hY : src_Y.length = src_X.length)
    (hX : ∀ i, i + 1 < src_X.length → src_X.getD i 0 ≤ src_X.getD (i + 1) 0) :
    ∀ dest_X : List D,
      (∃ x ∈ dest_X, x < src_X.getD 0 0 ∨ x > src_X.getD (src_X.length - 1) 0) →
      lerp_points src_X src_Y dest_X = Except.error Stop.assertion := by
  intro dest_X
  induction dest_X with
  | nil =>
    intro h
    obtain ⟨x, hx, -⟩ := h
    exact absurd hx (List.not_mem_nil _)
  | cons z rest ih =>
    intro h
    unfold lerp_points
    rcases lerp_point_ok_or_assert src_X src_Y z hY with ⟨y, e⟩ | e
    · rw [e]
      simp only
      obtain ⟨x, hx, hb⟩ := h
      rcases List.mem_cons.mp hx with c | c
      · rw [c] at hb
        rw [lerp_point_reject src_X src_Y z hX hb] at e
        exact absurd e (by simp)
      · rw [ih ⟨x, c, hb⟩]
    · rw [e]

/-- **C33** (amended).  Out-of-bounds destinations, for non-decreasing source
nodes: `lerp_gen` fails an assertion when the destination array holds a value
below `src_X[0]` or above `src_X[last]` at any position; `spline_gen` fails an
assertion when the first destination is below `src_X[0]` or the last
destination is above `src_X[last]`. -/
theorem out_of_range_rejection (src_X src_Y dest_X : List D)
    (hs : src_X ≠ []) (hY : src_Y.length = src_X.length)
    (hX : ∀ i, i + 1 < src_X.length → src_X.getD i 0 ≤ src_X.getD (i + 1) 0) :
    ((∃ x ∈ dest_X, x < src_X.getD 0 0 ∨ x > src_X.getD (src_X.length - 1) 0) →
      lerp_gen src_X src_Y dest_X = Except.error Stop.assertion) ∧
    (dest_X ≠ [] →
      (dest_X.getD 0 0 < src_X.getD 0 0 ∨
        dest_X.getD (dest_X.length - 1) 0 > src_X.getD (src_X.length - 1) 0) →
      spline_gen src_X src_Y dest_X = Except.error Stop.assertion) := by
  constructor
  · intro h
    have hd : dest_X ≠ [] := by
      obtain ⟨x, hx, -⟩ := h
      exact List.ne_nil_of_mem hx
    unfold lerp_gen
    rw [range_check_eq src_X dest_X hs hd]
    by_cases c : dest_X.getD 0 0 < src_X.getD 0 0 ∨
        dest_X.getD (dest_X.length - 1) 0 > src_X.getD (src_X.length - 1) 0
    · rw [decide_eq_true c]
    · rw [decide_eq_false c]
      exact lerp_points_reject src_X src_Y hY hX dest_X h
  · intro hd c
    unfold spline_gen
    rw [range_check_eq src_X dest_X hs hd, decide_eq_true c]

end resamplers

/-- Witness for C33: the nodes 0, 1, 2 and the destinations 0, -1, 1 for
`lerp_gen`, and the destinations -1, 1 for `spline_gen`. -/
theorem out_of_range_rejection_witness :
    lerp_gen ([0, 1, 2] : List ℚ) [0, 1, 2] [0, -1, 1] = Except.error Stop.assertion ∧
    spline_gen ([0, 1, 2] : List ℚ) [0, 1, 2] [-1, 1] = Except.error Stop.assertion := by
  have hX : ∀ i, i + 1 < ([0, 1, 2] : List ℚ).length →
      ([0, 1, 2] : List ℚ).getD i 0 ≤ ([0, 1, 2] : List ℚ).getD (i + 1) 0 := by
    intro i hi
    have hi2 : i + 1 < 3 := hi
    have : i = 0 ∨ i = 1 := by omega
    rcases this with e | e
    · subst e
      show (0 : ℚ) ≤ 1
      norm_num
    · subst e
      show (1 : ℚ) ≤ 2
      norm_num
  exact ⟨(out_of_range_rejection [0, 1, 2] [0, 1, 2] [0, -1, 1] (List.cons_ne_nil _ _) rfl hX).1
      ⟨-1, by simp, Or.inl (by show (-1 : ℚ) < 0; norm_num)⟩,
    (out_of_range_rejection [0, 1, 2] [0, 1, 2] [-1, 1] (List.cons_ne_nil _ _) rfl hX).2
      (List.cons_ne_nil _ _) (Or.inl (by show (-1 : ℚ) < 0; norm_num))⟩

/-- Counterexample to C33 as stated: the nodes 0, 1, 2 with the values 0, 1, 2
and the destinations 0, -1, 1.  The second destination is below `src_X[0]`;
`spline_gen` reaches no assertion and stores the value -1 for it. -/
theorem spline_gen_accepts_inner_outlier :
    (-1 : ℚ) < ([0, 1, 2] : List ℚ).getD 0 0 ∧
    spline_gen ([0, 1, 2] : List ℚ) [0, 1, 2] [0, -1, 1] = Except.ok [0, -1, 1] := by
  refine ⟨by show (-1 : ℚ) < 0; norm_num, ?_⟩
  simp [spline_gen, range_check, rd, spline_points, spline_point, spline_seek, spline_D2,
    spline_back, spline_forward, spline_widths, eval_width, List.range_succ]
  norm_num [abs_lt]

end Spline

namespace Spline
variable {D : Type}

section resamplers
variable [LinearOrderedField D]

/-- The interval search on a node that is not the last one stops at that
node. -/
theorem spline_seek_node (src_X : List D)
    (hX : ∀ i, i + 1 < src_X.length → src_X.getD i 0 < src_X.getD (i + 1) 0)
    (k : Nat) (hk : k + 1 < src_X.length) :
    ∀ fuel cur, cur ≤ k → k - cur < fuel →
      spline_seek src_X (src_X.getD k 0) fuel cur = Except.ok k := by
  intro fuel
  induction fuel with
  | zero => intro cur _ h; exact absurd h (Nat.not_lt_zero _)
  | succ fuel ih =>
    intro cur hc hf
    unfold spline_seek
    rw [rd_lt src_X (cur + 1) 0 (by omega)]
    simp only
    rcases Nat.eq_or_lt_of_le hc with e | e
    · subst e
      have c : ¬ (src_X.getD (cur + 1) 0 ≤ src_X.getD cur 0 ∧ cur + 1 < src_X.length) :=
        fun h => absurd h.1 (not_le.mpr (hX cur hk))
      rw [if_neg c]
    · have c : src_X.getD (cur + 1) 0 ≤ src_X.getD k 0 ∧ cur + 1 < src_X.length := by
        refine ⟨?_, by omega⟩
        rcases Nat.eq_or_lt_of_le (Nat.succ_le_of_lt e) with e2 | e2
        · have e3 : cur + 1 = k := e2
          rw [e3]
        · exact le_of_lt (strict_of_adjacent src_X hX k (cur + 1) e2 (by omega))
      rw [if_pos c]
      exact ih (cur + 1) (by omega) (by omega)

/-- The interval search on the last node runs up to the last index and then
reads `src_X[src_len]`. -/
theorem spline_seek_last (src_X : List D)
    (hX : ∀ i, i + 1 < src_X.length → src_X.getD i 0 < src_X.getD (i + 1) 0) :
    ∀ fuel cur, cur < src_X.length → src_X.length - 1 - cur < fuel →
      spline_seek src_X (src_X.getD (src_X.length - 1) 0) fuel cur =
        Except.error Stop.bounds := by
  intro fuel
  induction fuel with
  | zero => intro cur _ h; exact absurd h (Nat.not_lt_zero _)
  | succ fuel ih =>
    intro cur hc hf
    unfold spline_seek
    by_cases c : cur + 1 < src_X.length
    · rw [rd_lt src_X (cur + 1) 0 c]
      simp only
      have c2 : src_X.getD (cur + 1) 0 ≤ src_X.getD (src_X.length - 1) 0 ∧
          cur + 1 < src_X.length := by
        refine ⟨?_, c⟩
        rcases Nat.eq_or_lt_of_le (Nat.le_sub_one_of_lt c) with e2 | e2
        · rw [e2]
        · exact le_of_lt (strict_of_adjacent src_X hX _ (cur + 1) e2 (by omega))
      rw [if_pos c2]
      exact ih (cur + 1) c (by omega)
    · rw [rd_ge src_X (cur + 1) (by omega)]

/-- **C32**.  Spline evaluation at the nodes, for strictly increasing source
nodes with a source value and a second derivative for each: at a node
`src_X[k]` other than the last one, entered with `cur <= k`, the evaluation
stores exactly `src_Y[k]`; at the last node `src_X[last]` the interval search
advances `cur` to the last index and reads `src_X[src_len]`, outside the
array, so `spline_gen` on a destination array that ends on the last node does
not stay below `src_len`. -/
theorem spline_node_evaluation (src_X src_Y D2 : List D)
    (hY : src_Y.length = src_X.length) (hD : D2.length = src_X.length)
    (hX : ∀ i, i + 1 < src_X.length → src_X.getD i 0 < src_X.getD (i + 1) 0) :
    (∀ k cur, k + 1 < src_X.length → cur ≤ k →
      spline_point src_X src_Y D2 cur (src_X.getD k 0) = Except.ok (src_Y.getD k 0, k)) ∧
    (∀ cur, cur < src_X.length →
      spline_point src_X src_Y D2 cur (src_X.getD (src_X.length - 1) 0) =
        Except.error Stop.bounds) ∧
    (src_X ≠ [] →
      spline_gen src_X src_Y [src_X.getD (src_X.length - 1) 0] = Except.error Stop.bounds) := by
  have last : ∀ (E : List D) cur, cur < src_X.length →
      spline_point src_X src_Y E cur (src_X.getD (src_X.length - 1) 0) =
        Except.error Stop.bounds := by
    intro E cur hc
    unfold spline_point
    rw [spline_seek_last src_X hX (src_X.length + 1) cur hc (by omega)]
  refine ⟨?_, last D2, ?_⟩
  · intro k cur hk hc
    have hpos : 0 < src_X.getD (k + 1) 0 - src_X.getD k 0 := sub_pos.mpr (hX k hk)
    have hw : eval_width (src_X.getD (k + 1) 0) (src_X.getD k 0) =
        src_X.getD (k + 1) 0 - src_X.getD k 0 := by
      unfold eval_width
      simp only
      rw [if_neg (not_le.mpr hpos)]
    unfold spline_point
    rw [spline_seek_node src_X hX k hk (src_X.length + 1) cur hc (by omega)]
    simp only
    rw [rd_lt src_X (k + 1) 0 hk, rd_lt src_X k 0 (by omega), rd_lt src_Y k 0 (by omega),
      rd_lt src_Y (k + 1) 0 (by omega), rd_lt D2 k 0 (by omega), rd_lt D2 (k + 1) 0 (by omega)]
    simp only
    rw [hw, if_neg (not_not.mpr hpos), div_self (ne_of_gt hpos), sub_self, zero_div]
    have e : (1 * src_Y.getD k 0) + (0 * src_Y.getD (k + 1) 0) +
        (((1 * 1 * 1 - 1) * D2.getD k 0) + ((0 * 0 * 0 - 0) * D2.getD (k + 1) 0)) *
          ((src_X.getD (k + 1) 0 - src_X.getD k 0) * (src_X.getD (k + 1) 0 - src_X.getD k 0)) / 6 =
        src_Y.getD k 0 := by
      ring
    rw [e]
  · intro hs
    have hl : 0 < src_X.length := List.length_pos.mpr hs
    have c : ¬ (([src_X.getD (src_X.length - 1) 0] : List D).getD 0 0 < src_X.getD 0 0 ∨
        ([src_X.getD (src_X.length - 1) 0] : List D).getD
          (([src_X.getD (src_X.length - 1) 0] : List D).length - 1) 0 >
          src_X.getD (src_X.length - 1) 0) := by
      intro h
      rcases h with h | h
      · have h2 : src_X.getD (src_X.length - 1) 0 < src_X.getD 0 0 := h
        have m := mono_of_adjacent src_X (fun i hi => le_of_lt (hX i hi)) (src_X.length - 1) 0
          (Nat.zero_le _) (by omega)
        exact absurd m (not_le.mpr h2)
      · exact absurd h (lt_irrefl _)
    unfold spline_gen
    rw [range_check_eq src_X _ hs (List.cons_ne_nil _ _), decide_eq_false c]
    simp only
    unfold spline_points
    rw [last _ 0 hl]

end resamplers

/-- Witness for C32: the nodes 0, 1, 2 with the values 5, 7, 6. -/
theorem spline_node_evaluation_witness :
    spline_point ([0, 1, 2] : List ℚ) [5, 7, 6] [0, 0, 0] 0 (([0, 1, 2] : List ℚ).getD 1 0) =
      Except.ok (([5, 7, 6] : List ℚ).getD 1 0, 1) ∧
    spline_gen ([0, 1, 2] : List ℚ) [5, 7, 6]
      [([0, 1, 2] : List ℚ).getD (([0, 1, 2] : List ℚ).length - 1) 0] =
      Except.error Stop.bounds := by
  have hX : ∀ i, i + 1 < ([0, 1, 2] : List ℚ).length →
      ([0, 1, 2] : List ℚ).getD i 0 < ([0, 1, 2] : List ℚ).getD (i + 1) 0 := by
    intro i hi
    have hi2 : i + 1 < 3 := hi
    have : i = 0 ∨ i = 1 := by omega
    rcases this with e | e
    · subst e
      show (0 : ℚ) < 1
      norm_num
    · subst e
      show (1 : ℚ) < 2
      norm_num
  exact ⟨(spline_node_evaluation [0, 1, 2] [5, 7, 6] [0, 0, 0] rfl rfl hX).1 1 0 (by decide)
      (by decide),
    (spline_node_evaluation [0, 1, 2] [5, 7, 6] [0, 0, 0] rfl rfl hX).2.2 (List.cons_ne_nil _ _)⟩

end Spline

namespace Spline
variable {D : Type}

section resamplers
variable [LinearOrderedField D]

/-- A width after the substitution is non-zero when `epsilon` is positive. -/
theorem subst_width_ne_zero (h eps : D) (he : 0 < eps) :
    (if |h| < eps then eps else h) ≠ 0 := by
  split
  · exact ne_of_gt he
  · rename_i c
    intro e
    rw [e, abs_zero] at c
    exact c he

/-- **C35**.  Zero-width defence.  The widths `h0`, `h1`, `h2` at a node are
non-zero after the substitution when `src_X[i]` is not 0, and the width `h` of
the evaluation is always positive; but at a node with `src_X[i] = 0` the
substitute `epsilon = fabs(src_X[i]) * 1E-6` is itself 0: for the source nodes
0, 0, 1 the width `h0` at node 1 is 0 after the substitution. -/
theorem spline_zero_width (src_X : List D) (i : Nat) :
    (src_X.getD i 0 ≠ 0 →
      (spline_widths src_X i).1 ≠ 0 ∧ (spline_widths src_X i).2.1 ≠ 0 ∧
        (spline_widths src_X i).2.2 ≠ 0) ∧
    (∀ xn xc : D, 0 < eval_width xn xc) ∧
    (spline_widths ([0, 0, 1] : List ℚ) 1).1 = 0 := by
  refine ⟨fun h => ?_, fun xn xc => ?_, ?_⟩
  · have he : 0 < |src_X.getD i 0| * (1 / 1000000) :=
      mul_pos (abs_pos.mpr h) (by norm_num)
    exact ⟨subst_width_ne_zero _ _ he, subst_width_ne_zero _ _ he, subst_width_ne_zero _ _ he⟩
  · unfold eval_width
    simp only
    split
    · norm_num
    · rename_i c
      exact not_le.mp c
  · simp [spline_widths]

end resamplers

/-- Witness for C35: node 1 of the source nodes 1, 2, 3. -/
theorem spline_zero_width_witness :
    ([1, 2, 3] : List ℚ).getD 1 0 ≠ 0 ∧
    (spline_widths ([1, 2, 3] : List ℚ) 1).1 ≠ 0 ∧ (spline_widths ([1, 2, 3] : List ℚ) 1).2.1 ≠ 0 ∧
      (spline_widths ([1, 2, 3] : List ℚ) 1).2.2 ≠ 0 :=
  ⟨by show (2 : ℚ) ≠ 0; norm_num,
    (spline_zero_width ([1, 2, 3] : List ℚ) 1).1 (by show (2 : ℚ) ≠ 0; norm_num)⟩

end Spline

namespace Spline
variable {D : Type}

section resamplers
variable [LinearOrderedField D]

/-- No width of an interior node is replaced when both adjacent widths are at
least `epsilon`. -/
theorem spline_widths_plain (X : List D) (i : Nat)
    (h0 : |X.getD i 0| * (1 / 1000000) ≤ X.getD i 0 - X.getD (i - 1) 0)
    (h2 : |X.getD i 0| * (1 / 1000000) ≤ X.getD (i + 1) 0 - X.getD i 0) :
    spline_widths X i =
      (X.getD i 0 - X.getD (i - 1) 0, X.getD (i + 1) 0 - X.getD (i - 1) 0,
        X.getD (i + 1) 0 - X.getD i 0) := by
  have he : 0 ≤ |X.getD i 0| * (1 / 1000000) := mul_nonneg (abs_nonneg _) (by norm_num)
  have p0 : 0 ≤ X.getD i 0 - X.getD (i - 1) 0 := le_trans he h0
  have p2 : 0 ≤ X.getD (i + 1) 0 - X.getD i 0 := le_trans he h2
  have p1 : 0 ≤ X.getD (i + 1) 0 - X.getD (i - 1) 0 := by linarith
  have c0 : ¬ |X.getD i 0 - X.getD (i - 1) 0| < |X.getD i 0| * (1 / 1000000) := by
    rw [abs_of_nonneg p0]
    exact not_lt.mpr h0
  have c1 : ¬ |X.getD (i + 1) 0 - X.getD (i - 1) 0| < |X.getD i 0| * (1 / 1000000) := by
    rw [abs_of_nonneg p1]
    exact not_lt.mpr (by linarith)
  have c2 : ¬ |X.getD (i + 1) 0 - X.getD i 0| < |X.getD i 0| * (1 / 1000000) := by
    rw [abs_of_nonneg p2]
    exact not_lt.mpr h2
  unfold spline_widths
  simp only
  rw [if_neg c0, if_neg c1, if_neg c2]

theorem spline_D2_length (X Y : List D) : (spline_D2 X Y).length = X.length := by
  unfold spline_D2
  simp

theorem spline_D2_getD (X Y : List D) (i : Nat) (hi : i < X.length) :
    (spline_D2 X Y).getD i 0 = spline_back X Y X.length (X.length - 1 - i) := by
  have hl : i < (spline_D2 X Y).length := by rw [spline_D2_length]; exact hi
  rw [List.getD_eq_getElem _ _ hl]
  unfold spline_D2
  simp

/-- The back substitution, read at the indices of the array. -/
theorem spline_D2_step (X Y : List D) (i : Nat) (hi : i + 1 < X.length) :
    (spline_D2 X Y).getD i 0 =
      (spline_forward X Y i).1 * (spline_D2 X Y).getD (i + 1) 0 + (spline_forward X Y i).2 := by
  rw [spline_D2_getD X Y i (by omega), spline_D2_getD X Y (i + 1) hi]
  obtain ⟨k, hk⟩ : ∃ k, X.length - 1 - i = k + 1 := ⟨X.length - 2 - i, by omega⟩
  have e1 : X.length - 1 - (i + 1) = k := by omega
  have e2 : X.length - 2 - k = i := by omega
  rw [hk, e1]
  show (spline_forward X Y (X.length - 2 - k)).1 * spline_back X Y X.length k +
    (spline_forward X Y (X.length - 2 - k)).2 = _
  rw [e2]

theorem spline_D2_ends (X Y : List D) (hn : 1 ≤ X.length) :
    (spline_D2 X Y).getD 0 0 = 0 ∧ (spline_D2 X Y).getD (X.length - 1) 0 = 0 := by
  constructor
  · rcases Nat.eq_or_lt_of_le hn with e | e
    · rw [spline_D2_getD X Y 0 (by omega), ← e]
      rfl
    · rw [spline_D2_step X Y 0 (by omega)]
      show (0 : D) * _ + 0 = 0
      simp
  · rw [spline_D2_getD X Y _ (by omega)]
    have : X.length - 1 - (X.length - 1) = 0 := by omega
    rw [this]
    rfl

/-- The forward elimination at an interior node whose widths are not
replaced. -/
theorem spline_forward_succ (X Y : List D) (i : Nat)
    (h0 : |X.getD (i + 1) 0| * (1 / 1000000) ≤ X.getD (i + 1) 0 - X.getD i 0)
    (h2 : |X.getD (i + 1) 0| * (1 / 1000000) ≤ X.getD (i + 2) 0 - X.getD (i + 1) 0) :
    spline_forward X Y (i + 1) =
      (((X.getD (i + 1) 0 - X.getD i 0) / (X.getD (i + 2) 0 - X.getD i 0) - 1) *
        (1 / ((X.getD (i + 1) 0 - X.getD i 0) / (X.getD (i + 2) 0 - X.getD i 0) *
          (spline_forward X Y i).1 + 2)),
       (((6 * ((Y.getD (i + 2) 0 - Y.getD (i + 1) 0) / (X.getD (i + 2) 0 - X.getD (i + 1) 0) -
          (Y.getD (i + 1) 0 - Y.getD i 0) / (X.getD (i + 1) 0 - X.getD i 0))) /
            (X.getD (i + 2) 0 - X.getD i 0)) -
          ((X.getD (i + 1) 0 - X.getD i 0) / (X.getD (i + 2) 0 - X.getD i 0) *
            (spline_forward X Y i).2)) *
        (1 / ((X.getD (i + 1) 0 - X.getD i 0) / (X.getD (i + 2) 0 - X.getD i 0) *
          (spline_forward X Y i).1 + 2))) := by
  have w := spline_widths_plain X (i + 1) h0 h2
  have e : i + 1 - 1 = i := rfl
  rw [e] at w
  show ((((spline_widths X (i + 1)).1 / (spline_widths X (i + 1)).2.1) - 1) *
      (1 / ((spline_widths X (i + 1)).1 / (spline_widths X (i + 1)).2.1 *
        (spline_forward X Y i).1 + 2)),
    (((6 * ((Y.getD (i + 2) 0 - Y.getD (i + 1) 0) / (spline_widths X (i + 1)).2.2 -
        (Y.getD (i + 1) 0 - Y.getD i 0) / (spline_widths X (i + 1)).1)) /
          (spline_widths X (i + 1)).2.1) -
        ((spline_widths X (i + 1)).1 / (spline_widths X (i + 1)).2.1 *
          (spline_forward X Y i).2)) *
      (1 / ((spline_widths X (i + 1)).1 / (spline_widths X (i + 1)).2.1 *
        (spline_forward X Y i).1 + 2))) = _
  rw [w]

/-- The elimination coefficient stays in `(-1, 0]`, so every pivot exceeds 1. -/
theorem spline_coeff_range (X Y : List D)
    (hX : ∀ i, i + 1 < X.length → X.getD i 0 < X.getD (i + 1) 0)
    (hE : ∀ i, 1 ≤ i → i + 1 < X.length →
      |X.getD i 0| * (1 / 1000000) ≤ X.getD i 0 - X.getD (i - 1) 0 ∧
      |X.getD i 0| * (1 / 1000000) ≤ X.getD (i + 1) 0 - X.getD i 0) :
    ∀ i, i + 1 < X.length →
      -1 < (spline_forward X Y i).1 ∧ (spline_forward X Y i).1 ≤ 0 := by
  intro i
  induction i with
  | zero =>
    intro _
    show (-1 : D) < 0 ∧ (0 : D) ≤ 0
    exact ⟨by norm_num, le_refl _⟩
  | succ i ih =>
    intro hi
    obtain ⟨c1, c2⟩ := ih (by omega)
    obtain ⟨e0, e2⟩ := hE (i + 1) (by omega) hi
    rw [spline_forward_succ X Y i e0 e2]
    simp only
    have a0 : 0 < X.getD (i + 1) 0 - X.getD i 0 := sub_pos.mpr (hX i (by omega))
    have a2 : 0 < X.getD (i + 2) 0 - X.getD (i + 1) 0 := sub_pos.mpr (hX (i + 1) hi)
    have a1 : 0 < X.getD (i + 2) 0 - X.getD i 0 := by linarith
    have hh0 : 0 < (X.getD (i + 1) 0 - X.getD i 0) / (X.getD (i + 2) 0 - X.getD i 0) :=
      div_pos a0 a1
    have hh1 : (X.getD (i + 1) 0 - X.getD i 0) / (X.getD (i + 2) 0 - X.getD i 0) < 1 := by
      rw [div_lt_one a1]
      linarith
    generalize (X.getD (i + 1) 0 - X.getD i 0) / (X.getD (i + 2) 0 - X.getD i 0) = h at hh0 hh1
    generalize (spline_forward X Y i).1 = c at c1 c2
    have hc : -h < h * c := by
      have : h * (-1) < h * c := mul_lt_mul_of_pos_left c1 hh0
      linarith
    have hc2 : h * c ≤ 0 := mul_nonpos_of_nonneg_of_nonpos (le_of_lt hh0) c2
    have hP : 1 < h * c + 2 := by linarith
    have hPpos : 0 < h * c + 2 := by linarith
    have e : (h - 1) * (1 / (h * c + 2)) = (h - 1) / (h * c + 2) := by ring
    rw [e]
    constructor
    · rw [lt_div_iff₀ hPpos]
      linarith
    · exact div_nonpos_of_nonpos_of_nonneg (by linarith) (le_of_lt hPpos)

/-- The equation of the natural spline at one node, from the two steps of the
elimination that meet there. -/
theorem spline_node_algebra (h0 h1 h2 c u m0 m1 m2 r : D)
    (hh1 : h1 ≠ 0) (hsum : h1 = h0 + h2) (hP : h0 / h1 * c + 2 ≠ 0)
    (e1 : m1 = ((h0 / h1 - 1) * (1 / (h0 / h1 * c + 2))) * m2 +
      (((6 * r) / h1) - (h0 / h1 * u)) * (1 / (h0 / h1 * c + 2)))
    (e0 : m0 = c * m1 + u) :
    h0 * m0 + 2 * h1 * m1 + h2 * m2 = 6 * r := by
  have k0 : h0 = h0 / h1 * h1 := (div_mul_cancel₀ h0 hh1).symm
  have k6 : 6 * r = (6 * r) / h1 * h1 := (div_mul_cancel₀ _ hh1).symm
  generalize h0 / h1 = h at hP e1 k0
  generalize (6 * r) / h1 = d at e1 k6
  have k2 : h2 = h1 - h * h1 := by rw [← k0]; linarith
  have key : (h * c + 2) * m1 = (h - 1) * m2 + (d - h * u) := by
    rw [e1]
    field_simp
  rw [k6, k0, k2, e0]
  linear_combination h1 * key

end resamplers

end Spline

namespace Spline
variable {D : Type}

section resamplers
variable [LinearOrderedField D]

/-- On source values that lie on a straight line the right-hand sides of the
elimination vanish. -/
theorem spline_forward_linear (X Y : List D)
    (hX : ∀ i, i + 1 < X.length → X.getD i 0 < X.getD (i + 1) 0)
    (hE : ∀ i, 1 ≤ i → i + 1 < X.length →
      |X.getD i 0| * (1 / 1000000) ≤ X.getD i 0 - X.getD (i - 1) 0 ∧
      |X.getD i 0| * (1 / 1000000) ≤ X.getD (i + 1) 0 - X.getD i 0)
    (m q : D) (hlin : ∀ i, i < X.length → Y.getD i 0 = m * X.getD i 0 + q) :
    ∀ i, i + 1 < X.length → (spline_forward X Y i).2 = 0 := by
  intro i
  induction i with
  | zero => intro _; rfl
  | succ i ih =>
    intro hi
    obtain ⟨e0, e2⟩ := hE (i + 1) (by omega) hi
    rw [spline_forward_succ X Y i e0 e2]
    simp only
    have a0 : X.getD (i + 1) 0 - X.getD i 0 ≠ 0 := ne_of_gt (sub_pos.mpr (hX i (by omega)))
    have a2 : X.getD (i + 2) 0 - X.getD (i + 1) 0 ≠ 0 := ne_of_gt (sub_pos.mpr (hX (i + 1) hi))
    have r0 : (Y.getD (i + 1) 0 - Y.getD i 0) / (X.getD (i + 1) 0 - X.getD i 0) = m := by
      rw [hlin (i + 1) (by omega), hlin i (by omega), div_eq_iff a0]
      ring
    have r1 : (Y.getD (i + 2) 0 - Y.getD (i + 1) 0) / (X.getD (i + 2) 0 - X.getD (i + 1) 0) =
        m := by
      rw [hlin (i + 2) hi, hlin (i + 1) (by omega), div_eq_iff a2]
      ring
    rw [r0, r1, ih (by omega)]
    simp

theorem spline_back_linear (X Y : List D)
    (hu : ∀ i, i + 1 < X.length → (spline_forward X Y i).2 = 0) :
    ∀ k, k < X.length → spline_back X Y X.length k = 0 := by
  intro k
  induction k with
  | zero => intro _; rfl
  | succ k ih =>
    intro hk
    show (spline_forward X Y (X.length - 2 - k)).1 * spline_back X Y X.length k +
      (spline_forward X Y (X.length - 2 - k)).2 = 0
    rw [ih (by omega), hu (X.length - 2 - k) (by omega)]
    simp

theorem spline_eval_algebra (xn xc x yc yn : D) (h : xn - xc ≠ 0) :
    ((xn - x) / (xn - xc) * yc) + ((x - xc) / (xn - xc) * yn) +
      ((((xn - x) / (xn - xc) * ((xn - x) / (xn - xc)) * ((xn - x) / (xn - xc)) -
          (xn - x) / (xn - xc)) * 0) +
        (((x - xc) / (xn - xc) * ((x - xc) / (xn - xc)) * ((x - xc) / (xn - xc)) -
          (x - xc) / (xn - xc)) * 0)) * ((xn - xc) * (xn - xc)) / 6 =
    yc + (yn - yc) * ((x - xc) / (xn - xc)) := by
  field_simp
  ring

/-- A value that the evaluation stores when all second derivatives are zero is
the linear interpolation on the interval found. -/
theorem spline_point_linear (X Y E : List D)
    (hY : Y.length = X.length) (hE : E.length = X.length)
    (hX : ∀ i, i + 1 < X.length → X.getD i 0 < X.getD (i + 1) 0)
    (hM : ∀ i, i < X.length → E.getD i 0 = 0)
    (cur c : Nat) (x y : D) (h : spline_point X Y E cur x = Except.ok (y, c)) :
    c + 1 < X.length ∧
    y = Y.getD c 0 + (Y.getD (c + 1) 0 - Y.getD c 0) *
      ((x - X.getD c 0) / (X.getD (c + 1) 0 - X.getD c 0)) := by
  unfold spline_point at h
  cases hs : spline_seek X x (X.length + 1) cur with
  | error e =>
    rw [hs] at h
    exact absurd h (by simp)
  | ok c1 =>
    rw [hs] at h
    simp only at h
    by_cases hc : c1 + 1 < X.length
    · have hpos : 0 < X.getD (c1 + 1) 0 - X.getD c1 0 := sub_pos.mpr (hX c1 hc)
      have hw : eval_width (X.getD (c1 + 1) 0) (X.getD c1 0) =
          X.getD (c1 + 1) 0 - X.getD c1 0 := by
        unfold eval_width
        simp only
        rw [if_neg (not_le.mpr hpos)]
      rw [rd_lt X (c1 + 1) 0 hc, rd_lt X c1 0 (by omega), rd_lt Y c1 0 (by omega),
        rd_lt Y (c1 + 1) 0 (by omega), rd_lt E c1 0 (by omega),
        rd_lt E (c1 + 1) 0 (by omega)] at h
      simp only at h
      rw [hw, if_neg (not_not.mpr hpos), hM c1 (by omega), hM (c1 + 1) hc] at h
      have h2 := Except.ok.inj h
      have hc2 : c1 = c := congrArg Prod.snd h2
      have hy := congrArg Prod.fst h2
      simp only at hy
      subst hc2
      refine ⟨hc, ?_⟩
      rw [← hy]
      exact spline_eval_algebra _ _ _ _ _ (ne_of_gt hpos)
    · rw [rd_ge X (c1 + 1) (by omega)] at h
      exact absurd h (by simp)

/-- **C34** (amended).  Natural cubic spline system: for strictly increasing
source nodes, at least three, on which no width is replaced (at every interior
node `i` both adjacent widths are at least `fabs(src_X[i]) * 1E-6`), the
second-derivative pass of `spline_gen` produces values `M` with
`M[0] = M[last] = 0` that satisfy, at every interior node `i`,
`(x_i - x_{i-1}) M[i-1] + 2 (x_{i+1} - x_{i-1}) M[i] + (x_{i+1} - x_i) M[i+1]
= 6 ((y_{i+1} - y_i)/(x_{i+1} - x_i) - (y_i - y_{i-1})/(x_i - x_{i-1}))`;
every pivot of the elimination exceeds 1.  For source values on a straight line
`M` is 0 everywhere, and every value that the evaluation stores is the linear
interpolation on the interval found. -/
theorem natural_spline_system (X Y : List D)
    (hn : 3 ≤ X.length) (hY : Y.length = X.length)
    (hX : ∀ i, i + 1 < X.length → X.getD i 0 < X.getD (i + 1) 0)
    (hE : ∀ i, 1 ≤ i → i + 1 < X.length →
      |X.getD i 0| * (1 / 1000000) ≤ X.getD i 0 - X.getD (i - 1) 0 ∧
      |X.getD i 0| * (1 / 1000000) ≤ X.getD (i + 1) 0 - X.getD i 0) :
    (spline_D2 X Y).length = X.length ∧
    (spline_D2 X Y).getD 0 0 = 0 ∧ (spline_D2 X Y).getD (X.length - 1) 0 = 0 ∧
    (∀ i, 1 ≤ i → i + 1 < X.length →
      (X.getD i 0 - X.getD (i - 1) 0) * (spline_D2 X Y).getD (i - 1) 0 +
        2 * (X.getD (i + 1) 0 - X.getD (i - 1) 0) * (spline_D2 X Y).getD i 0 +
        (X.getD (i + 1) 0 - X.getD i 0) * (spline_D2 X Y).getD (i + 1) 0 =
      6 * ((Y.getD (i + 1) 0 - Y.getD i 0) / (X.getD (i + 1) 0 - X.getD i 0) -
        (Y.getD i 0 - Y.getD (i - 1) 0) / (X.getD i 0 - X.getD (i - 1) 0))) ∧
    (∀ i, 1 ≤ i → i + 1 < X.length →
      1 < (spline_widths X i).1 / (spline_widths X i).2.1 * (spline_forward X Y (i - 1)).1 + 2) ∧
    (∀ m q : D, (∀ i, i < X.length → Y.getD i 0 = m * X.getD i 0 + q) →
      (∀ i, i < X.length → (spline_D2 X Y).getD i 0 = 0) ∧
      ∀ cur c x y, spline_point X Y (spline_D2 X Y) cur x = Except.ok (y, c) →
        c + 1 < X.length ∧
        y = Y.getD c 0 + (Y.getD (c + 1) 0 - Y.getD c 0) *
          ((x - X.getD c 0) / (X.getD (c + 1) 0 - X.getD c 0))) := by
  have hpiv : ∀ j, j + 2 < X.length →
      1 < (X.getD (j + 1) 0 - X.getD j 0) / (X.getD (j + 2) 0 - X.getD j 0) *
        (spline_forward X Y j).1 + 2 := by
    intro j hj
    obtain ⟨c1, c2⟩ := spline_coeff_range X Y hX hE j (by omega)
    have a0 : 0 < X.getD (j + 1) 0 - X.getD j 0 := sub_pos.mpr (hX j (by omega))
    have a2 : 0 < X.getD (j + 2) 0 - X.getD (j + 1) 0 := sub_pos.mpr (hX (j + 1) hj)
    have a1 : 0 < X.getD (j + 2) 0 - X.getD j 0 := by linarith
    have hh0 : 0 < (X.getD (j + 1) 0 - X.getD j 0) / (X.getD (j + 2) 0 - X.getD j 0) :=
      div_pos a0 a1
    have hh1 : (X.getD (j + 1) 0 - X.getD j 0) / (X.getD (j + 2) 0 - X.getD j 0) < 1 := by
      rw [div_lt_one a1]
      linarith
    generalize (X.getD (j + 1) 0 - X.getD j 0) / (X.getD (j + 2) 0 - X.getD j 0) = h at hh0 hh1
    generalize (spline_forward X Y j).1 = c at c1 c2
    have : h * (-1) < h * c := mul_lt_mul_of_pos_left c1 hh0
    linarith
  refine ⟨spline_D2_length X Y, (spline_D2_ends X Y (by omega)).1,
    (spline_D2_ends X Y (by omega)).2, ?_, ?_, ?_⟩
  · intro i hi1 hi
    obtain ⟨j, rfl⟩ : ∃ j, i = j + 1 := ⟨i - 1, by omega⟩
    obtain ⟨e0, e2⟩ := hE (j + 1) hi1 hi
    have s1 := spline_D2_step X Y (j + 1) hi
    have s0 := spline_D2_step X Y j (by omega)
    rw [spline_forward_succ X Y j e0 e2] at s1
    simp only at s1
    have a0 : 0 < X.getD (j + 1) 0 - X.getD j 0 := sub_pos.mpr (hX j (by omega))
    have a2 : 0 < X.getD (j + 2) 0 - X.getD (j + 1) 0 := sub_pos.mpr (hX (j + 1) hi)
    have a1 : X.getD (j + 2) 0 - X.getD j 0 ≠ 0 := by
      apply ne_of_gt
      linarith
    show (X.getD (j + 1) 0 - X.getD j 0) * (spline_D2 X Y).getD j 0 +
        2 * (X.getD (j + 2) 0 - X.getD j 0) * (spline_D2 X Y).getD (j + 1) 0 +
        (X.getD (j + 2) 0 - X.getD (j + 1) 0) * (spline_D2 X Y).getD (j + 2) 0 = _
    exact spline_node_algebra _ _ _ _ _ _ _ _ _ a1 (by ring) (ne_of_gt (lt_trans one_pos
      (hpiv j hi))) s1 s0
  · intro i hi1 hi
    obtain ⟨j, rfl⟩ : ∃ j, i = j + 1 := ⟨i - 1, by omega⟩
    obtain ⟨e0, e2⟩ := hE (j + 1) hi1 hi
    have w := spline_widths_plain X (j + 1) e0 e2
    rw [w]
    exact hpiv j hi
  · intro m q hlin
    have hu := spline_forward_linear X Y hX hE m q hlin
    have hz : ∀ i, i < X.length → (spline_D2 X Y).getD i 0 = 0 := by
      intro i hi
      rw [spline_D2_getD X Y i hi]
      exact spline_back_linear X Y hu _ (by omega)
    refine ⟨hz, fun cur c x y h => ?_⟩
    exact spline_point_linear X Y (spline_D2 X Y) hY (spline_D2_length X Y) hX hz cur c x y h

end resamplers

theorem nodes012_increasing : ∀ i, i + 1 < ([0, 1, 2] : List ℚ).length →
    ([0, 1, 2] : List ℚ).getD i 0 < ([0, 1, 2] : List ℚ).getD (i + 1) 0 := by
  intro i hi
  have hi2 : i + 1 < 3 := hi
  have : i = 0 ∨ i = 1 := by omega
  rcases this with e | e
  · subst e
    show (0 : ℚ) < 1
    norm_num
  · subst e
    show (1 : ℚ) < 2
    norm_num

/-- Witness for C34: the nodes 0, 1, 2 with the values 0, 1, 0. -/
theorem natural_spline_system_witness :
    (spline_D2 ([0, 1, 2] : List ℚ) [0, 1, 0]).getD 0 0 = 0 ∧
    (spline_D2 ([0, 1, 2] : List ℚ) [0, 1, 0]).getD (([0, 1, 2] : List ℚ).length - 1) 0 = 0 ∧
    1 < (spline_widths ([0, 1, 2] : List ℚ) 1).1 / (spline_widths ([0, 1, 2] : List ℚ) 1).2.1 *
      (spline_forward ([0, 1, 2] : List ℚ) [0, 1, 0] (1 - 1)).1 + 2 := by
  have hE : ∀ i, 1 ≤ i → i + 1 < ([0, 1, 2] : List ℚ).length →
      |([0, 1, 2] : List ℚ).getD i 0| * (1 / 1000000) ≤
        ([0, 1, 2] : List ℚ).getD i 0 - ([0, 1, 2] : List ℚ).getD (i - 1) 0 ∧
      |([0, 1, 2] : List ℚ).getD i 0| * (1 / 1000000) ≤
        ([0, 1, 2] : List ℚ).getD (i + 1) 0 - ([0, 1, 2] : List ℚ).getD i 0 := by
    intro i h1 hi
    have hi2 : i + 1 < 3 := hi
    have : i = 1 := by omega
    subst this
    show |(1 : ℚ)| * (1 / 1000000) ≤ 1 - 0 ∧ |(1 : ℚ)| * (1 / 1000000) ≤ 2 - 1
    rw [abs_one]
    norm_num
  have t := natural_spline_system ([0, 1, 2] : List ℚ) [0, 1, 0] (by decide) rfl
    nodes012_increasing hE
  exact ⟨t.2.1, t.2.2.1, t.2.2.2.2.1 1 (by decide) (by decide)⟩

/-- Counterexample to C34 as stated: the strictly increasing nodes 1999999,
2000000, 2000001 with the values 0, 1, 0.  At node 1 `epsilon` is 2, both
adjacent widths (1 and 1) are replaced by 2, and the pass produces
`M = [0, -3/2, 0]`, for which the left side of the equation is -6 and the right
side is -12. -/
theorem spline_replaced_widths :
    spline_D2 ([1999999, 2000000, 2000001] : List ℚ) [0, 1, 0] = [0, -3 / 2, 0] ∧
    (2000000 - 1999999 : ℚ) * 0 + 2 * (2000001 - 1999999) * (-3 / 2) + (2000001 - 2000000) * 0 ≠
      6 * ((0 - 1) / (2000001 - 2000000) - (1 - 0) / (2000000 - 1999999)) := by
  constructor
  · simp [spline_D2, spline_back, spline_forward, spline_widths, List.range_succ]
    norm_num [abs_lt]
  · norm_num

end Spline

/-! ## The data lines of the Touchstone reader -/

namespace SPARAMS
variable {D : Type}

section reader
variable [LinearOrder D] [Mul D] [NatCast D]

/-- The matrix that `read_SNP_file` leaves for a file that pass 1 reads to its
end, loaded for a positive number of ports, whose data lines are `pre` followed
by `rest`: `pre` is non-empty with non-decreasing frequencies inside the double
range, and `rest` is empty or starts with a line whose frequency is below that
of the last line of `pre`. -/
theorem read_SNP_file_prefix (S : Scanf D) (C : DoubleConsts D)
    (lines : List (List Char)) (file_ports : Int) (M0 : SPARAMS D) (st1 : ReadState D)
    (pre rest : List (List Char))
    (hports : 0 < file_ports)
    (hp1 : read_lines S C 1 lines (read_start C M0) = Except.ok (true, st1))
    (hdata : data_txts lines = pre ++ rest)
    (hne : pre ≠ [])
    (hsorted : List.Pairwise (fun x y => line_freq S C st1.hdr x ≤ line_freq S C st1.hdr y) pre)
    (hb : ∀ t ∈ pre, C.neg_DBL_MAX ≤ line_freq S C st1.hdr t ∧
      line_freq S C st1.hdr t ≤ C.DBL_MAX)
    (hx : rest = [] ∨ ∃ tx more, rest = tx :: more ∧
      line_freq S C st1.hdr tx < line_freq S C st1.hdr (pre.getLast hne)) :
    ∃ M1, read_SNP_file S C (some lines) file_ports M0 = Except.ok (true, M1) ∧
      M1.n_points = (pre.length : Int) ∧ M1.n_ports = file_ports ∧
      (∀ i, i < pre.length → M1.freq_Hz i = line_freq S C st1.hdr (pre.getD i [])) ∧
      M1.min_Hz = line_freq S C st1.hdr (pre.head hne) ∧
      M1.max_Hz = line_freq S C st1.hdr (pre.getLast hne) ∧
      M1.Zo = ⟨st1.hdr.file_R, C.zero⟩ ∧
      (∀ i, i < pre.length → ∀ b a, b < file_ports.toNat → a < file_ports.toNat →
        M1.valid b a i = st1.hdr.file_format ∧
        (st1.hdr.file_format = SNPTYPE.MA → M1.MA b a i =
          ⟨(line_pair S C file_ports (pre.getD i []) b a).1,
            (line_pair S C file_ports (pre.getD i []) b a).2⟩) ∧
        (st1.hdr.file_format = SNPTYPE.DB → M1.DB b a i =
          ⟨(line_pair S C file_ports (pre.getD i []) b a).1,
            (line_pair S C file_ports (pre.getD i []) b a).2⟩) ∧
        (st1.hdr.file_format = SNPTYPE.RI → M1.RI b a i =
          ⟨(line_pair S C file_ports (pre.getD i []) b a).1,
            (line_pair S C file_ports (pre.getD i []) b a).2⟩)) := by
  obtain ⟨a1, a2, a3, a4⟩ := read_lines_pass1 S C lines (read_start C M0) st1 hp1
  have hlen : 0 < pre.length := List.length_pos.mpr hne
  have hN : 0 < st1.file_points := by
    rw [a1, hdata, List.length_append]
    show (0 : Int) < 0 + _
    push_cast
    omega
  have hM : st1.M = init C (clear C M0) := a2
  have hpt : st1.pt = 0 := a3
  obtain ⟨M3, hM3⟩ : ∃ M3 : SPARAMS D, M3 = { st1.M with
      n_ports := file_ports
      n_points := st1.file_points
      freq_Hz := fun _ => C.zero
      valid := fun _ _ _ => 0
      MA := fun _ _ _ => ⟨C.zero, C.zero⟩
      DB := fun _ _ _ => ⟨C.zero, C.zero⟩
      RI := fun _ _ _ => ⟨C.zero, C.zero⟩
      CZ := fun _ _ _ => ⟨C.zero, C.zero⟩ } := ⟨_, rfl⟩
  have hal : alloc C file_ports st1.file_points st1.M = (true, M3) := by
    rw [hM3]
    exact alloc_fresh C file_ports st1.file_points st1.M (by rw [hM]; rfl) (by rw [hM]; rfl)
      hports hN
  have hl0 : loaded S C st1.hdr file_ports st1.file_points [] { st1 with M := M3 } :=
    loaded_start S C st1.hdr file_ports st1.file_points { st1 with M := M3 } rfl rfl hpt
      (by rw [hM3]) (by rw [hM3]) (fun _ => by rw [hM3])
      (by rw [hM3]; show st1.M.min_Hz = _; rw [hM]; rfl)
      (by rw [hM3]; show st1.M.max_Hz = _; rw [hM]; rfl)
  obtain ⟨stk, hr, hlk⟩ := run_data_pre S C st1.hdr file_ports st1.file_points rest
    pre [] { st1 with M := M3 } hl0 (by rw [List.nil_append]; exact hsorted) hb
  rw [List.nil_append] at hlk
  have hmaxk : stk.M.max_Hz = line_freq S C st1.hdr (pre.getLast hne) := by
    rw [hlk.2.2.2.2.2.2.2.1, getLast_map]
  have hmink : stk.M.min_Hz = line_freq S C st1.hdr (pre.head hne) := by
    rw [hlk.2.2.2.2.2.2.1, head_map]
  have h3 := read_lines_pass2 S C lines { st1 with M := M3 } a4 (ne_of_gt hN)
  rw [hdata, hr] at h3
  obtain ⟨e_hdr, e_fp, e_pt, e_np, e_npt, e_freq, -, -, e_cells⟩ := hlk
  rcases hx with hx | ⟨tx, more, hx, hlt⟩
  · subst hx
    have h4 : read_lines S C 2 lines { st1 with M := M3 } = Except.ok (true, stk) := h3
    refine ⟨_, read_SNP_file_eq S C lines file_ports M0 M3 st1 _ hp1 hal h4, ?_, ?_, ?_, ?_, ?_,
      ?_, ?_⟩
    · show stk.M.n_points = _
      rw [e_npt, a1, hdata, List.append_nil]
      show (0 : Int) + _ = _
      simp
    · exact e_np
    · intro i hi
      show stk.M.freq_Hz i = _
      rw [e_freq, getD_map_lt _ _ _ hi]
    · exact hmink
    · exact hmaxk
    · show (⟨stk.hdr.file_R, C.zero⟩ : COMPLEX_DOUBLE D) = _
      rw [e_hdr]
    · intro i hi b a hb2 ha2
      exact e_cells i hi b a hb2 ha2
  · subst hx
    have hstop := run_data_stop S C st1.hdr file_ports st1.file_points pre more tx stk
      ⟨e_hdr, e_fp, e_pt, e_np, e_npt, e_freq, by rw [hmink, head_map], by rw [hmaxk, getLast_map],
        e_cells⟩
      (by rw [hmaxk]; exact hlt)
    rw [hstop] at h3
    refine ⟨_, read_SNP_file_eq S C lines file_ports M0 M3 st1 _ hp1 hal h3, ?_, ?_, ?_, ?_, ?_,
      ?_, ?_⟩
    · show (stk.pt : Int) = _
      rw [e_pt]
    · exact e_np
    · intro i hi
      show (if i = stk.pt then _ else stk.M.freq_Hz i) = _
      rw [if_neg (by rw [e_pt]; omega), e_freq, getD_map_lt _ _ _ hi]
    · exact hmink
    · exact hmaxk
    · show (⟨stk.hdr.file_R, C.zero⟩ : COMPLEX_DOUBLE D) = _
      rw [e_hdr]
    · intro i hi b a hb2 ha2
      exact e_cells i hi b a hb2 ha2

end reader

end SPARAMS

namespace SPARAMS
variable {D : Type}

section reader
variable [LinearOrder D] [Mul D] [NatCast D]

/-- **C21** (amended).  Truncation condition.  Take a file that pass 1 reads to
its end, loaded for a positive number of ports, whose data lines are `pre`
followed by `rest`, where `pre` is non-empty with non-decreasing frequencies
(equal frequencies included) inside the double range, and `rest` is empty or
starts with a line whose frequency is lower than that of the last line of
`pre`, the running maximum.  Then `read_SNP_file` returns TRUE with exactly the
lines of `pre` loaded: a line is refused, and the dataset truncated to the
points read before it, only when its frequency is strictly lower than the
running maximum; a line that repeats the previous frequency is stored. -/
theorem truncation_condition (S : Scanf D) (C : DoubleConsts D)
    (lines : List (List Char)) (file_ports : Int) (M0 : SPARAMS D) (st1 : ReadState D)
    (pre rest : List (List Char))
    (hports : 0 < file_ports)
    (hp1 : read_lines S C 1 lines (read_start C M0) = Except.ok (true, st1))
    (hdata : data_txts lines = pre ++ rest)
    (hne : pre ≠ [])
    (hsorted : List.Pairwise (fun x y => line_freq S C st1.hdr x ≤ line_freq S C st1.hdr y) pre)
    (hb : ∀ t ∈ pre, C.neg_DBL_MAX ≤ line_freq S C st1.hdr t ∧
      line_freq S C st1.hdr t ≤ C.DBL_MAX)
    (hx : rest = [] ∨ ∃ tx more, rest = tx :: more ∧
      line_freq S C st1.hdr tx < line_freq S C st1.hdr (pre.getLast hne)) :
    ∃ M1, read_SNP_file S C (some lines) file_ports M0 = Except.ok (true, M1) ∧
      M1.n_points = (pre.length : Int) ∧
      (∀ i, i < pre.length → M1.freq_Hz i = line_freq S C st1.hdr (pre.getD i [])) ∧
      M1.max_Hz = line_freq S C st1.hdr (pre.getLast hne) := by
  obtain ⟨M1, h, n, -, f, -, mx, -⟩ := read_SNP_file_prefix S C lines file_ports M0 st1 pre rest
    hports hp1 hdata hne hsorted hb hx
  exact ⟨M1, h, n, f, mx⟩

end reader

theorem repeatFile_pass1 :
    read_lines digitScanf ratConsts 1 repeatFile (read_start ratConsts (construct ratConsts)) =
      Except.ok (true, { read_start ratConsts (construct ratConsts) with file_points := 2 }) := by
  rfl

theorem repeatFile_freq :
    line_freq digitScanf ratConsts (read_start ratConsts (construct ratConsts)).hdr
      ['1', ' ', '2', ' ', '3'] = 1000000000 ∧
    line_freq digitScanf ratConsts (read_start ratConsts (construct ratConsts)).hdr
      ['1', ' ', '4', ' ', '5'] = 1000000000 := by
  refine ⟨?_, ?_⟩ <;>
    (simp [line_freq, digitScanf, read_start, ratConsts, Char.isDigit]; try norm_num)

theorem repeatFile_loaded :
    ∃ M1, read_SNP_file digitScanf ratConsts (some repeatFile) 1 (construct ratConsts) =
        Except.ok (true, M1) ∧
      M1.n_points = 2 ∧ M1.freq_Hz 0 = 1000000000 ∧ M1.freq_Hz 1 = 1000000000 := by
  have f := repeatFile_freq
  have hne : repeatFile ≠ ([] : List (List Char)) := List.cons_ne_nil _ _
  obtain ⟨M1, h, n, -, fr, -⟩ :=
    read_SNP_file_prefix digitScanf ratConsts repeatFile 1 (construct ratConsts)
      { read_start ratConsts (construct ratConsts) with file_points := 2 }
      repeatFile [] (by decide) repeatFile_pass1 rfl hne
      (List.Pairwise.cons
        (fun y hy => by
          rw [List.mem_singleton.mp hy]
          exact le_of_eq_of_le f.1 (le_of_eq f.2.symm))
        (List.Pairwise.cons (fun _ hy => absurd hy (List.not_mem_nil _)) List.Pairwise.nil))
      (fun t ht => by
        rcases List.mem_cons.mp ht with e | e
        · rw [e]
          exact ratConsts_bounds _ (le_of_le_of_eq (by norm_num) f.1.symm)
            (le_of_eq_of_le f.1 (by norm_num))
        · rw [List.mem_singleton.mp e]
          exact ratConsts_bounds _ (le_of_le_of_eq (by norm_num) f.2.symm)
            (le_of_eq_of_le f.2 (by norm_num)))
      (Or.inl rfl)
  exact ⟨M1, h, n, (fr 0 (by decide)).trans f.1, (fr 1 (by decide)).trans f.2⟩

/-- Witness for C21: the file with the frequencies 1, 2, 1 GHz keeps its first
two lines. -/
theorem truncation_condition_witness :
    ∃ M1, read_SNP_file digitScanf ratConsts (some decreasingFile) 1 (construct ratConsts) =
        Except.ok (true, M1) ∧
      M1.n_points = 2 ∧ M1.max_Hz = 2000000000 := by
  have f := decreasingFile_freq
  have hne : [['1', ' ', '2', ' ', '3'], ['2', ' ', '4', ' ', '5']] ≠ ([] : List (List Char)) :=
    List.cons_ne_nil _ _
  obtain ⟨M1, h, n, -, mx⟩ :=
    truncation_condition digitScanf ratConsts decreasingFile 1 (construct ratConsts)
      { read_start ratConsts (construct ratConsts) with file_points := 3 }
      [['1', ' ', '2', ' ', '3'], ['2', ' ', '4', ' ', '5']] [['1', ' ', '6', ' ', '7']]
      (by decide) decreasingFile_pass1 decreasingFile_data hne
      (List.Pairwise.cons
        (fun y hy => by
          rw [List.mem_singleton.mp hy]
          exact le_of_eq_of_le f.1 (le_of_le_of_eq (by norm_num) f.2.1.symm))
        (List.Pairwise.cons (fun _ hy => absurd hy (List.not_mem_nil _)) List.Pairwise.nil))
      (fun t ht => by
        rcases List.mem_cons.mp ht with e | e
        · rw [e]
          exact ratConsts_bounds _ (le_of_le_of_eq (by norm_num) f.1.symm)
            (le_of_eq_of_le f.1 (by norm_num))
        · rw [List.mem_singleton.mp e]
          exact ratConsts_bounds _ (le_of_le_of_eq (by norm_num) f.2.1.symm)
            (le_of_eq_of_le f.2.1 (by norm_num)))
      (Or.inr ⟨_, _, rfl, lt_of_eq_of_lt f.2.2 (lt_of_lt_of_eq (by norm_num) f.2.1.symm)⟩)
  exact ⟨M1, h, n, mx.trans f.2.1⟩

/-- Counterexample to C21 as stated: a file whose second data line repeats the
frequency of the first.  The line does not end the dataset: both points are
loaded, at the same frequency. -/
theorem repeated_frequency_is_kept :
    ∃ M1, read_SNP_file digitScanf ratConsts (some repeatFile) 1 (construct ratConsts) =
        Except.ok (true, M1) ∧
      M1.n_points = 2 ∧ M1.freq_Hz 0 = 1000000000 ∧ M1.freq_Hz 1 = 1000000000 :=
  repeatFile_loaded

end SPARAMS

namespace SPARAMS
variable {D : Type}

section reader
variable [LinearOrder D] [Mul D] [NatCast D]

end reader

end SPARAMS

namespace SPARAMS

end SPARAMS

namespace SPARAMS

end SPARAMS

/-! ## Cell order and the option line of writer and reader -/

namespace SPARAMS
variable {D : Type}

section reader
variable [LinearOrder D] [Mul D]

end reader

end SPARAMS

namespace SPARAMS
variable {D : Type}

section writer
variable [LinearOrderedField D]

end writer

end SPARAMS

/-! ## The grammar of the option line -/

namespace SPARAMS
variable {D : Type}

theorem isspace_cases (c : Char) (h : isspace c = true) :
    c = ' ' ∨ c = '\t' ∨ c = '\n' ∨ c = Char.ofNat 11 ∨ c = Char.ofNat 12 ∨ c = '\r' := by
  unfold isspace at h
  have h2 := of_decide_eq_true h
  have e : Char.ofNat c.toNat = c := Char.ofNat_toNat c
  rcases h2 with h2 | ⟨h3, h4⟩
  · left; rw [← e, h2]
  · have : c.toNat = 9 ∨ c.toNat = 10 ∨ c.toNat = 11 ∨ c.toNat = 12 ∨ c.toNat = 13 := by omega
    rcases this with k | k | k | k | k
    · right; left; rw [← e, k]
    · right; right; left; rw [← e, k]
    · right; right; right; left; rw [← e, k]
    · right; right; right; right; left; rw [← e, k]
    · right; right; right; right; right; rw [← e, k]

section reader
variable [NatCast D]

/-- A blank is passed over. -/
theorem option_loop_blank (S : Scanf D) (c : Char) (hc : isspace c = true) (fuel : Nat)
    (cs : List Char) (h : SNPHeader D) :
    option_loop S (fuel + 1) (c :: cs) h = option_loop S fuel cs h := by
  rcases isspace_cases c hc with e | e | e | e | e | e <;> subst e <;>
    simp [option_loop, strnicmp_eq]

theorem option_loop_blanks (S : Scanf D) :
    ∀ (ws : List Char), (∀ c ∈ ws, isspace c = true) → ∀ (fuel : Nat) (cs : List Char)
      (h : SNPHeader D),
      option_loop S (fuel + ws.length) (ws ++ cs) h = option_loop S fuel cs h := by
  intro ws
  induction ws with
  | nil => intro _ fuel cs h; rfl
  | cons c ws ih =>
    intro hw fuel cs h
    show option_loop S (fuel + ws.length + 1) (c :: (ws ++ cs)) h = _
    rw [option_loop_blank S c (hw c (List.mem_cons_self _ _))]
    exact ih (fun x hx => hw x (List.mem_cons_of_mem _ hx)) fuel cs h

/-- A token other than an `R` pair is recognised whatever follows it. -/
theorem option_loop_token (S : Scanf D) (t : OptTok D) (fuel : Nat) (rest : List Char)
    (h : SNPHeader D) (ht : t.resistance = none) :
    option_loop S (fuel + 1) (t.text ++ rest) h = option_loop S fuel rest (OptTok.apply h t) := by
  cases t with
  | R num v => exact absurd ht (by simp [OptTok.resistance, OptTok.isS])
  | HZ => simp [option_loop, strnicmp_eq, OptTok.text, OptTok.apply, OptTok.scale, OptTok.format,
      OptTok.resistance, OptTok.isS]
  | KHZ => simp [option_loop, strnicmp_eq, OptTok.text, OptTok.apply, OptTok.scale, OptTok.format,
      OptTok.resistance, OptTok.isS]
  | MHZ => simp [option_loop, strnicmp_eq, OptTok.text, OptTok.apply, OptTok.scale, OptTok.format,
      OptTok.resistance, OptTok.isS]
  | GHZ => simp [option_loop, strnicmp_eq, OptTok.text, OptTok.apply, OptTok.scale, OptTok.format,
      OptTok.resistance, OptTok.isS]
  | S => simp [option_loop, strnicmp_eq, OptTok.text, OptTok.apply, OptTok.scale, OptTok.format,
      OptTok.resistance, OptTok.isS]
  | MA => simp [option_loop, strnicmp_eq, OptTok.text, OptTok.apply, OptTok.scale, OptTok.format,
      OptTok.resistance, OptTok.isS]
  | DB => simp [option_loop, strnicmp_eq, OptTok.text, OptTok.apply, OptTok.scale, OptTok.format,
      OptTok.resistance, OptTok.isS]
  | RI => simp [option_loop, strnicmp_eq, OptTok.text, OptTok.apply, OptTok.scale, OptTok.format,
      OptTok.resistance, OptTok.isS]

/-- An `R` pair whose number `sscanf` converts is recognised. -/
theorem option_loop_R (S : Scanf D) (num : List Char) (v : D) (fuel : Nat) (rest : List Char)
    (h : SNPHeader D)
    (hR : S.R_number ('R' :: ' ' :: (num ++ rest)) = some (v, 2 + num.length)) :
    option_loop S (fuel + 1) ((OptTok.R num v).text ++ rest) h =
      option_loop S fuel rest (OptTok.apply h (OptTok.R num v)) := by
  have hd : List.drop (2 + num.length) ('R' :: ' ' :: (num ++ rest)) = rest := by
    rw [show 2 + num.length = num.length + 2 from Nat.add_comm _ _]
    show List.drop num.length (num ++ rest) = rest
    exact List.drop_left _ _
  have hl : ¬ (2 + num.length = 0) := by omega
  show option_loop S (fuel + 1) ('R' :: ' ' :: (num ++ rest)) h = _
  simp only [option_loop, strnicmp_eq, hR]
  simp [hd, hl, OptTok.apply, OptTok.scale, OptTok.format, OptTok.resistance, OptTok.isS]

end reader

end SPARAMS

namespace SPARAMS
variable {D : Type}

theorem OptTok.text_length_pos (t : OptTok D) : 0 < t.text.length := by
  cases t <;> simp [OptTok.text]

theorem option_text_cons (sep : List Char) (t : OptTok D) (items : List (List Char × OptTok D))
    (tail : List Char) :
    option_text ((sep, t) :: items) tail = sep ++ (t.text ++ option_text items tail) := by
  unfold option_text
  simp [List.flatMap_cons, List.append_assoc]

theorem findSome_none_of_filter {α : Type} (g : OptTok D → Option α) :
    ∀ items : List (List Char × OptTok D),
      (items.filter (fun it => (g it.2).isSome)) = [] →
      items.findSome? (fun it => g it.2) = none := by
  intro items
  induction items with
  | nil => intro _; rfl
  | cons it rest ih =>
    intro hf
    cases hg : g it.2 with
    | none =>
      have e : (it :: rest).filter (fun it => (g it.2).isSome) =
          rest.filter (fun it => (g it.2).isSome) := by
        rw [List.filter_cons]
        simp [hg]
      rw [e] at hf
      rw [List.findSome?_cons, hg]
      exact ih hf
    | some s =>
      have e : (it :: rest).filter (fun it => (g it.2).isSome) =
          it :: rest.filter (fun it => (g it.2).isSome) := by
        rw [List.filter_cons]
        simp [hg]
      rw [e] at hf
      exact absurd hf (List.cons_ne_nil _ _)

/-- The text that follows a token is empty or starts with a blank. -/
theorem option_text_starts_blank (items : List (List Char × OptTok D)) (tail : List Char)
    (hsep : ∀ it ∈ items, it.1 ≠ [] ∧ ∀ c ∈ it.1, isspace c = true)
    (htail : ∀ c ∈ tail, isspace c = true) :
    option_text items tail = [] ∨
      ∃ c cs, option_text items tail = c :: cs ∧ isspace c = true := by
  cases items with
  | nil =>
    cases tail with
    | nil => exact Or.inl rfl
    | cons c cs => exact Or.inr ⟨c, cs, rfl, htail c (List.mem_cons_self _ _)⟩
  | cons it rest =>
    obtain ⟨sep, t⟩ := it
    obtain ⟨hne, hws⟩ := hsep (sep, t) (List.mem_cons_self _ _)
    cases sep with
    | nil => exact absurd rfl hne
    | cons c cs =>
      refine Or.inr ⟨c, cs ++ (t.text ++ option_text rest tail), ?_, hws c (List.mem_cons_self _ _)⟩
      rw [option_text_cons]
      rfl

section reader
variable [NatCast D]

/-- The scan of a line made of tokens: the tokens are applied in order. -/
theorem option_loop_items (S : Scanf D) (tail : List Char)
    (htail : ∀ c ∈ tail, isspace c = true) :
    ∀ (items : List (List Char × OptTok D)),
      (∀ it ∈ items, it.1 ≠ [] ∧ ∀ c ∈ it.1, isspace c = true) →
      (∀ sep num v rest, (sep, OptTok.R num v) ∈ items →
        (rest = [] ∨ ∃ c cs, rest = c :: cs ∧ isspace c = true) →
        S.R_number ('R' :: ' ' :: (num ++ rest)) = some (v, 2 + num.length)) →
      ∀ (h : SNPHeader D) (fuel : Nat), (option_text items tail).length < fuel →
        option_loop S fuel (option_text items tail) h =
          some (items.foldl (fun h it => OptTok.apply h it.2) h) := by
  intro items
  induction items with
  | nil =>
    intro _ _ h fuel hf
    have e : option_text ([] : List (List Char × OptTok D)) tail = tail ++ [] := by
      unfold option_text
      simp
    rw [e] at hf ⊢
    obtain ⟨f, rfl⟩ : ∃ f, fuel = (f + 1) + tail.length :=
      ⟨fuel - tail.length - 1, by simp at hf; omega⟩
    rw [option_loop_blanks S tail htail]
    rfl
  | cons it rest ih =>
    intro hsep hR h fuel hf
    obtain ⟨sep, t⟩ := it
    have hs := hsep (sep, t) (List.mem_cons_self _ _)
    have hsep2 : ∀ it ∈ rest, it.1 ≠ [] ∧ ∀ c ∈ it.1, isspace c = true :=
      fun it hi => hsep it (List.mem_cons_of_mem _ hi)
    have hR2 : ∀ sep num v rest2, (sep, OptTok.R num v) ∈ rest →
        (rest2 = [] ∨ ∃ c cs, rest2 = c :: cs ∧ isspace c = true) →
        S.R_number ('R' :: ' ' :: (num ++ rest2)) = some (v, 2 + num.length) :=
      fun sep num v rest2 hm => hR sep num v rest2 (List.mem_cons_of_mem _ hm)
    rw [option_text_cons] at hf ⊢
    have hlen := OptTok.text_length_pos t
    simp only [List.length_append] at hf
    obtain ⟨f, rfl⟩ : ∃ f, fuel = (f + 1) + sep.length :=
      ⟨fuel - sep.length - 1, by omega⟩
    rw [option_loop_blanks S sep hs.2]
    have step : option_loop S (f + 1) (t.text ++ option_text rest tail) h =
        option_loop S f (option_text rest tail) (OptTok.apply h t) := by
      cases hr : t.resistance with
      | none => exact option_loop_token S t f _ h hr
      | some v0 =>
        cases t with
        | R num v =>
          exact option_loop_R S num v f _ h
            (hR sep num v _ (List.mem_cons_self _ _)
              (option_text_starts_blank rest tail hsep2 htail))
        | HZ => exact absurd hr (by simp [OptTok.resistance])
        | KHZ => exact absurd hr (by simp [OptTok.resistance])
        | MHZ => exact absurd hr (by simp [OptTok.resistance])
        | GHZ => exact absurd hr (by simp [OptTok.resistance])
        | S => exact absurd hr (by simp [OptTok.resistance])
        | MA => exact absurd hr (by simp [OptTok.resistance])
        | DB => exact absurd hr (by simp [OptTok.resistance])
        | RI => exact absurd hr (by simp [OptTok.resistance])
    rw [step, ih hsep2 hR2 (OptTok.apply h t) f (by omega)]
    rfl

/-- With at most one token that gives a value, the value after all tokens is
the one given, or the one before the line. -/
theorem foldl_apply_first {α : Type} (g : OptTok D → Option α) (get : SNPHeader D → α)
    (hP : ∀ h t, get (OptTok.apply h t) = (g t).getD (get h)) :
    ∀ (items : List (List Char × OptTok D)) (h : SNPHeader D),
      (items.filter (fun it => (g it.2).isSome)).length ≤ 1 →
      get (items.foldl (fun h it => OptTok.apply h it.2) h) =
        (items.findSome? (fun it => g it.2)).getD (get h) := by
  intro items
  induction items with
  | nil => intro h _; rfl
  | cons it rest ih =>
    intro h hl
    rw [List.foldl_cons, List.findSome?_cons]
    cases hg : g it.2 with
    | none =>
      have e : (it :: rest).filter (fun it => (g it.2).isSome) =
          rest.filter (fun it => (g it.2).isSome) := by
        rw [List.filter_cons]
        simp [hg]
      rw [e] at hl
      simp only
      rw [ih (OptTok.apply h it.2) hl, hP, hg]
      rfl
    | some s =>
      have e : (it :: rest).filter (fun it => (g it.2).isSome) =
          it :: rest.filter (fun it => (g it.2).isSome) := by
        rw [List.filter_cons]
        simp [hg]
      rw [e, List.length_cons] at hl
      have hnil : rest.filter (fun it => (g it.2).isSome) = [] :=
        List.length_eq_zero.mp (by omega)
      simp only
      rw [ih (OptTok.apply h it.2) (by rw [hnil]; exact Nat.zero_le _),
        findSome_none_of_filter g rest hnil, hP, hg]
      rfl

theorem foldl_apply_param :
    ∀ (items : List (List Char × OptTok D)) (h : SNPHeader D),
      (items.foldl (fun h it => OptTok.apply h it.2) h).file_param =
        if items.any (fun it => it.2.isS) then 'S' else h.file_param := by
  intro items
  induction items with
  | nil => intro h; rfl
  | cons it rest ih =>
    intro h
    rw [List.foldl_cons, ih, List.any_cons]
    show (if rest.any (fun it => it.2.isS) = true then 'S'
      else if it.2.isS = true then 'S' else h.file_param) = _
    cases it.2.isS <;> cases rest.any (fun it => it.2.isS) <;> rfl

theorem foldl_apply_declared (items : List (List Char × OptTok D)) (h : SNPHeader D)
    (hone : at_most_one items) :
    items.foldl (fun h it => OptTok.apply h it.2) h = declared items h := by
  have a := foldl_apply_first OptTok.scale SNPHeader.file_scale (fun _ _ => rfl) items h hone.1
  have b := foldl_apply_first OptTok.format SNPHeader.file_format (fun _ _ => rfl) items h
    hone.2.1
  have c := foldl_apply_first OptTok.resistance SNPHeader.file_R (fun _ _ => rfl) items h
    hone.2.2
  have d := foldl_apply_param items h
  cases hf : items.foldl (fun h it => OptTok.apply h it.2) h with
  | mk s p f r =>
    rw [hf] at a b c d
    simp only at a b c d
    unfold declared
    rw [← a, ← b, ← c, ← d]

end reader

end SPARAMS

namespace SPARAMS
variable {D : Type}

section reader
variable [LinearOrder D] [Mul D] [NatCast D]

/-- **C22** (amended).  Option-line grammar.  Take a line that the reader strips
to a text starting with `#` whose upper-case form, after the `#`, is made of
tokens, each preceded by at least one blank character, and blanks at the end:
the tokens are frequency units (HZ, KHZ, MHZ, GHZ), the parameter type S,
encodings (MA, DB, RI) and `R` pairs written as the letter R, a space and a
number that `sscanf` converts; there is at most one unit, one encoding and one
`R` pair.  Then the scan of the line ends with the scale of the unit given
(1, 1e3, 1e6, 1e9), the encoding given and the resistance given, each left at
its earlier value (the defaults 1e9, MA, 50 for the first option line) when the
line does not give it, and with the parameter type `S`; read as the only line
of a file in pass 1, the line is not rejected. -/
theorem option_line_grammar (S : Scanf D) (C : DoubleConsts D) (M0 : SPARAMS D)
    (linbuf txt : List Char)
    (items : List (List Char × OptTok D)) (tail : List Char)
    (hstrip : strip linbuf = some txt) (hhead : txt.head? = some '#')
    (htxt : (txt.map Char.toUpper).drop 1 = option_text items tail)
    (hsep : ∀ it ∈ items, it.1 ≠ [] ∧ ∀ c ∈ it.1, isspace c = true)
    (htail : ∀ c ∈ tail, isspace c = true)
    (hR : ∀ sep num v rest, (sep, OptTok.R num v) ∈ items →
      (rest = [] ∨ ∃ c cs, rest = c :: cs ∧ isspace c = true) →
      S.R_number ('R' :: ' ' :: (num ++ rest)) = some (v, 2 + num.length))
    (hone : at_most_one items) :
    (∀ h : SNPHeader D,
      option_loop S (txt.length + 1) ((txt.map Char.toUpper).drop 1) h =
        some (declared items h)) ∧
    (declared items (read_start C M0).hdr).file_scale =
      (items.findSome? (fun it => it.2.scale)).getD ((1000000000 : Nat) : D) ∧
    (declared items (read_start C M0).hdr).file_format =
      (items.findSome? (fun it => it.2.format)).getD SNPTYPE.MA ∧
    (declared items (read_start C M0).hdr).file_R =
      (items.findSome? (fun it => it.2.resistance)).getD C.fifty ∧
    (declared items (read_start C M0).hdr).file_param = 'S' ∧
    read_lines S C 1 [linbuf] (read_start C M0) =
      Except.ok (true, { read_start C M0 with hdr := declared items (read_start C M0).hdr }) := by
  have hloop : ∀ h : SNPHeader D,
      option_loop S (txt.length + 1) ((txt.map Char.toUpper).drop 1) h =
        some (declared items h) := by
    intro h
    have hl : (option_text items tail).length < txt.length + 1 := by
      rw [← htxt, List.length_drop, List.length_map]
      omega
    rw [htxt, option_loop_items S tail htail items hsep hR h _ hl,
      foldl_apply_declared items h hone]
  have hparam : (declared items (read_start C M0).hdr).file_param = 'S' := by
    show (if items.any (fun it => it.2.isS) then 'S' else 'S') = 'S'
    split <;> rfl
  refine ⟨hloop, rfl, rfl, rfl, hparam, ?_⟩
  have hne : txt.head? ≠ some '[' := by
    rw [hhead]
    decide
  rw [read_lines, hstrip]
  simp only
  rw [if_neg hne, if_pos hhead, if_pos (show (read_start C M0).file_points = 0 from rfl), hloop]
  simp only
  rw [if_neg (not_not.mpr hparam)]
  rfl

end reader

theorem decimalScanf_R50 (rest : List Char)
    (hr : rest = [] ∨ ∃ c cs, rest = c :: cs ∧ isspace c = true) :
    decimalScanf.R_number ('R' :: ' ' :: (['5', '0'] ++ rest)) =
      some ((50 : ℚ), 2 + (['5', '0'] : List Char).length) := by
  have e : ((50 : Nat) : ℚ) / 10 ^ 0 = 50 := by norm_num
  rcases hr with hr | ⟨c, cs, hr, hc⟩
  · subst hr
    show some (((50 : Nat) : ℚ) / 10 ^ 0, 3 + 1) = _
    rw [e]
    rfl
  · subst hr
    have hd : scan_digits (c :: cs) 50 = (50, 0, c :: cs) := by
      rcases isspace_cases c hc with k | k | k | k | k | k <;> subst k <;> rfl
    have hdot : c ≠ '.' := by
      rcases isspace_cases c hc with k | k | k | k | k | k <;> subst k <;> decide
    have h1 : scan_digits (List.dropWhile isspace (' ' :: ['5', '0'] ++ c :: cs)) 0 =
        (50, 2, c :: cs) := by
      show (((scan_digits (c :: cs) 50).1, (scan_digits (c :: cs) 50).2.1 + 1 + 1,
        (scan_digits (c :: cs) 50).2.2) : Nat × Nat × List Char) = _
      rw [hd]
    have h2 : scan_decimal (' ' :: ['5', '0'] ++ c :: cs) = some (50, 0, 1 + 2, c :: cs) := by
      unfold scan_decimal
      rw [h1]
      simp only
      rw [if_neg (by decide)]
      split
      · rename_i heq
        exact absurd (List.cons.inj heq).1 hdot
      · rfl
    show (match scan_decimal (' ' :: ['5', '0'] ++ c :: cs) with
      | none => none
      | some (m, d, len, _) => some (((m : Nat) : ℚ) / 10 ^ d, len + 1)) = _
    rw [h2]
    show some (((50 : Nat) : ℚ) / 10 ^ 0, 1 + 2 + 1) = _
    rw [e]
    rfl

/-- Witness for C22: the line `# ghz s ri r 50`. -/
theorem option_line_grammar_witness :
    option_loop decimalScanf 16
      [' ', 'G', 'H', 'Z', ' ', 'S', ' ', 'R', 'I', ' ', 'R', ' ', '5', '0']
      (read_start ratConsts (construct ratConsts)).hdr =
        some ⟨((1000000000 : Nat) : ℚ), 'S', SNPTYPE.RI, 50⟩ ∧
    read_lines decimalScanf ratConsts 1
      [['#', ' ', 'g', 'h', 'z', ' ', 's', ' ', 'r', 'i', ' ', 'r', ' ', '5', '0', '\n']]
      (read_start ratConsts (construct ratConsts)) =
      Except.ok (true, { read_start ratConsts (construct ratConsts) with
        hdr := ⟨((1000000000 : Nat) : ℚ), 'S', SNPTYPE.RI, 50⟩ }) := by
  have t := option_line_grammar decimalScanf ratConsts (construct ratConsts)
    ['#', ' ', 'g', 'h', 'z', ' ', 's', ' ', 'r', 'i', ' ', 'r', ' ', '5', '0', '\n']
    ['#', ' ', 'g', 'h', 'z', ' ', 's', ' ', 'r', 'i', ' ', 'r', ' ', '5', '0']
    [([' '], OptTok.GHZ), ([' '], OptTok.S), ([' '], OptTok.RI), ([' '], OptTok.R ['5', '0'] 50)]
    [] (by rfl) (by rfl) (by rfl)
    (by
      intro it hit
      simp only [List.mem_cons, List.mem_singleton, List.not_mem_nil, or_false] at hit
      rcases hit with e | e | e | e <;> subst e <;>
        exact ⟨List.cons_ne_nil _ _, fun c hc => by rw [List.mem_singleton.mp hc]; rfl⟩)
    (fun c hc => absurd hc (List.not_mem_nil _))
    (by
      intro sep num v rest hm hr
      simp only [List.mem_cons, List.mem_singleton, List.not_mem_nil, or_false,
        Prod.mk.injEq, reduceCtorEq, and_false, false_or, OptTok.R.injEq] at hm
      obtain ⟨-, e1, e2⟩ := hm
      subst e1
      subst e2
      exact decimalScanf_R50 rest hr)
    (by
      unfold at_most_one
      refine ⟨?_, ?_, ?_⟩ <;> simp [OptTok.scale, OptTok.format, OptTok.resistance])
  refine ⟨?_, ?_⟩
  · exact t.1 _
  · exact t.2.2.2.2.2

/-- Counterexample to C22 as stated: the option line `# R<tab>7`, an `R` and a
number separated by a tab.  `sscanf` would convert the number 7 from `R<tab>7`,
but the scan tests for the letter R followed by a space, takes neither `R` nor
`7` for a keyword, and leaves the resistance at 50. -/
theorem option_R_tab_ignored :
    isspace '\t' = true ∧
    digitScanf.R_number ['R', '\t', '7'] = some (7, 3) ∧
    option_loop digitScanf 5 [' ', 'R', '\t', '7'] ⟨1000000000, 'S', SNPTYPE.MA, 50⟩ =
      some ⟨1000000000, 'S', SNPTYPE.MA, 50⟩ := by
  refine ⟨rfl, ?_, rfl⟩
  show some ((((55 - 48 : Nat) : Nat) : ℚ), 3) = some (7, 3)
  norm_num

end SPARAMS

/-! ## Hard failures of the Touchstone reader -/

namespace SPARAMS
variable {D : Type}

section reader
variable [LinearOrder D] [Mul D] [NatCast D]

/-- Pass 1 does not touch the matrix, whatever it returns. -/
theorem read_lines_pass1_M (S : Scanf D) (C : DoubleConsts D) :
    ∀ (lines : List (List Char)) (st : ReadState D) (r : Bool × ReadState D),
      read_lines S C 1 lines st = Except.ok r → r.2.M = st.M := by
  intro lines
  induction lines with
  | nil =>
    intro st r h
    have e : (true, st) = r := Except.ok.inj h
    rw [← e]
  | cons l rest ih =>
    intro st r h
    rw [read_lines] at h
    cases hs : strip l with
    | none =>
      rw [hs] at h
      exact ih st r h
    | some txt =>
      rw [hs] at h
      simp only at h
      by_cases h1 : txt.head? = some '['
      · rw [if_pos h1] at h
        have e : (false, st) = r := Except.ok.inj h
        rw [← e]
      · rw [if_neg h1] at h
        by_cases h2 : txt.head? = some '#'
        · rw [if_pos h2] at h
          by_cases h3 : st.file_points = 0
          · rw [if_pos h3] at h
            cases ho : option_loop S (txt.length + 1) ((txt.map Char.toUpper).drop 1) st.hdr with
            | none =>
              rw [ho] at h
              exact absurd h (by simp)
            | some hdr =>
              rw [ho] at h
              simp only at h
              by_cases h4 : hdr.file_param ≠ 'S'
              · rw [if_pos h4] at h
                have e := Except.ok.inj h
                rw [← e]
              · rw [if_neg h4] at h
                exact ih { st with hdr := hdr } r h
          · rw [if_neg h3] at h
            exact ih st r h
        · rw [if_neg h2, if_true] at h
          exact ih { st with file_points := st.file_points + 1 } r h

/-- Pass 1 returns when the option-line loops end. -/
theorem read_lines_pass1_returns (S : Scanf D) (C : DoubleConsts D) :
    ∀ (lines : List (List Char)), scans S lines → ∀ (st : ReadState D),
      ∃ r, read_lines S C 1 lines st = Except.ok r := by
  intro lines
  induction lines with
  | nil => intro _ st; exact ⟨_, rfl⟩
  | cons l rest ih =>
    intro hsc st
    have hsc2 : scans S rest := fun l1 h1 => hsc l1 (List.mem_cons_of_mem _ h1)
    rw [read_lines]
    cases hs : strip l with
    | none => exact ih hsc2 st
    | some txt =>
      simp only
      by_cases h1 : txt.head? = some '['
      · rw [if_pos h1]
        exact ⟨_, rfl⟩
      · rw [if_neg h1]
        by_cases h2 : txt.head? = some '#'
        · rw [if_pos h2]
          by_cases h3 : st.file_points = 0
          · rw [if_pos h3]
            cases ho : option_loop S (txt.length + 1) ((txt.map Char.toUpper).drop 1) st.hdr with
            | none => exact absurd ho (hsc l (List.mem_cons_self _ _) txt hs st.hdr)
            | some hdr =>
              simp only
              by_cases h4 : hdr.file_param ≠ 'S'
              · rw [if_pos h4]
                exact ⟨_, rfl⟩
              · rw [if_neg h4]
                exact ih hsc2 _
          · rw [if_neg h3]
            exact ih hsc2 _
        · rw [if_neg h2, if_true]
          exact ih hsc2 _

/-- Leading lines that are skipped do not change the pass. -/
theorem read_lines_skip (S : Scanf D) (C : DoubleConsts D) (pass : Nat) :
    ∀ (pre rest : List (List Char)) (st : ReadState D), (∀ p ∈ pre, strip p = none) →
      read_lines S C pass (pre ++ rest) st = read_lines S C pass rest st := by
  intro pre
  induction pre with
  | nil => intro rest st _; rfl
  | cons p pre ih =>
    intro rest st hp
    rw [List.cons_append, read_lines, hp p (List.mem_cons_self _ _)]
    exact ih rest st (fun q hq => hp q (List.mem_cons_of_mem _ hq))

/-- A call of `read_SNP_file` whose pass 1 returns FALSE, or returns TRUE with
no data line counted, returns FALSE with the matrix empty. -/
theorem read_SNP_file_fails (S : Scanf D) (C : DoubleConsts D) (lines : List (List Char))
    (file_ports : Int) (M0 : SPARAMS D) (b : Bool) (st1 : ReadState D)
    (h1 : read_lines S C 1 lines (read_start C M0) = Except.ok (b, st1))
    (hb : b = false ∨ data_txts lines = []) :
    read_SNP_file S C (some lines) file_ports M0 = Except.ok (false, init C (clear C M0)) := by
  have hM : st1.M = init C (clear C M0) := read_lines_pass1_M S C lines _ _ h1
  unfold read_start at h1
  unfold read_SNP_file
  simp only
  rw [h1]
  cases b with
  | false =>
    simp only
    rw [hM]
  | true =>
    simp only
    have hd : data_txts lines = [] := by
      rcases hb with e | e
      · exact absurd e (by decide)
      · exact e
    obtain ⟨a1, -, -, -⟩ := read_lines_pass1 S C lines _ st1 h1
    have hfp : st1.file_points = 0 := by
      rw [a1, hd]
      rfl
    have ha : alloc C file_ports st1.file_points st1.M = (false, st1.M) := by
      unfold alloc
      rw [if_pos (Or.inl hfp)]
    rw [ha]
    simp only
    rw [hM]

/-- **C24**.  Hard parse failures.  On a file on which the option-line loops
end, `read_SNP_file` returns FALSE and leaves the matrix as `clear()` and
`init()` leave it, with `n_ports = n_points = 0`, whatever it held before, when
the file has a line whose first non-blank character is `[`, when it has no data
line, and when its first line that is not skipped is an option line that
leaves a parameter type other than `S`.  On the file whose option line is
`# R X`, followed by a Touchstone 2.0 keyword line, the option-line loop does
not end and `read_SNP_file` returns nothing. -/
theorem hard_parse_failures (S : Scanf D) (C : DoubleConsts D) (lines : List (List Char))
    (file_ports : Int) (M0 : SPARAMS D) (hsc : scans S lines) :
    ((∃ l ∈ lines, ∃ txt, strip l = some txt ∧ txt.head? = some '[') →
      read_SNP_file S C (some lines) file_ports M0 = Except.ok (false, init C (clear C M0))) ∧
    (data_txts lines = [] →
      read_SNP_file S C (some lines) file_ports M0 = Except.ok (false, init C (clear C M0))) ∧
    (∀ pre l rest txt h, lines = pre ++ l :: rest → (∀ p ∈ pre, strip p = none) →
      strip l = some txt → txt.head? = some '#' →
      option_loop S (txt.length + 1) ((txt.map Char.toUpper).drop 1) (read_start C M0).hdr =
        some h →
      h.file_param ≠ 'S' →
      read_SNP_file S C (some lines) file_ports M0 = Except.ok (false, init C (clear C M0))) ∧
    (init C (clear C M0)).n_ports = 0 ∧ (init C (clear C M0)).n_points = 0 ∧
    read_SNP_file digitScanf ratConsts (some hangingFile) 1 (construct ratConsts) =
      Except.error Halt.fuel := by
  refine ⟨?_, ?_, ?_, rfl, rfl, rfl⟩
  · intro hbr
    obtain ⟨r, hr⟩ := read_lines_pass1_returns S C lines hsc (read_start C M0)
    obtain ⟨b, st1⟩ := r
    cases b with
    | false => exact read_SNP_file_fails S C lines file_ports M0 false st1 hr (Or.inl rfl)
    | true =>
      obtain ⟨-, -, -, a4⟩ := read_lines_pass1 S C lines _ st1 hr
      obtain ⟨l, hl, txt, hs, hh⟩ := hbr
      exact absurd hh (a4 l hl txt hs)
  · intro hd
    obtain ⟨r, hr⟩ := read_lines_pass1_returns S C lines hsc (read_start C M0)
    obtain ⟨b, st1⟩ := r
    exact read_SNP_file_fails S C lines file_ports M0 b st1 hr (Or.inr hd)
  · intro pre l rest txt h hl hpre hs hh ho hp
    have hne : txt.head? ≠ some '[' := by
      rw [hh]
      decide
    have h1 : read_lines S C 1 lines (read_start C M0) =
        Except.ok (false, { read_start C M0 with hdr := h }) := by
      rw [hl, read_lines_skip S C 1 pre (l :: rest) _ hpre, read_lines, hs]
      simp only
      rw [if_neg hne, if_pos hh, if_pos (show (read_start C M0).file_points = 0 from rfl), ho]
      simp only
      rw [if_pos hp]
    exact read_SNP_file_fails S C lines file_ports M0 false _ h1 (Or.inl rfl)

end reader

/-- Witness for C24: the file whose only line is `[V]`, and the file whose only
line is the option line `# H`. -/
theorem hard_parse_failures_witness :
    read_SNP_file digitScanf ratConsts (some [['[', 'V', ']']]) 1 (construct ratConsts) =
      Except.ok (false, init ratConsts (clear ratConsts (construct ratConsts))) ∧
    read_SNP_file digitScanf ratConsts (some [['#', ' ', 'H']]) 1 (construct ratConsts) =
      Except.ok (false, init ratConsts (clear ratConsts (construct ratConsts))) := by
  have s1 : scans digitScanf [['[', 'V', ']']] := by
    intro l hl txt hs h
    rw [List.mem_singleton.mp hl] at hs
    have e : txt = ['[', 'V', ']'] := (Option.some.inj hs).symm
    subst e
    exact (by simp [option_loop, strnicmp_eq] : option_loop digitScanf 4 ['V', ']'] h ≠ none)
  have s2 : scans digitScanf [['#', ' ', 'H']] := by
    intro l hl txt hs h
    rw [List.mem_singleton.mp hl] at hs
    have e : txt = ['#', ' ', 'H'] := (Option.some.inj hs).symm
    subst e
    exact (by simp [option_loop, strnicmp_eq] : option_loop digitScanf 4 [' ', 'H'] h ≠ none)
  refine ⟨?_, ?_⟩
  · exact (hard_parse_failures digitScanf ratConsts [['[', 'V', ']']] 1 (construct ratConsts)
      s1).1 ⟨_, List.mem_singleton.mpr rfl, _, rfl, rfl⟩
  · exact (hard_parse_failures digitScanf ratConsts [['#', ' ', 'H']] 1 (construct ratConsts)
      s2).2.2.1 [] ['#', ' ', 'H'] [] ['#', ' ', 'H'] _ rfl
      (fun p hp => absurd hp (List.not_mem_nil _)) rfl rfl rfl (by decide)

end SPARAMS
